import Mathlib

/-!
# SDL_image: BMP/ICO/CUR, ILBM/PBM and TGA decoders

A shallow embedding of `src/IMG_bmp.c`, `src/IMG_lbm.c` and `src/IMG_tga.c`
(little-endian build, `LOAD_BMP`, `LOAD_LBM` and `LOAD_TGA` defined), and
theorems about it.

Conventions of the embedding:

* a C byte (`Uint8`) is a `Nat` below 256; a store into a `Uint8` reduces
  modulo 256, a store into a `Uint32` modulo `2 ^ 32`;
* a pointer into a buffer is the byte offset from the start of the buffer;
* a function that takes an `SDL_IOStream *` returns the stream it leaves
  behind next to its C result; the `src == NULL` guards are not modelled
  (a stream is always there);
* a `goto done` / `goto error` is an `Except.error` carrying what the label
  needs, and the code after the label is the function that unwraps it.
-/

namespace SDLImage

/-! ## The byte stream (SDL_IOStream) -/

/-- Modelled from the spec: the byte stream is an external collaborator, a
seekable sequential reader. It is the sequence of its bytes and the current
position; the position may lie past the end (reads there return nothing). -/
structure SDL_IOStream where
  data : List (Fin 256)
  pos : Nat
  deriving DecidableEq, Repr

/-- The `whence` argument of `SDL_SeekIO` (only the two values the decoders
use). -/
inductive SDL_IOWhence where
  | SDL_IO_SEEK_SET
  | SDL_IO_SEEK_CUR
  deriving DecidableEq, Repr

open SDL_IOWhence

/-- Modelled from the spec: `SDL_TellIO`, the current position. -/
def SDL_TellIO (src : SDL_IOStream) : Int := (src.pos : Int)

/-- Modelled from the spec: `SDL_SeekIO`. Returns the new position, or `-1`
(position unchanged) when the target lies before the start. -/
def SDL_SeekIO (src : SDL_IOStream) (offset : Int) (whence : SDL_IOWhence) :
    Int × SDL_IOStream :=
  let target : Int :=
    match whence with
    | SDL_IO_SEEK_SET => offset
    | SDL_IO_SEEK_CUR => (src.pos : Int) + offset
  if target < 0 then (-1, src) else (target, { src with pos := target.toNat })

/-- Modelled from the spec: `SDL_ReadIO(src, ptr, size)`. Returns the bytes
read (at most `size`, fewer at the end of the stream: a short read) and the
stream advanced by that many bytes. The C return value is the length of the
list. -/
def SDL_ReadIO (src : SDL_IOStream) (size : Nat) : List Nat × SDL_IOStream :=
  let got := ((src.data.drop src.pos).take size).map Fin.val
  (got, { src with pos := src.pos + got.length })

/-- Modelled from the spec: `SDL_ReadU8`; `none` is the C `false`. -/
def SDL_ReadU8 (src : SDL_IOStream) : Option Nat × SDL_IOStream :=
  match SDL_ReadIO src 1 with
  | ([a], s) => (some a, s)
  | (_, s) => (none, s)

/-- Modelled from the spec: `SDL_ReadU16LE`; `none` is the C `false`. -/
def SDL_ReadU16LE (src : SDL_IOStream) : Option Nat × SDL_IOStream :=
  match SDL_ReadIO src 2 with
  | ([a, b], s) => (some (a + b * 256), s)
  | (_, s) => (none, s)

/-- Modelled from the spec: `SDL_ReadU32LE`; `none` is the C `false`. -/
def SDL_ReadU32LE (src : SDL_IOStream) : Option Nat × SDL_IOStream :=
  match SDL_ReadIO src 4 with
  | ([a, b, c, d], s) => (some (a + b * 256 + c * 65536 + d * 16777216), s)
  | (_, s) => (none, s)

/-- Modelled from the spec: `SDL_ReadS32LE`, the two's complement reading of
`SDL_ReadU32LE`. -/
def SDL_ReadS32LE (src : SDL_IOStream) : Option Int × SDL_IOStream :=
  match SDL_ReadU32LE src with
  | (some v, s) => (some (if v < 2147483648 then (v : Int) else (v : Int) - 4294967296), s)
  | (none, s) => (none, s)

/-- The bytes of a C string literal (without the terminating NUL). -/
def cstr (s : String) : List Nat := s.toList.map Char.toNat

/-- The test `SDL_memcmp(p, lit, n) == 0` (also `SDL_strncmp` for a literal of
`n` characters): the first `n` bytes at `p` are those of the literal. -/
def memeq (p : List Nat) (lit : String) (n : Nat) : Bool :=
  decide (p.take n = (cstr lit).take n)

/-! ## Detection -/

/-- `IMG_isBMP` of `IMG_bmp.c`. -/
def IMG_isBMP (src : SDL_IOStream) : Bool × SDL_IOStream :=
  let start := SDL_TellIO src
  let is_BMP := false
  let (magic, src) := SDL_ReadIO src 2
  let is_BMP := if magic.length = 2 then
      (if memeq magic "BM" 2 then true else is_BMP)
    else is_BMP
  let (_, src) := SDL_SeekIO src start SDL_IO_SEEK_SET
  (is_BMP, src)

def ICON_TYPE_ICO : Nat := 1
def ICON_TYPE_CUR : Nat := 2

/-- The condition of `IMG_isICOCUR` and, negated, of the directory header
check of `LoadICOCUR_IO`: three 16-bit reads, chained by `&&` (a failed read
stops the chain), then the three field tests. Returns the truth value, the
count field and the stream. -/
def readICOHeader (src : SDL_IOStream) (type : Nat) : Bool × Nat × SDL_IOStream :=
  match SDL_ReadU16LE src with
  | (none, s) => (false, 0, s)
  | (some bfReserved, s) =>
    match SDL_ReadU16LE s with
    | (none, s) => (false, 0, s)
    | (some bfType, s) =>
      match SDL_ReadU16LE s with
      | (none, s) => (false, 0, s)
      | (some bfCount, s) =>
        (bfReserved == 0 && bfType == type && bfCount != 0, bfCount, s)

/-- `IMG_isICOCUR` of `IMG_bmp.c`. -/
def IMG_isICOCUR (src : SDL_IOStream) (type : Nat) : Bool × SDL_IOStream :=
  let start := SDL_TellIO src
  let is_ICOCUR := false
  let (ok, _, src) := readICOHeader src type
  let is_ICOCUR := if ok then true else is_ICOCUR
  let (_, src) := SDL_SeekIO src start SDL_IO_SEEK_SET
  (is_ICOCUR, src)

/-- `IMG_isICO` of `IMG_bmp.c`. -/
def IMG_isICO (src : SDL_IOStream) : Bool × SDL_IOStream :=
  IMG_isICOCUR src ICON_TYPE_ICO

/-- `IMG_isCUR` of `IMG_bmp.c`. -/
def IMG_isCUR (src : SDL_IOStream) : Bool × SDL_IOStream :=
  IMG_isICOCUR src ICON_TYPE_CUR

/-- `IMG_isLBM` of `IMG_lbm.c`. -/
def IMG_isLBM (src : SDL_IOStream) : Bool × SDL_IOStream :=
  let start := SDL_TellIO src
  let is_LBM := false
  let (magic, src) := SDL_ReadIO src (4 + 4 + 4)
  let is_LBM := if magic.length = 4 + 4 + 4 then
      (if memeq magic "FORM" 4 &&
          (memeq (magic.drop 8) "PBM " 4 || memeq (magic.drop 8) "ILBM" 4)
        then true else is_LBM)
    else is_LBM
  let (_, src) := SDL_SeekIO src start SDL_IO_SEEK_SET
  (is_LBM, src)

/-! ## Surfaces, palettes and memory (SDL) -/

/-- The pixel formats the three decoders ask for. -/
inductive SDL_PixelFormat where
  | SDL_PIXELFORMAT_INDEX8
  | SDL_PIXELFORMAT_XRGB1555
  | SDL_PIXELFORMAT_BGR24
  | SDL_PIXELFORMAT_BGRA32
  | SDL_PIXELFORMAT_ARGB8888
  deriving DecidableEq, Repr

open SDL_PixelFormat

/-- `SDL_BYTESPERPIXEL`. -/
def SDL_BYTESPERPIXEL : SDL_PixelFormat → Nat
  | SDL_PIXELFORMAT_INDEX8 => 1
  | SDL_PIXELFORMAT_XRGB1555 => 2
  | SDL_PIXELFORMAT_BGR24 => 3
  | SDL_PIXELFORMAT_BGRA32 => 4
  | SDL_PIXELFORMAT_ARGB8888 => 4

/-- `SDL_ISPIXELFORMAT_INDEXED`. -/
def SDL_ISPIXELFORMAT_INDEXED : SDL_PixelFormat → Bool
  | SDL_PIXELFORMAT_INDEX8 => true
  | _ => false

/-- `SDL_Color`. -/
structure SDL_Color where
  r : Nat
  g : Nat
  b : Nat
  a : Nat
  deriving DecidableEq, Repr

/-- `SDL_Palette`: the recorded entry count and the colour array. -/
structure SDL_Palette where
  ncolors : Nat
  colors : List SDL_Color
  deriving DecidableEq, Repr

/-- Modelled from the spec: the pixel buffer (`SDL_Surface`). `pixels` is the
row-major byte buffer of `pitch * h` bytes; the hotspot stands for the two
surface properties `SDL_PROP_SURFACE_HOTSPOT_X/Y_NUMBER`. -/
structure SDL_Surface where
  w : Nat
  h : Nat
  format : SDL_PixelFormat
  pitch : Nat
  pixels : List Nat
  palette : Option SDL_Palette
  colorkey : Option Nat
  hotspot : Option (Nat × Nat)
  deriving DecidableEq, Repr

/-- What the decoders cannot control: whether the allocations succeed, and
the contents of memory that C leaves uninitialised (`uninit i` is byte `i`
of such an object). -/
structure Env where
  surfaceOk : Bool
  paletteOk : Bool
  mallocOk : Bool
  uninit : Nat → Nat

/-- Modelled from the spec: `SDL_CreateSurface`. The stride is the row size
rounded up to a multiple of 4, the pixels start out zero; `none` is `NULL`. -/
def SDL_CreateSurface (env : Env) (width height : Nat) (format : SDL_PixelFormat) :
    Option SDL_Surface :=
  if env.surfaceOk then
    let pitch := (width * SDL_BYTESPERPIXEL format + 3) / 4 * 4
    some { w := width, h := height, format := format, pitch := pitch,
           pixels := List.replicate (pitch * height) 0,
           palette := none, colorkey := none, hotspot := none }
  else none

/-- Modelled from the spec: `SDL_CreateSurfacePalette`. Only an indexed
surface gets a palette; it has 256 entries, all white. Returns the palette, or
`none` for `NULL`. -/
def SDL_CreateSurfacePalette (env : Env) (surface : SDL_Surface) : Option SDL_Palette :=
  if env.paletteOk && SDL_ISPIXELFORMAT_INDEXED surface.format then
    some { ncolors := 256, colors := List.replicate 256 ⟨255, 255, 255, 255⟩ }
  else none

/-- Modelled from the spec: `SDL_SetSurfaceColorKey(surface, true, key)`. -/
def SDL_SetSurfaceColorKey (surface : SDL_Surface) (key : Nat) : SDL_Surface :=
  { surface with colorkey := some key }

/-- Modelled from the spec: `SDL_CloseIO`. Nothing of a closed stream is
observed afterwards; the value is kept as it was. -/
def SDL_CloseIO (src : SDL_IOStream) : SDL_IOStream := src

/-- A store of `bytes` at byte offset `off` of a buffer (`SDL_memcpy`, the
destination of `SDL_ReadIO`). A store past the end of the buffer makes the
list longer, so that it shows. -/
def memWrite (buf : List Nat) (off : Nat) (bytes : List Nat) : List Nat :=
  buf.take off ++ bytes ++ buf.drop (off + bytes.length)

/-- A load of `n` bytes at byte offset `off` of a buffer. -/
def memRead (buf : List Nat) (off n : Nat) : List Nat :=
  (buf.drop off).take n

/-- The little-endian bytes of a `Uint32`. -/
def u32Bytes (v : Nat) : List Nat :=
  [v % 256, v / 256 % 256, v / 65536 % 256, v / 16777216 % 256]

/-- The `Uint32` stored at four little-endian bytes (absent bytes read 0). -/
def u32OfBytes (bs : List Nat) : Nat :=
  bs.getD 0 0 + bs.getD 1 0 * 256 + bs.getD 2 0 * 65536 + bs.getD 3 0 * 16777216

/-- The store `*((Uint32 *) (buf + off) + i) = v`. -/
def writeU32 (buf : List Nat) (off i v : Nat) : List Nat :=
  memWrite buf (off + 4 * i) (u32Bytes v)

/-- The load `*((Uint32 *) (buf + off) + i)`. -/
def readU32 (buf : List Nat) (off i : Nat) : Nat :=
  u32OfBytes (memRead buf (off + 4 * i) 4)

/-- Continue with the value of a stream read, or leave through `fail` (a
`goto` to the error label) with the stream as the failed read left it. -/
def orFail {α β ε : Type} (r : Option α × SDL_IOStream) (fail : SDL_IOStream → ε)
    (k : α → SDL_IOStream → Except ε β) : Except ε β :=
  match r with
  | (some a, s) => k a s
  | (none, s) => Except.error (fail s)

/-- `SDL_ReadIO(src, ptr, n) != n` as a fallible read: the bytes when all `n`
arrived, `none` on a short read. -/
def readExact (src : SDL_IOStream) (n : Nat) : Option (List Nat) × SDL_IOStream :=
  let (got, s) := SDL_ReadIO src n
  if got.length = n then (some got, s) else (none, s)

/-! ## ICO / CUR decoding (IMG_bmp.c) -/

def BI_RGB : Nat := 0

/-- The locals of `LoadICOCUR_IO` that the directory loop updates. `maxCol` is
a `Uint8`, `icoOfs` a `Uint32`. -/
structure ICODir where
  maxCol : Nat
  icoOfs : Nat
  nHotX : Nat
  nHotY : Nat
  deriving DecidableEq, Repr

/-- The directory loop of `LoadICOCUR_IO`, `for (i = 0; i < bfCount; i++)`,
with `n` iterations to go. -/
def icoDirLoop : Nat → Nat → ICODir → SDL_IOStream → Except SDL_IOStream (ICODir × SDL_IOStream)
  | 0, _, st, src => Except.ok (st, src)
  | n + 1, type, st, src =>
    orFail (SDL_ReadU8 src) id fun bWidth src =>
    orFail (SDL_ReadU8 src) id fun bHeight src =>
    orFail (SDL_ReadU8 src) id fun bColorCount src =>
    orFail (SDL_ReadU8 src) id fun _bReserved src =>
    orFail (SDL_ReadU16LE src) id fun wPlanes src =>
    orFail (SDL_ReadU16LE src) id fun wBitCount src =>
    orFail (SDL_ReadU32LE src) id fun _dwBytesInRes src =>
    orFail (SDL_ReadU32LE src) id fun dwImageOffset src =>
      let _nWidth := if bWidth ≠ 0 then bWidth else 256
      let _nHeight := if bHeight ≠ 0 then bHeight else 256
      let nColorCount := if bColorCount ≠ 0 then bColorCount else 256
      let st := if type = ICON_TYPE_CUR then
          { st with nHotX := wPlanes, nHotY := wBitCount } else st
      let st := if nColorCount > st.maxCol then
          { st with maxCol := nColorCount % 256, icoOfs := dwImageOffset } else st
      icoDirLoop n type st src

/-- The `switch (biCompression)` / `switch (biBitCount)` of `LoadICOCUR_IO`:
the value of `ExpandBMP`, or `none` for the two `goto done`. -/
def icoExpandBMP (biCompression biBitCount : Nat) : Option Nat :=
  if biCompression = BI_RGB then
    if biBitCount = 1 ∨ biBitCount = 4 then some biBitCount
    else if biBitCount = 8 then some 8
    else if biBitCount = 24 then some 24
    else if biBitCount = 32 then some 0
    else none
  else none

/-- The palette loop of `LoadICOCUR_IO`, `for (i = 0; i < (int) biClrUsed; ++i)`,
with `n` iterations to go. `palette` is the array of 256 `Uint32`. -/
def icoPaletteLoop : Nat → Nat → List Nat → SDL_IOStream →
    Except SDL_IOStream (List Nat × SDL_IOStream)
  | 0, _, palette, src => Except.ok (palette, src)
  | n + 1, i, palette, src =>
    orFail (readExact src 4) id fun bytes src =>
      let v := u32OfBytes bytes
      let v := if v &&& 0xFF000000 = 0 then v ||| 0xFF000000 else v
      icoPaletteLoop n (i + 1) (palette.set i v) src

/-- The padding loop, `for (i = 0; i < pad; ++i)` reading one byte each. -/
def icoSkipPad : Nat → SDL_IOStream → Except SDL_IOStream SDL_IOStream
  | 0, src => Except.ok src
  | n + 1, src => orFail (readExact src 1) id fun _ src => icoSkipPad n src

/-- The pixel loop of one 1-, 4- or 8-bit colour row, `for (i = 0; i < surface->w; ++i)`,
with `n` iterations to go; `bits` is the offset of the row in `pixels`. -/
def icoIndexedRow (ExpandBMP : Nat) (palette : List Nat) (bits : Nat) :
    Nat → Nat → Nat → List Nat → SDL_IOStream → Except SDL_IOStream (List Nat × SDL_IOStream)
  | 0, _, _, pixels, src => Except.ok (pixels, src)
  | n + 1, i, pixelvalue, pixels, src =>
    let shift := 8 - ExpandBMP
    let next := fun (pixelvalue : Nat) (src : SDL_IOStream) =>
      let pixels := writeU32 pixels bits i (palette.getD (pixelvalue >>> shift) 0)
      let pixelvalue := (pixelvalue <<< ExpandBMP) % 256
      icoIndexedRow ExpandBMP palette bits n (i + 1) pixelvalue pixels src
    if i % (8 / ExpandBMP) = 0 then
      orFail (readExact src 1) id fun b src => next (b.getD 0 0) src
    else next pixelvalue src

/-- The channel loop of one 24-bit pixel, `for (j = 0; j < 3; ++j)`, with `n`
iterations to go. -/
def icoChannels : Nat → Nat → Nat → SDL_IOStream → Except SDL_IOStream (Nat × SDL_IOStream)
  | 0, _, pixelvalue, src => Except.ok (pixelvalue, src)
  | n + 1, j, pixelvalue, src =>
    orFail (readExact src 1) id fun b src =>
      icoChannels n (j + 1) (pixelvalue ||| (b.getD 0 0 <<< (j * 8))) src

/-- The pixel loop of one 24-bit colour row, with `n` iterations to go. -/
def icoRGBRow (bits : Nat) :
    Nat → Nat → List Nat → SDL_IOStream → Except SDL_IOStream (List Nat × SDL_IOStream)
  | 0, _, pixels, src => Except.ok (pixels, src)
  | n + 1, i, pixels, src =>
    match icoChannels 3 0 0xFF000000 src with
    | Except.error s => Except.error s
    | Except.ok (pixelvalue, src) =>
      icoRGBRow bits n (i + 1) (writeU32 pixels bits i pixelvalue) src

/-- The colour rows of `LoadICOCUR_IO`: `while (bits > (Uint8 *) surface->pixels)`
with `bits` standing `k * pitch` bytes into the pixels. -/
def icoColorRows (ExpandBMP pad w pitch : Nat) (palette : List Nat) :
    Nat → List Nat → SDL_IOStream → Except SDL_IOStream (List Nat × SDL_IOStream)
  | 0, pixels, src => Except.ok (pixels, src)
  | k + 1, pixels, src =>
    if (k + 1) * pitch > 0 then
      let bits := (k + 1) * pitch - pitch
      let row : Except SDL_IOStream (List Nat × SDL_IOStream) :=
        if ExpandBMP = 1 ∨ ExpandBMP = 4 ∨ ExpandBMP = 8 then
          icoIndexedRow ExpandBMP palette bits w 0 0 pixels src
        else if ExpandBMP = 24 then
          icoRGBRow bits w 0 pixels src
        else
          orFail (readExact src pitch) id fun bytes src =>
            Except.ok (memWrite pixels bits bytes, src)
      match row with
      | Except.error s => Except.error s
      | Except.ok (pixels, src) =>
        match icoSkipPad pad src with
        | Except.error s => Except.error s
        | Except.ok src => icoColorRows ExpandBMP pad w pitch palette k pixels src
    else Except.ok (pixels, src)

/-- The pixel loop of one mask row, with `n` iterations to go (`ExpandBMP` is
1 here, `shift` is 7). -/
def icoMaskRow (bits : Nat) :
    Nat → Nat → Nat → List Nat → SDL_IOStream → Except SDL_IOStream (List Nat × SDL_IOStream)
  | 0, _, _, pixels, src => Except.ok (pixels, src)
  | n + 1, i, pixelvalue, pixels, src =>
    let ExpandBMP := 1
    let shift := 8 - ExpandBMP
    let next := fun (pixelvalue : Nat) (src : SDL_IOStream) =>
      let m := if pixelvalue >>> shift ≠ 0 then 0 else 0xFFFFFFFF
      let pixels := writeU32 pixels bits i (readU32 pixels bits i &&& m)
      let pixelvalue := (pixelvalue <<< ExpandBMP) % 256
      icoMaskRow bits n (i + 1) pixelvalue pixels src
    if i % (8 / ExpandBMP) = 0 then
      orFail (readExact src 1) id fun b src => next (b.getD 0 0) src
    else next pixelvalue src

/-- The mask rows of `LoadICOCUR_IO`: the second `while (bits > ...)` loop,
with `bits` standing `k * pitch` bytes into the pixels. -/
def icoMaskRows (pad w pitch : Nat) :
    Nat → List Nat → SDL_IOStream → Except SDL_IOStream (List Nat × SDL_IOStream)
  | 0, pixels, src => Except.ok (pixels, src)
  | k + 1, pixels, src =>
    if (k + 1) * pitch > 0 then
      let bits := (k + 1) * pitch - pitch
      match icoMaskRow bits w 0 0 pixels src with
      | Except.error s => Except.error s
      | Except.ok (pixels, src) =>
        match icoSkipPad pad src with
        | Except.error s => Except.error s
        | Except.ok src => icoMaskRows pad w pitch k pixels src
    else Except.ok (pixels, src)

/-- The `pad` of a row of `bmpPitch` bytes. -/
def icoPad (bmpPitch : Nat) : Nat :=
  if bmpPitch % 4 ≠ 0 then 4 - bmpPitch % 4 else 0

/-- `bmpPitch` of the colour rows (the `switch (ExpandBMP)` of lines 324-345). -/
def icoBmpPitch (ExpandBMP biWidth : Nat) : Nat :=
  if ExpandBMP = 1 then (biWidth + 7) >>> 3
  else if ExpandBMP = 4 then (biWidth + 1) >>> 1
  else if ExpandBMP = 8 then biWidth
  else if ExpandBMP = 24 then biWidth * 3
  else biWidth * 4

/-- `pad` of the colour rows (the `switch (ExpandBMP)` of lines 324-345). -/
def icoColorPad (ExpandBMP biWidth : Nat) : Nat :=
  if ExpandBMP = 1 ∨ ExpandBMP = 4 ∨ ExpandBMP = 8 ∨ ExpandBMP = 24 then
    icoPad (icoBmpPitch ExpandBMP biWidth)
  else 0

/-- What `LoadICOCUR_IO` holds when it starts to read the pixels: the locals
of the directory loop, `biBitCount`, `ExpandBMP`, `biWidth`, the surface and
the array `palette`. -/
structure ICOSetup where
  dir : ICODir
  biBitCount : Nat
  ExpandBMP : Nat
  biWidth : Nat
  surface : SDL_Surface
  palette : List Nat
  deriving DecidableEq, Repr

/-- The fields of the Win32 BITMAPINFOHEADER that `LoadICOCUR_IO` uses after
the header is read (`biWidth` and `biHeight` are `Sint32`), and `ExpandBMP`. -/
structure ICOInfo where
  biWidth : Int
  biHeight : Int
  biBitCount : Nat
  biClrUsed : Nat
  ExpandBMP : Nat
  deriving DecidableEq, Repr

/-- The start of the body of `LoadICOCUR_IO` (lines 159-230): the file header,
the directory loop and the seek to the image that the loop selected.
`Except.error s` is a `goto done` with the stream in state `s`. -/
def icoDirectory (src : SDL_IOStream) (type : Nat) : Except SDL_IOStream (ICODir × SDL_IOStream) :=
  /- Read in the ICO file header -/
  match readICOHeader src type with
  | (false, _, src) => Except.error src
  | (true, bfCount, src) =>
  /- Read the Win32 Icon Directory -/
  match icoDirLoop bfCount type ⟨0, 0, 0, 0⟩ src with
  | Except.error s => Except.error s
  | Except.ok (dir, src) =>
  /- Advance to the DIB Data -/
  let (r, src) := SDL_SeekIO src dir.icoOfs SDL_IO_SEEK_SET
  if r < 0 then Except.error src else Except.ok (dir, src)

/-- The bitmap header of `LoadICOCUR_IO` (lines 232-292): the eleven reads of
the Win32 BITMAPINFOHEADER and the checks of its size, compression, bit count
and dimensions. `Except.error s` is a `goto done` with the stream in state
`s`. -/
def icoInfoHeader (src : SDL_IOStream) : Except SDL_IOStream (ICOInfo × SDL_IOStream) :=
  /- Read the Win32 BITMAPINFOHEADER -/
  orFail (SDL_ReadU32LE src) id fun biSize src =>
  if biSize ≠ 40 then Except.error src else
  orFail (SDL_ReadS32LE src) id fun biWidth src =>
  orFail (SDL_ReadS32LE src) id fun biHeight src =>
  orFail (SDL_ReadU16LE src) id fun _biPlanes src =>
  orFail (SDL_ReadU16LE src) id fun biBitCount src =>
  orFail (SDL_ReadU32LE src) id fun biCompression src =>
  orFail (SDL_ReadU32LE src) id fun _biSizeImage src =>
  orFail (SDL_ReadU32LE src) id fun _biXPelsPerMeter src =>
  orFail (SDL_ReadU32LE src) id fun _biYPelsPerMeter src =>
  orFail (SDL_ReadU32LE src) id fun biClrUsed src =>
  orFail (SDL_ReadU32LE src) id fun _biClrImportant src =>
  /- We don't support any BMP compression right now -/
  match icoExpandBMP biCompression biBitCount with
  | none => Except.error src
  | some ExpandBMP =>
  /- sanity check image size -/
  if biWidth < 0 ∨ biWidth > 0xFFFFFF ∨ biHeight < 0 ∨ biHeight > 0xFFFFFF then
    Except.error src
  else Except.ok (⟨biWidth, biHeight, biBitCount, biClrUsed, ExpandBMP⟩, src)

/-- The array `Uint32 palette[256]` of `LoadICOCUR_IO` before anything is
stored in it: uninitialised memory. -/
def icoPalette0 (env : Env) : List Nat :=
  (List.range 256).map fun i => u32OfBytes ((List.range 4).map fun j => env.uninit (4 * i + j) % 256)

/-- "Load the palette, if any" of `LoadICOCUR_IO` (lines 302-322): the array
`palette` and the stream behind the palette. `Except.error s` is a `goto
done` with the stream in state `s`. -/
def icoLoadPalette (env : Env) (biBitCount biClrUsed : Nat) (src : SDL_IOStream) :
    Except SDL_IOStream (List Nat × SDL_IOStream) :=
  if biBitCount ≤ 8 then
    let biClrUsed := if biClrUsed = 0 then 1 <<< biBitCount else biClrUsed
    if biClrUsed > 256 then Except.error src
    else icoPaletteLoop biClrUsed 0 (icoPalette0 env) src
  else Except.ok (icoPalette0 env, src)

/-- The first part of the body of `LoadICOCUR_IO` (lines 159-322): the
directory, the bitmap header, the surface and the palette. The stream is left
behind the palette, where the colour rows begin. `Except.error s` is a `goto
done` with `was_error` still true and the stream in state `s`. -/
def icoSetup (env : Env) (src : SDL_IOStream) (type : Nat) :
    Except SDL_IOStream (ICOSetup × SDL_IOStream) :=
  match icoDirectory src type with
  | Except.error s => Except.error s
  | Except.ok (dir, src) =>
  match icoInfoHeader src with
  | Except.error s => Except.error s
  | Except.ok (info, src) =>
  /- Create a RGBA surface -/
  let biWidth := info.biWidth.toNat
  let biHeight := info.biHeight.toNat >>> 1
  match SDL_CreateSurface env biWidth biHeight SDL_PIXELFORMAT_ARGB8888 with
  | none => Except.error src
  | some surface =>
  /- Load the palette, if any -/
  match icoLoadPalette env info.biBitCount info.biClrUsed src with
  | Except.error s => Except.error s
  | Except.ok (palette, src) =>
    Except.ok (⟨dir, info.biBitCount, info.ExpandBMP, biWidth, surface, palette⟩, src)

/-- The colour pass of `LoadICOCUR_IO` (lines 321-401) on the state `st` that
`icoSetup` leaves: the pixels after the colour rows and the stream behind
them. -/
def icoColorPass (st : ICOSetup) (src : SDL_IOStream) :
    Except SDL_IOStream (List Nat × SDL_IOStream) :=
  /- Read the surface pixels.  Note that the bmp image is upside down -/
  icoColorRows st.ExpandBMP (icoColorPad st.ExpandBMP st.biWidth) st.surface.w st.surface.pitch
    st.palette st.surface.h st.surface.pixels src

/-- The mask pass of `LoadICOCUR_IO` (lines 402-430) on the pixels that the
colour pass leaves. -/
def icoMaskPass (st : ICOSetup) (pixels : List Nat) (src : SDL_IOStream) :
    Except SDL_IOStream (List Nat × SDL_IOStream) :=
  /- Read the mask pixels.  Note that the bmp image is upside down -/
  let bmpPitch := (st.biWidth + 7) >>> 3
  let pad := icoPad bmpPitch
  icoMaskRows pad st.surface.w st.surface.pitch st.surface.h pixels src

/-- The body of `LoadICOCUR_IO` from the directory header to `was_error =
false`: the setup, the colour pass, the mask pass and the hotspot.
`Except.error s` is a `goto done` with `was_error` still true and the stream
in state `s`; `Except.ok` is falling through to `done` after `was_error =
false`. -/
def LoadICOCUR_IO_body (env : Env) (src : SDL_IOStream) (type : Nat) :
    Except SDL_IOStream (SDL_Surface × SDL_IOStream) :=
  match icoSetup env src type with
  | Except.error s => Except.error s
  | Except.ok (st, src) =>
  match icoColorPass st src with
  | Except.error s => Except.error s
  | Except.ok (pixels, src) =>
  match icoMaskPass st pixels src with
  | Except.error s => Except.error s
  | Except.ok (pixels, src) =>
  let surface := { st.surface with pixels := pixels }
  let surface := if type = ICON_TYPE_CUR then
      { surface with hotspot := some (st.dir.nHotX, st.dir.nHotY) } else surface
  Except.ok (surface, src)

/-- `LoadICOCUR_IO` of `IMG_bmp.c`: the body, then the code at `done:`. -/
def LoadICOCUR_IO (env : Env) (src : SDL_IOStream) (type : Nat) (closeio : Bool) :
    Option SDL_Surface × SDL_IOStream :=
  let fp_offset := SDL_TellIO src
  match LoadICOCUR_IO_body env src type with
  | Except.ok (surface, src) =>
    let src := if closeio then SDL_CloseIO src else src
    (some surface, src)
  | Except.error src =>
    let src := if closeio then SDL_CloseIO src else src
    let src := if !closeio then ( SDL_SeekIO src fp_offset SDL_IO_SEEK_SET).2 else src
    (none, src)

/-- `IMG_LoadICO_IO` of `IMG_bmp.c`. -/
def IMG_LoadICO_IO (env : Env) (src : SDL_IOStream) : Option SDL_Surface × SDL_IOStream :=
  LoadICOCUR_IO env src ICON_TYPE_ICO false

/-- `IMG_LoadCUR_IO` of `IMG_bmp.c`. -/
def IMG_LoadCUR_IO (env : Env) (src : SDL_IOStream) : Option SDL_Surface × SDL_IOStream :=
  LoadICOCUR_IO env src ICON_TYPE_CUR false

/-! ## TGA decoding (IMG_tga.c) -/

/-- `struct TGAheader`, 18 bytes; the two-byte fields are kept as their two
bytes, as in C. -/
structure TGAheader where
  infolen : Nat
  has_cmap : Nat
  type : Nat
  cmap_start : Nat × Nat
  cmap_len : Nat × Nat
  cmap_bits : Nat
  yorigin : Nat × Nat
  xorigin : Nat × Nat
  width : Nat × Nat
  height : Nat × Nat
  pixel_bits : Nat
  flags : Nat
  deriving DecidableEq, Repr

def TGA_TYPE_INDEXED : Nat := 1
def TGA_TYPE_RGB : Nat := 2
def TGA_TYPE_BW : Nat := 3
def TGA_TYPE_RLE_INDEXED : Nat := 9
def TGA_TYPE_RLE_RGB : Nat := 10
def TGA_TYPE_RLE_BW : Nat := 11

def TGA_INTERLEAVE_MASK : Nat := 0xc0
def TGA_INTERLEAVE_NONE : Nat := 0x00
def TGA_ORIGIN_RIGHT : Nat := 0x10
def TGA_ORIGIN_UPPER : Nat := 0x20

/-- The macro `LE16(p)`. -/
def LE16 (p : Nat × Nat) : Nat := p.1 + (p.2 <<< 8)

/-- The 18 bytes read by `SDL_ReadIO(src, &hdr, sizeof(hdr))` laid over
`struct TGAheader`. -/
def tgaHeaderOfBytes (b : List Nat) : TGAheader :=
  { infolen := b.getD 0 0, has_cmap := b.getD 1 0, type := b.getD 2 0,
    cmap_start := (b.getD 3 0, b.getD 4 0), cmap_len := (b.getD 5 0, b.getD 6 0),
    cmap_bits := b.getD 7 0,
    yorigin := (b.getD 8 0, b.getD 9 0), xorigin := (b.getD 10 0, b.getD 11 0),
    width := (b.getD 12 0, b.getD 13 0), height := (b.getD 14 0, b.getD 15 0),
    pixel_bits := b.getD 16 0, flags := b.getD 17 0 }

/-- The flags `rle`, `indexed`, `grey` set by `switch(hdr.type)`; `none` is
`goto unsupported`. -/
def tgaClassify (hdr : TGAheader) (ncols : Nat) : Option (Bool × Bool × Bool) :=
  if hdr.type = TGA_TYPE_RLE_INDEXED ∨ hdr.type = TGA_TYPE_INDEXED then
    let rle := decide (hdr.type = TGA_TYPE_RLE_INDEXED)
    if hdr.has_cmap = 0 ∨ hdr.pixel_bits ≠ 8 ∨ ncols > 256 then none
    else some (rle, true, false)
  else if hdr.type = TGA_TYPE_RLE_RGB ∨ hdr.type = TGA_TYPE_RGB then
    let rle := decide (hdr.type = TGA_TYPE_RLE_RGB)
    some (rle, false, false)
  else if hdr.type = TGA_TYPE_RLE_BW ∨ hdr.type = TGA_TYPE_BW then
    let rle := decide (hdr.type = TGA_TYPE_RLE_BW)
    if hdr.pixel_bits ≠ 8 then none
    /- Treat greyscale as 8bpp indexed images -/
    else some (rle, true, true)
  else none

/-- The pixel format chosen by `switch(hdr.pixel_bits)`; `none` is
`goto unsupported`. -/
def tgaFormat (hdr : TGAheader) (indexed : Bool) : Option SDL_PixelFormat :=
  if hdr.pixel_bits = 8 then
    if !indexed then none else some SDL_PIXELFORMAT_INDEX8
  else if hdr.pixel_bits = 15 ∨ hdr.pixel_bits = 16 then some SDL_PIXELFORMAT_XRGB1555
  else if hdr.pixel_bits = 32 then some SDL_PIXELFORMAT_BGRA32
  else if hdr.pixel_bits = 24 then some SDL_PIXELFORMAT_BGR24
  else none

/-- The colour-map conversion loop of `IMG_LoadTGA_IO`, `for(i = 0; i < ncols; i++)`,
with `n` iterations to go; `p` is the offset of the read pointer in `pal`,
`ckey` the C `int` (`-1` when unset). -/
def tgaPaletteLoop (cmap_bits : Nat) (pal : List Nat) :
    Nat → Nat → Nat → List SDL_Color → Int → List SDL_Color × Int
  | 0, _, _, colors, ckey => (colors, ckey)
  | n + 1, i, p, colors, ckey =>
    let old := colors.getD i ⟨0, 0, 0, 0⟩
    if cmap_bits = 15 ∨ cmap_bits = 16 then
      let c := (pal.getD p 0 + (pal.getD (p + 1) 0 <<< 8)) % 65536
      let p := p + 2
      let colors := colors.set i
        { old with r := ((c >>> 7) &&& 0xf8) % 256, g := ((c >>> 2) &&& 0xf8) % 256,
                   b := (c <<< 3) % 256 }
      tgaPaletteLoop cmap_bits pal n (i + 1) p colors ckey
    else if cmap_bits = 24 ∨ cmap_bits = 32 then
      let colors := colors.set i
        { old with b := pal.getD p 0, g := pal.getD (p + 1) 0, r := pal.getD (p + 2) 0 }
      let p := p + 3
      if cmap_bits = 32 then
        let a := pal.getD p 0
        let p := p + 1
        let ckey := if a < 128 then (i : Int) else ckey
        tgaPaletteLoop cmap_bits pal n (i + 1) p colors ckey
      else tgaPaletteLoop cmap_bits pal n (i + 1) p colors ckey
    else tgaPaletteLoop cmap_bits pal n (i + 1) p colors ckey

/-- The locals of the row loop of `IMG_LoadTGA_IO` that outlive a row. -/
structure TGARle where
  count : Nat
  rep : Nat
  /-- the four bytes of the `Uint32 pixelvalue`, in memory order -/
  pixelvalue : List Nat
  deriving DecidableEq, Repr

/-- The loop `while (n--) { SDL_memcpy(dst + x * bpp, &pixelvalue, bpp); x++; }`;
returns the pixels and `x`. -/
def tgaRepFill (bpp : Nat) (dst : Int) (pixelvalue : List Nat) :
    Nat → Nat → List Nat → List Nat × Nat
  | 0, x, pixels => (pixels, x)
  | n + 1, x, pixels =>
    tgaRepFill bpp dst pixelvalue n (x + 1)
      (memWrite pixels (dst + (x * bpp : Nat)).toNat (pixelvalue.take bpp))

/-- The result of a pass of the run-length loop: the state the row ends in,
`Except.error` for `goto error`, `none` when the fuel ran out. -/
abbrev TGARowResult := Option (Except SDL_IOStream (TGARle × List Nat × SDL_IOStream))

/-- The end of a pass of the loop `for(;;)` of a run-length row, after the
`if (count) ... else if (rep) ...`: read the control byte of the next packet
(and the pixel of a run packet), then go round the loop again, which is
`next`. -/
def tgaRlePacket (bpp : Nat) (next : Nat → TGARle → List Nat → SDL_IOStream → TGARowResult)
    (x : Nat) (st : TGARle) (pixels : List Nat) (src : SDL_IOStream) : TGARowResult :=
  match readExact src 1 with
  | (none, s) => some (Except.error s)
  | (some cb, src) =>
    let c := cb.getD 0 0
    if c &&& 0x80 ≠ 0 then
      match readExact src bpp with
      | (none, s) => some (Except.error s)
      | (some pv, src) =>
        next x { st with pixelvalue := memWrite st.pixelvalue 0 pv, rep := (c &&& 0x7f) + 1 }
          pixels src
    else
      next x { st with count := c + 1 } pixels src

/-- The loop `for(;;)` that decodes one run-length row of `IMG_LoadTGA_IO`.
Every pass that does not leave the loop reads a control byte, so the passes
are bounded by the bytes left in the stream; `fuel` bounds them, and `none`
is returned when it runs out. `Except.error` is `goto error`. -/
def tgaRleRow (w bpp : Nat) (dst : Int) :
    Nat → Nat → TGARle → List Nat → SDL_IOStream → TGARowResult
  | 0, _, _, _, _ => none
  | fuel + 1, x, st, pixels, src =>
    if st.count ≠ 0 then
      let n := st.count
      let n := if n > w - x then w - x else n
      match readExact src (n * bpp) with
      | (none, s) => some (Except.error s)
      | (some bytes, src) =>
        let pixels := memWrite pixels (dst + (x * bpp : Nat)).toNat bytes
        let st := { st with count := st.count - n }
        let x := x + n
        if x = w then some (Except.ok (st, pixels, src))
        else tgaRlePacket bpp (tgaRleRow w bpp dst fuel) x st pixels src
    else if st.rep ≠ 0 then
      let n := st.rep
      let n := if n > w - x then w - x else n
      let st := { st with rep := st.rep - n }
      let (pixels, x) := tgaRepFill bpp dst st.pixelvalue n x pixels
      if x = w then some (Except.ok (st, pixels, src))
      else tgaRlePacket bpp (tgaRleRow w bpp dst fuel) x st pixels src
    else tgaRlePacket bpp (tgaRleRow w bpp dst fuel) x st pixels src

/-- The row loop of `IMG_LoadTGA_IO`, `for(i = 0; i < h; i++)`, with `n`
iterations to go; `dst` is the offset of the current row in the pixels. -/
def tgaRows (rle : Bool) (w bpp : Nat) (lstep : Int) :
    Nat → Int → TGARle → List Nat → SDL_IOStream →
      Except SDL_IOStream (List Nat × SDL_IOStream)
  | 0, _, _, pixels, src => Except.ok (pixels, src)
  | n + 1, dst, st, pixels, src =>
    if rle then
      match tgaRleRow w bpp dst (src.data.length - src.pos + 1) 0 st pixels src with
      | none => Except.error src
      | some (Except.error s) => Except.error s
      | some (Except.ok (st, pixels, src)) =>
        tgaRows rle w bpp lstep n (dst + lstep) st pixels src
    else
      orFail (readExact src (w * bpp)) id fun bytes src =>
        tgaRows rle w bpp lstep n (dst + lstep) st (memWrite pixels dst.toNat bytes) src

/-- The block `if (hdr.has_cmap) { ... }` of `IMG_LoadTGA_IO` (lines 187-237):
the colour map is read into the palette of an indexed image and skipped
otherwise. The `SDL_malloc` of the scratch copy `pal` is not checked by the
code and taken to succeed. -/
def tgaColorMap (env : Env) (hdr : TGAheader) (indexed grey : Bool) (ncols : Nat)
    (img : SDL_Surface) (src : SDL_IOStream) : Except SDL_IOStream (SDL_Surface × SDL_IOStream) :=
  if hdr.has_cmap ≠ 0 then
    let palsiz := ncols * ((hdr.cmap_bits + 7) >>> 3)
    if indexed && !grey then
      match SDL_CreateSurfacePalette env img with
      | none => Except.error src
      | some palette =>
      orFail (readExact src palsiz) id fun pal src =>
      let ncols := if ncols > palette.ncolors then palette.ncolors else ncols
      let (colors, ckey) := tgaPaletteLoop hdr.cmap_bits pal ncols 0 0 palette.colors (-1)
      let img := { img with palette := some { ncolors := ncols, colors := colors } }
      let img := if ckey ≥ 0 then SDL_SetSurfaceColorKey img ckey.toNat else img
      Except.ok (img, src)
    else
      /- skip unneeded colormap -/
      let (_, src) := SDL_SeekIO src palsiz SDL_IO_SEEK_CUR
      Except.ok (img, src)
  else Except.ok (img, src)

/-- The block `if (grey) { ... }` of `IMG_LoadTGA_IO` (lines 239-249): the
identity ramp palette of a greyscale image. -/
def tgaGreyPalette (env : Env) (grey : Bool) (img : SDL_Surface) (src : SDL_IOStream) :
    Except SDL_IOStream SDL_Surface :=
  if grey then
    match SDL_CreateSurfacePalette env img with
    | none => Except.error src
    | some palette =>
      let colors := (List.range 256).map fun i =>
        { palette.colors.getD i ⟨0, 0, 0, 0⟩ with r := i, g := i, b := i }
      Except.ok { img with palette := some { palette with colors := colors } }
  else Except.ok img

/-- The first part of the body of `IMG_LoadTGA_IO` once the header is read,
from `ncols = LE16(hdr.cmap_len)` to the greyscale palette (lines 113-249):
the flag `rle`, `bpp`, the surface with its palette and colour key, and the
stream standing at the pixel data. `Except.error s` is arriving at the label
`error:` (directly or through `unsupported:`) with the stream in state `s`. -/
def tgaSetupHdr (env : Env) (hdr : TGAheader) (src : SDL_IOStream) :
    Except SDL_IOStream (Bool × Nat × SDL_Surface × SDL_IOStream) :=
  let ncols := LE16 hdr.cmap_len
  match tgaClassify hdr ncols with
  | none => Except.error src
  | some (rle, indexed, grey) =>
  let bpp := (hdr.pixel_bits + 7) >>> 3
  match tgaFormat hdr indexed with
  | none => Except.error src
  | some format =>
  if hdr.flags &&& TGA_INTERLEAVE_MASK ≠ TGA_INTERLEAVE_NONE ∨ hdr.flags &&& TGA_ORIGIN_RIGHT ≠ 0 then
    Except.error src else
  /- skip info field -/
  let (_, src) := SDL_SeekIO src hdr.infolen SDL_IO_SEEK_CUR
  let w := LE16 hdr.width
  let h := LE16 hdr.height
  match SDL_CreateSurface env w h format with
  | none => Except.error src
  | some img =>
  match tgaColorMap env hdr indexed grey ncols img src with
  | Except.error s => Except.error s
  | Except.ok (img, src) =>
  match tgaGreyPalette env grey img src with
  | Except.error s => Except.error s
  | Except.ok img => Except.ok (rle, bpp, img, src)

/-- The first part of the body of `IMG_LoadTGA_IO` (lines 109-249): the read
of the 18-byte header, then `tgaSetupHdr`. -/
def tgaSetup (env : Env) (src : SDL_IOStream) :
    Except SDL_IOStream (TGAheader × Bool × Nat × SDL_Surface × SDL_IOStream) :=
  orFail (readExact src 18) id fun hdrBytes src =>
  let hdr := tgaHeaderOfBytes hdrBytes
  match tgaSetupHdr env hdr src with
  | Except.error s => Except.error s
  | Except.ok (rle, bpp, img, src) => Except.ok (hdr, rle, bpp, img, src)

/-- The body of `IMG_LoadTGA_IO` from the header read to `return img`: the
setup, then the choice of the row direction and the row loop (lines 251-324).
`Except.error s` is arriving at the label `error:` with the stream in state
`s`. -/
def IMG_LoadTGA_IO_body (env : Env) (src : SDL_IOStream) :
    Except SDL_IOStream (SDL_Surface × SDL_IOStream) :=
  match tgaSetup env src with
  | Except.error s => Except.error s
  | Except.ok (hdr, rle, bpp, img, src) =>
  let w := LE16 hdr.width
  let h := LE16 hdr.height
  let lstep : Int := if hdr.flags &&& TGA_ORIGIN_UPPER ≠ 0 then img.pitch else -(img.pitch : Int)
  let dst : Int := if hdr.flags &&& TGA_ORIGIN_UPPER ≠ 0 then 0
    else ((h : Int) - 1) * img.pitch
  /- The RLE decoding code is slightly convoluted since we can't rely on
     spans not to wrap across scan lines -/
  let pixelvalue := (List.range 4).map fun j => env.uninit j % 256
  match tgaRows rle w bpp lstep h dst ⟨0, 0, pixelvalue⟩ img.pixels src with
  | Except.error s => Except.error s
  | Except.ok (pixels, src) => Except.ok ({ img with pixels := pixels }, src)

/-- `IMG_LoadTGA_IO` of `IMG_tga.c`: the body, then the code at `error:`. -/
def IMG_LoadTGA_IO (env : Env) (src : SDL_IOStream) : Option SDL_Surface × SDL_IOStream :=
  let start := SDL_TellIO src
  match IMG_LoadTGA_IO_body env src with
  | Except.ok (img, src) => (some img, src)
  | Except.error src =>
    let (_, src) := SDL_SeekIO src start SDL_IO_SEEK_SET
    (none, src)

/-! ## ILBM / PBM decoding (IMG_lbm.c) -/

def MAXCOLORS : Nat := 256

/-- `BMHD`, the bitmap header of an IFF picture (20 bytes), after the byte
swaps: the 16-bit fields are the big-endian values of the file. (`x`, `y`,
`Lpage`, `Hpage` are `Sint16` in C; they are kept as the unsigned 16-bit
pattern, the decoder does not read them.) -/
structure BMHD where
  w : Nat
  h : Nat
  x : Nat
  y : Nat
  planes : Nat
  mask : Nat
  tcomp : Nat
  pad1 : Nat
  tcolor : Nat
  xAspect : Nat
  yAspect : Nat
  Lpage : Nat
  Hpage : Nat
  deriving DecidableEq, Repr

/-- A 16-bit big-endian value at offset `i` (what `SDL_Swap16BE` leaves in a
field that was read raw). -/
def BE16 (b : List Nat) (i : Nat) : Nat := b.getD i 0 * 256 + b.getD (i + 1) 0

/-- A 32-bit big-endian value (`SDL_Swap32BE` of four bytes read raw). -/
def BE32 (b : List Nat) : Nat :=
  b.getD 0 0 * 16777216 + b.getD 1 0 * 65536 + b.getD 2 0 * 256 + b.getD 3 0

/-- The 20 bytes read into `bmhd`, then the seven `SDL_Swap16BE`. -/
def bmhdOfBytes (b : List Nat) : BMHD :=
  { w := BE16 b 0, h := BE16 b 2, x := BE16 b 4, y := BE16 b 6,
    planes := b.getD 8 0, mask := b.getD 9 0, tcomp := b.getD 10 0, pad1 := b.getD 11 0,
    tcolor := BE16 b 12, xAspect := b.getD 14 0, yAspect := b.getD 15 0,
    Lpage := BE16 b 16, Hpage := BE16 b 18 }

/-- What `IMG_LoadLBM_IO` holds when it arrives at the label `done:` — the
`error` string (`none` is `NULL`), `Image` (`none` is `NULL`) and the stream. -/
structure LBMDone where
  error : Option String
  Image : Option SDL_Surface
  src : SDL_IOStream
  deriving DecidableEq, Repr

/-- The locals of `IMG_LoadLBM_IO` that the chunk walk sets. -/
structure LBMChunks where
  id : List Nat
  bmhd : BMHD
  colormap : List Nat
  nbcolors : Nat
  flagHAM : Nat
  flagEHB : Nat
  deriving DecidableEq, Repr

/-- `goto done` with an error string and no `Image` yet. -/
def lbmFail (msg : String) (src : SDL_IOStream) : LBMDone := ⟨some msg, none, src⟩

/-- The block `if ( !SDL_memcmp( id, "BMHD", 4 ) )` of the chunk walk (lines
167-184): the 20 bytes of the bitmap header are read whatever the declared
size. Gives the locals and the new `bytesloaded`. -/
def lbmChunkBMHD (id : List Nat) (st : LBMChunks) (bytesloaded : Nat) (src : SDL_IOStream) :
    Except LBMDone (LBMChunks × Nat × SDL_IOStream) :=
  if memeq id "BMHD" 4 then
    match readExact src 20 with
    | (none, s) => Except.error (lbmFail "error reading BMHD chunk" s)
    | (some b, src) => Except.ok ({ st with bmhd := bmhdOfBytes b }, 20, src)
  else Except.ok (st, bytesloaded, src)

/-- The block `if ( !SDL_memcmp( id, "CMAP", 4 ) )` of the chunk walk (lines
186-201). -/
def lbmChunkCMAP (id : List Nat) (size : Nat) (st : LBMChunks) (bytesloaded : Nat)
    (src : SDL_IOStream) : Except LBMDone (LBMChunks × Nat × SDL_IOStream) :=
  if memeq id "CMAP" 4 then
    if size > MAXCOLORS * 3 then Except.error (lbmFail "colormap size is too large" src)
    else
      match readExact src size with
      | (none, s) => Except.error (lbmFail "error reading CMAP chunk" s)
      | (some b, src) =>
        Except.ok ({ st with colormap := memWrite st.colormap 0 b, nbcolors := size / 3 },
          size, src)
  else Except.ok (st, bytesloaded, src)

/-- The block `if ( !SDL_memcmp( id, "CAMG", 4 ) )` of the chunk walk (lines
203-218): four bytes are read and `bytesloaded = size`. -/
def lbmChunkCAMG (id : List Nat) (size : Nat) (st : LBMChunks) (bytesloaded : Nat)
    (src : SDL_IOStream) : Except LBMDone (LBMChunks × Nat × SDL_IOStream) :=
  if memeq id "CAMG" 4 then
    match readExact src 4 with
    | (none, s) => Except.error (lbmFail "error reading CAMG chunk" s)
    | (some b, src) =>
      let viewmodes := BE32 b
      let st := if viewmodes &&& 0x0800 ≠ 0 then { st with flagHAM := 1 } else st
      let st := if viewmodes &&& 0x0080 ≠ 0 then { st with flagEHB := 1 } else st
      Except.ok (st, size, src)
  else Except.ok (st, bytesloaded, src)

/-- The block `if ( SDL_memcmp( id, "BODY", 4 ) )` of the chunk walk (lines
220-226): the rest of the chunk is skipped. `size` is a `Uint32`. -/
def lbmChunkSkip (id : List Nat) (size bytesloaded : Nat) (src : SDL_IOStream) :
    SDL_IOStream :=
  if !memeq id "BODY" 4 then
    /- padding ! -/
    let size := if size &&& 1 ≠ 0 then (size + 1) % 4294967296 else size
    let size := (size + 4294967296 - bytesloaded) % 4294967296
    /- skip the remaining bytes of this chunk -/
    if size ≠ 0 then ( SDL_SeekIO src size SDL_IO_SEEK_CUR).2 else src
  else src

/-- One pass of the body of the chunk walk of `IMG_LoadLBM_IO` (lines
151-226): the chunk header is read, then the four blocks in turn.
`Except.error d` is a `goto done` with the locals `d`. -/
def lbmChunkStep (st : LBMChunks) (src : SDL_IOStream) :
    Except LBMDone (LBMChunks × SDL_IOStream) :=
  match readExact src 4 with
  | (none, s) => Except.error (lbmFail "error reading IFF chunk" s)
  | (some id, src) =>
  match readExact src 4 with
  | (none, s) => Except.error (lbmFail "error reading IFF chunk size" s)
  | (some sizeBytes, src) =>
  let st := { st with id := id }
  let bytesloaded := 0
  let size := BE32 sizeBytes
  match lbmChunkBMHD id st bytesloaded src with
  | Except.error d => Except.error d
  | Except.ok (st, bytesloaded, src) =>
  match lbmChunkCMAP id size st bytesloaded src with
  | Except.error d => Except.error d
  | Except.ok (st, bytesloaded, src) =>
  match lbmChunkCAMG id size st bytesloaded src with
  | Except.error d => Except.error d
  | Except.ok (st, bytesloaded, src) =>
  Except.ok (st, lbmChunkSkip id size bytesloaded src)

/-- The chunk walk of `IMG_LoadLBM_IO`, `while ( SDL_memcmp( id, "BODY", 4 ) != 0 )`.
Every pass reads 8 bytes and only moves forward, so the passes are bounded by
the bytes left in the stream; `fuel` bounds them and `none` is returned when
it runs out. -/
def lbmChunkLoop : Nat → LBMChunks → SDL_IOStream →
    Option (Except LBMDone (LBMChunks × SDL_IOStream))
  | 0, _, _ => none
  | fuel + 1, st, src =>
    if memeq st.id "BODY" 4 then some (Except.ok (st, src)) else
    match lbmChunkStep st src with
    | Except.error d => some (Except.error d)
    | Except.ok (st, src) => lbmChunkLoop fuel st src

/-- The state of the byte-run loop of one plane row: the write pointer (an
offset into `MiniBuf`), the bytes still to fill, the scratch buffer and the
stream. -/
structure LBMRun where
  ptr : Nat
  remainingbytes : Nat
  MiniBuf : List Nat
  src : SDL_IOStream
  deriving DecidableEq, Repr

/-- One pass of the body of the byte-run loop `do { ... } while ( remainingbytes > 0 )`
of `IMG_LoadLBM_IO`. `Except.error` is `goto done` (with
`error="error reading BODY chunk"`) and carries the state at that moment. -/
def lbmRunStep (st : LBMRun) : Except LBMRun LBMRun :=
  match SDL_ReadIO st.src 1 with
  | ([count], src) =>
    if count &&& 0x80 ≠ 0 then
      let count := (count ^^^ 0xFF) % 256
      let count := (count + 2) % 256
      if count > st.remainingbytes then Except.error { st with src := src } else
      match SDL_ReadIO src 1 with
      | ([color], src) =>
        let MiniBuf := memWrite st.MiniBuf st.ptr (List.replicate count color)
        Except.ok { ptr := st.ptr + count, remainingbytes := st.remainingbytes - count,
                    MiniBuf := MiniBuf, src := src }
      | (_, src) => Except.error { st with src := src }
    else
      let count := (count + 1) % 256
      if count > st.remainingbytes then Except.error { st with src := src } else
      let (got, src) := SDL_ReadIO src count
      let MiniBuf := memWrite st.MiniBuf st.ptr got
      if got.length ≠ count then Except.error { st with MiniBuf := MiniBuf, src := src }
      else
        Except.ok { ptr := st.ptr + count, remainingbytes := st.remainingbytes - count,
                    MiniBuf := MiniBuf, src := src }
  | (_, src) => Except.error { st with src := src }

/-- The byte-run loop `do { ... } while ( remainingbytes > 0 )`. Every pass
fills at least one byte, so `remainingbytes + 1` passes are enough; `fuel`
bounds them and `none` is returned when it runs out. -/
def lbmRunLoop : Nat → LBMRun → Option (Except LBMRun LBMRun)
  | 0, _ => none
  | fuel + 1, st =>
    match lbmRunStep st with
    | Except.error e => some (Except.error e)
    | Except.ok st => if st.remainingbytes > 0 then lbmRunLoop fuel st else some (Except.ok st)

/-- The plane loop of one row, `for ( plane=0; plane < (nbplanes+stencil); plane++ )`,
with `n` iterations to go: fills the scratch row of each plane. -/
def lbmReadPlanes (tcomp bytesperline : Nat) :
    Nat → Nat → List Nat → SDL_IOStream → Except SDL_IOStream (List Nat × SDL_IOStream)
  | 0, _, MiniBuf, src => Except.ok (MiniBuf, src)
  | n + 1, plane, MiniBuf, src =>
    let ptr := plane * bytesperline
    let remainingbytes := bytesperline
    if tcomp = 1 then
      /- Datas are compressed -/
      match lbmRunLoop (remainingbytes + 1) ⟨ptr, remainingbytes, MiniBuf, src⟩ with
      | none => Except.error src
      | some (Except.error e) => Except.error e.src
      | some (Except.ok st) => lbmReadPlanes tcomp bytesperline n (plane + 1) st.MiniBuf st.src
    else
      orFail (readExact src bytesperline) id fun b src =>
        lbmReadPlanes tcomp bytesperline n (plane + 1) (memWrite MiniBuf ptr b) src

/-- The load `buf[i]` of a byte (a byte outside the buffer reads 0). -/
def getByte (buf : List Nat) (i : Nat) : Nat := buf.getD i 0

/-- The store `buf[i] = v` of a byte. -/
def setByte (buf : List Nat) (i v : Nat) : List Nat := memWrite buf i [v]

/-- The bit loop `for ( j=0; j<8; j++ )` of the planar-to-chunky conversion,
with `n` iterations to go; `ptr` is an offset into the pixels. -/
def lbmBitLoop (color plane ptr : Nat) : Nat → Nat → Nat → List Nat → List Nat
  | 0, _, _, pixels => pixels
  | n + 1, j, msk, pixels =>
    let v := if plane + j ≤ 7 then ((color &&& msk) % 256) >>> (7 - plane - j)
             else ((color &&& msk) % 256) <<< (plane + j - 7)
    let pixels := setByte pixels (ptr + j) ((getByte pixels (ptr + j) ||| v) % 256)
    lbmBitLoop color plane ptr n (j + 1) (msk >>> 1) pixels

/-- The plane loop `for ( plane=0; plane < (nbplanes + stencil); plane++ )`
of the planar-to-chunky conversion, with `n` iterations to go. -/
def lbmPlaneLoop (MiniBuf : List Nat) (bytesperline i ptr : Nat) :
    Nat → Nat → List Nat → List Nat
  | 0, _, pixels => pixels
  | n + 1, plane, pixels =>
    let color := getByte MiniBuf (i + plane * bytesperline)
    let msk := 0x80
    lbmPlaneLoop MiniBuf bytesperline i ptr n (plane + 1)
      (lbmBitLoop color plane ptr 8 0 msk pixels)

/-- The loop `for ( i=0; i < size; i++ )` of the planar-to-chunky conversion
of one row, with `n` iterations to go. -/
def lbmDeinterleave (MiniBuf : List Nat) (bytesperline nplanes : Nat) :
    Nat → Nat → Nat → List Nat → List Nat
  | 0, _, _, pixels => pixels
  | n + 1, i, ptr, pixels =>
    let pixels := memWrite pixels ptr (List.replicate 8 0)
    let pixels := lbmPlaneLoop MiniBuf bytesperline i ptr nplanes 0 pixels
    lbmDeinterleave MiniBuf bytesperline nplanes n (i + 1) (ptr + 8) pixels

/-- The plane loop `for ( plane=0; plane < nbplanes; plane++ )` that gathers
one pixel value of a HAM or 24-plane row, with `n` iterations to go;
`maskColor` is a `Uint32`. -/
def lbmGather (MiniBuf : List Nat) (size i maskBit : Nat) : Nat → Nat → Nat → Nat → Nat
  | 0, _, pixelcolor, _ => pixelcolor
  | n + 1, plane, pixelcolor, maskColor =>
    let dataBody := getByte MiniBuf (plane * size + i / 8)
    let pixelcolor := if dataBody &&& maskBit ≠ 0 then pixelcolor ||| maskColor else pixelcolor
    lbmGather MiniBuf size i maskBit n (plane + 1) pixelcolor ((maskColor <<< 1) % 4294967296)

/-- The `switch( pixelcolor>>(nbplanes-2) )` of the HAM modes: the new value
of the `Uint32 finalcolor` (red in bits 0-7, green in 8-15, blue in 16-23).
The shift counts are those of C for `2 ≤ nbplanes ≤ 10`. -/
def lbmHAM (colormap : List Nat) (nbplanes finalcolor pixelcolor : Nat) : Nat :=
  let sel := pixelcolor >>> (nbplanes - 2)
  if sel = 0 then
    /- take direct color from palette -/
    (getByte colormap (pixelcolor * 3) + (getByte colormap (pixelcolor * 3 + 1) <<< 8)
      + (getByte colormap (pixelcolor * 3 + 2) <<< 16)) % 4294967296
  else if sel = 1 then
    /- modify only blue component -/
    let finalcolor := finalcolor &&& 0x00FFFF
    (finalcolor ||| (pixelcolor <<< (16 + (10 - nbplanes)))) % 4294967296
  else if sel = 2 then
    /- modify only red component -/
    let finalcolor := finalcolor &&& 0xFFFF00
    (finalcolor ||| (pixelcolor <<< (10 - nbplanes))) % 4294967296
  else if sel = 3 then
    /- modify only green component -/
    let finalcolor := finalcolor &&& 0xFF00FF
    (finalcolor ||| (pixelcolor <<< (8 + (10 - nbplanes)))) % 4294967296
  else finalcolor

/-- The pixel loop `for ( j=0; j<8; j++ )` of a HAM or 24-plane row, with `n`
iterations to go; returns the pixels, `ptr` and `finalcolor`. -/
def lbmTrueColorGroup (MiniBuf colormap : List Nat) (size nbplanes flagHAM i : Nat) :
    Nat → Nat → Nat → Nat → List Nat → List Nat × Nat × Nat
  | 0, _, ptr, finalcolor, pixels => (pixels, ptr, finalcolor)
  | n + 1, maskBit, ptr, finalcolor, pixels =>
    let pixelcolor := lbmGather MiniBuf size i maskBit nbplanes 0 0 1
    let finalcolor := if flagHAM ≠ 0 then lbmHAM colormap nbplanes finalcolor pixelcolor
      else pixelcolor
    let pixels := setByte pixels ptr ((finalcolor >>> 16) % 256)
    let pixels := setByte pixels (ptr + 1) ((finalcolor >>> 8) % 256)
    let pixels := setByte pixels (ptr + 2) (finalcolor % 256)
    lbmTrueColorGroup MiniBuf colormap size nbplanes flagHAM i n (maskBit >>> 1) (ptr + 3)
      finalcolor pixels

/-- The loop `for ( i=0; i<width; i=i+8 )` of a HAM or 24-plane row, with `n`
iterations to go. -/
def lbmTrueColorRow (MiniBuf colormap : List Nat) (size nbplanes flagHAM : Nat) :
    Nat → Nat → Nat → Nat → List Nat → List Nat
  | 0, _, _, _, pixels => pixels
  | n + 1, i, ptr, finalcolor, pixels =>
    let (pixels, ptr, finalcolor) :=
      lbmTrueColorGroup MiniBuf colormap size nbplanes flagHAM i 8 0x80 ptr finalcolor pixels
    lbmTrueColorRow MiniBuf colormap size nbplanes flagHAM n (i + 8) ptr finalcolor pixels

/-- "One line has been read, store it !": the part of the row loop of
`IMG_LoadLBM_IO` after the planes are read, for row `h`. -/
def lbmStoreRow (MiniBuf colormap : List Nat) (pbm : Bool)
    (width bytesperline nbplanes stencil flagHAM h : Nat) (pixels : List Nat) : List Nat :=
  let ptr := if nbplanes = 24 ∨ flagHAM = 1 then h * width * 3 else h * width
  if pbm then
    /- File format : 'Packed Bitmap' -/
    memWrite pixels ptr (memRead MiniBuf 0 width)
  else
    /- We have to un-interlace the bits ! -/
    if nbplanes ≠ 24 ∧ flagHAM = 0 then
      let size := (width + 7) / 8
      lbmDeinterleave MiniBuf bytesperline (nbplanes + stencil) size 0 ptr pixels
    else
      let finalcolor := 0
      let size := (width + 7) / 8
      lbmTrueColorRow MiniBuf colormap size nbplanes flagHAM ((width + 7) / 8) 0 ptr
        finalcolor pixels

/-- The row loop of `IMG_LoadLBM_IO`, `for ( h=0; h < bmhd.h; h++ )`, with `n`
iterations to go. `Except.error` is `goto done` with
`error="error reading BODY chunk"`. -/
def lbmRows (colormap : List Nat) (pbm : Bool)
    (tcomp width bytesperline nbplanes stencil flagHAM : Nat) :
    Nat → Nat → List Nat → List Nat → SDL_IOStream →
      Except SDL_IOStream (List Nat × List Nat × SDL_IOStream)
  | 0, _, MiniBuf, pixels, src => Except.ok (MiniBuf, pixels, src)
  | n + 1, h, MiniBuf, pixels, src =>
    /- uncompress the datas of each planes -/
    match lbmReadPlanes tcomp bytesperline (nbplanes + stencil) 0 MiniBuf src with
    | Except.error s => Except.error s
    | Except.ok (MiniBuf, src) =>
      let pixels := lbmStoreRow MiniBuf colormap pbm width bytesperline nbplanes stencil
        flagHAM h pixels
      lbmRows colormap pbm tcomp width bytesperline nbplanes stencil flagHAM n (h + 1)
        MiniBuf pixels src

/-- The store `palette->colors[i] = c` (the three channels). A store past the
end of the colour array makes the list longer, so that it shows. -/
def colorsSet (colors : List SDL_Color) (i : Nat) (r g b : Nat) : List SDL_Color :=
  if i < colors.length then colors.set i { colors.getD i ⟨0, 0, 0, 0⟩ with r := r, g := g, b := b }
  else colors ++ List.replicate (i - colors.length) ⟨0, 0, 0, 0⟩ ++ [⟨r, g, b, 0⟩]

/-- A loop that copies colour-map triplets into the palette: entries
`i, i+1, ...` take the bytes at `ptr, ptr+1, ...`, each divided by `d`
(`d = 1` for the CMAP copy, `d = 2` for the Extra-Half-Bright half), with `n`
iterations to go. -/
def lbmCopyColors (colormap : List Nat) (d : Nat) :
    Nat → Nat → Nat → List SDL_Color → List SDL_Color
  | 0, _, _, colors => colors
  | n + 1, i, ptr, colors =>
    lbmCopyColors colormap d n (i + 1) (ptr + 3)
      (colorsSet colors i (getByte colormap ptr / d) (getByte colormap (ptr + 1) / d)
        (getByte colormap (ptr + 2) / d))

/-- The loop `for ( i=nbcolors; i < (Uint32)nbrcolorsfinal; i++ )` that
repeats the colormap, with `n` iterations to go. -/
def lbmRepeatColors (nbcolors : Nat) : Nat → Nat → List SDL_Color → List SDL_Color
  | 0, _, colors => colors
  | n + 1, i, colors =>
    let c := colors.getD (i % nbcolors) ⟨0, 0, 0, 0⟩
    lbmRepeatColors nbcolors n (i + 1) (colorsSet colors i c.r c.g c.b)

/-- "Update palette information": the palette block of `IMG_LoadLBM_IO`, given
the palette `SDL_CreateSurfacePalette` returned. `1 << n` is `2 ^ n` (the C
value for `n < 31`). -/
def lbmPalette (palette : SDL_Palette) (colormap : List Nat) (pbm : Bool)
    (nbcolors nbplanes stencil flagEHB : Nat) : SDL_Palette :=
  let nbrcolorsfinal := 1 <<< (nbplanes + stencil)
  let colors := lbmCopyColors colormap 1 nbcolors 0 0 palette.colors
  /- Amiga EHB mode (Extra-Half-Bright) -/
  let ehb := (nbcolors = 32 ∨ flagEHB ≠ 0) ∧ 1 <<< nbplanes = 64
  let colors := if ehb then lbmCopyColors colormap 2 32 32 0 colors else colors
  let nbcolors := if ehb then 64 else nbcolors
  /- If nbcolors < 2^nbplanes, repeat the colormap -/
  let nbrcolorsfinal := if nbrcolorsfinal > 1 <<< nbplanes then 1 <<< nbplanes
    else nbrcolorsfinal
  let colors := lbmRepeatColors nbcolors (nbrcolorsfinal - nbcolors) nbcolors colors
  { ncolors := if !pbm then nbrcolorsfinal else palette.ncolors, colors := colors }

/-- The first part of the body of `IMG_LoadLBM_IO` (lines 105-227): the
prologue `FORM`, size, `ILBM` or `PBM `, then the chunk walk up to the `BODY`
chunk header. Gives `pbm`, the locals the walk has set and the stream at the
body data. `Except.error d` is a `goto done` with the locals `d`. -/
def lbmWalk (env : Env) (src : SDL_IOStream) :
    Except LBMDone (Bool × LBMChunks × SDL_IOStream) :=
  match readExact src 4 with
  | (none, s) => Except.error (lbmFail "error reading IFF chunk" s)
  | (some id, src) =>
  /- Should be the size of the file minus 4+4 ( 'FORM'+size ) -/
  match readExact src 4 with
  | (none, s) => Except.error (lbmFail "error reading IFF chunk size" s)
  | (some _size, src) =>
  if !memeq id "FORM" 4 then Except.error (lbmFail "not a IFF file" src) else
  match readExact src 4 with
  | (none, s) => Except.error (lbmFail "error reading IFF chunk" s)
  | (some id, src) =>
  /- File format : PBM=Packed Bitmap, ILBM=Interleaved Bitmap -/
  let pbm := memeq id "PBM " 4
  if !pbm && !memeq id "ILBM" 4 then Except.error (lbmFail "not a IFF picture" src) else
  let colormap0 := (List.range (MAXCOLORS * 3)).map fun i => env.uninit i % 256
  let bmhd0 : BMHD := ⟨0, 0, 0, 0, 0, 0, 0, 0, 0, 0, 0, 0, 0⟩
  match lbmChunkLoop (src.data.length - src.pos + 1) ⟨id, bmhd0, colormap0, 0, 0, 0⟩ src with
  | none => Except.error (lbmFail "error reading IFF chunk" src)
  | some (Except.error d) => Except.error d
  | some (Except.ok (st, src)) => Except.ok (pbm, st, src)

/-- `width` of `IMG_LoadLBM_IO` (line 231): the header width rounded up to a
multiple of 16. -/
def lbmWidth (st : LBMChunks) : Nat := (st.bmhd.w + 15) &&& 0xFFFFFFF0

/-- `bytesperline` of `IMG_LoadLBM_IO` (lines 233 and 239). -/
def lbmBytesPerLine (pbm : Bool) (st : LBMChunks) : Nat :=
  let bytesperline := ((st.bmhd.w + 15) / 16) * 2
  if pbm then bytesperline * 8 else bytesperline

/-- `nbplanes` of `IMG_LoadLBM_IO` (lines 235 and 240). -/
def lbmPlanes (pbm : Bool) (st : LBMChunks) : Nat := if pbm then 1 else st.bmhd.planes

/-- `stencil` of `IMG_LoadLBM_IO` (line 243). -/
def lbmStencil (st : LBMChunks) : Nat := st.bmhd.mask &&& 1

/-- `format` of `IMG_LoadLBM_IO` (lines 256-263, little-endian host). -/
def lbmFormat (pbm : Bool) (st : LBMChunks) : SDL_PixelFormat :=
  if lbmPlanes pbm st = 24 ∨ st.flagHAM = 1 then SDL_PIXELFORMAT_BGR24
  else SDL_PIXELFORMAT_INDEX8

/-- The surface of `IMG_LoadLBM_IO` (lines 264-270): `SDL_CreateSurface`, then
the colour key when the mask type has bit 1. `none` is the `goto done` of a
failed `SDL_CreateSurface`. -/
def lbmCreateImage (env : Env) (pbm : Bool) (st : LBMChunks) : Option SDL_Surface :=
  match SDL_CreateSurface env (lbmWidth st) st.bmhd.h (lbmFormat pbm st) with
  | none => none
  | some Image =>
    /- There is a transparent color -/
    some (if st.bmhd.mask &&& 2 ≠ 0 then SDL_SetSurfaceColorKey Image st.bmhd.tcolor
      else Image)

/-- "Update palette information" (lines 272-324): the palette block of
`IMG_LoadLBM_IO`. `none` is the `goto done` of a failed
`SDL_CreateSurfacePalette`. -/
def lbmUpdatePalette (env : Env) (pbm : Bool) (st : LBMChunks) (Image : SDL_Surface) :
    Option SDL_Surface :=
  /- There is no palette in 24 bits ILBM file -/
  if st.nbcolors > 0 ∧ st.flagHAM = 0 then
    match SDL_CreateSurfacePalette env Image with
    | none => none
    | some palette =>
      let palette := lbmPalette palette st.colormap pbm st.nbcolors (lbmPlanes pbm st)
        (lbmStencil st) st.flagEHB
      some { Image with palette := some palette }
  else some Image

/-- The second part of the body of `IMG_LoadLBM_IO` (line 229 to the end of the
row loop), with the locals `pbm` and `st` of the chunk walk: the layout, the
scratch buffer, the surface, the colour key, the palette and the rows. -/
def lbmDecode (env : Env) (pbm : Bool) (st : LBMChunks) (src : SDL_IOStream) :
    Except LBMDone (SDL_Surface × SDL_IOStream) :=
  /- Allocate memory for a temporary buffer -/
  if !env.mallocOk then
    Except.error (lbmFail "not enough memory for temporary buffer" src) else
  let MiniBuf := (List.range (lbmBytesPerLine pbm st * (lbmPlanes pbm st + lbmStencil st))).map
    fun i => env.uninit i % 256
  match lbmCreateImage env pbm st with
  | none => Except.error ⟨none, none, src⟩
  | some Image =>
  match lbmUpdatePalette env pbm st Image with
  | none => Except.error ⟨none, some Image, src⟩
  | some Image =>
  /- Get the bitmap -/
  match lbmRows st.colormap pbm st.bmhd.tcomp (lbmWidth st) (lbmBytesPerLine pbm st)
      (lbmPlanes pbm st) (lbmStencil st) st.flagHAM st.bmhd.h 0 MiniBuf Image.pixels src with
  | Except.error s => Except.error ⟨some "error reading BODY chunk", some Image, s⟩
  | Except.ok (_, pixels, src) => Except.ok ({ Image with pixels := pixels }, src)

/-- The body of `IMG_LoadLBM_IO` from the first read to the end of the row
loop: `lbmWalk`, then `lbmDecode`. `Except.error d` is a `goto done` with the
locals `d`; `Except.ok` is falling through to `done` after the last row. -/
def IMG_LoadLBM_IO_body (env : Env) (src : SDL_IOStream) :
    Except LBMDone (SDL_Surface × SDL_IOStream) :=
  match lbmWalk env src with
  | Except.error d => Except.error d
  | Except.ok (pbm, st, src) => lbmDecode env pbm st src

/-- `IMG_LoadLBM_IO` of `IMG_lbm.c`: the body, then the code at `done:`. -/
def IMG_LoadLBM_IO (env : Env) (src : SDL_IOStream) : Option SDL_Surface × SDL_IOStream :=
  let start := SDL_TellIO src
  let d : LBMDone :=
    match IMG_LoadLBM_IO_body env src with
    | Except.ok (Image, src) => ⟨none, some Image, src⟩
    | Except.error d => d
  if d.error.isSome then
    let (_, src) := SDL_SeekIO d.src start SDL_IO_SEEK_SET
    (none, src)
  else (d.Image, d.src)

/-! ## Sample inputs -/

/-- The bytes of an ASCII tag as stream bytes. -/
def tag (s : String) : List (Fin 256) := s.toList.map fun c => Fin.ofNat c.toNat

/-- An environment in which every allocation succeeds and uninitialised
memory reads zero. -/
def envOk : Env := ⟨true, true, true, fun _ => 0⟩

/-- As `envOk`, but `SDL_CreateSurface` fails. -/
def envNoSurface : Env := ⟨false, true, true, fun _ => 0⟩

/-- As `envOk`, but `SDL_CreateSurfacePalette` fails. -/
def envNoPalette : Env := ⟨true, false, true, fun _ => 0⟩

/-- A well-formed ILBM file: 8x1 pixels, one plane, a two-colour CMAP,
uncompressed BODY. -/
def lbmSample : List (Fin 256) :=
  tag "FORM" ++ [0, 0, 0, 56] ++ tag "ILBM" ++
  tag "BMHD" ++ [0, 0, 0, 20] ++
    [0, 8, 0, 1, 0, 0, 0, 0, 1, 0, 0, 0, 0, 0, 1, 1, 0, 8, 0, 1] ++
  tag "CMAP" ++ [0, 0, 0, 6] ++ [0, 0, 0, 255, 255, 255] ++
  tag "BODY" ++ [0, 0, 0, 2] ++ [0xA5, 0]

/-- An icon file of two images. Directory entry 0 has colour-count byte 0
(256 colours) and points at offset 38, a 1x1 32-bit image of colour 0x111111;
entry 1 has colour count 16 and points at offset 86, a 1x1 4-bit image whose
pixel is palette entry 1, colour 0x222222. -/
def icoTwo : List (Fin 256) :=
  [0, 0, 1, 0, 2, 0,
   1, 1, 0, 0, 1, 0, 32, 0, 48, 0, 0, 0, 38, 0, 0, 0,
   1, 1, 16, 0, 1, 0, 4, 0, 112, 0, 0, 0, 86, 0, 0, 0,
   40, 0, 0, 0, 1, 0, 0, 0, 2, 0, 0, 0, 1, 0, 32, 0, 0, 0, 0, 0, 0, 0, 0, 0,
   0, 0, 0, 0, 0, 0, 0, 0, 0, 0, 0, 0, 0, 0, 0, 0,
   0x11, 0x11, 0x11, 0xFF, 0, 0, 0, 0,
   40, 0, 0, 0, 1, 0, 0, 0, 2, 0, 0, 0, 1, 0, 4, 0, 0, 0, 0, 0, 0, 0, 0, 0,
   0, 0, 0, 0, 0, 0, 0, 0, 0, 0, 0, 0, 0, 0, 0, 0] ++
  List.replicate 4 0 ++ [0x22, 0x22, 0x22, 0] ++ List.replicate 56 0 ++
  [0x10, 0, 0, 0, 0, 0, 0, 0]

/-- A HAM6 ILBM file, 8x1 pixels, six planes, CMAP entry 0 = (10, 20, 30).
Pixel 0 has the value 0 (load CMAP entry 0); pixel 1 has plane 5 set and
nothing else, the value 0x20 ("modify red" with data 0). -/
def lbmHamSample : List (Fin 256) :=
  tag "FORM" ++ [0, 0, 0, 74] ++ tag "ILBM" ++
  tag "BMHD" ++ [0, 0, 0, 20] ++
    [0, 8, 0, 1, 0, 0, 0, 0, 6, 0, 0, 0, 0, 0, 1, 1, 0, 8, 0, 1] ++
  tag "CAMG" ++ [0, 0, 0, 4] ++ [0, 0, 8, 0] ++
  tag "CMAP" ++ [0, 0, 0, 6] ++ [10, 20, 30, 0, 0, 0] ++
  tag "BODY" ++ [0, 0, 0, 12] ++ [0, 0, 0, 0, 0, 0, 0, 0, 0, 0, 0x40, 0]

/-- The scratch rows of nine planes of two bytes (eight colour planes and the
stencil plane): only bit 7 of byte 0 of plane 8 is set. -/
def planesStencilOnly : List Nat := List.replicate 16 0 ++ [0x80, 0]

/-! ## Definitions used to state the properties -/

/-- The number of bytes a byte-run control byte `c` asks for: `c + 1`
literal bytes for `c < 128`, else `257 - c` copies of the next byte. -/
def lbmRequested (c : Nat) : Nat := if 128 ≤ c then 257 - c else c + 1

/-- The value that the planar-to-chunky loop ors into `ptr[j]` for one plane
(the two branches of its `if`, with `msk = 0x80 >> j`). -/
def planeVal (color plane j : Nat) : Nat :=
  if plane + j ≤ 7 then ((color &&& (0x80 >>> j)) % 256) >>> (7 - plane - j)
  else ((color &&& (0x80 >>> j)) % 256) <<< (plane + j - 7)

/-- Bit `7 - x mod 8` of byte `x / 8` of the scratch row of plane `p`. -/
def planeBit (MiniBuf : List Nat) (bytesperline p x : Nat) : Nat :=
  (getByte MiniBuf (x / 8 + p * bytesperline) >>> (7 - x % 8)) % 2

/-- The sum of the plane bits of pixel `x` over the first `n` planes, plane
`p` weighing `2 ^ p`. -/
def planeSum (MiniBuf : List Nat) (bytesperline n x : Nat) : Nat :=
  ∑ p ∈ Finset.range n, planeBit MiniBuf bytesperline p x * 2 ^ p

/-- The bytes of a stream from its position on. -/
def streamRest (src : SDL_IOStream) : List Nat := (src.data.drop src.pos).map Fin.val

/-- A stream seen from a starting point: the bytes not yet read and the
number of bytes by which the position has advanced. -/
structure ByteSrc where
  rest : List Nat
  used : Nat
  deriving DecidableEq, Repr

/-- `readExact` on a `ByteSrc`. -/
def ByteSrc.readExact (s : ByteSrc) (n : Nat) : Option (List Nat) × ByteSrc :=
  if n ≤ s.rest.length then (some (s.rest.take n), ⟨s.rest.drop n, s.used + n⟩)
  else (none, ⟨[], s.used + s.rest.length⟩)

/-- The stream `src` advanced as `s` records. -/
def ByteSrc.toStream (s : ByteSrc) (src : SDL_IOStream) : SDL_IOStream :=
  { src with pos := src.pos + s.used }

/-- The result of a pass of the run-length loop on a `ByteSrc`. -/
abbrev TGARowResultL := Option (Except ByteSrc (TGARle × List Nat × ByteSrc))

/-- `tgaRlePacket` without the pixel buffer. -/
def tgaRlePacketL (bpp : Nat) (next : Nat → TGARle → List Nat → ByteSrc → TGARowResultL)
    (x : Nat) (st : TGARle) (acc : List Nat) (src : ByteSrc) : TGARowResultL :=
  match src.readExact 1 with
  | (none, s) => some (Except.error s)
  | (some cb, src) =>
    let c := cb.getD 0 0
    if c &&& 0x80 ≠ 0 then
      match src.readExact bpp with
      | (none, s) => some (Except.error s)
      | (some pv, src) =>
        next x { st with pixelvalue := memWrite st.pixelvalue 0 pv, rep := (c &&& 0x7f) + 1 }
          acc src
    else
      next x { st with count := c + 1 } acc src

/-- The loop `tgaRleRow` without the pixel buffer: the bytes it stores for the
row are collected in `acc`. -/
def tgaRleRowL (w bpp : Nat) :
    Nat → Nat → TGARle → List Nat → ByteSrc → TGARowResultL
  | 0, _, _, _, _ => none
  | fuel + 1, x, st, acc, src =>
    if st.count ≠ 0 then
      let n := st.count
      let n := if n > w - x then w - x else n
      match src.readExact (n * bpp) with
      | (none, s) => some (Except.error s)
      | (some bytes, src) =>
        let acc := acc ++ bytes
        let st := { st with count := st.count - n }
        let x := x + n
        if x = w then some (Except.ok (st, acc, src))
        else tgaRlePacketL bpp (tgaRleRowL w bpp fuel) x st acc src
    else if st.rep ≠ 0 then
      let n := st.rep
      let n := if n > w - x then w - x else n
      let st := { st with rep := st.rep - n }
      let acc := acc ++ (List.replicate n (st.pixelvalue.take bpp)).flatten
      let x := x + n
      if x = w then some (Except.ok (st, acc, src))
      else tgaRlePacketL bpp (tgaRleRowL w bpp fuel) x st acc src
    else tgaRlePacketL bpp (tgaRleRowL w bpp fuel) x st acc src

/-- The result of the row loop on a `ByteSrc`: the final state of the
run-length decoder, the rows in stream order, the rest of the bytes. -/
abbrev TGARowsResultL := Except ByteSrc (TGARle × List (List Nat) × ByteSrc)

/-- Put a row in front of the rows of a result. -/
def consRow (row : List Nat) : TGARowsResultL → TGARowsResultL
  | Except.error s => Except.error s
  | Except.ok (st, rows, s) => Except.ok (st, row :: rows, s)

/-- The row loop `tgaRows` without the pixel buffer: it returns the rows in
stream order. -/
def tgaRowsL (rle : Bool) (w bpp : Nat) : Nat → TGARle → ByteSrc → TGARowsResultL
  | 0, st, src => Except.ok (st, [], src)
  | n + 1, st, src =>
    if rle then
      match tgaRleRowL w bpp (src.rest.length + 1) 0 st [] src with
      | none => Except.error src
      | some (Except.error s) => Except.error s
      | some (Except.ok (st, row, src)) => consRow row (tgaRowsL rle w bpp n st src)
    else
      match src.readExact (w * bpp) with
      | (none, s) => Except.error s
      | (some bytes, src) => consRow bytes (tgaRowsL rle w bpp n st src)

/-- The stores of the row loop: row `k` of `rows` goes to offset
`dst + k * lstep`. -/
def writeRows (lstep : Int) : List Nat → Int → List (List Nat) → List Nat
  | pixels, _, [] => pixels
  | pixels, dst, row :: rows => writeRows lstep (memWrite pixels dst.toNat row) (dst + lstep) rows

/-- The flat expansion of a TGA packet stream into pixel bytes (`bpp` bytes
per pixel): a control byte `c < 128` is followed by `c + 1` literal pixels, a
control byte `c ≥ 128` by one pixel that is repeated `(c & 0x7f) + 1` times.
The expansion ends where the bytes end. `fuel` bounds the number of packets.
This is the expansion as the format describes it, with no notion of rows; the
loop of the code is `tgaRleRow`. -/
def tgaExpandAux (bpp : Nat) : Nat → List Nat → List Nat
  | 0, _ => []
  | _ + 1, [] => []
  | fuel + 1, c :: rest =>
    if c < 128 then
      rest.take ((c + 1) * bpp) ++ tgaExpandAux bpp fuel (rest.drop ((c + 1) * bpp))
    else if rest.length < bpp then []
    else (List.replicate ((c &&& 0x7f) + 1) (rest.take bpp)).flatten
      ++ tgaExpandAux bpp fuel (rest.drop bpp)

/-- The flat expansion of a packet stream (every packet holds a control
byte, so as many packets as bytes are enough). -/
def tgaExpand (bpp : Nat) (bytes : List Nat) : List Nat := tgaExpandAux bpp bytes.length bytes

/-- What is still to come of the expansion when the decoder stands in the
middle of a packet. -/
def tgaPend (bpp : Nat) (st : TGARle) (rest : List Nat) : List Nat :=
  if st.count ≠ 0 then rest.take (st.count * bpp) ++ tgaExpand bpp (rest.drop (st.count * bpp))
  else if st.rep ≠ 0 then
    (List.replicate st.rep (st.pixelvalue.take bpp)).flatten ++ tgaExpand bpp rest
  else tgaExpand bpp rest

/-- `ls` records how far the stream has advanced from `src0`. -/
def ByteSrc.Tracks (ls : ByteSrc) (src0 : SDL_IOStream) : Prop :=
  ls.rest = streamRest (ls.toStream src0)

/-- what the pixel-buffer result is, given the result without the buffer -/
def liftRow (pixels0 : List Nat) (d : Nat) (src0 : SDL_IOStream) :
    TGARowResultL → TGARowResult
  | none => none
  | some (Except.error s) => some (Except.error (s.toStream src0))
  | some (Except.ok (st, acc, s)) =>
    some (Except.ok (st, memWrite pixels0 d acc, s.toStream src0))

/-- the hypothesis under which a pass on the stream and a pass on the
`ByteSrc` agree -/
def RowAgree (bpp : Nat) (pixels0 : List Nat) (d : Nat) (src0 : SDL_IOStream)
    (f : Nat → TGARle → List Nat → SDL_IOStream → TGARowResult)
    (g : Nat → TGARle → List Nat → ByteSrc → TGARowResultL) : Prop :=
  ∀ (x : Nat) (st : TGARle) (acc : List Nat) (ls : ByteSrc),
    st.pixelvalue.length = 4 → acc.length = x * bpp → ls.Tracks src0 →
    f x st (memWrite pixels0 d acc) (ls.toStream src0) = liftRow pixels0 d src0 (g x st acc ls)

/-- what a finished row pass guarantees -/
def RowFacts (w bpp x : Nat) (st : TGARle) (acc : List Nat) (ls : ByteSrc)
    (r : TGARowResultL) : Prop :=
  ∀ st' acc' ls', r = some (Except.ok (st', acc', ls')) →
    ∃ bytes : List Nat, acc' = acc ++ bytes ∧ bytes.length = (w - x) * bpp ∧
      st'.pixelvalue.length = 4 ∧ (st'.count = 0 ∨ st'.rep = 0) ∧
      (∀ b ∈ ls'.rest, b < 256) ∧
      tgaPend bpp st ls.rest = bytes ++ tgaPend bpp st' ls'.rest ∧
      ∀ src0, ls.Tracks src0 → ls'.Tracks src0

/-- the induction hypothesis on the rest of the loop -/
def RowFactsAll (w bpp : Nat) (g : Nat → TGARle → List Nat → ByteSrc → TGARowResultL) : Prop :=
  ∀ (x : Nat) (st : TGARle) (acc : List Nat) (ls : ByteSrc),
    x ≤ w → st.pixelvalue.length = 4 → (st.count = 0 ∨ st.rep = 0) →
    (∀ b ∈ ls.rest, b < 256) → RowFacts w bpp x st acc ls (g x st acc ls)

/-- what the row loop leaves in the pixel buffer and the stream, given its
result without the buffer -/
def liftRows (lstep : Int) (pixels : List Nat) (dst : Int) (src0 : SDL_IOStream) :
    TGARowsResultL → Except SDL_IOStream (List Nat × SDL_IOStream)
  | Except.error s => Except.error (s.toStream src0)
  | Except.ok (_, rows, s) => Except.ok (writeRows lstep pixels dst rows, s.toStream src0)

/-- The offset of the pixel data from the start of a TGA file with header
`hdr`: the header, the info field and, when there is one, the colour map. -/
def tgaDataOffset (hdr : TGAheader) : Nat :=
  18 + hdr.infolen +
    (if hdr.has_cmap ≠ 0 then LE16 hdr.cmap_len * ((hdr.cmap_bits + 7) >>> 3) else 0)

/-- Two surfaces of the same size, format, stride and pixels. -/
def SameGeom (a b : SDL_Surface) : Prop :=
  b.w = a.w ∧ b.h = a.h ∧ b.format = a.format ∧ b.pitch = a.pitch ∧ b.pixels = a.pixels

/-- The stream `s` over other bytes `d`. -/
def reData (d : List (Fin 256)) (s : SDL_IOStream) : SDL_IOStream := { s with data := d }

/-- `reData` on the streams of a result. -/
def reDataR {α : Type} (d : List (Fin 256)) :
    Except SDL_IOStream (α × SDL_IOStream) → Except SDL_IOStream (α × SDL_IOStream)
  | Except.error s => Except.error (reData d s)
  | Except.ok (a, s) => Except.ok (a, reData d s)

/-- The header that `IMG_LoadTGA_IO` reads from `src`. -/
def tgaHeaderAt (src : SDL_IOStream) : TGAheader :=
  tgaHeaderOfBytes ((streamRest src).take 18)

/-- The row of the pixel buffer that holds row `i` of the stream: row `i`
for an upper origin, row `h - 1 - i` otherwise. -/
def tgaRowIndex (hdr : TGAheader) (h i : Nat) : Nat :=
  if hdr.flags &&& TGA_ORIGIN_UPPER ≠ 0 then i else h - 1 - i

/-- The pixel bytes (without the padding of the stride) of the row of `img`
that holds row `i` of the stream. -/
def tgaStreamRow (img : SDL_Surface) (hdr : TGAheader) (i : Nat) : List Nat :=
  memRead img.pixels (tgaRowIndex hdr img.h i * img.pitch)
    (img.w * SDL_BYTESPERPIXEL img.format)

/-- The pixel bytes of `img` in stream-row order. -/
def tgaStreamPixels (img : SDL_Surface) (hdr : TGAheader) : List Nat :=
  ((List.range img.h).map (tgaStreamRow img hdr)).flatten

/-- `lstep` of `IMG_LoadTGA_IO` -/
def tgaLstep (hdr : TGAheader) (pitch : Nat) : Int :=
  if hdr.flags &&& TGA_ORIGIN_UPPER ≠ 0 then (pitch : Int) else -(pitch : Int)

/-- the initial `dst` of `IMG_LoadTGA_IO`, as an offset into the pixels -/
def tgaDst (hdr : TGAheader) (h pitch : Nat) : Int :=
  if hdr.flags &&& TGA_ORIGIN_UPPER ≠ 0 then 0 else ((h : Int) - 1) * pitch

/-- `reData` on the stream of a result of `tgaSetupHdr`. -/
def reDataSetup (d : List (Fin 256)) :
    Except SDL_IOStream (Bool × Nat × SDL_Surface × SDL_IOStream) →
      Except SDL_IOStream (Bool × Nat × SDL_Surface × SDL_IOStream)
  | Except.error s => Except.error (reData d s)
  | Except.ok (rle, bpp, img, s) => Except.ok (rle, bpp, img, reData d s)

/-- A stream that stands at `pre.length`, where a TGA header begins: the 17
bytes `h17` up to `pixel_bits`, the flags byte `f`, and `body` after it. -/
def tgaStreamWithFlags (pre h17 body : List (Fin 256)) (f : Fin 256) : SDL_IOStream :=
  ⟨pre ++ h17 ++ f :: body, pre.length⟩

/-- The first 17 bytes of the header of a run-length true-colour TGA (type
10), 3 pixels wide, 2 rows high, 24 bits per pixel, no colour map. -/
def tgaRleHeader17 : List (Fin 256) :=
  [0, 0, 10, 0, 0, 0, 0, 0, 0, 0, 0, 0, 3, 0, 2, 0, 24]

/-- Pixel data of `tgaRleHeader17`: a raw packet of two pixels, then a run
packet of four pixels that crosses the row boundary. -/
def tgaRleBody : List (Fin 256) :=
  [1, 1, 2, 3, 4, 5, 6, 0x83, 7, 8, 9]

/-- The surface `IMG_LoadTGA_IO` decodes from `tgaRleHeader17`, flags byte 0
(lower origin) and `tgaRleBody`. -/
def tgaRleLowerImage : SDL_Surface :=
  { w := 3, h := 2, format := SDL_PIXELFORMAT_BGR24, pitch := 12,
    pixels := [7, 8, 9, 7, 8, 9, 7, 8, 9, 0, 0, 0, 1, 2, 3, 4, 5, 6, 7, 8, 9, 0, 0, 0],
    palette := none, colorkey := none, hotspot := none }

/-- The ids of the chunks the chunk walk visits from a state of the loop, in
order (the `BODY` id that ends the walk included); the list stops where the
walk stops. -/
def lbmChunkIds : Nat → LBMChunks → SDL_IOStream → List (List Nat)
  | 0, _, _ => []
  | fuel + 1, st, src =>
    if memeq st.id "BODY" 4 then [] else
    match lbmChunkStep st src with
    | Except.error _ => []
    | Except.ok (st, src) => st.id :: lbmChunkIds fuel st src

/-- The header fields are those of a file: 16-bit and 8-bit values, and the
colour count is at most 256. -/
def LBMChunks.Bounded (st : LBMChunks) : Prop :=
  st.bmhd.w < 65536 ∧ st.bmhd.h < 65536 ∧ st.bmhd.planes < 256 ∧ st.bmhd.mask < 256 ∧
    st.bmhd.tcolor < 65536 ∧ st.nbcolors ≤ MAXCOLORS

/-- The palette `SDL_CreateSurfacePalette` hands out. -/
def palette256 : SDL_Palette := { ncolors := 256, colors := List.replicate 256 ⟨255, 255, 255, 255⟩ }

/-- The palette of the surface `IMG_LoadLBM_IO` returns, from the locals of
the chunk walk: there is one when a colour map was read, the mode is not HAM
and `SDL_CreateSurfacePalette` gave one. -/
def lbmImagePalette (env : Env) (pbm : Bool) (st : LBMChunks) : Option SDL_Palette :=
  if st.nbcolors > 0 ∧ st.flagHAM = 0 ∧ env.paletteOk = true ∧
      lbmFormat pbm st = SDL_PIXELFORMAT_INDEX8 then
    some (lbmPalette palette256 st.colormap pbm st.nbcolors (lbmPlanes pbm st) (lbmStencil st)
      st.flagEHB)
  else none

/-- The two ways `lbmDecode` leaves `img` to be returned: after the last row,
or through the `goto done` of a failed `SDL_CreateSurfacePalette`, which does
not set `error`. -/
def lbmReturns (env : Env) (pbm : Bool) (st : LBMChunks) (s : SDL_IOStream)
    (img : SDL_Surface) (src' : SDL_IOStream) : Prop :=
  lbmDecode env pbm st s = Except.ok (img, src') ∨
    lbmDecode env pbm st s = Except.error ⟨none, some img, src'⟩

/-- The state and the stream with which the chunk walk starts: `id` holds the
form type, the header is zero, no colour is counted; the stream stands behind
the 12 bytes of the prologue. -/
def lbmWalkStart (env : Env) (src : SDL_IOStream) : LBMChunks × SDL_IOStream :=
  (⟨((streamRest src).drop 8).take 4, ⟨0, 0, 0, 0, 0, 0, 0, 0, 0, 0, 0, 0, 0⟩,
      (List.range (MAXCOLORS * 3)).map fun i => env.uninit i % 256, 0, 0, 0⟩,
    { src with pos := src.pos + 12 })

/-- The ids of the chunks that the chunk walk of `IMG_LoadLBM_IO` visits on
`src`, the `BODY` that ends it included. -/
def lbmWalkIds (env : Env) (src : SDL_IOStream) : List (List Nat) :=
  lbmChunkIds (src.data.length - (src.pos + 12) + 1) (lbmWalkStart env src).1
    (lbmWalkStart env src).2

/-- `nbcolors` of `IMG_LoadLBM_IO` after the Extra-Half-Bright block (lines
299-309): 64 when the block runs, else the colour count of the CMAP chunk. -/
def lbmFinalColors (nbcolors nbplanes flagEHB : Nat) : Nat :=
  if (nbcolors = 32 ∨ flagEHB ≠ 0) ∧ 1 <<< nbplanes = 64 then 64 else nbcolors

/-- An IFF file with the prologue of an ILBM picture and a `BODY` chunk, but
no `BMHD` chunk. -/
def lbmNoHeader : List (Fin 256) :=
  tag "FORM" ++ [0, 0, 0, 12] ++ tag "ILBM" ++ tag "BODY" ++ [0, 0, 0, 0]

/-- An ILBM file with nine planes (8x1 pixels), a CMAP of one colour and an
uncompressed BODY. -/
def lbmNinePlanes : List (Fin 256) :=
  tag "FORM" ++ [0, 0, 0, 70] ++ tag "ILBM" ++
  tag "BMHD" ++ [0, 0, 0, 20] ++
    [0, 8, 0, 1, 0, 0, 0, 0, 9, 0, 0, 0, 0, 0, 1, 1, 0, 8, 0, 1] ++
  tag "CMAP" ++ [0, 0, 0, 3] ++ [10, 20, 30, 0] ++
  tag "BODY" ++ [0, 0, 0, 18] ++ List.replicate 18 0

/-- An ILBM file with one plane and a stencil plane (mask type 1), 8x1
pixels, a CMAP of the one colour (10, 20, 30). -/
def lbmStencilSample : List (Fin 256) :=
  tag "FORM" ++ [0, 0, 0, 56] ++ tag "ILBM" ++
  tag "BMHD" ++ [0, 0, 0, 20] ++
    [0, 8, 0, 1, 0, 0, 0, 0, 1, 1, 0, 0, 0, 0, 1, 1, 0, 8, 0, 1] ++
  tag "CMAP" ++ [0, 0, 0, 3] ++ [10, 20, 30, 0] ++
  tag "BODY" ++ [0, 0, 0, 4] ++ [0xA5, 0, 0, 0]

/-- An ILBM file with one plane, 8x1 pixels, and no CMAP chunk. -/
def lbmNoCmap : List (Fin 256) :=
  tag "FORM" ++ [0, 0, 0, 42] ++ tag "ILBM" ++
  tag "BMHD" ++ [0, 0, 0, 20] ++
    [0, 8, 0, 1, 0, 0, 0, 0, 1, 0, 0, 0, 0, 0, 1, 1, 0, 8, 0, 1] ++
  tag "BODY" ++ [0, 0, 0, 2] ++ [0xA5, 0]

/-- An ILBM file with one plane, 8x1 pixels, a CMAP of two colours, mask type
2 (transparent colour) and the transparent colour 300 (0x012C). -/
def lbmKeySample : List (Fin 256) :=
  tag "FORM" ++ [0, 0, 0, 56] ++ tag "ILBM" ++
  tag "BMHD" ++ [0, 0, 0, 20] ++
    [0, 8, 0, 1, 0, 0, 0, 0, 1, 2, 0, 0, 1, 44, 1, 1, 0, 8, 0, 1] ++
  tag "CMAP" ++ [0, 0, 0, 6] ++ [0, 0, 0, 255, 255, 255] ++
  tag "BODY" ++ [0, 0, 0, 2] ++ [0xA5, 0]

/-- A `CMAP` chunk of declared size 1000, with its 1000 bytes, and the chunk
header that follows it. -/
def lbmBigCmapChunk : List (Fin 256) :=
  tag "CMAP" ++ [0, 0, 3, 232] ++ List.replicate 1000 0 ++ tag "BODY" ++ [0, 0, 0, 0]

/-- An unknown chunk (`ANNO`) of declared size 3, its three bytes and the pad
byte, and the chunk header that follows it. -/
def lbmAnnoChunk : List (Fin 256) :=
  tag "ANNO" ++ [0, 0, 0, 3] ++ [1, 2, 3, 0] ++ tag "BODY" ++ [0, 0, 0, 0]

/-- The bitmap header before any `BMHD` chunk is read (`SDL_memset` to 0). -/
def bmhdZero : BMHD := ⟨0, 0, 0, 0, 0, 0, 0, 0, 0, 0, 0, 0, 0⟩

/-- The palette of the surface decoded from `lbmNinePlanes`: the palette
block run on the colour map of one colour with nine planes. -/
def lbmNinePlanesPalette : SDL_Palette :=
  lbmPalette palette256 (memWrite (List.replicate 768 0) 0 [10, 20, 30]) false 1 9 0 0

/-- The surface `IMG_LoadLBM_IO` decodes from `lbmStencilSample`. -/
def lbmStencilImage : SDL_Surface :=
  { w := 16, h := 1, format := SDL_PIXELFORMAT_INDEX8, pitch := 16,
    pixels := [1, 0, 1, 0, 0, 1, 0, 1, 0, 0, 0, 0, 0, 0, 0, 0],
    palette := some (lbmPalette palette256 (memWrite (List.replicate 768 0) 0 [10, 20, 30])
      false 1 1 1 0),
    colorkey := none, hotspot := none }

/-- The surface `IMG_LoadLBM_IO` decodes from `lbmKeySample`. -/
def lbmKeyImage : SDL_Surface :=
  { w := 16, h := 1, format := SDL_PIXELFORMAT_INDEX8, pitch := 16,
    pixels := [1, 0, 1, 0, 0, 1, 0, 1, 0, 0, 0, 0, 0, 0, 0, 0],
    palette := some (lbmPalette palette256
      (memWrite (List.replicate 768 0) 0 [0, 0, 0, 255, 255, 255]) false 2 1 0 0),
    colorkey := some 300, hotspot := none }

/-- A cursor file of two images. Directory entry 0 has colour count 16, the
hotspot fields (1, 2) and points at offset 38, a 1x1 4-bit image whose pixel
is palette entry 1, colour 0x222222; entry 1 has colour count 2, the hotspot
fields (3, 4) and points at offset 150, a 1x1 1-bit image whose pixel is
palette entry 1, colour 0x444444. -/
def curTwo : List (Fin 256) :=
  [0, 0, 2, 0, 2, 0,
   1, 1, 16, 0, 1, 0, 2, 0, 112, 0, 0, 0, 38, 0, 0, 0,
   1, 1, 2, 0, 3, 0, 4, 0, 56, 0, 0, 0, 150, 0, 0, 0,
   40, 0, 0, 0, 1, 0, 0, 0, 2, 0, 0, 0, 1, 0, 4, 0, 0, 0, 0, 0, 0, 0, 0, 0,
   0, 0, 0, 0, 0, 0, 0, 0, 0, 0, 0, 0, 0, 0, 0, 0] ++
  List.replicate 4 0 ++ [0x22, 0x22, 0x22, 0] ++ List.replicate 56 0 ++
  [0x10, 0, 0, 0, 0, 0, 0, 0] ++
  [40, 0, 0, 0, 1, 0, 0, 0, 2, 0, 0, 0, 1, 0, 1, 0, 0, 0, 0, 0, 0, 0, 0, 0,
   0, 0, 0, 0, 0, 0, 0, 0, 0, 0, 0, 0, 0, 0, 0, 0,
   0x33, 0x33, 0x33, 0, 0x44, 0x44, 0x44, 0,
   0x80, 0, 0, 0, 0, 0, 0, 0]

/-- Every element of a buffer is a byte. -/
def AllBytes (buf : List Nat) : Prop := ∀ b ∈ buf, b < 256

/-- The `x`-th field of `b` bits of a row of bytes, the most significant bits
of a byte first. -/
def icoField (b : Nat) (row : List Nat) (x : Nat) : Nat :=
  (row.getD (x * b / 8) 0 >>> (8 - b - x * b % 8)) % 2 ^ b

/-- The pixel loop of a row of fields of `ExpandBMP` bits, with `n` iterations
to go: the common shape of `icoIndexedRow` and `icoMaskRow`. Pixel `i` becomes
`f old field`. -/
def icoBitRow (ExpandBMP : Nat) (f : Nat → Nat → Nat) (bits : Nat) :
    Nat → Nat → Nat → List Nat → SDL_IOStream → Except SDL_IOStream (List Nat × SDL_IOStream)
  | 0, _, _, pixels, src => Except.ok (pixels, src)
  | n + 1, i, pixelvalue, pixels, src =>
    let next := fun (pixelvalue : Nat) (src : SDL_IOStream) =>
      icoBitRow ExpandBMP f bits n (i + 1) ((pixelvalue <<< ExpandBMP) % 256)
        (writeU32 pixels bits i (f (readU32 pixels bits i) (pixelvalue >>> (8 - ExpandBMP)))) src
    if i % (8 / ExpandBMP) = 0 then
      orFail (readExact src 1) id fun b src => next (b.getD 0 0) src
    else next pixelvalue src

/-- The row loop `while (bits > (Uint8 *) surface->pixels)` over any pixel
loop `row`: the common shape of `icoColorRows` and `icoMaskRows`. -/
def icoRows (row : Nat → List Nat → SDL_IOStream → Except SDL_IOStream (List Nat × SDL_IOStream))
    (pad pitch : Nat) :
    Nat → List Nat → SDL_IOStream → Except SDL_IOStream (List Nat × SDL_IOStream)
  | 0, pixels, src => Except.ok (pixels, src)
  | k + 1, pixels, src =>
    if (k + 1) * pitch > 0 then
      match row ((k + 1) * pitch - pitch) pixels src with
      | Except.error s => Except.error s
      | Except.ok (pixels, src) =>
        match icoSkipPad pad src with
        | Except.error s => Except.error s
        | Except.ok src => icoRows row pad pitch k pixels src
    else Except.ok (pixels, src)

/-- The pixel loop of a colour row, by `ExpandBMP`. -/
def icoColorRow (ExpandBMP w pitch : Nat) (palette : List Nat) (bits : Nat) (pixels : List Nat)
    (src : SDL_IOStream) : Except SDL_IOStream (List Nat × SDL_IOStream) :=
  if ExpandBMP = 1 ∨ ExpandBMP = 4 ∨ ExpandBMP = 8 then
    icoIndexedRow ExpandBMP palette bits w 0 0 pixels src
  else if ExpandBMP = 24 then
    icoRGBRow bits w 0 pixels src
  else
    orFail (readExact src pitch) id fun bytes src =>
      Except.ok (memWrite pixels bits bytes, src)

/-- What a pixel loop `row` does to a row of `w` pixels at offset `bits`: it
reads `adv` bytes, pixel `x` becomes `val rest x old`, and nothing else
changes. -/
def IcoRowSpec (row : Nat → List Nat → SDL_IOStream → Except SDL_IOStream (List Nat × SDL_IOStream))
    (w adv : Nat) (val : List Nat → Nat → Nat → Nat) : Prop :=
  ∀ bits pixels src pixels' src', row bits pixels src = Except.ok (pixels', src') →
    bits + 4 * w ≤ pixels.length →
    src'.data = src.data ∧ src'.pos = src.pos + adv ∧ pixels'.length = pixels.length ∧
    (∀ x, x < w → readU32 pixels' bits x = val (streamRest src) x (readU32 pixels bits x)) ∧
    (∀ o len, o + len ≤ bits ∨ bits + 4 * w ≤ o → memRead pixels' o len = memRead pixels o len)

/-- A pixel loop `row` keeps the size of the buffer and its bytes bytes. -/
def IcoRowKeeps (row : Nat → List Nat → SDL_IOStream → Except SDL_IOStream (List Nat × SDL_IOStream))
    (pitch : Nat) : Prop :=
  ∀ bits pixels src pixels' src', row bits pixels src = Except.ok (pixels', src') →
    bits + pitch ≤ pixels.length →
    pixels'.length = pixels.length ∧ (AllBytes pixels → AllBytes pixels')

/-- A 2x2 icon of one bit per pixel with the palette black, white. The colour
rows (bottom row first) are the indices 0 1 and 1 0; the mask rows (bottom row
first) are 0 0 and 1 0, so that the mask clears the pixel (0, 0). -/
def icoMono : List (Fin 256) :=
  [0, 0, 1, 0, 1, 0,
   2, 2, 2, 0, 1, 0, 1, 0, 64, 0, 0, 0, 22, 0, 0, 0,
   40, 0, 0, 0, 2, 0, 0, 0, 4, 0, 0, 0, 1, 0, 1, 0, 0, 0, 0, 0, 0, 0, 0, 0,
   0, 0, 0, 0, 0, 0, 0, 0, 0, 0, 0, 0, 0, 0, 0, 0,
   0, 0, 0, 0, 0xFF, 0xFF, 0xFF, 0,
   0x40, 0, 0, 0, 0x80, 0, 0, 0,
   0, 0, 0, 0, 0x80, 0, 0, 0]

/-- What `icoSetup` leaves on `icoMono`: the 2x2 surface and the palette
black, white (the other 254 entries of the array were never stored to). -/
def icoMonoSetup : ICOSetup :=
  { dir := ⟨2, 22, 0, 0⟩, biBitCount := 1, ExpandBMP := 1, biWidth := 2,
    surface := { w := 2, h := 2, format := SDL_PixelFormat.SDL_PIXELFORMAT_ARGB8888, pitch := 8,
                 pixels := List.replicate 16 0, palette := none, colorkey := none,
                 hotspot := none },
    palette := [0xFF000000, 0xFFFFFFFF] ++ List.replicate 254 0 }

/-- The decoded `icoMono`: pixel (0, 0) is cleared by the mask, the others are
opaque black, black, white. -/
def icoMonoImage : SDL_Surface :=
  { w := 2, h := 2, format := SDL_PixelFormat.SDL_PIXELFORMAT_ARGB8888, pitch := 8,
    pixels := [0, 0, 0, 0, 0, 0, 0, 255, 0, 0, 0, 255, 255, 255, 255, 255],
    palette := none, colorkey := none, hotspot := none }

/-- The little-endian 16-bit word at offset `i` of a row of bytes. -/
def le16At (row : List Nat) (i : Nat) : Nat := row.getD i 0 + 256 * row.getD (i + 1) 0

/-- The little-endian 32-bit word at offset `i` of a row of bytes. -/
def le32At (row : List Nat) (i : Nat) : Nat :=
  row.getD i 0 + 256 * row.getD (i + 1) 0 + 65536 * row.getD (i + 2) 0 +
    16777216 * row.getD (i + 3) 0

/-- The two's complement reading of a 32-bit word. -/
def sint32 (v : Nat) : Int := if v < 2147483648 then (v : Int) else (v : Int) - 4294967296

/-- The validation of the header by `IMG_LoadTGA_IO` (lines 113-175): the
switch on the type, the switch on the pixel depth and the test of the flags,
as `tgaSetupHdr` runs them. `none` is `goto unsupported`; otherwise the flags
`rle`, `indexed`, `grey`, then `bpp` and the pixel format. -/
def tgaValidate (hdr : TGAheader) : Option (Bool × Bool × Bool × Nat × SDL_PixelFormat) :=
  let ncols := LE16 hdr.cmap_len
  match tgaClassify hdr ncols with
  | none => none
  | some (rle, indexed, grey) =>
  let bpp := (hdr.pixel_bits + 7) >>> 3
  match tgaFormat hdr indexed with
  | none => none
  | some format =>
  if hdr.flags &&& TGA_INTERLEAVE_MASK ≠ TGA_INTERLEAVE_NONE ∨ hdr.flags &&& TGA_ORIGIN_RIGHT ≠ 0 then
    none
  else some (rle, indexed, grey, bpp, format)

/-- The kinds of header that are not supported: a type outside 1, 2, 3, 9, 10,
11; an indexed type without a colour map, with a pixel depth other than 8 or
with more than 256 map entries; a greyscale type with a pixel depth other
than 8; a true-colour type with a pixel depth other than 15, 16, 24, 32;
interleave bits; the right-origin bit. -/
def tgaListedUnsupported (hdr : TGAheader) : Prop :=
  ¬ (hdr.type = 1 ∨ hdr.type = 2 ∨ hdr.type = 3 ∨ hdr.type = 9 ∨ hdr.type = 10 ∨ hdr.type = 11) ∨
  ((hdr.type = 1 ∨ hdr.type = 9) ∧
    (hdr.has_cmap = 0 ∨ hdr.pixel_bits ≠ 8 ∨ LE16 hdr.cmap_len > 256)) ∨
  ((hdr.type = 3 ∨ hdr.type = 11) ∧ hdr.pixel_bits ≠ 8) ∨
  ((hdr.type = 2 ∨ hdr.type = 10) ∧
    ¬ (hdr.pixel_bits = 15 ∨ hdr.pixel_bits = 16 ∨ hdr.pixel_bits = 24 ∨ hdr.pixel_bits = 32)) ∨
  hdr.flags &&& 0xC0 ≠ 0 ∨ hdr.flags &&& 0x10 ≠ 0

/-- The bytes of one colour-map entry in `pal`: 2 for 15 and 16 bits, 3 for
24, 4 for 32 (the read pointer `p` does not move for another width). -/
def tgaEntrySize (cmap_bits : Nat) : Nat :=
  if cmap_bits = 15 ∨ cmap_bits = 16 then 2
  else if cmap_bits = 24 then 3
  else if cmap_bits = 32 then 4
  else 0

/-- What one pass of the colour-map loop stores in a palette entry `old`, from
the bytes of `pal` at offset `q`. -/
def tgaMapEntry (cmap_bits : Nat) (pal : List Nat) (q : Nat) (old : SDL_Color) : SDL_Color :=
  if cmap_bits = 15 ∨ cmap_bits = 16 then
    let c := (pal.getD q 0 + (pal.getD (q + 1) 0 <<< 8)) % 65536
    { old with r := ((c >>> 7) &&& 0xf8) % 256, g := ((c >>> 2) &&& 0xf8) % 256,
               b := (c <<< 3) % 256 }
  else if cmap_bits = 24 ∨ cmap_bits = 32 then
    { old with b := pal.getD q 0, g := pal.getD (q + 1) 0, r := pal.getD (q + 2) 0 }
  else old

/-- The bytes of the stream behind the header and the info field of a TGA
file: the colour map, when there is one. -/
def tgaColorMapBytes (src : SDL_IOStream) : List Nat :=
  (streamRest src).drop (18 + (tgaHeaderAt src).infolen)

/-- An indexed TGA file, 2x1 pixels, with a 32-bit colour map of two entries:
(blue 10, green 20, red 30, alpha 255) and (40, 50, 60, alpha 0). -/
def tgaMap32Sample : List (Fin 256) :=
  [0, 1, 1, 0, 0, 2, 0, 32, 0, 0, 0, 0, 2, 0, 1, 0, 8, 0,
   10, 20, 30, 255, 40, 50, 60, 0,
   0, 1]

/-- An indexed TGA file, 1x1 pixel, with a 16-bit colour map of one entry, the
value 0x8443: bit 15 set, red field 1, green field 2, blue field 3. -/
def tgaMap16Sample : List (Fin 256) :=
  [0, 1, 1, 0, 0, 1, 0, 16, 0, 0, 0, 0, 1, 0, 1, 0, 8, 0,
   0x43, 0x84,
   0]

/-- The surface `IMG_LoadTGA_IO` decodes from `tgaMap32Sample`. -/
def tgaMap32Image : SDL_Surface :=
  { w := 2, h := 1, format := SDL_PIXELFORMAT_INDEX8, pitch := 4, pixels := [0, 1, 0, 0],
    palette := some ⟨2, [⟨30, 20, 10, 255⟩, ⟨60, 50, 40, 255⟩] ++ List.replicate 254 ⟨255, 255, 255, 255⟩⟩,
    colorkey := some 1, hotspot := none }

/-- The surface `IMG_LoadTGA_IO` decodes from `tgaMap16Sample`. -/
def tgaMap16Image : SDL_Surface :=
  { w := 1, h := 1, format := SDL_PIXELFORMAT_INDEX8, pitch := 4, pixels := [0, 0, 0, 0],
    palette := some ⟨1, [⟨8, 16, 24, 255⟩] ++ List.replicate 255 ⟨255, 255, 255, 255⟩⟩,
    colorkey := none, hotspot := none }

/-- A true-colour TGA file (type 2), 1x1 pixel, with the pixel depth 8. -/
def tgaRgbDepth8Sample : List (Fin 256) :=
  [0, 0, 2, 0, 0, 0, 0, 0, 0, 0, 0, 0, 1, 0, 1, 0, 8, 0, 0]

/-- A pixel loop `row` reads `adv` bytes. -/
def IcoRowAdv (row : Nat → List Nat → SDL_IOStream → Except SDL_IOStream (List Nat × SDL_IOStream))
    (pitch adv : Nat) : Prop :=
  ∀ bits pixels src pixels' src', row bits pixels src = Except.ok (pixels', src') →
    bits + pitch ≤ pixels.length → src'.data = src.data ∧ src'.pos = src.pos + adv

/-- The 32-bit value that the palette loop stores for entry `m` of the palette
bytes `row`: blue, green, red as stored, alpha 0xFF for a stored 0. -/
def icoArgb (row : List Nat) (m : Nat) : Nat :=
  row.getD (4 * m) 0 + 256 * row.getD (4 * m + 1) 0 + 65536 * row.getD (4 * m + 2) 0 +
    16777216 * (if row.getD (4 * m + 3) 0 = 0 then 255 else row.getD (4 * m + 3) 0)

/-- The number of palette entries that `LoadICOCUR_IO` reads at a bit count up
to 8: `biClrUsed`, or `2 ^ biBitCount` when that field is 0. -/
def icoPaletteCount (biBitCount biClrUsed : Nat) : Nat :=
  if biClrUsed = 0 then 2 ^ biBitCount else biClrUsed

/-- The number of stream bytes that belong to a byte-run packet after its
control byte `c`: the next `c + 1` bytes for `c < 128`, the next byte
otherwise. -/
def lbmPacketData (c : Nat) : Nat := if c < 128 then c + 1 else 1

/-- The first `n` byte-run packets of a run of stream bytes, in stream order:
each is a control byte with the stream bytes that belong to it. -/
def lbmPackets : Nat → List Nat → List (Nat × List Nat)
  | 0, _ => []
  | _ + 1, [] => []
  | n + 1, c :: rest =>
    (c, rest.take (lbmPacketData c)) :: lbmPackets n (rest.drop (lbmPacketData c))

/-- The expansion of a byte-run packet: a control byte `c < 128` contributes
the `c + 1` stream bytes that follow it, a control byte `c ≥ 128` contributes
`257 - c` copies of the stream byte that follows it. -/
def lbmExpand (p : Nat × List Nat) : List Nat :=
  if p.1 < 128 then p.2 else List.replicate (257 - p.1) (p.2.getD 0 0)

/-- The number of stream bytes that a list of packets takes. -/
def lbmPacketBytes (ps : List (Nat × List Nat)) : Nat :=
  (ps.map fun p => 1 + p.2.length).sum

/-- The id of the chunk whose header stands at the position of `c`. -/
def lbmChunkId (c : SDL_IOStream) : List Nat := (streamRest c).take 4

/-- The declared size of the chunk whose header stands at the position of
`c`: the big-endian 32-bit word behind the id. -/
def lbmChunkSize (c : SDL_IOStream) : Nat := BE32 (((streamRest c).drop 4).take 4)

/-- The bytes behind the header of the chunk at the position of `c`. -/
def lbmChunkData (c : SDL_IOStream) : List Nat := (streamRest c).drop 8

/-- The chunk at the position of `c` is a `CMAP` chunk. -/
def lbmIsCMAP (c : SDL_IOStream) : Bool := memeq (lbmChunkId c) "CMAP" 4

/-- The chunk at the position of `c` is a `CAMG` chunk whose big-endian
32-bit view-mode word has a bit of `mask` set. -/
def lbmIsCAMG (mask : Nat) (c : SDL_IOStream) : Bool :=
  memeq (lbmChunkId c) "CAMG" 4 && decide (BE32 ((lbmChunkData c).take 4) &&& mask ≠ 0)

/-- The chunks the chunk walk meets from a state of the loop, in order: the
stream positions at which its passes start, each at a chunk header (the `BODY`
header that ends the walk and a chunk at which the walk fails included). -/
def lbmChunkVisits : Nat → LBMChunks → SDL_IOStream → List SDL_IOStream
  | 0, _, _ => []
  | fuel + 1, st, src =>
    if memeq st.id "BODY" 4 then [] else
    src :: (match lbmChunkStep st src with
      | Except.error _ => []
      | Except.ok (st, src) => lbmChunkVisits fuel st src)

/-- The chunks that the chunk walk of `IMG_LoadLBM_IO` meets on `src`. -/
def lbmWalkVisits (env : Env) (src : SDL_IOStream) : List SDL_IOStream :=
  lbmChunkVisits (src.data.length - (src.pos + 12) + 1) (lbmWalkStart env src).1
    (lbmWalkStart env src).2

/-- The last `CMAP` chunk among the chunks met. -/
def lbmLastCMAP (visits : List SDL_IOStream) : Option SDL_IOStream :=
  (visits.filter lbmIsCMAP).getLast?

/-- What the locals of the walk hold of the colour map, given the last `CMAP`
chunk met so far. -/
def LbmCmapInv (o : Option SDL_IOStream) (st : LBMChunks) : Prop :=
  match o with
  | none => st.nbcolors = 0
  | some c => lbmChunkSize c ≤ 768 ∧ lbmChunkSize c ≤ (lbmChunkData c).length ∧
      st.nbcolors = lbmChunkSize c / 3 ∧
      ∀ j, j < lbmChunkSize c → getByte st.colormap j = (lbmChunkData c).getD j 0

/-- The surface `IMG_LoadLBM_IO` decodes from `lbmHamSample`. -/
def lbmHamImage : SDL_Surface :=
  { w := 16, h := 1, format := SDL_PixelFormat.SDL_PIXELFORMAT_BGR24, pitch := 48,
    pixels := [30, 20, 10, 30, 22, 0] ++ (List.replicate 14 [30, 20, 10]).flatten,
    palette := none, colorkey := none, hotspot := none }

/-- An Extra-Half-Bright ILBM file with a CMAP of 64 colours: six planes, 8x1
pixels, a CAMG chunk with bit 0x0080, colour 0 = (200, 100, 50) and colour 32
= (7, 8, 9) in the CMAP chunk, an uncompressed BODY. -/
def lbmEhb64Sample : List (Fin 256) :=
  tag "FORM" ++ [0, 0, 1, 8] ++ tag "ILBM" ++
  tag "BMHD" ++ [0, 0, 0, 20] ++
    [0, 8, 0, 1, 0, 0, 0, 0, 6, 0, 0, 0, 0, 0, 1, 1, 0, 8, 0, 1] ++
  tag "CAMG" ++ [0, 0, 0, 4] ++ [0, 0, 0, 0x80] ++
  tag "CMAP" ++ [0, 0, 0, 192] ++ [200, 100, 50] ++ List.replicate 93 0 ++
    [7, 8, 9] ++ List.replicate 93 0 ++
  tag "BODY" ++ [0, 0, 0, 12] ++ List.replicate 12 0

/-- The colour-map buffer after the CMAP chunk of `lbmEhb64Sample`. -/
def lbmEhb64Colormap : List Nat :=
  memWrite (List.replicate 768 0) 0
    ([200, 100, 50] ++ List.replicate 93 0 ++ [7, 8, 9] ++ List.replicate 93 0)

/-- The surface `IMG_LoadLBM_IO` decodes from `lbmEhb64Sample`. -/
def lbmEhb64Image : SDL_Surface :=
  { w := 16, h := 1, format := SDL_PixelFormat.SDL_PIXELFORMAT_INDEX8, pitch := 16,
    pixels := List.replicate 16 0,
    palette := some (lbmPalette palette256 lbmEhb64Colormap false 64 6 0 1),
    colorkey := none, hotspot := none }

/-- An ILBM file with two CMAP chunks: one plane, 8x1 pixels, a CMAP of the
colours (1, 2, 3), (4, 5, 6), then a CMAP of the colours (7, 8, 9),
(10, 11, 12). -/
def lbmTwoCmapSample : List (Fin 256) :=
  tag "FORM" ++ [0, 0, 0, 70] ++ tag "ILBM" ++
  tag "BMHD" ++ [0, 0, 0, 20] ++
    [0, 8, 0, 1, 0, 0, 0, 0, 1, 0, 0, 0, 0, 0, 1, 1, 0, 8, 0, 1] ++
  tag "CMAP" ++ [0, 0, 0, 6] ++ [1, 2, 3, 4, 5, 6] ++
  tag "CMAP" ++ [0, 0, 0, 6] ++ [7, 8, 9, 10, 11, 12] ++
  tag "BODY" ++ [0, 0, 0, 2] ++ [0xA5, 0]

/-- A 1x1 icon of one bit per pixel whose header declares one colour
(`biClrUsed = 1`): one palette entry (black) is stored in the file, and the
only colour byte, 0x80, selects index 1. The mask bit is 0. -/
def icoOneColour : List (Fin 256) :=
  [0, 0, 1, 0, 1, 0,
   1, 1, 2, 0, 1, 0, 1, 0, 52, 0, 0, 0, 22, 0, 0, 0,
   40, 0, 0, 0, 1, 0, 0, 0, 2, 0, 0, 0, 1, 0, 1, 0, 0, 0, 0, 0, 0, 0, 0, 0,
   0, 0, 0, 0, 0, 0, 0, 0, 1, 0, 0, 0, 0, 0, 0, 0,
   0, 0, 0, 0,
   0x80, 0, 0, 0,
   0, 0, 0, 0]

/-- An environment in which all allocations succeed and memory that C leaves
uninitialised holds the byte 0xAB. -/
def envStale : Env := ⟨true, true, true, fun _ => 0xAB⟩

/-- The pixel data as a TGA stream stores them, row after row: for an
uncompressed type the bytes that follow the header, the info field and the
colour map; for a run-length type (9, 10, 11) the flat expansion `tgaExpand`
of these bytes, with ceil(depth / 8) bytes per pixel. -/
def tgaStoredPixels (src : SDL_IOStream) : List Nat :=
  let hdr := tgaHeaderAt src
  let data := (streamRest src).drop (tgaDataOffset hdr)
  if hdr.type = 9 ∨ hdr.type = 10 ∨ hdr.type = 11 then
    tgaExpand ((hdr.pixel_bits + 7) / 8) data
  else data

/-- Stored row `i` of a TGA stream: the bytes of the pixels `i * w` to
`(i + 1) * w` of the stored pixel data, `w` being the width of the header. -/
def tgaStoredRow (src : SDL_IOStream) (i : Nat) : List Nat :=
  let hdr := tgaHeaderAt src
  let n := LE16 hdr.width * ((hdr.pixel_bits + 7) / 8)
  ((tgaStoredPixels src).drop (i * n)).take n

/-- The local `error` of `IMG_LoadTGA_IO` at the call `SDL_SetError("%s", error)`
behind the label `error:`, by the place from which the label is reached (the
three `goto unsupported` pass through `error = "Unsupported TGA format"`);
`none` when the function returns the surface at `return img`. -/
def IMG_LoadTGA_IO_error (env : Env) (src : SDL_IOStream) : Option String :=
  match readExact src 18 with
  | (none, _) => some "Error reading TGA data"
  | (some hdrBytes, src) =>
  let hdr := tgaHeaderOfBytes hdrBytes
  let ncols := LE16 hdr.cmap_len
  match tgaClassify hdr ncols with
  | none => some "Unsupported TGA format"
  | some (rle, indexed, grey) =>
  let bpp := (hdr.pixel_bits + 7) >>> 3
  match tgaFormat hdr indexed with
  | none => some "Unsupported TGA format"
  | some format =>
  if hdr.flags &&& TGA_INTERLEAVE_MASK ≠ TGA_INTERLEAVE_NONE ∨ hdr.flags &&& TGA_ORIGIN_RIGHT ≠ 0 then
    some "Unsupported TGA format" else
  /- skip info field -/
  let (_, src) := SDL_SeekIO src hdr.infolen SDL_IOWhence.SDL_IO_SEEK_CUR
  let w := LE16 hdr.width
  let h := LE16 hdr.height
  match SDL_CreateSurface env w h format with
  | none => some "Out of memory"
  | some img =>
  match tgaColorMap env hdr indexed grey ncols img src with
  | Except.error _ =>
    some (if (SDL_CreateSurfacePalette env img).isNone then "Couldn't create palette"
      else "Error reading TGA data")
  | Except.ok (img, src) =>
  match tgaGreyPalette env grey img src with
  | Except.error _ => some "Couldn't create palette"
  | Except.ok img =>
  let lstep : Int := if hdr.flags &&& TGA_ORIGIN_UPPER ≠ 0 then img.pitch else -(img.pitch : Int)
  let dst : Int := if hdr.flags &&& TGA_ORIGIN_UPPER ≠ 0 then 0
    else ((h : Int) - 1) * img.pitch
  let pixelvalue := (List.range 4).map fun j => env.uninit j % 256
  match tgaRows rle w bpp lstep h dst ⟨0, 0, pixelvalue⟩ img.pixels src with
  | Except.error _ => some "Error reading TGA data"
  | Except.ok _ => none

/-- The scratch buffers of the rows that the row loop of `IMG_LoadLBM_IO`
reads, with `n` rows to go: for each row, `MiniBuf` as the plane loop
`lbmReadPlanes` leaves it ("One line has been read"), before the row is
stored. The list stops at a row whose planes cannot be read. -/
def lbmRowBuffers (tcomp bytesperline nplanes : Nat) :
    Nat → List Nat → SDL_IOStream → List (List Nat)
  | 0, _, _ => []
  | n + 1, MiniBuf, src =>
    match lbmReadPlanes tcomp bytesperline nplanes 0 MiniBuf src with
    | Except.error _ => []
    | Except.ok (MiniBuf, src) =>
      MiniBuf :: lbmRowBuffers tcomp bytesperline nplanes n MiniBuf src

/-- The scratch buffer of each row of the decode of `src` by `IMG_LoadLBM_IO`:
the row loop started on the stream and with the locals that the chunk walk
leaves. Plane `p` of row `h` is the `bytesperline` bytes at
`p * bytesperline` of entry `h`. -/
def lbmScratchRows (env : Env) (src : SDL_IOStream) : List (List Nat) :=
  match lbmWalk env src with
  | Except.error _ => []
  | Except.ok (pbm, st, s) =>
    lbmRowBuffers st.bmhd.tcomp (lbmBytesPerLine pbm st) (lbmPlanes pbm st + lbmStencil st)
      st.bmhd.h
      ((List.range (lbmBytesPerLine pbm st * (lbmPlanes pbm st + lbmStencil st))).map
        fun i => env.uninit i % 256) s

/-- The states in which the passes of the byte-run loop of one plane row
start, in order (a pass that fails included). -/
def lbmRunVisits : Nat → LBMRun → List LBMRun
  | 0, _ => []
  | fuel + 1, st =>
    st :: (match lbmRunStep st with
      | Except.error _ => []
      | Except.ok st => if st.remainingbytes > 0 then lbmRunVisits fuel st else [])

/-- The states in which the passes of the byte-run loop start while the plane
loop `lbmReadPlanes` reads one row, with `n` planes to go. -/
def lbmPlaneVisits (tcomp bytesperline : Nat) :
    Nat → Nat → List Nat → SDL_IOStream → List LBMRun
  | 0, _, _, _ => []
  | n + 1, plane, MiniBuf, src =>
    let ptr := plane * bytesperline
    let remainingbytes := bytesperline
    if tcomp = 1 then
      lbmRunVisits (remainingbytes + 1) ⟨ptr, remainingbytes, MiniBuf, src⟩ ++
        (match lbmRunLoop (remainingbytes + 1) ⟨ptr, remainingbytes, MiniBuf, src⟩ with
          | some (Except.ok st) =>
            lbmPlaneVisits tcomp bytesperline n (plane + 1) st.MiniBuf st.src
          | _ => [])
    else
      match readExact src bytesperline with
      | (some b, src) =>
        lbmPlaneVisits tcomp bytesperline n (plane + 1) (memWrite MiniBuf ptr b) src
      | (none, _) => []

/-- The states in which the passes of the byte-run loop start during the row
loop `lbmRows`, with `n` rows to go. -/
def lbmRowVisits (tcomp bytesperline nplanes : Nat) :
    Nat → List Nat → SDL_IOStream → List LBMRun
  | 0, _, _ => []
  | n + 1, MiniBuf, src =>
    lbmPlaneVisits tcomp bytesperline nplanes 0 MiniBuf src ++
      (match lbmReadPlanes tcomp bytesperline nplanes 0 MiniBuf src with
        | Except.error _ => []
        | Except.ok (MiniBuf, src) => lbmRowVisits tcomp bytesperline nplanes n MiniBuf src)

/-- The states in which the passes of the byte-run loop start during the
decode of `src` by `IMG_LoadLBM_IO`: those of the row loop, when the decode
gets there. -/
def lbmByteRunStates (env : Env) (src : SDL_IOStream) : List LBMRun :=
  match lbmWalk env src with
  | Except.error _ => []
  | Except.ok (pbm, st, s) =>
    if !env.mallocOk then [] else
    match lbmCreateImage env pbm st with
    | none => []
    | some Image =>
    match lbmUpdatePalette env pbm st Image with
    | none => []
    | some _ =>
      lbmRowVisits st.bmhd.tcomp (lbmBytesPerLine pbm st) (lbmPlanes pbm st + lbmStencil st)
        st.bmhd.h
        ((List.range (lbmBytesPerLine pbm st * (lbmPlanes pbm st + lbmStencil st))).map
          fun i => env.uninit i % 256) s

/-- A byte-run compressed ILBM file, 8x1 pixels, one plane (rows of 2 bytes),
no CMAP, whose BODY starts with the control byte 2: three literal bytes for a
row of two. -/
def lbmOverflowSample : List (Fin 256) :=
  tag "FORM" ++ [0, 0, 0, 44] ++ tag "ILBM" ++
  tag "BMHD" ++ [0, 0, 0, 20] ++
    [0, 8, 0, 1, 0, 0, 0, 0, 1, 0, 1, 0, 0, 0, 1, 1, 0, 8, 0, 1] ++
  tag "BODY" ++ [0, 0, 0, 4] ++ [2, 1, 2, 3]

/-! ## Stream lemmas -/

theorem SDL_ReadIO_data (src : SDL_IOStream) (n : Nat) :
    ( SDL_ReadIO src n).2.data = src.data := rfl

theorem SDL_SeekIO_set_tell (s t : SDL_IOStream) :
    ( SDL_SeekIO s ( SDL_TellIO t) SDL_IO_SEEK_SET).2 = { s with pos := t.pos } := by
  have h : ¬ ((t.pos : Int) < 0) := by omega
  simp [ SDL_SeekIO, SDL_TellIO, h]

theorem SDL_ReadU16LE_data (src : SDL_IOStream) :
    (SDL_ReadU16LE src).2.data = src.data := by
  unfold SDL_ReadU16LE
  split <;> rename_i h <;> rw [← SDL_ReadIO_data src 2, h]

theorem readICOHeader_data (src : SDL_IOStream) (type : Nat) :
    (readICOHeader src type).2.2.data = src.data := by
  unfold readICOHeader
  split
  · rename_i s h; have := SDL_ReadU16LE_data src; rw [h] at this; exact this
  · rename_i v s h
    have h1 := SDL_ReadU16LE_data src; rw [h] at h1
    split
    · rename_i s2 h2; have := SDL_ReadU16LE_data s; rw [h2] at this
      simp at this h1 ⊢; rw [this, h1]
    · rename_i v2 s2 h2
      have h3 := SDL_ReadU16LE_data s; rw [h2] at h3
      split
      · rename_i s3 h4; have := SDL_ReadU16LE_data s2; rw [h4] at this
        simp at this h1 h3 ⊢; rw [this, h3, h1]
      · rename_i v3 s3 h4; have := SDL_ReadU16LE_data s2; rw [h4] at this
        simp at this h1 h3 ⊢; rw [this, h3, h1]

/-- C1. Each of the four detectors leaves the stream as it found it: the
position after the call is the position before it (and the bytes are the
same), whatever the detector answers and however short its reads came up. -/
theorem detect_restores_position (src : SDL_IOStream) :
    (IMG_isBMP src).2 = src ∧ (IMG_isICO src).2 = src ∧
    (IMG_isCUR src).2 = src ∧ (IMG_isLBM src).2 = src := by
  refine ⟨?_, ?_, ?_, ?_⟩
  · simp only [IMG_isBMP]
    rw [SDL_SeekIO_set_tell]
    cases src; simp [ SDL_ReadIO]
  · simp only [IMG_isICO, IMG_isICOCUR]
    rw [SDL_SeekIO_set_tell]
    have := readICOHeader_data src ICON_TYPE_ICO
    cases src; simp_all
  · simp only [IMG_isCUR, IMG_isICOCUR]
    rw [SDL_SeekIO_set_tell]
    have := readICOHeader_data src ICON_TYPE_CUR
    cases src; simp_all
  · simp only [IMG_isLBM]
    rw [SDL_SeekIO_set_tell]
    cases src; simp [ SDL_ReadIO]

/-! ## Memory lemmas -/

theorem memWrite_length (buf : List Nat) (off : Nat) (a : List Nat)
    (h : off + a.length ≤ buf.length) : (memWrite buf off a).length = buf.length := by
  simp [memWrite]; omega

theorem memWrite_length_ge (buf : List Nat) (off : Nat) (a : List Nat)
    (h : off ≤ buf.length) : off + a.length ≤ (memWrite buf off a).length := by
  simp [memWrite]; omega

theorem getElem?_memWrite (buf : List Nat) (off : Nat) (a : List Nat) (k : Nat)
    (h : off ≤ buf.length) :
    (memWrite buf off a)[k]? =
      if k < off then buf[k]? else if k < off + a.length then a[k - off]? else buf[k]? := by
  unfold memWrite
  by_cases h1 : k < off
  · simp [h1, List.getElem?_append, List.getElem?_take, List.length_take, Nat.min_eq_left h]
  · by_cases h2 : k < off + a.length
    · simp only [h1, h2, if_true, if_false]
      rw [List.append_assoc, List.getElem?_append_right (by simp [Nat.min_eq_left h]; omega)]
      simp only [List.length_take, Nat.min_eq_left h]
      rw [List.getElem?_append_left (by omega)]
    · simp only [h1, h2, if_false]
      rw [List.append_assoc, List.getElem?_append_right (by simp [Nat.min_eq_left h]; omega)]
      simp only [List.length_take, Nat.min_eq_left h]
      rw [List.getElem?_append_right (by omega)]
      simp only [List.getElem?_drop]
      congr 1; omega

theorem getByte_memWrite (buf : List Nat) (off : Nat) (a : List Nat) (k : Nat)
    (h : off ≤ buf.length) :
    getByte (memWrite buf off a) k =
      if k < off then getByte buf k else if k < off + a.length then a.getD (k - off) 0
      else getByte buf k := by
  simp only [getByte, List.getD_eq_getElem?_getD, getElem?_memWrite buf off a k h]
  split_ifs <;> rfl

theorem memWrite_memWrite_append (buf : List Nat) (off : Nat) (a b : List Nat)
    (h : off ≤ buf.length) :
    memWrite (memWrite buf off a) (off + a.length) b = memWrite buf off (a ++ b) := by
  apply List.ext_getElem?
  intro k
  rw [getElem?_memWrite _ _ _ _ (memWrite_length_ge buf off a h),
    getElem?_memWrite _ _ _ _ h, getElem?_memWrite _ _ _ _ h]
  simp only [List.length_append]
  by_cases h1 : k < off
  · have : k < off + a.length := by omega
    simp [h1, this]
  · by_cases h2 : k < off + a.length
    · have : k < off + (a.length + b.length) := by omega
      simp only [h1, h2, this, if_true, if_false]
      rw [List.getElem?_append_left (by omega)]
    · by_cases h3 : k < off + a.length + b.length
      · have : k < off + (a.length + b.length) := by omega
        simp only [h1, h2, h3, this, if_true, if_false]
        rw [List.getElem?_append_right (by omega)]
        congr 1; omega
      · have : ¬ k < off + (a.length + b.length) := by omega
        simp only [h1, h2, h3, this, if_false]

theorem memRead_memWrite_same (buf : List Nat) (off : Nat) (a : List Nat)
    (h : off ≤ buf.length) : memRead (memWrite buf off a) off a.length = a := by
  unfold memRead
  apply List.ext_getElem?
  intro k
  simp only [List.getElem?_take, List.getElem?_drop]
  by_cases hk : k < a.length
  · simp only [hk, if_true]
    rw [getElem?_memWrite _ _ _ _ h]
    have h1 : ¬ off + k < off := by omega
    have h2 : off + k < off + a.length := by omega
    simp [h1, h2]
  · simp only [hk, if_false]
    rw [List.getElem?_eq_none (by omega)]

theorem memRead_memWrite_disjoint (buf : List Nat) (off : Nat) (a : List Nat) (o n : Nat)
    (h : off + a.length ≤ buf.length) (hd : o + n ≤ off ∨ off + a.length ≤ o) :
    memRead (memWrite buf off a) o n = memRead buf o n := by
  unfold memRead
  apply List.ext_getElem?
  intro k
  simp only [List.getElem?_take, List.getElem?_drop]
  by_cases hk : k < n
  · simp only [hk, if_true]
    rw [getElem?_memWrite _ _ _ _ (by omega)]
    rcases hd with hd | hd
    · have : o + k < off := by omega
      simp [this]
    · have h1 : ¬ o + k < off := by omega
      have h2 : ¬ o + k < off + a.length := by omega
      simp [h1, h2]
  · simp [hk]


/-! ## The byte-run loop -/

theorem memWrite_nil (buf : List Nat) (off : Nat) : memWrite buf off [] = buf := by
  simp [memWrite]

set_option maxRecDepth 100000 in
theorem byte_and_0x80 : ∀ c : Fin 256, (c.val &&& 0x80 ≠ 0) ↔ 128 ≤ c.val := by decide

set_option maxRecDepth 100000 in
theorem byte_xor_ff_add_two : ∀ c : Fin 256, 128 ≤ c.val →
    ((c.val ^^^ 0xFF) % 256 + 2) % 256 = 257 - c.val := by decide

theorem SDL_ReadIO_eq (s : SDL_IOStream) (n : Nat) :
    SDL_ReadIO s n = (((s.data.drop s.pos).take n).map Fin.val,
      { s with pos := s.pos + min n (s.data.length - s.pos) }) := by
  simp [ SDL_ReadIO]

theorem SDL_ReadIO_one_cons (s : SDL_IOStream) (c : Fin 256) (rest : List (Fin 256))
    (h : s.data.drop s.pos = c :: rest) :
    SDL_ReadIO s 1 = ([c.val], { s with pos := s.pos + 1 }) := by
  simp [ SDL_ReadIO, h]

theorem drop_succ_of_drop_cons {α : Type} (l : List α) (n : Nat) (c : α) (rest : List α)
    (h : l.drop n = c :: rest) : l.drop (n + 1) = rest := by
  rw [← List.drop_drop, h]; rfl

/-- the bytes that `SDL_ReadIO` returns are bytes -/
theorem SDL_ReadIO_lt (s : SDL_IOStream) (n : Nat) : ∀ b ∈ ( SDL_ReadIO s n).1, b < 256 := by
  intro b hb
  simp only [ SDL_ReadIO, List.mem_map] at hb
  obtain ⟨x, _, rfl⟩ := hb
  exact x.isLt

theorem SDL_ReadIO_length_le (s : SDL_IOStream) (n : Nat) : ( SDL_ReadIO s n).1.length ≤ n := by
  simp [ SDL_ReadIO]

theorem lbmRunStep_ok (st st' : LBMRun) (h : lbmRunStep st = Except.ok st') :
    ∃ bytes : List Nat, 1 ≤ bytes.length ∧ bytes.length ≤ st.remainingbytes ∧
      st'.ptr = st.ptr + bytes.length ∧
      st'.remainingbytes = st.remainingbytes - bytes.length ∧
      st'.MiniBuf = memWrite st.MiniBuf st.ptr bytes := by
  unfold lbmRunStep at h
  dsimp only at h
  split at h
  · rename_i count src hr
    have hc : count < 256 := SDL_ReadIO_lt st.src 1 count (by rw [hr]; simp)
    split at h
    · -- repeat
      rename_i hbit
      have h128 : 128 ≤ count := (byte_and_0x80 ⟨count, hc⟩).1 hbit
      have hcnt := byte_xor_ff_add_two ⟨count, hc⟩ h128
      simp only at hcnt
      simp only [hcnt] at h
      split at h
      · cases h
      · rename_i hfit
        split at h
        · injection h with h; subst h
          exact ⟨List.replicate (257 - count) _, by simp; omega, by simp; omega, by simp, by simp, rfl⟩
        · cases h
    · rename_i hbit
      have h128 : count < 128 := by
        by_contra hh
        exact hbit ((byte_and_0x80 ⟨count, hc⟩).2 (by simp; omega))
      have hcnt : (count + 1) % 256 = count + 1 := by omega
      simp only [hcnt] at h
      split at h
      · cases h
      · rename_i hfit
        split at h
        · cases h
        · rename_i hlen
          simp only [ne_eq, Decidable.not_not] at hlen
          injection h with h; subst h
          exact ⟨_, by omega, by omega, by simp [hlen], by simp [hlen], rfl⟩
  · cases h

theorem lbmRunStep_error (st e : LBMRun) (h : lbmRunStep st = Except.error e) :
    ∃ bytes : List Nat, bytes.length ≤ st.remainingbytes ∧
      e.ptr = st.ptr ∧ e.remainingbytes = st.remainingbytes ∧
      e.MiniBuf = memWrite st.MiniBuf st.ptr bytes := by
  unfold lbmRunStep at h
  dsimp only at h
  split at h
  · rename_i count src hr
    split at h
    · split at h
      · injection h with h; subst h
        exact ⟨[], by simp, rfl, rfl, (memWrite_nil _ _).symm⟩
      · split at h
        · cases h
        · injection h with h; subst h
          exact ⟨[], by simp, rfl, rfl, (memWrite_nil _ _).symm⟩
    · split at h
      · injection h with h; subst h
        exact ⟨[], by simp, rfl, rfl, (memWrite_nil _ _).symm⟩
      · rename_i hfit
        have hle := SDL_ReadIO_length_le src ((count + 1) % 256)
        split at h
        · injection h with h; subst h
          exact ⟨_, by omega, rfl, rfl, rfl⟩
        · cases h
  · injection h with h; subst h
    exact ⟨[], by simp, rfl, rfl, (memWrite_nil _ _).symm⟩


theorem lbmRunLoop_fuel : ∀ (fuel : Nat) (st : LBMRun), st.remainingbytes < fuel →
    lbmRunLoop fuel st ≠ none := by
  intro fuel
  induction fuel with
  | zero => intro st h; omega
  | succ n ih =>
    intro st h
    unfold lbmRunLoop
    split
    · simp
    · rename_i st' hs
      obtain ⟨bytes, h1, h2, _, h4, _⟩ := lbmRunStep_ok st st' hs
      split
      · exact ih st' (by omega)
      · simp

theorem lbmRunLoop_frame : ∀ (fuel : Nat) (st : LBMRun) (r : Except LBMRun LBMRun),
    lbmRunLoop fuel st = some r → st.ptr + st.remainingbytes ≤ st.MiniBuf.length →
    ∀ st', (r = Except.ok st' ∨ r = Except.error st') →
      st'.MiniBuf.length = st.MiniBuf.length ∧
      ∀ k, (k < st.ptr ∨ st.ptr + st.remainingbytes ≤ k) → st'.MiniBuf[k]? = st.MiniBuf[k]? := by
  intro fuel
  induction fuel with
  | zero => intro st r h; simp [lbmRunLoop] at h
  | succ n ih =>
    intro st r h hb st' hr
    unfold lbmRunLoop at h
    split at h
    · rename_i e he
      injection h with h; subst h
      rcases hr with hr | hr
      · cases hr
      · injection hr with hr; subst hr
        obtain ⟨bytes, h1, _, _, h4⟩ := lbmRunStep_error st e he
        rw [h4]
        refine ⟨memWrite_length _ _ _ (by omega), ?_⟩
        intro k hk
        rw [getElem?_memWrite _ _ _ _ (by omega)]
        rcases hk with hk | hk
        · simp [hk]
        · have h5 : ¬ k < st.ptr := by omega
          have h6 : ¬ k < st.ptr + bytes.length := by omega
          simp [h5, h6]
    · rename_i st1 hs
      obtain ⟨bytes, h1, h2, h3, h4, h5⟩ := lbmRunStep_ok st st1 hs
      have hlen : st1.MiniBuf.length = st.MiniBuf.length := by
        rw [h5]; exact memWrite_length _ _ _ (by omega)
      have hfr : ∀ k, (k < st.ptr ∨ st.ptr + st.remainingbytes ≤ k) →
          st1.MiniBuf[k]? = st.MiniBuf[k]? := by
        intro k hk
        rw [h5, getElem?_memWrite _ _ _ _ (by omega)]
        rcases hk with hk | hk
        · simp [hk]
        · have h5 : ¬ k < st.ptr := by omega
          have h6 : ¬ k < st.ptr + bytes.length := by omega
          simp [h5, h6]
      split at h
      · obtain ⟨i1, i2⟩ := ih st1 r h (by rw [hlen, h3, h4]; omega) st' hr
        refine ⟨by rw [i1, hlen], ?_⟩
        intro k hk
        rw [i2 k (by rw [h3, h4]; omega), hfr k hk]
      · injection h with h; subst h
        rcases hr with hr | hr
        · injection hr with hr; subst hr
          exact ⟨hlen, hfr⟩
        · cases hr

theorem lbmRunStep_overflow (st : LBMRun) (c : Fin 256) (rest : List (Fin 256))
    (hs : st.src.data.drop st.src.pos = c :: rest)
    (hreq : lbmRequested c.val > st.remainingbytes) :
    lbmRunStep st = Except.error { st with src := { st.src with pos := st.src.pos + 1 } } := by
  unfold lbmRunStep
  rw [SDL_ReadIO_one_cons st.src c rest hs]
  dsimp only
  unfold lbmRequested at hreq
  by_cases h128 : 128 ≤ c.val
  · have hbit := (byte_and_0x80 c).2 h128
    have hcnt := byte_xor_ff_add_two c h128
    rw [if_pos h128] at hreq
    rw [if_pos hbit, hcnt, if_pos hreq]
  · have hbit : ¬ (c.val &&& 0x80 ≠ 0) := fun hh => h128 ((byte_and_0x80 c).1 hh)
    rw [if_neg h128] at hreq
    have hcnt : (c.val + 1) % 256 = c.val + 1 := by omega
    rw [if_neg hbit, hcnt, if_pos hreq]

theorem lbmRunStep_repeat (st : LBMRun) (c color : Fin 256) (rest : List (Fin 256))
    (hs : st.src.data.drop st.src.pos = c :: color :: rest)
    (h128 : 128 ≤ c.val) (hfit : 257 - c.val ≤ st.remainingbytes) :
    lbmRunStep st = Except.ok
      { ptr := st.ptr + (257 - c.val),
        remainingbytes := st.remainingbytes - (257 - c.val),
        MiniBuf := memWrite st.MiniBuf st.ptr (List.replicate (257 - c.val) color.val),
        src := { st.src with pos := st.src.pos + 2 } } := by
  unfold lbmRunStep
  rw [SDL_ReadIO_one_cons st.src c _ hs]
  dsimp only
  have hbit := (byte_and_0x80 c).2 h128
  have hcnt := byte_xor_ff_add_two c h128
  have hfit2 : ¬ (257 - c.val > st.remainingbytes) := by omega
  rw [if_pos hbit, hcnt, if_neg hfit2]
  rw [SDL_ReadIO_one_cons ⟨st.src.data, st.src.pos + 1⟩ color rest
    (drop_succ_of_drop_cons _ _ _ _ hs)]


/-! ## Planar to chunky -/

theorem setByte_length (buf : List Nat) (i v : Nat) (h : i < buf.length) :
    (setByte buf i v).length = buf.length :=
  memWrite_length buf i [v] (by simpa using h)

theorem getByte_setByte (buf : List Nat) (i v k : Nat) (h : i < buf.length) :
    getByte (setByte buf i v) k = if k = i then v else getByte buf k := by
  unfold setByte
  rw [getByte_memWrite _ _ _ _ (Nat.le_of_lt h)]
  by_cases h1 : k < i
  · have : k ≠ i := by omega
    simp [h1, this]
  · by_cases h2 : k = i
    · subst h2; simp
    · have : ¬ k < i + 1 := by omega
      simp [h1, h2, this]

theorem and_two_pow_eq (n k : Nat) : n &&& 2 ^ k = (n / 2 ^ k % 2) * 2 ^ k := by
  apply Nat.eq_of_testBit_eq
  intro i
  rw [Nat.testBit_and, Nat.testBit_two_pow]
  rcases Nat.mod_two_eq_zero_or_one (n / 2 ^ k) with h | h
  · rw [h]
    by_cases hki : k = i
    · subst hki
      simp [Nat.testBit_to_div_mod, h]
    · simp [hki]
  · rw [h]
    by_cases hki : k = i
    · subst hki
      simp [Nat.testBit_to_div_mod, h, Nat.testBit_two_pow]
    · simp [hki, Nat.testBit_two_pow]

theorem planeVal_eq (color plane j : Nat) (hj : j < 8) :
    planeVal color plane j = ((color >>> (7 - j)) % 2) * 2 ^ plane := by
  have hm : (0x80 : Nat) >>> j = 2 ^ (7 - j) := by
    interval_cases j <;> rfl
  have hb : (color / 2 ^ (7 - j)) % 2 < 2 := Nat.mod_lt _ (by decide)
  have hp : 2 ^ (7 - j) ≤ 128 := by
    interval_cases j <;> decide
  unfold planeVal
  rw [hm, and_two_pow_eq, Nat.shiftRight_eq_div_pow color]
  generalize (color / 2 ^ (7 - j)) % 2 = b at hb ⊢
  have hlt : b * 2 ^ (7 - j) < 256 := by
    have : b * 2 ^ (7 - j) ≤ 1 * 128 := Nat.mul_le_mul (by omega) hp
    omega
  rw [Nat.mod_eq_of_lt hlt]
  split
  · rename_i h
    rw [Nat.shiftRight_eq_div_pow]
    have : 2 ^ (7 - j) = 2 ^ plane * 2 ^ (7 - plane - j) := by
      rw [← Nat.pow_add]; congr 1; omega
    rw [this, ← Nat.mul_assoc, Nat.mul_div_cancel _ (Nat.pow_pos (by decide))]
  · rename_i h
    rw [Nat.shiftLeft_eq, Nat.mul_assoc, ← Nat.pow_add]
    congr 2; omega

theorem lbmBitLoop_spec (color plane ptr : Nat) : ∀ (n j msk : Nat) (pixels : List Nat),
    ptr + j + n ≤ pixels.length → msk = 0x80 >>> j →
    (lbmBitLoop color plane ptr n j msk pixels).length = pixels.length ∧
    ∀ k, getByte (lbmBitLoop color plane ptr n j msk pixels) k =
      if ptr + j ≤ k ∧ k < ptr + j + n then
        (getByte pixels k ||| planeVal color plane (k - ptr)) % 256
      else getByte pixels k := by
  intro n
  induction n with
  | zero =>
    intro j msk pixels _ _
    refine ⟨rfl, ?_⟩
    intro k
    have : ¬ (ptr + j ≤ k ∧ k < ptr + j + 0) := by omega
    rw [if_neg this]
    rfl
  | succ n ih =>
    intro j msk pixels hlen hmsk
    unfold lbmBitLoop
    dsimp only
    have hset : ptr + j < pixels.length := by omega
    have hm' : msk >>> 1 = 0x80 >>> (j + 1) := by
      rw [hmsk, Nat.shiftRight_add]
    obtain ⟨i1, i2⟩ := ih (j + 1) (msk >>> 1)
      (setByte pixels (ptr + j) ((getByte pixels (ptr + j) |||
        if plane + j ≤ 7 then ((color &&& msk) % 256) >>> (7 - plane - j)
        else ((color &&& msk) % 256) <<< (plane + j - 7)) % 256))
      (by rw [setByte_length _ _ _ hset]; omega) hm'
    refine ⟨by rw [i1, setByte_length _ _ _ hset], ?_⟩
    intro k
    rw [i2 k, getByte_setByte _ _ _ _ hset]
    by_cases hk : k = ptr + j
    · subst hk
      have h1 : ¬ (ptr + (j + 1) ≤ ptr + j ∧ ptr + j < ptr + (j + 1) + n) := by omega
      have h2 : ptr + j ≤ ptr + j ∧ ptr + j < ptr + j + (n + 1) := by omega
      simp only [h1, h2, if_true, if_false, and_self]
      have : ptr + j - ptr = j := by omega
      rw [this, hmsk]
      rfl
    · by_cases hr : ptr + (j + 1) ≤ k ∧ k < ptr + (j + 1) + n
      · have h2 : ptr + j ≤ k ∧ k < ptr + j + (n + 1) := by omega
        simp only [hr, h2, hk, if_true, if_false, and_self]
      · have h2 : ¬ (ptr + j ≤ k ∧ k < ptr + j + (n + 1)) := by omega
        simp only [hr, h2, hk, if_false]


theorem planeSum_succ (MiniBuf : List Nat) (bpl n x : Nat) :
    planeSum MiniBuf bpl (n + 1) x = planeSum MiniBuf bpl n x + planeBit MiniBuf bpl n x * 2 ^ n := by
  simp [planeSum, Finset.sum_range_succ]

theorem planeBit_le (MiniBuf : List Nat) (bpl p x : Nat) : planeBit MiniBuf bpl p x ≤ 1 := by
  unfold planeBit
  have := Nat.mod_lt (getByte MiniBuf (x / 8 + p * bpl) >>> (7 - x % 8)) (by decide : 0 < 2)
  omega

theorem planeSum_lt (MiniBuf : List Nat) (bpl x : Nat) : ∀ n, planeSum MiniBuf bpl n x < 2 ^ n := by
  intro n
  induction n with
  | zero => simp [planeSum]
  | succ n ih =>
    rw [planeSum_succ, Nat.pow_succ]
    have h1 := planeBit_le MiniBuf bpl n x
    have : planeBit MiniBuf bpl n x * 2 ^ n ≤ 1 * 2 ^ n := Nat.mul_le_mul_right _ h1
    omega

theorem or_plane_step (s b p : Nat) (hs : s < 2 ^ p) :
    ((s % 256) ||| (b * 2 ^ p)) % 256 = (s + b * 2 ^ p) % 256 := by
  have h1 : s % 256 < 2 ^ p := Nat.lt_of_le_of_lt (Nat.mod_le _ _) hs
  have := Nat.mul_add_lt_is_or h1 b
  rw [Nat.lor_comm, Nat.mul_comm b, ← this, Nat.add_comm (2 ^ p * b), Nat.mod_add_mod]

theorem lbmPlaneLoop_spec (MiniBuf : List Nat) (bpl i ptr : Nat) :
    ∀ (n plane : Nat) (pixels : List Nat), ptr + 8 ≤ pixels.length →
    (∀ j, j < 8 → getByte pixels (ptr + j) = planeSum MiniBuf bpl plane (8 * i + j) % 256) →
    (lbmPlaneLoop MiniBuf bpl i ptr n plane pixels).length = pixels.length ∧
    (∀ k, (k < ptr ∨ ptr + 8 ≤ k) →
      getByte (lbmPlaneLoop MiniBuf bpl i ptr n plane pixels) k = getByte pixels k) ∧
    (∀ j, j < 8 → getByte (lbmPlaneLoop MiniBuf bpl i ptr n plane pixels) (ptr + j)
      = planeSum MiniBuf bpl (plane + n) (8 * i + j) % 256) := by
  intro n
  induction n with
  | zero =>
    intro plane pixels _ hinv
    exact ⟨rfl, fun _ _ => rfl, hinv⟩
  | succ n ih =>
    intro plane pixels hlen hinv
    unfold lbmPlaneLoop
    dsimp only
    obtain ⟨b1, b2⟩ := lbmBitLoop_spec (getByte MiniBuf (i + plane * bpl)) plane ptr 8 0 0x80
      pixels (by omega) rfl
    obtain ⟨i1, i2, i3⟩ := ih (plane + 1)
      (lbmBitLoop (getByte MiniBuf (i + plane * bpl)) plane ptr 8 0 0x80 pixels)
      (by rw [b1]; exact hlen)
      (by
        intro j hj
        rw [b2 (ptr + j)]
        have h1 : ptr + 0 ≤ ptr + j ∧ ptr + j < ptr + 0 + 8 := by omega
        rw [if_pos h1, hinv j hj]
        have h2 : ptr + j - ptr = j := by omega
        rw [h2, planeVal_eq _ _ _ hj, planeSum_succ, or_plane_step _ _ _ (planeSum_lt _ _ _ _)]
        unfold planeBit
        have h3 : (8 * i + j) / 8 = i := by omega
        have h4 : (8 * i + j) % 8 = j := by omega
        rw [h3, h4])
    refine ⟨by rw [i1, b1], ?_, ?_⟩
    · intro k hk
      rw [i2 k hk, b2 k]
      have : ¬ (ptr + 0 ≤ k ∧ k < ptr + 0 + 8) := by omega
      rw [if_neg this]
    · intro j hj
      rw [i3 j hj]
      have : plane + 1 + n = plane + (n + 1) := by omega
      rw [this]


theorem getD_replicate_zero (n k : Nat) : (List.replicate n 0).getD k 0 = 0 := by
  rw [List.getD_eq_getElem?_getD, List.getElem?_replicate]
  split <;> rfl

theorem lbmDeinterleave_spec (MiniBuf : List Nat) (bpl nplanes : Nat) :
    ∀ (n i ptr : Nat) (pixels : List Nat), ptr + 8 * n ≤ pixels.length →
    (lbmDeinterleave MiniBuf bpl nplanes n i ptr pixels).length = pixels.length ∧
    (∀ k, k < ptr → getByte (lbmDeinterleave MiniBuf bpl nplanes n i ptr pixels) k
      = getByte pixels k) ∧
    (∀ m j, m < n → j < 8 →
      getByte (lbmDeinterleave MiniBuf bpl nplanes n i ptr pixels) (ptr + 8 * m + j)
        = planeSum MiniBuf bpl nplanes (8 * (i + m) + j) % 256) := by
  intro n
  induction n with
  | zero =>
    intro i ptr pixels _
    exact ⟨rfl, fun _ _ => rfl, fun m j hm _ => absurd hm (by omega)⟩
  | succ n ih =>
    intro i ptr pixels hlen
    unfold lbmDeinterleave
    dsimp only
    have hz : (memWrite pixels ptr (List.replicate 8 0)).length = pixels.length :=
      memWrite_length _ _ _ (by simp; omega)
    obtain ⟨p1, p2, p3⟩ := lbmPlaneLoop_spec MiniBuf bpl i ptr nplanes 0
      (memWrite pixels ptr (List.replicate 8 0)) (by rw [hz]; omega)
      (by
        intro j hj
        rw [getByte_memWrite _ _ _ _ (by omega)]
        have h1 : ¬ ptr + j < ptr := by omega
        have h2 : ptr + j < ptr + (List.replicate 8 0).length := by simp; omega
        rw [if_neg h1, if_pos h2, getD_replicate_zero]
        simp [planeSum])
    obtain ⟨i1, i2, i3⟩ := ih (i + 1) (ptr + 8)
      (lbmPlaneLoop MiniBuf bpl i ptr nplanes 0 (memWrite pixels ptr (List.replicate 8 0)))
      (by rw [p1, hz]; omega)
    refine ⟨by rw [i1, p1, hz], ?_, ?_⟩
    · intro k hk
      rw [i2 k (by omega), p2 k (Or.inl hk), getByte_memWrite _ _ _ _ (by omega), if_pos hk]
    · intro m j hm hj
      cases m with
      | zero =>
        have e : ptr + 8 * 0 + j = ptr + j := by omega
        rw [e, i2 _ (by omega), p3 j hj, Nat.zero_add, Nat.add_zero]
      | succ m =>
        have h1 : ptr + 8 * (m + 1) + j = ptr + 8 + 8 * m + j := by omega
        have h2 : i + (m + 1) = i + 1 + m := by omega
        rw [h1, h2]
        exact i3 m j (by omega) hj



/-! ## The TGA row loop -/

theorem streamRest_length (src : SDL_IOStream) :
    (streamRest src).length = src.data.length - src.pos := by
  simp [streamRest]

theorem readExact_eq (src : SDL_IOStream) (n : Nat) :
    readExact src n =
      if n ≤ (streamRest src).length then
        (some ((streamRest src).take n), { src with pos := src.pos + n })
      else (none, { src with pos := src.pos + (streamRest src).length }) := by
  simp only [readExact, SDL_ReadIO, streamRest, List.length_map, List.length_take,
    List.length_drop, List.map_take]
  by_cases h : n ≤ src.data.length - src.pos
  · simp [h, Nat.min_eq_left h]
  · have h1 : min n (src.data.length - src.pos) = src.data.length - src.pos := by omega
    have h2 : ¬ (src.data.length - src.pos = n) := by omega
    simp [h, h1, h2]

theorem streamRest_advance (src : SDL_IOStream) (n : Nat) :
    streamRest { src with pos := src.pos + n } = (streamRest src).drop n := by
  simp [streamRest, List.drop_drop, List.map_drop, Nat.add_comm]

theorem ByteSrc.readExact_tracks (ls : ByteSrc) (src0 : SDL_IOStream) (n : Nat)
    (h : ls.Tracks src0) : (ls.readExact n).2.Tracks src0 := by
  unfold ByteSrc.Tracks at h ⊢
  unfold ByteSrc.readExact
  split
  · simp only [ByteSrc.toStream] at h ⊢
    rw [← Nat.add_assoc, streamRest_advance { src0 with pos := src0.pos + ls.used } n, ← h]
  · simp only [ByteSrc.toStream] at h ⊢
    rw [← Nat.add_assoc, streamRest_advance { src0 with pos := src0.pos + ls.used }, ← h]
    simp

theorem readExact_toStream (ls : ByteSrc) (src0 : SDL_IOStream) (n : Nat)
    (h : ls.Tracks src0) :
    readExact (ls.toStream src0) n = ((ls.readExact n).1, (ls.readExact n).2.toStream src0) := by
  unfold ByteSrc.Tracks at h
  rw [readExact_eq, ← h]
  unfold ByteSrc.readExact
  split <;> simp [ByteSrc.toStream, Nat.add_assoc]

theorem memWrite_memWrite_append' (buf : List Nat) (off : Nat) (a b : List Nat) :
    memWrite (memWrite buf off a) (off + a.length) b = memWrite buf off (a ++ b) := by
  by_cases h : off ≤ buf.length
  · exact memWrite_memWrite_append buf off a b h
  · have h1 : List.take off buf = buf := List.take_of_length_le (by omega)
    have h2 : ∀ n, List.drop (off + n) buf = [] := fun n => List.drop_of_length_le (by omega)
    unfold memWrite
    rw [h1, h2, h2, List.append_nil]
    have h3 : List.take (off + a.length) (buf ++ a) = buf ++ a :=
      List.take_of_length_le (by simp; omega)
    have h4 : List.drop (off + a.length + b.length) (buf ++ a) = [] :=
      List.drop_of_length_le (by simp; omega)
    rw [h3, h4]
    simp

theorem tgaRepFill_eq (bpp : Nat) (dst : Int) (hdst : 0 ≤ dst) (pv pixels0 : List Nat)
    (hpv : (pv.take bpp).length = bpp) :
    ∀ (n x : Nat) (acc : List Nat), acc.length = x * bpp →
    tgaRepFill bpp dst pv n x (memWrite pixels0 dst.toNat acc) =
      (memWrite pixels0 dst.toNat (acc ++ (List.replicate n (pv.take bpp)).flatten), x + n) := by
  intro n
  induction n with
  | zero => intro x acc _; simp [tgaRepFill]
  | succ n ih =>
    intro x acc hacc
    unfold tgaRepFill
    have hoff : (dst + ((x * bpp : Nat) : Int)).toNat = dst.toNat + acc.length := by
      rw [hacc]; omega
    rw [hoff, memWrite_memWrite_append', ih (x + 1) (acc ++ pv.take bpp)
      (by rw [List.length_append, hacc, hpv, Nat.add_mul, Nat.one_mul])]
    simp [List.replicate_succ, Nat.add_assoc, Nat.add_comm 1 n]

theorem ByteSrc.readExact_length (ls : ByteSrc) (n : Nat) (b : List Nat) (s : ByteSrc)
    (h : ls.readExact n = (some b, s)) : b.length = n := by
  unfold ByteSrc.readExact at h
  split at h
  · rename_i hn
    injection h with h1 h2
    injection h1 with h1
    subst h1
    simp [hn]
  · injection h with h1 h2
    cases h1

theorem tgaRlePacket_eq (bpp : Nat) (hbpp : bpp ≤ 4) (pixels0 : List Nat) (d : Nat)
    (src0 : SDL_IOStream)
    (f : Nat → TGARle → List Nat → SDL_IOStream → TGARowResult)
    (g : Nat → TGARle → List Nat → ByteSrc → TGARowResultL)
    (hfg : RowAgree bpp pixels0 d src0 f g) :
    RowAgree bpp pixels0 d src0 (tgaRlePacket bpp f) (tgaRlePacketL bpp g) := by
  intro x st acc ls hpv hacc htr
  unfold tgaRlePacket tgaRlePacketL
  rw [readExact_toStream ls src0 1 htr]
  have htr1 := ByteSrc.readExact_tracks ls src0 1 htr
  rcases h1 : ls.readExact 1 with ⟨_ | cb, ls1⟩
  · rfl
  · rw [h1] at htr1
    dsimp only
    split
    · rw [readExact_toStream ls1 src0 bpp htr1]
      have htr2 := ByteSrc.readExact_tracks ls1 src0 bpp htr1
      rcases h2 : ls1.readExact bpp with ⟨_ | pv, ls2⟩
      · rfl
      · rw [h2] at htr2
        dsimp only
        have hl := ByteSrc.readExact_length ls1 bpp pv ls2 h2
        exact hfg x _ acc ls2
          (by simp only; rw [memWrite_length _ _ _ (by omega)]; exact hpv) hacc htr2
    · exact hfg x _ acc ls1 hpv hacc htr1

theorem tgaRleRow_eq (w bpp : Nat) (dst : Int) (hdst : 0 ≤ dst) (hbpp : bpp ≤ 4)
    (pixels0 : List Nat) (src0 : SDL_IOStream) :
    ∀ fuel, RowAgree bpp pixels0 dst.toNat src0 (tgaRleRow w bpp dst fuel)
      (tgaRleRowL w bpp fuel) := by
  intro fuel
  induction fuel with
  | zero => intro x st acc ls _ _ _; rfl
  | succ fuel ih =>
    have hp := tgaRlePacket_eq bpp hbpp pixels0 dst.toNat src0 _ _ ih
    intro x st acc ls hpv hacc htr
    unfold tgaRleRow tgaRleRowL
    have hoff : (dst + ((x * bpp : Nat) : Int)).toNat = dst.toNat + acc.length := by
      rw [hacc]; omega
    split
    · -- raw packet under way
      dsimp only
      generalize hn : (if st.count > w - x then w - x else st.count) = n
      rw [readExact_toStream ls src0 _ htr]
      have htr1 := ByteSrc.readExact_tracks ls src0 (n * bpp) htr
      rcases h1 : ls.readExact (n * bpp) with ⟨_ | bytes, ls1⟩
      · rfl
      · rw [h1] at htr1
        dsimp only
        have hl := ByteSrc.readExact_length ls (n * bpp) bytes ls1 h1
        rw [hoff, memWrite_memWrite_append']
        split
        · rfl
        · exact hp (x + n) _ (acc ++ bytes) ls1 hpv
            (by rw [List.length_append, hacc, hl, Nat.add_mul]) htr1
    · split
      · -- run under way
        dsimp only
        generalize hn : (if st.rep > w - x then w - x else st.rep) = n
        have hpvl : (st.pixelvalue.take bpp).length = bpp := by
          rw [List.length_take]; omega
        rw [tgaRepFill_eq bpp dst hdst st.pixelvalue pixels0 hpvl n x acc hacc]
        dsimp only
        split
        · rfl
        · exact hp (x + n) _ _ ls hpv
            (by
              rw [List.length_append, hacc, List.length_flatten]
              simp [hpvl, Nat.add_mul]) htr
      · exact hp x st acc ls hpv hacc htr

theorem tgaExpandAux_fuel (bpp : Nat) : ∀ (f1 f2 : Nat) (l : List Nat),
    l.length ≤ f1 → l.length ≤ f2 → tgaExpandAux bpp f1 l = tgaExpandAux bpp f2 l := by
  intro f1
  induction f1 with
  | zero =>
    intro f2 l h1 _
    have : l = [] := List.length_eq_zero.mp (by omega)
    subst this
    cases f2 <;> rfl
  | succ f1 ih =>
    intro f2 l h1 h2
    cases l with
    | nil => cases f2 <;> rfl
    | cons c rest =>
      cases f2 with
      | zero => simp at h2
      | succ f2 =>
        simp only [List.length_cons] at h1 h2
        unfold tgaExpandAux
        rw [ih f2 (rest.drop ((c + 1) * bpp)) (by simp; omega) (by simp; omega),
          ih f2 (rest.drop bpp) (by simp; omega) (by simp; omega)]

theorem tgaExpand_cons (bpp c : Nat) (rest : List Nat) :
    tgaExpand bpp (c :: rest) =
      if c < 128 then
        rest.take ((c + 1) * bpp) ++ tgaExpand bpp (rest.drop ((c + 1) * bpp))
      else if rest.length < bpp then []
      else (List.replicate ((c &&& 0x7f) + 1) (rest.take bpp)).flatten
        ++ tgaExpand bpp (rest.drop bpp) := by
  have e : tgaExpandAux bpp (rest.length + 1) (c :: rest) =
      if c < 128 then
        rest.take ((c + 1) * bpp) ++ tgaExpandAux bpp rest.length (rest.drop ((c + 1) * bpp))
      else if rest.length < bpp then []
      else (List.replicate ((c &&& 0x7f) + 1) (rest.take bpp)).flatten
        ++ tgaExpandAux bpp rest.length (rest.drop bpp) := rfl
  unfold tgaExpand
  simp only [List.length_cons]
  rw [e, tgaExpandAux_fuel bpp rest.length (rest.drop ((c + 1) * bpp)).length _ (by simp) (by simp),
    tgaExpandAux_fuel bpp rest.length (rest.drop bpp).length _ (by simp) (by simp)]

theorem ByteSrc.readExact_some (ls : ByteSrc) (n : Nat) (b : List Nat) (s : ByteSrc)
    (h : ls.readExact n = (some b, s)) :
    n ≤ ls.rest.length ∧ b = ls.rest.take n ∧ s.rest = ls.rest.drop n := by
  unfold ByteSrc.readExact at h
  split at h
  · rename_i hn
    injection h with h1 h2
    injection h1 with h1
    subst h1 h2
    exact ⟨hn, rfl, rfl⟩
  · injection h with h1 h2
    cases h1

theorem byte_and_0x80_nat (c : Nat) (hc : c < 256) : (c &&& 0x80 ≠ 0) ↔ 128 ≤ c :=
  byte_and_0x80 ⟨c, hc⟩

theorem tgaRlePacketL_facts (w bpp : Nat) (hbpp : bpp ≤ 4)
    (g : Nat → TGARle → List Nat → ByteSrc → TGARowResultL) (hg : RowFactsAll w bpp g)
    (x : Nat) (st : TGARle) (acc : List Nat) (ls : ByteSrc)
    (hx : x ≤ w) (hpv : st.pixelvalue.length = 4) (hc : st.count = 0) (hr : st.rep = 0)
    (hb : ∀ b ∈ ls.rest, b < 256) :
    RowFacts w bpp x st acc ls (tgaRlePacketL bpp g x st acc ls) := by
  intro st' acc' ls' hres
  unfold tgaRlePacketL at hres
  rcases h1 : ls.readExact 1 with ⟨_ | cb, ls1⟩
  · rw [h1] at hres; simp at hres
  · rw [h1] at hres
    dsimp only at hres
    obtain ⟨hn1, hcb, hrest1⟩ := ByteSrc.readExact_some ls 1 cb ls1 h1
    obtain ⟨c, rest1, hls⟩ : ∃ c rest1, ls.rest = c :: rest1 := by
      cases hl : ls.rest with
      | nil => rw [hl] at hn1; simp at hn1
      | cons c r => exact ⟨c, r, rfl⟩
    rw [hls] at hcb hrest1
    simp only [List.take_succ_cons, List.take_zero, List.drop_succ_cons, List.drop_zero] at hcb hrest1
    subst hcb
    simp only [List.getD_cons_zero] at hres
    have hc256 : c < 256 := hb c (by rw [hls]; simp)
    have hb1 : ∀ b ∈ ls1.rest, b < 256 := by
      intro b hb'
      exact hb b (by rw [hls, ← hrest1]; exact List.mem_cons_of_mem _ hb')
    have hpend : tgaPend bpp st ls.rest = tgaExpand bpp (c :: rest1) := by
      simp [tgaPend, hc, hr, hls]
    rw [hpend, tgaExpand_cons]
    split at hres
    · rename_i hbit
      have h128 : ¬ c < 128 := by
        have := (byte_and_0x80_nat c hc256).1 hbit
        omega
      rcases h2 : ls1.readExact bpp with ⟨_ | pv, ls2⟩
      · rw [h2] at hres; simp at hres
      · rw [h2] at hres
        dsimp only at hres
        obtain ⟨hn2, hpv2, hrest2⟩ := ByteSrc.readExact_some ls1 bpp pv ls2 h2
        rw [hrest1] at hn2 hpv2 hrest2
        have hpvl : pv.length = bpp := by rw [hpv2, List.length_take]; omega
        have hb2 : ∀ b ∈ ls2.rest, b < 256 := by
          intro b hb'
          rw [hrest2] at hb'
          exact hb1 b (by rw [hrest1]; exact List.mem_of_mem_drop hb')
        obtain ⟨bytes, e1, e2, e3, e4, e5, e6, e7⟩ := hg x
          { count := st.count, rep := (c &&& 127) + 1,
            pixelvalue := memWrite st.pixelvalue 0 pv } acc ls2 hx
          (by rw [memWrite_length _ _ _ (by omega)]; exact hpv)
          (Or.inl hc) hb2 st' acc' ls' hres
        refine ⟨bytes, e1, e2, e3, e4, e5, ?_, fun src0 h => e7 src0 ?_⟩
        rotate_left
        · have t1 := ByteSrc.readExact_tracks ls src0 1 h
          rw [h1] at t1
          have t2 := ByteSrc.readExact_tracks ls1 src0 bpp t1
          rw [h2] at t2
          exact t2
        rw [← e6]
        have hlt : ¬ rest1.length < bpp := by omega
        rw [if_neg h128, if_neg hlt]
        have htk : (memWrite st.pixelvalue 0 pv).take bpp = pv := by
          have := memRead_memWrite_same st.pixelvalue 0 pv (by omega)
          simpa [memRead, hpvl] using this
        simp only [tgaPend, hc, htk, hrest2, ne_eq, not_true_eq_false, if_false,
          Nat.add_one_ne_zero, not_false_eq_true, if_true]
        rw [hpv2]
    · rename_i hbit
      have h128 : c < 128 := by
        by_contra hh
        exact hbit ((byte_and_0x80_nat c hc256).2 (by omega))
      obtain ⟨bytes, e1, e2, e3, e4, e5, e6, e7⟩ := hg x
        { count := c + 1, rep := st.rep, pixelvalue := st.pixelvalue } acc ls1 hx hpv
        (Or.inr hr) hb1 st' acc' ls' hres
      refine ⟨bytes, e1, e2, e3, e4, e5, ?_, fun src0 h => e7 src0 ?_⟩
      rotate_left
      · have t1 := ByteSrc.readExact_tracks ls src0 1 h
        rw [h1] at t1
        exact t1
      rw [← e6, if_pos h128]
      simp [tgaPend, hrest1]

theorem flatten_replicate_add (a b : Nat) (l : List Nat) :
    (List.replicate (a + b) l).flatten
      = (List.replicate a l).flatten ++ (List.replicate b l).flatten := by
  rw [List.replicate_add, List.flatten_append]

theorem length_flatten_replicate (n : Nat) (l : List Nat) :
    (List.replicate n l).flatten.length = n * l.length := by
  induction n with
  | zero => simp
  | succ n ih => simp [List.replicate_succ, ih, Nat.add_mul, Nat.add_comm]

theorem tgaRleRowL_facts (w bpp : Nat) (hbpp : bpp ≤ 4) :
    ∀ fuel, RowFactsAll w bpp (tgaRleRowL w bpp fuel) := by
  intro fuel
  induction fuel with
  | zero =>
    intro x st acc ls _ _ _ _ st' acc' ls' h
    simp [tgaRleRowL] at h
  | succ fuel ih =>
    intro x st acc ls hx hpv hinv hb st' acc' ls' hres
    unfold tgaRleRowL at hres
    split at hres
    · -- raw packet under way
      rename_i hcnt
      have hrep : st.rep = 0 := by
        rcases hinv with h | h
        · exact absurd h hcnt
        · exact h
      dsimp only at hres
      generalize hn : (if st.count > w - x then w - x else st.count) = n at hres
      have hnle : n ≤ st.count ∧ n ≤ w - x := by
        rw [← hn]; split <;> omega
      rcases h1 : ls.readExact (n * bpp) with ⟨_ | bytes, ls1⟩
      · rw [h1] at hres; simp at hres
      · rw [h1] at hres
        dsimp only at hres
        obtain ⟨hn1, hbytes, hrest1⟩ := ByteSrc.readExact_some ls (n * bpp) bytes ls1 h1
        have hbl : bytes.length = n * bpp := by rw [hbytes, List.length_take]; omega
        have hb1 : ∀ b ∈ ls1.rest, b < 256 := by
          intro b hb'
          rw [hrest1] at hb'
          exact hb b (List.mem_of_mem_drop hb')
        have hpend : tgaPend bpp st ls.rest =
            bytes ++ tgaPend bpp { st with count := st.count - n } ls1.rest := by
          simp only [tgaPend, hcnt, hrep, ne_eq, not_false_eq_true, if_true, hrest1,
            not_true_eq_false, if_false]
          by_cases hz : st.count - n = 0
          · have : n = st.count := by omega
            subst this
            simp [hbytes]
          · have hsplit : st.count * bpp = n * bpp + (st.count - n) * bpp := by
              rw [← Nat.add_mul]; congr 1; omega
            simp only [hz, not_false_eq_true, if_true]
            rw [hbytes, ← List.append_assoc, ← List.take_add, List.drop_drop, ← hsplit]
        split at hres
        · rename_i hxw
          injection hres with hres
          injection hres with hres
          simp only [Prod.mk.injEq] at hres
          obtain ⟨r1, r2, r3⟩ := hres
          subst r1 r2 r3
          refine ⟨bytes, rfl, ?_, hpv, Or.inr hrep, hb1, hpend, ?_⟩
          · rw [hbl]; congr 1; omega
          · intro src0 h
            have t1 := ByteSrc.readExact_tracks ls src0 (n * bpp) h
            rw [h1] at t1
            exact t1
        · rename_i hxw
          have hz : st.count - n = 0 := by
            have hcases : n = w - x ∨ n = st.count := by
              rw [← hn]; split
              · exact Or.inl rfl
              · exact Or.inr rfl
            omega
          obtain ⟨bytes2, e1, e2, e3, e4, e5, e6, e7⟩ := tgaRlePacketL_facts w bpp hbpp _ ih
            (x + n) { st with count := st.count - n } (acc ++ bytes) ls1 (by omega) hpv hz hrep
            hb1 st' acc' ls' hres
          refine ⟨bytes ++ bytes2, by rw [e1, List.append_assoc], ?_, e3, e4, e5, ?_, ?_⟩
          · rw [List.length_append, hbl, e2, ← Nat.add_mul]; congr 1; omega
          · rw [hpend, e6, List.append_assoc]
          · intro src0 h
            have t1 := ByteSrc.readExact_tracks ls src0 (n * bpp) h
            rw [h1] at t1
            exact e7 src0 t1
    · rename_i hcnt
      have hcnt0 : st.count = 0 := by omega
      split at hres
      · -- run under way
        rename_i hrep
        dsimp only at hres
        generalize hn : (if st.rep > w - x then w - x else st.rep) = n at hres
        have hnle : n ≤ st.rep ∧ n ≤ w - x := by
          rw [← hn]; split <;> omega
        have hpvl : (st.pixelvalue.take bpp).length = bpp := by
          rw [List.length_take]; omega
        have hpend : tgaPend bpp st ls.rest =
            (List.replicate n (st.pixelvalue.take bpp)).flatten
              ++ tgaPend bpp { st with rep := st.rep - n } ls.rest := by
          simp only [tgaPend, hcnt0, hrep, ne_eq, not_false_eq_true, if_true,
            not_true_eq_false, if_false]
          by_cases hz : st.rep - n = 0
          · have : n = st.rep := by omega
            subst this
            simp
          · simp only [hz, not_false_eq_true, if_true]
            rw [← List.append_assoc, ← flatten_replicate_add]
            congr 3; omega
        split at hres
        · rename_i hxw
          injection hres with hres
          injection hres with hres
          simp only [Prod.mk.injEq] at hres
          obtain ⟨r1, r2, r3⟩ := hres
          subst r1 r2 r3
          refine ⟨_, rfl, ?_, hpv, Or.inl hcnt0, hb, hpend, fun _ h => h⟩
          rw [length_flatten_replicate, hpvl]; congr 1; omega
        · rename_i hxw
          have hz : st.rep - n = 0 := by
            have hcases : n = w - x ∨ n = st.rep := by
              rw [← hn]; split
              · exact Or.inl rfl
              · exact Or.inr rfl
            omega
          obtain ⟨bytes2, e1, e2, e3, e4, e5, e6, e7⟩ := tgaRlePacketL_facts w bpp hbpp _ ih
            (x + n) { st with rep := st.rep - n }
            (acc ++ (List.replicate n (st.pixelvalue.take bpp)).flatten) ls (by omega) hpv
            hcnt0 hz hb st' acc' ls' hres
          refine ⟨(List.replicate n (st.pixelvalue.take bpp)).flatten ++ bytes2,
            by rw [e1, List.append_assoc], ?_, e3, e4, e5, ?_, e7⟩
          · rw [List.length_append, length_flatten_replicate, hpvl, e2, ← Nat.add_mul]
            congr 1; omega
          · rw [hpend, e6, List.append_assoc]
      · rename_i hrep
        have hrep0 : st.rep = 0 := by omega
        exact tgaRlePacketL_facts w bpp hbpp _ ih x st acc ls hx hpv hcnt0 hrep0 hb
          st' acc' ls' hres

theorem liftRows_consRow (lstep : Int) (pixels : List Nat) (dst : Int) (src0 : SDL_IOStream)
    (row : List Nat) (r : TGARowsResultL) :
    liftRows lstep pixels dst src0 (consRow row r)
      = liftRows lstep (memWrite pixels dst.toNat row) (dst + lstep) src0 r := by
  rcases r with s | ⟨st, rows, s⟩ <;> rfl

theorem tgaRows_eq (rle : Bool) (w bpp : Nat) (lstep : Int) (hbpp : bpp ≤ 4)
    (src0 : SDL_IOStream) :
    ∀ (n : Nat) (dst : Int) (st : TGARle) (pixels : List Nat) (ls : ByteSrc),
    (∀ k : Nat, k < n → 0 ≤ dst + k * lstep) → st.pixelvalue.length = 4 →
    (st.count = 0 ∨ st.rep = 0) → (∀ b ∈ ls.rest, b < 256) → ls.Tracks src0 →
    tgaRows rle w bpp lstep n dst st pixels (ls.toStream src0)
      = liftRows lstep pixels dst src0 (tgaRowsL rle w bpp n st ls) := by
  intro n
  induction n with
  | zero => intro dst st pixels ls _ _ _ _ _; rfl
  | succ n ih =>
    intro dst st pixels ls hdst hpv hinv hb htr
    have hd0 : 0 ≤ dst := by simpa using hdst 0 (by omega)
    have hdn : ∀ k : Nat, k < n → 0 ≤ dst + lstep + k * lstep := by
      intro k hk
      have := hdst (k + 1) (by omega)
      push_cast at this
      rw [Int.add_mul, Int.one_mul] at this
      omega
    unfold tgaRows tgaRowsL
    cases rle with
    | true =>
      simp only [if_true]
      have hfuel : (ls.toStream src0).data.length - (ls.toStream src0).pos + 1
          = ls.rest.length + 1 := by
        rw [htr, streamRest_length]
      have hrow := tgaRleRow_eq w bpp dst hd0 hbpp pixels src0 (ls.rest.length + 1) 0 st [] ls
        hpv (by simp) htr
      rw [memWrite_nil] at hrow
      rw [hfuel, hrow]
      have hfacts := tgaRleRowL_facts w bpp hbpp (ls.rest.length + 1) 0 st [] ls (by omega) hpv
        hinv hb
      rcases hr : tgaRleRowL w bpp (ls.rest.length + 1) 0 st [] ls with _ | (s | ⟨st1, row, ls1⟩)
      · rfl
      · rfl
      · obtain ⟨bytes, e1, e2, e3, e4, e5, e6, e7⟩ := hfacts st1 row ls1 hr
        simp only [liftRow]
        rw [liftRows_consRow]
        exact ih (dst + lstep) st1 _ ls1 hdn e3 e4 e5 (e7 src0 htr)
    | false =>
      simp only [Bool.false_eq_true, if_false, orFail]
      rw [readExact_toStream ls src0 _ htr]
      have htr1 := ByteSrc.readExact_tracks ls src0 (w * bpp) htr
      rcases hr : ls.readExact (w * bpp) with ⟨_ | bytes, ls1⟩
      · rfl
      · rw [hr] at htr1
        obtain ⟨_, _, hrest1⟩ := ByteSrc.readExact_some ls (w * bpp) bytes ls1 hr
        simp only [id]
        rw [liftRows_consRow]
        exact ih (dst + lstep) st _ ls1 hdn hpv hinv
          (by
            intro b hb'
            rw [hrest1] at hb'
            exact hb b (List.mem_of_mem_drop hb')) htr1

theorem consRow_ok (row : List Nat) (r : TGARowsResultL) (st' : TGARle)
    (rows : List (List Nat)) (ls' : ByteSrc) (h : consRow row r = Except.ok (st', rows, ls')) :
    ∃ rows1, r = Except.ok (st', rows1, ls') ∧ rows = row :: rows1 := by
  rcases r with s | ⟨st, rows1, s⟩
  · cases h
  · simp only [consRow, Except.ok.injEq, Prod.mk.injEq] at h
    obtain ⟨h1, h2, h3⟩ := h
    subst h1 h2 h3
    exact ⟨rows1, rfl, rfl⟩

theorem tgaRowsL_facts (rle : Bool) (w bpp : Nat) (hbpp : bpp ≤ 4) :
    ∀ (n : Nat) (st : TGARle) (ls : ByteSrc) (st' : TGARle) (rows : List (List Nat))
      (ls' : ByteSrc),
    tgaRowsL rle w bpp n st ls = Except.ok (st', rows, ls') →
    st.pixelvalue.length = 4 → (st.count = 0 ∨ st.rep = 0) → (∀ b ∈ ls.rest, b < 256) →
    rows.length = n ∧ (∀ r ∈ rows, r.length = w * bpp) ∧
    (rle = true → tgaPend bpp st ls.rest = rows.flatten ++ tgaPend bpp st' ls'.rest) := by
  intro n
  induction n with
  | zero =>
    intro st ls st' rows ls' h _ _ _
    simp only [tgaRowsL, Except.ok.injEq, Prod.mk.injEq] at h
    obtain ⟨h1, h2, h3⟩ := h
    subst h1 h2 h3
    simp
  | succ n ih =>
    intro st ls st' rows ls' h hpv hinv hb
    unfold tgaRowsL at h
    cases rle with
    | true =>
      simp only [if_true] at h
      have hfacts := tgaRleRowL_facts w bpp hbpp (ls.rest.length + 1) 0 st [] ls (by omega) hpv
        hinv hb
      rcases hr : tgaRleRowL w bpp (ls.rest.length + 1) 0 st [] ls with _ | (s | ⟨st1, row, ls1⟩)
      · rw [hr] at h; cases h
      · rw [hr] at h; cases h
      · rw [hr] at h
        obtain ⟨bytes, e1, e2, e3, e4, e5, e6, _⟩ := hfacts st1 row ls1 hr
        obtain ⟨rows1, hr1, hrows⟩ := consRow_ok row _ st' rows ls' h
        obtain ⟨i1, i2, i3⟩ := ih st1 ls1 st' rows1 ls' hr1 e3 e4 e5
        simp only [List.nil_append] at e1
        subst e1
        subst hrows
        refine ⟨by simp [i1], ?_, ?_⟩
        · intro r hr'
          rcases List.mem_cons.mp hr' with h' | h'
          · rw [h', e2]; simp
          · exact i2 r h'
        · intro _
          rw [e6, i3 rfl]
          simp
    | false =>
      simp only [Bool.false_eq_true, if_false] at h
      rcases hr : ls.readExact (w * bpp) with ⟨_ | bytes, ls1⟩
      · rw [hr] at h; cases h
      · rw [hr] at h
        obtain ⟨hn, hbytes, hrest1⟩ := ByteSrc.readExact_some ls (w * bpp) bytes ls1 hr
        obtain ⟨rows1, hr1, hrows⟩ := consRow_ok bytes _ st' rows ls' h
        obtain ⟨i1, i2, _⟩ := ih st ls1 st' rows1 ls' hr1 hpv hinv
          (by
            intro b hb'
            rw [hrest1] at hb'
            exact hb b (List.mem_of_mem_drop hb'))
        subst hrows
        refine ⟨by simp [i1], ?_, fun hh => by cases hh⟩
        intro r hr'
        rcases List.mem_cons.mp hr' with h' | h'
        · rw [h', hbytes, List.length_take]; omega
        · exact i2 r h'

theorem writeRows_spec (lstep : Int) (L pitch : Nat) (hL : L ≤ pitch)
    (hstep : lstep = pitch ∨ lstep = -(pitch : Int)) :
    ∀ (rows : List (List Nat)) (pixels : List Nat) (dst : Int),
    (∀ r ∈ rows, r.length = L) →
    (∀ k : Nat, k < rows.length → 0 ≤ dst + k * lstep ∧
      (dst + k * lstep).toNat + L ≤ pixels.length) →
    (writeRows lstep pixels dst rows).length = pixels.length ∧
    (∀ k : Nat, (hk : k < rows.length) →
      memRead (writeRows lstep pixels dst rows) (dst + k * lstep).toNat L = rows[k]) ∧
    (∀ o n : Nat, (∀ k : Nat, k < rows.length →
        o + n ≤ (dst + k * lstep).toNat ∨ (dst + k * lstep).toNat + L ≤ o) →
      memRead (writeRows lstep pixels dst rows) o n = memRead pixels o n) := by
  intro rows
  induction rows with
  | nil =>
    intro pixels dst _ _
    exact ⟨rfl, fun k hk => absurd hk (by simp), fun _ _ _ => rfl⟩
  | cons row rows ih =>
    intro pixels dst hlen hb
    have hrow : row.length = L := hlen row (List.mem_cons_self _ _)
    have h0 := hb 0 (by simp)
    simp only [Nat.cast_zero, Int.zero_mul, Int.add_zero] at h0
    have hw : (memWrite pixels dst.toNat row).length = pixels.length :=
      memWrite_length _ _ _ (by rw [hrow]; exact h0.2)
    have hshift : ∀ k : Nat, dst + lstep + k * lstep = dst + ((k + 1 : Nat) : Int) * lstep := by
      intro k; push_cast; rw [Int.add_mul, Int.one_mul]; omega
    obtain ⟨i1, i2, i3⟩ := ih (memWrite pixels dst.toNat row) (dst + lstep)
      (fun r hr => hlen r (List.mem_cons_of_mem _ hr))
      (by
        intro k hk
        rw [hshift k, hw]
        exact hb (k + 1) (by simp; omega))
    -- later rows lie apart from the first one
    have hapart : ∀ k : Nat, k < rows.length →
        dst.toNat + L ≤ (dst + lstep + k * lstep).toNat ∨
        (dst + lstep + k * lstep).toNat + L ≤ dst.toNat := by
      intro k hk
      have hk1 := hb (k + 1) (by simp; omega)
      rw [← hshift k] at hk1
      have hkp : (0 : Int) ≤ (k : Int) * (pitch : Int) :=
        Int.mul_nonneg (Int.ofNat_nonneg _) (Int.ofNat_nonneg _)
      rcases hstep with hs | hs
      · left
        rw [hs] at hk1 ⊢
        omega
      · right
        rw [hs] at hk1 ⊢
        rw [Int.mul_neg] at hk1 ⊢
        omega
    refine ⟨by rw [writeRows, i1, hw], ?_, ?_⟩
    · intro k hk
      cases k with
      | zero =>
        simp only [Nat.cast_zero, Int.zero_mul, Int.add_zero, List.getElem_cons_zero]
        rw [writeRows, i3 dst.toNat L (fun k hk => hapart k hk), ← hrow]
        exact memRead_memWrite_same _ _ _ (by omega)
      | succ k =>
        simp only [List.getElem_cons_succ]
        rw [writeRows, ← hshift k]
        exact i2 k (by simpa using hk)
    · intro o n hdis
      rw [writeRows, i3 o n (by
        intro k hk
        rw [hshift k]
        exact hdis (k + 1) (by simp; omega))]
      have := hdis 0 (by simp)
      simp only [Nat.cast_zero, Int.zero_mul, Int.add_zero] at this
      exact memRead_memWrite_disjoint _ _ _ _ _ (by rw [hrow]; exact h0.2)
        (by rw [hrow]; exact this)

/-! ## The TGA decode as a whole -/

theorem SDL_SeekIO_cur (src : SDL_IOStream) (n : Nat) :
    ( SDL_SeekIO src (n : Int) SDL_IO_SEEK_CUR).2 = { src with pos := src.pos + n } := by
  have h : ¬ ((src.pos : Int) + (n : Int) < 0) := by omega
  simp only [ SDL_SeekIO, h, if_false]
  congr 1

theorem readExact_ok (src : SDL_IOStream) (n : Nat) (b : List Nat) (s : SDL_IOStream)
    (h : readExact src n = (some b, s)) :
    n ≤ (streamRest src).length ∧ b = (streamRest src).take n ∧
      s = { src with pos := src.pos + n } := by
  rw [readExact_eq] at h
  split at h
  · rename_i hn
    simp only [Prod.mk.injEq, Option.some.injEq] at h
    exact ⟨hn, h.1.symm, h.2.symm⟩
  · simp at h

theorem readExact_reData (d : List (Fin 256)) (s : SDL_IOStream) (n : Nat)
    (h : streamRest (reData d s) = streamRest s) :
    readExact (reData d s) n = ((readExact s n).1, reData d (readExact s n).2) := by
  rw [readExact_eq, readExact_eq, h]
  split <;> rfl

theorem streamRest_reData_advance (d : List (Fin 256)) (s : SDL_IOStream) (n : Nat)
    (h : streamRest (reData d s) = streamRest s) :
    streamRest (reData d { s with pos := s.pos + n }) = streamRest { s with pos := s.pos + n } := by
  have h1 := streamRest_advance (reData d s) n
  have h2 := streamRest_advance s n
  simp only [reData] at h h1 ⊢
  rw [h1, h2, h]

theorem tgaColorMap_facts (env : Env) (hdr : TGAheader) (indexed grey : Bool) (ncols : Nat)
    (img img' : SDL_Surface) (src s' : SDL_IOStream)
    (h : tgaColorMap env hdr indexed grey ncols img src = Except.ok (img', s')) :
    SameGeom img img' ∧
    s' = { src with pos := src.pos +
      (if hdr.has_cmap ≠ 0 then ncols * ((hdr.cmap_bits + 7) >>> 3) else 0) } := by
  unfold tgaColorMap at h
  split at h
  · rename_i hc
    rw [if_pos hc]
    dsimp only at h
    split at h
    · split at h
      · cases h
      · rename_i palette hpal
        unfold orFail at h
        split at h
        · rename_i pal s1 hr
          obtain ⟨_, _, hs⟩ := readExact_ok _ _ _ _ hr
          simp only [id, Except.ok.injEq, Prod.mk.injEq] at h
          obtain ⟨h1, h2⟩ := h
          subst h1 h2
          refine ⟨?_, hs⟩
          split <;> split <;> exact ⟨rfl, rfl, rfl, rfl, rfl⟩
        · cases h
    · simp only [Except.ok.injEq, Prod.mk.injEq] at h
      obtain ⟨h1, h2⟩ := h
      subst h1
      rw [SDL_SeekIO_cur] at h2
      exact ⟨⟨rfl, rfl, rfl, rfl, rfl⟩, h2.symm⟩
  · rename_i hc
    rw [if_neg hc]
    simp only [Except.ok.injEq, Prod.mk.injEq] at h
    obtain ⟨h1, h2⟩ := h
    subst h1 h2
    exact ⟨⟨rfl, rfl, rfl, rfl, rfl⟩, rfl⟩

theorem tgaColorMap_reData (env : Env) (hdr : TGAheader) (indexed grey : Bool) (ncols : Nat)
    (img : SDL_Surface) (s : SDL_IOStream) (d : List (Fin 256))
    (h : streamRest (reData d s) = streamRest s) :
    tgaColorMap env hdr indexed grey ncols img (reData d s)
      = reDataR d (tgaColorMap env hdr indexed grey ncols img s) := by
  unfold tgaColorMap
  split
  · dsimp only
    split
    · split
      · rfl
      · unfold orFail
        rw [readExact_reData d s _ h]
        rcases readExact s (ncols * (hdr.cmap_bits + 7) >>> 3) with ⟨_ | pal, s1⟩
        · rfl
        · rfl
    · rfl
  · rfl

theorem tgaGreyPalette_facts (env : Env) (grey : Bool) (img img' : SDL_Surface)
    (src : SDL_IOStream) (h : tgaGreyPalette env grey img src = Except.ok img') :
    SameGeom img img' := by
  unfold tgaGreyPalette at h
  split at h
  · split at h
    · cases h
    · simp only [Except.ok.injEq] at h
      subst h
      exact ⟨rfl, rfl, rfl, rfl, rfl⟩
  · simp only [Except.ok.injEq] at h
    subst h
    exact ⟨rfl, rfl, rfl, rfl, rfl⟩

theorem tgaGreyPalette_reData (env : Env) (grey : Bool) (img : SDL_Surface)
    (s : SDL_IOStream) (d : List (Fin 256)) :
    tgaGreyPalette env grey img (reData d s)
      = match tgaGreyPalette env grey img s with
        | Except.error e => Except.error (reData d e)
        | Except.ok i => Except.ok i := by
  unfold tgaGreyPalette
  split
  · split <;> rfl
  · rfl

theorem tgaClassify_rle (hdr : TGAheader) (n : Nat) (rle indexed grey : Bool)
    (h : tgaClassify hdr n = some (rle, indexed, grey)) :
    rle = decide (hdr.type = 9 ∨ hdr.type = 10 ∨ hdr.type = 11) := by
  unfold tgaClassify at h
  simp only [TGA_TYPE_RLE_INDEXED, TGA_TYPE_INDEXED, TGA_TYPE_RLE_RGB, TGA_TYPE_RGB,
    TGA_TYPE_RLE_BW, TGA_TYPE_BW] at h
  split at h
  · rename_i ht
    split at h
    · cases h
    · simp only [Option.some.injEq, Prod.mk.injEq] at h
      rw [← h.1]
      rcases ht with ht | ht <;> simp [ht]
  · rename_i ht1
    split at h
    · rename_i ht
      simp only [Option.some.injEq, Prod.mk.injEq] at h
      rw [← h.1]
      rcases ht with ht | ht <;> simp [ht]
    · rename_i ht2
      split at h
      · rename_i ht
        split at h
        · cases h
        · simp only [Option.some.injEq, Prod.mk.injEq] at h
          rw [← h.1]
          rcases ht with ht | ht <;> simp [ht]
      · cases h

theorem tgaFormat_bpp (hdr : TGAheader) (indexed : Bool) (format : SDL_PixelFormat)
    (h : tgaFormat hdr indexed = some format) :
    (hdr.pixel_bits + 7) >>> 3 = SDL_BYTESPERPIXEL format ∧
    1 ≤ SDL_BYTESPERPIXEL format ∧ SDL_BYTESPERPIXEL format ≤ 4 := by
  unfold tgaFormat at h
  split at h
  · rename_i hp
    split at h
    · cases h
    · simp only [Option.some.injEq] at h
      subst h
      rw [hp]
      decide
  · split at h
    · rename_i hp
      simp only [Option.some.injEq] at h
      subst h
      rcases hp with hp | hp <;> rw [hp] <;> decide
    · split at h
      · rename_i hp
        simp only [Option.some.injEq] at h
        subst h
        rw [hp]
        decide
      · split at h
        · rename_i hp
          simp only [Option.some.injEq] at h
          subst h
          rw [hp]
          decide
        · cases h

theorem SDL_CreateSurface_some (env : Env) (w h : Nat) (format : SDL_PixelFormat)
    (img : SDL_Surface) (hs : SDL_CreateSurface env w h format = some img) :
    img = { w := w, h := h, format := format,
            pitch := (w * SDL_BYTESPERPIXEL format + 3) / 4 * 4,
            pixels := List.replicate ((w * SDL_BYTESPERPIXEL format + 3) / 4 * 4 * h) 0,
            palette := none, colorkey := none, hotspot := none } := by
  unfold SDL_CreateSurface at hs
  split at hs
  · simp only [Option.some.injEq] at hs
    exact hs.symm
  · cases hs

theorem tgaSetupHdr_facts (env : Env) (hdr : TGAheader) (src : SDL_IOStream)
    (rle : Bool) (bpp : Nat) (img : SDL_Surface) (s3 : SDL_IOStream)
    (h : tgaSetupHdr env hdr src = Except.ok (rle, bpp, img, s3)) :
    rle = decide (hdr.type = 9 ∨ hdr.type = 10 ∨ hdr.type = 11) ∧
    bpp = SDL_BYTESPERPIXEL img.format ∧ 1 ≤ bpp ∧ bpp ≤ 4 ∧
    img.w = LE16 hdr.width ∧ img.h = LE16 hdr.height ∧
    img.pitch = (img.w * bpp + 3) / 4 * 4 ∧
    img.pixels = List.replicate (img.pitch * img.h) 0 ∧
    s3 = { src with pos := src.pos + (tgaDataOffset hdr - 18) } := by
  unfold tgaSetupHdr at h
  dsimp only at h
  split at h
  · cases h
  · rename_i rle0 indexed grey hcl
    split at h
    · cases h
    · rename_i format hfmt
      split at h
      · cases h
      · rename_i hflags
        split at h
        · cases h
        · rename_i img0 hsurf
          split at h
          · cases h
          · rename_i img1 s1 hcm
            split at h
            · cases h
            · rename_i img2 hgrey
              simp only [Except.ok.injEq, Prod.mk.injEq] at h
              obtain ⟨h1, h2, h3, h4⟩ := h
              subst h1 h2 h3 h4
              have hrle := tgaClassify_rle hdr _ _ _ _ hcl
              obtain ⟨hb1, hb2, hb3⟩ := tgaFormat_bpp hdr indexed format hfmt
              have hs0 := SDL_CreateSurface_some env _ _ _ _ hsurf
              obtain ⟨g1, hs1⟩ := tgaColorMap_facts env hdr indexed grey _ _ _ _ _ hcm
              have g2 := tgaGreyPalette_facts env grey _ _ _ hgrey
              obtain ⟨a1, a2, a3, a4, a5⟩ := g1
              obtain ⟨b1, b2, b3, b4, b5⟩ := g2
              rw [SDL_SeekIO_cur] at hs1
              have e0 : img0.w = LE16 hdr.width ∧ img0.h = LE16 hdr.height ∧
                  img0.format = format ∧
                  img0.pitch = (LE16 hdr.width * SDL_BYTESPERPIXEL format + 3) / 4 * 4 ∧
                  img0.pixels = List.replicate
                    ((LE16 hdr.width * SDL_BYTESPERPIXEL format + 3) / 4 * 4 * LE16 hdr.height) 0 := by
                rw [hs0]; exact ⟨rfl, rfl, rfl, rfl, rfl⟩
              obtain ⟨c1, c2, c3, c4, c5⟩ := e0
              refine ⟨hrle, ?_, ?_, ?_, ?_, ?_, ?_, ?_, ?_⟩
              · rw [hb1, b3, a3, c3]
              · rw [hb1]; exact hb2
              · rw [hb1]; exact hb3
              · rw [b1, a1, c1]
              · rw [b2, a2, c2]
              · rw [b4, a4, c4, b1, a1, c1, hb1]
              · rw [b5, a5, c5, b4, a4, c4, b2, a2, c2]
              · rw [hs1]
                simp only [tgaDataOffset]
                congr 1
                omega

theorem tgaSetup_ok (env : Env) (src : SDL_IOStream) (hdr : TGAheader) (rle : Bool)
    (bpp : Nat) (img : SDL_Surface) (s3 : SDL_IOStream)
    (h : tgaSetup env src = Except.ok (hdr, rle, bpp, img, s3)) :
    18 ≤ (streamRest src).length ∧ hdr = tgaHeaderAt src ∧
    tgaSetupHdr env hdr { src with pos := src.pos + 18 } = Except.ok (rle, bpp, img, s3) := by
  unfold tgaSetup orFail at h
  split at h
  · rename_i hb s1 hr
    obtain ⟨r1, r2, r3⟩ := readExact_ok _ _ _ _ hr
    subst r2 r3
    dsimp only at h
    split at h
    · cases h
    · rename_i rle1 bpp1 img1 s31 hs
      simp only [Except.ok.injEq, Prod.mk.injEq] at h
      obtain ⟨h1, h2, h3, h4, h5⟩ := h
      subst h2 h3 h4 h5
      refine ⟨r1, h1.symm, ?_⟩
      rw [← h1]
      exact hs
  · cases h

theorem IMG_LoadTGA_IO_ok (env : Env) (src src' : SDL_IOStream) (img : SDL_Surface)
    (h : IMG_LoadTGA_IO env src = (some img, src')) :
    ∃ hdr rle bpp img0 s3 pixels,
      tgaSetup env src = Except.ok (hdr, rle, bpp, img0, s3) ∧
      tgaRows rle (LE16 hdr.width) bpp
        (if hdr.flags &&& TGA_ORIGIN_UPPER ≠ 0 then (img0.pitch : Int) else -(img0.pitch : Int))
        (LE16 hdr.height)
        (if hdr.flags &&& TGA_ORIGIN_UPPER ≠ 0 then 0 else ((LE16 hdr.height : Int) - 1) * img0.pitch)
        ⟨0, 0, (List.range 4).map fun j => env.uninit j % 256⟩ img0.pixels s3
        = Except.ok (pixels, src') ∧
      img = { img0 with pixels := pixels } := by
  unfold IMG_LoadTGA_IO at h
  dsimp only at h
  split at h
  · rename_i img1 s1 hb
    simp only [Prod.mk.injEq, Option.some.injEq] at h
    obtain ⟨h1, h2⟩ := h
    subst h1 h2
    unfold IMG_LoadTGA_IO_body at hb
    split at hb
    · cases hb
    · rename_i hdr rle bpp img0 s3 hs
      dsimp only at hb
      split at hb
      · cases hb
      · rename_i pixels s4 hrows
        simp only [Except.ok.injEq, Prod.mk.injEq] at hb
        obtain ⟨h1, h2⟩ := hb
        subst h1 h2
        exact ⟨hdr, rle, bpp, img0, s3, pixels, hs, hrows, rfl⟩
  · simp at h

theorem tga_row_offset (hdr : TGAheader) (h pitch k : Nat) (hk : k < h) :
    (if hdr.flags &&& TGA_ORIGIN_UPPER ≠ 0 then (0 : Int) else ((h : Int) - 1) * pitch)
      + (k : Int) * (if hdr.flags &&& TGA_ORIGIN_UPPER ≠ 0 then (pitch : Int) else -(pitch : Int))
      = ((tgaRowIndex hdr h k * pitch : Nat) : Int) := by
  unfold tgaRowIndex
  split
  · push_cast; ring
  · obtain ⟨m, rfl⟩ : ∃ m, h = k + 1 + m := ⟨h - (k + 1), by omega⟩
    have : k + 1 + m - 1 - k = m := by omega
    rw [this]
    push_cast
    ring

theorem tgaRowIndex_lt (hdr : TGAheader) (h k : Nat) (hk : k < h) : tgaRowIndex hdr h k < h := by
  unfold tgaRowIndex
  split <;> omega

theorem streamRest_lt (src : SDL_IOStream) : ∀ b ∈ streamRest src, b < 256 := by
  intro b hb
  simp only [streamRest, List.mem_map] at hb
  obtain ⟨x, _, rfl⟩ := hb
  exact x.isLt

theorem flatten_map_getElem (rows : List (List Nat)) (f : Nat → List Nat)
    (hf : ∀ k, (hk : k < rows.length) → f k = rows[k]) :
    ((List.range rows.length).map f).flatten = rows.flatten := by
  congr 1
  apply List.ext_getElem
  · simp
  · intro k h1 h2
    simp only [List.getElem_map, List.getElem_range]
    exact hf k h2

theorem length_flatten_of_forall (rows : List (List Nat)) (L : Nat)
    (h : ∀ r ∈ rows, r.length = L) : rows.flatten.length = rows.length * L := by
  induction rows with
  | nil => simp
  | cons r rs ih =>
    rw [List.flatten_cons, List.length_append, h r (List.mem_cons_self _ _),
      ih (fun x hx => h x (List.mem_cons_of_mem _ hx)), List.length_cons, Nat.add_mul,
      Nat.one_mul, Nat.add_comm]

theorem tga_row_offset' (hdr : TGAheader) (h pitch k : Nat) (hk : k < h) :
    tgaDst hdr h pitch + (k : Int) * tgaLstep hdr pitch
      = ((tgaRowIndex hdr h k * pitch : Nat) : Int) :=
  tga_row_offset hdr h pitch k hk

theorem tgaRows_lift (hdr : TGAheader) (rle : Bool) (w h bpp pitch : Nat) (hbpp : bpp ≤ 4)
    (pixels0 : List Nat) (s3 : SDL_IOStream) (st0 : TGARle)
    (hpv : st0.pixelvalue.length = 4) (hinv : st0.count = 0 ∨ st0.rep = 0) :
    tgaRows rle w bpp (tgaLstep hdr pitch) h (tgaDst hdr h pitch) st0 pixels0 s3
      = liftRows (tgaLstep hdr pitch) pixels0 (tgaDst hdr h pitch) s3
          (tgaRowsL rle w bpp h st0 ⟨streamRest s3, 0⟩) := by
  have htr : ByteSrc.Tracks ⟨streamRest s3, 0⟩ s3 := rfl
  have := tgaRows_eq rle w bpp (tgaLstep hdr pitch) hbpp s3 h (tgaDst hdr h pitch) st0 pixels0
    ⟨streamRest s3, 0⟩
    (by
      intro k hk
      rw [tga_row_offset' hdr h pitch k hk]
      exact Int.ofNat_nonneg _)
    hpv hinv (streamRest_lt s3) htr
  exact this

theorem tga_writeRows_readback (hdr : TGAheader) (w h bpp pitch : Nat)
    (hpitch : w * bpp ≤ pitch) (pixels0 : List Nat) (hlen : pixels0.length = pitch * h)
    (rows : List (List Nat)) (hrl : rows.length = h) (hrw : ∀ r ∈ rows, r.length = w * bpp) :
    (writeRows (tgaLstep hdr pitch) pixels0 (tgaDst hdr h pitch) rows).length = pixels0.length ∧
    ∀ k, (hk : k < rows.length) →
      memRead (writeRows (tgaLstep hdr pitch) pixels0 (tgaDst hdr h pitch) rows)
        (tgaRowIndex hdr h k * pitch) (w * bpp) = rows[k] := by
  have hstep : tgaLstep hdr pitch = pitch ∨ tgaLstep hdr pitch = -(pitch : Int) := by
    unfold tgaLstep; split
    · exact Or.inl rfl
    · exact Or.inr rfl
  obtain ⟨i1, i2, _⟩ := writeRows_spec (tgaLstep hdr pitch) (w * bpp) pitch hpitch hstep rows
    pixels0 (tgaDst hdr h pitch) hrw
    (by
      intro k hk
      rw [hrl] at hk
      rw [tga_row_offset' hdr h pitch k hk]
      refine ⟨Int.ofNat_nonneg _, ?_⟩
      rw [Int.toNat_ofNat, hlen]
      have h1 := tgaRowIndex_lt hdr h k hk
      have h2 : (tgaRowIndex hdr h k + 1) * pitch ≤ h * pitch := Nat.mul_le_mul_right _ h1
      rw [Nat.add_mul, Nat.one_mul] at h2
      rw [Nat.mul_comm pitch h]
      omega)
  refine ⟨i1, ?_⟩
  intro k hk
  have := i2 k hk
  rw [tga_row_offset' hdr h pitch k (by rw [← hrl]; exact hk), Int.toNat_ofNat] at this
  exact this

theorem liftRows_ok (lstep : Int) (pixels0 : List Nat) (dst : Int) (src0 : SDL_IOStream)
    (r : TGARowsResultL) (pixels : List Nat) (src' : SDL_IOStream)
    (h : liftRows lstep pixels0 dst src0 r = Except.ok (pixels, src')) :
    ∃ st' rows ls', r = Except.ok (st', rows, ls') ∧
      pixels = writeRows lstep pixels0 dst rows ∧ src' = ls'.toStream src0 := by
  rcases r with s | ⟨st, rows, s⟩
  · cases h
  · simp only [liftRows, Except.ok.injEq, Prod.mk.injEq] at h
    exact ⟨st, rows, s, rfl, h.1.symm, h.2.symm⟩

/-- what a successful decode is made of -/
theorem tga_decode_rows (env : Env) (src src' : SDL_IOStream) (img : SDL_Surface)
    (hdec : IMG_LoadTGA_IO env src = (some img, src')) :
    ∃ (rle : Bool) (st' : TGARle) (rows : List (List Nat)) (ls' : ByteSrc),
      rle = decide ((tgaHeaderAt src).type = 9 ∨ (tgaHeaderAt src).type = 10 ∨
        (tgaHeaderAt src).type = 11) ∧
      1 ≤ SDL_BYTESPERPIXEL img.format ∧ SDL_BYTESPERPIXEL img.format ≤ 4 ∧
      img.w = LE16 (tgaHeaderAt src).width ∧ img.h = LE16 (tgaHeaderAt src).height ∧
      img.pitch = (img.w * SDL_BYTESPERPIXEL img.format + 3) / 4 * 4 ∧
      tgaRowsL rle img.w (SDL_BYTESPERPIXEL img.format) img.h
          ⟨0, 0, (List.range 4).map fun j => env.uninit j % 256⟩
          ⟨(streamRest src).drop (tgaDataOffset (tgaHeaderAt src)), 0⟩
        = Except.ok (st', rows, ls') ∧
      img.pixels = writeRows (tgaLstep (tgaHeaderAt src) img.pitch)
        (List.replicate (img.pitch * img.h) 0) (tgaDst (tgaHeaderAt src) img.h img.pitch) rows := by
  obtain ⟨hdr, rle, bpp, img0, s3, pixels, hs, hrows, himg⟩ := IMG_LoadTGA_IO_ok env src src' img hdec
  obtain ⟨h18, hhdr, hsh⟩ := tgaSetup_ok env src hdr rle bpp img0 s3 hs
  obtain ⟨f1, f2, f3, f4, f5, f6, f7, f8, f9⟩ := tgaSetupHdr_facts env hdr _ rle bpp img0 s3 hsh
  subst hhdr
  have hw : img.w = img0.w := by rw [himg]
  have hh : img.h = img0.h := by rw [himg]
  have hf : img.format = img0.format := by rw [himg]
  have hp : img.pitch = img0.pitch := by rw [himg]
  have hpx : img.pixels = pixels := by rw [himg]
  have hrest : streamRest s3 = (streamRest src).drop (tgaDataOffset (tgaHeaderAt src)) := by
    rw [f9]
    have h18' : 18 ≤ tgaDataOffset (tgaHeaderAt src) := by unfold tgaDataOffset; omega
    have := streamRest_advance src (tgaDataOffset (tgaHeaderAt src))
    have e : src.pos + 18 + (tgaDataOffset (tgaHeaderAt src) - 18)
        = src.pos + tgaDataOffset (tgaHeaderAt src) := by omega
    simp only [e]
    exact this
  have hlift := tgaRows_lift (tgaHeaderAt src) rle (LE16 (tgaHeaderAt src).width)
    (LE16 (tgaHeaderAt src).height) bpp img0.pitch f4 img0.pixels s3
    ⟨0, 0, (List.range 4).map fun j => env.uninit j % 256⟩ (by simp) (Or.inl rfl)
  have hrows' : tgaRows rle (LE16 (tgaHeaderAt src).width) bpp
      (tgaLstep (tgaHeaderAt src) img0.pitch) (LE16 (tgaHeaderAt src).height)
      (tgaDst (tgaHeaderAt src) (LE16 (tgaHeaderAt src).height) img0.pitch)
      ⟨0, 0, (List.range 4).map fun j => env.uninit j % 256⟩ img0.pixels s3
      = Except.ok (pixels, src') := hrows
  rw [hlift] at hrows'
  obtain ⟨st', rows, ls', hr, hpix, _⟩ := liftRows_ok _ _ _ _ _ _ _ hrows'
  refine ⟨rle, st', rows, ls', f1, ?_, ?_, ?_, ?_, ?_, ?_, ?_⟩
  · rw [hf, ← f2]; exact f3
  · rw [hf, ← f2]; exact f4
  · rw [hw]; exact f5
  · rw [hh]; exact f6
  · rw [hp, hw, hf, ← f2]; exact f7
  · rw [hw, hh, hf, ← f2, f5, f6, ← hrest]; exact hr
  · rw [hpx, hpix, hp, hh, ← f8, f6]

theorem tgaSetupHdr_flags (env : Env) (hdr : TGAheader) (src : SDL_IOStream) (f : Nat)
    (h1 : f &&& TGA_INTERLEAVE_MASK = hdr.flags &&& TGA_INTERLEAVE_MASK)
    (h2 : f &&& TGA_ORIGIN_RIGHT = hdr.flags &&& TGA_ORIGIN_RIGHT) :
    tgaSetupHdr env { hdr with flags := f } src = tgaSetupHdr env hdr src := by
  unfold tgaSetupHdr
  simp only [h1, h2]
  rfl

theorem tgaSetupHdr_reData (env : Env) (hdr : TGAheader) (s : SDL_IOStream)
    (d : List (Fin 256)) (h : streamRest (reData d s) = streamRest s) :
    tgaSetupHdr env hdr (reData d s) = reDataSetup d (tgaSetupHdr env hdr s) := by
  unfold tgaSetupHdr
  dsimp only
  split
  · rfl
  · split
    · rfl
    · split
      · rfl
      · split
        · rfl
        · rename_i img0 hsurf
          have hseek : ( SDL_SeekIO (reData d s) (hdr.infolen : Int) SDL_IO_SEEK_CUR).2
              = reData d ( SDL_SeekIO s (hdr.infolen : Int) SDL_IO_SEEK_CUR).2 := by
            rw [SDL_SeekIO_cur, SDL_SeekIO_cur]; rfl
          have hrest : streamRest (reData d ( SDL_SeekIO s (hdr.infolen : Int) SDL_IO_SEEK_CUR).2)
              = streamRest ( SDL_SeekIO s (hdr.infolen : Int) SDL_IO_SEEK_CUR).2 := by
            rw [SDL_SeekIO_cur]
            exact streamRest_reData_advance d s _ h
          rw [hseek, tgaColorMap_reData _ _ _ _ _ _ _ _ hrest]
          rcases tgaColorMap env hdr _ _ _ img0 _ with e | ⟨img1, s1⟩
          · rfl
          · simp only [reDataR]
            rw [tgaGreyPalette_reData]
            rcases tgaGreyPalette env _ img1 s1 with e | img2
            · rfl
            · rfl

theorem readExact_rest_le (src : SDL_IOStream) (n : Nat) (b : List Nat) (s : SDL_IOStream)
    (h : readExact src n = (some b, s)) :
    (streamRest s).length + n = (streamRest src).length := by
  rw [readExact_eq] at h
  split at h
  · rename_i hn
    simp only [Prod.mk.injEq, Option.some.injEq] at h
    rw [← h.2, streamRest_advance, List.length_drop]
    omega
  · simp at h

theorem tgaRlePacket_fuel (bpp : Nat)
    (next : Nat → TGARle → List Nat → SDL_IOStream → TGARowResult)
    (x : Nat) (st : TGARle) (pixels : List Nat) (src : SDL_IOStream)
    (hnext : ∀ x st pixels s, (streamRest s).length < (streamRest src).length →
      next x st pixels s ≠ none) :
    tgaRlePacket bpp next x st pixels src ≠ none := by
  unfold tgaRlePacket
  rcases h1 : readExact src 1 with ⟨_ | cb, s1⟩
  · simp
  · have l1 := readExact_rest_le src 1 cb s1 h1
    dsimp only
    split
    · rcases h2 : readExact s1 bpp with ⟨_ | pv, s2⟩
      · simp
      · have l2 := readExact_rest_le s1 bpp pv s2 h2
        exact hnext _ _ _ _ (by omega)
    · exact hnext _ _ _ _ (by omega)

/-- The fuel that `tgaRows` gives the loop of a run-length row is enough: with
more fuel than bytes left in the stream the loop ends in `goto error` or at
the end of the row. -/
theorem tgaRleRow_fuel (w bpp : Nat) (dst : Int) :
    ∀ (fuel x : Nat) (st : TGARle) (pixels : List Nat) (src : SDL_IOStream),
      (streamRest src).length < fuel → tgaRleRow w bpp dst fuel x st pixels src ≠ none := by
  intro fuel
  induction fuel with
  | zero => intro x st pixels src h; omega
  | succ fuel ih =>
    intro x st pixels src h
    unfold tgaRleRow
    split
    · dsimp only
      generalize (if st.count > w - x then w - x else st.count) = n
      rcases h1 : readExact src (n * bpp) with ⟨_ | bytes, s1⟩
      · simp
      · have l1 := readExact_rest_le _ _ _ _ h1
        dsimp only
        split
        · simp
        · exact tgaRlePacket_fuel bpp _ _ _ _ s1
            (fun x st pixels s hs => ih x st pixels s (by omega))
    · split
      · dsimp only
        generalize (if st.rep > w - x then w - x else st.rep) = n
        split
        · simp
        · exact tgaRlePacket_fuel bpp _ _ _ _ src
            (fun x st pixels s hs => ih x st pixels s (by omega))
      · exact tgaRlePacket_fuel bpp _ _ _ _ src
          (fun x st pixels s hs => ih x st pixels s (by omega))

theorem tgaRows_fuel (w bpp : Nat) (dst : Int) (x : Nat) (st : TGARle) (pixels : List Nat)
    (src : SDL_IOStream) :
    tgaRleRow w bpp dst (src.data.length - src.pos + 1) x st pixels src ≠ none :=
  tgaRleRow_fuel w bpp dst _ x st pixels src (by simp [streamRest])

theorem streamRest_tgaStreamWithFlags (pre h17 body : List (Fin 256)) (f : Fin 256) :
    streamRest (tgaStreamWithFlags pre h17 body f)
      = h17.map Fin.val ++ f.val :: body.map Fin.val := by
  simp [streamRest, tgaStreamWithFlags, List.append_assoc]

theorem tgaHeaderOfBytes_flags (A B : List Nat) (x : Nat) (hA : A.length = 17) :
    tgaHeaderOfBytes ((A ++ x :: B).take 18) = { tgaHeaderOfBytes A with flags := x } := by
  have e : (A ++ x :: B).take 18 = A ++ [x] := by
    rw [List.take_append_eq_append_take, hA]
    simp [List.take_of_length_le, hA]
  rw [e]
  simp [tgaHeaderOfBytes, List.getD_eq_getElem?_getD, List.getElem?_append_left,
    List.getElem?_append_right, hA]
  refine ⟨?_, ?_, ?_, ⟨?_, ?_⟩, ⟨?_, ?_⟩, ?_, ⟨?_, ?_⟩, ⟨?_, ?_⟩, ⟨?_, ?_⟩, ⟨?_, ?_⟩, ?_⟩ <;>
    exact List.getElem_append_left _

theorem tgaHeaderAt_tgaStreamWithFlags (pre h17 body : List (Fin 256)) (f : Fin 256)
    (h17len : h17.length = 17) :
    tgaHeaderAt (tgaStreamWithFlags pre h17 body f)
      = { tgaHeaderOfBytes (h17.map Fin.val) with flags := f.val } := by
  unfold tgaHeaderAt
  rw [streamRest_tgaStreamWithFlags]
  exact tgaHeaderOfBytes_flags _ _ _ (by simp [h17len])

theorem streamRest_tgaStreamWithFlags_body (pre h17 body : List (Fin 256)) (f : Fin 256)
    (h17len : h17.length = 17) :
    streamRest { tgaStreamWithFlags pre h17 body f with
        pos := (tgaStreamWithFlags pre h17 body f).pos + 18 }
      = body.map Fin.val := by
  rw [streamRest_advance, streamRest_tgaStreamWithFlags]
  have : (h17.map Fin.val ++ f.val :: body.map Fin.val)
      = (h17.map Fin.val ++ [f.val]) ++ body.map Fin.val := by simp
  rw [this]
  exact List.drop_left' (by simp [h17len])

/-- A decode assembled from its setup and its rows. -/
theorem tga_decode_of_rows (env : Env) (src : SDL_IOStream) (hdr : TGAheader) (rle : Bool)
    (bpp : Nat) (img0 : SDL_Surface) (s3 : SDL_IOStream) (hbpp : bpp ≤ 4)
    (st' : TGARle) (rows : List (List Nat)) (ls' : ByteSrc)
    (hs : tgaSetup env src = Except.ok (hdr, rle, bpp, img0, s3))
    (hr : tgaRowsL rle (LE16 hdr.width) bpp (LE16 hdr.height)
        ⟨0, 0, (List.range 4).map fun j => env.uninit j % 256⟩ ⟨streamRest s3, 0⟩
      = Except.ok (st', rows, ls')) :
    IMG_LoadTGA_IO env src
      = (some { img0 with
            pixels := writeRows (tgaLstep hdr img0.pitch) img0.pixels (tgaDst hdr (LE16 hdr.height) img0.pitch) rows },
          ls'.toStream s3) := by
  have hlift := tgaRows_lift hdr rle (LE16 hdr.width) (LE16 hdr.height) bpp img0.pitch hbpp
    img0.pixels s3 ⟨0, 0, (List.range 4).map fun j => env.uninit j % 256⟩ (by simp) (Or.inl rfl)
  rw [hr] at hlift
  have hrows : tgaRows rle (LE16 hdr.width) bpp
      (if hdr.flags &&& TGA_ORIGIN_UPPER ≠ 0 then (img0.pitch : Int) else -(img0.pitch : Int))
      (LE16 hdr.height)
      (if hdr.flags &&& TGA_ORIGIN_UPPER ≠ 0 then 0 else ((LE16 hdr.height : Int) - 1) * img0.pitch)
      ⟨0, 0, (List.range 4).map fun j => env.uninit j % 256⟩ img0.pixels s3
      = Except.ok (writeRows (tgaLstep hdr img0.pitch) img0.pixels
            (tgaDst hdr (LE16 hdr.height) img0.pitch) rows, ls'.toStream s3) := hlift
  unfold IMG_LoadTGA_IO IMG_LoadTGA_IO_body
  simp only [hs, hrows]

/-- The setup of a decode does not look at the origin bit: with another flags
byte that agrees on the interleave and right-origin bits it gives the same
surface, `rle` and `bpp`, and leaves the same bytes to read. -/
theorem tgaSetup_flags (env : Env) (pre h17 body : List (Fin 256)) (f1 f2 : Fin 256)
    (h17len : h17.length = 17)
    (hm1 : f2.val &&& TGA_INTERLEAVE_MASK = f1.val &&& TGA_INTERLEAVE_MASK)
    (hm2 : f2.val &&& TGA_ORIGIN_RIGHT = f1.val &&& TGA_ORIGIN_RIGHT)
    (hdr : TGAheader) (rle : Bool) (bpp : Nat) (img0 : SDL_Surface) (s3 : SDL_IOStream)
    (hs : tgaSetup env (tgaStreamWithFlags pre h17 body f1) = Except.ok (hdr, rle, bpp, img0, s3)) :
    hdr = { tgaHeaderOfBytes (h17.map Fin.val) with flags := f1.val } ∧
    ∃ s3' : SDL_IOStream, streamRest s3' = streamRest s3 ∧
      tgaSetup env (tgaStreamWithFlags pre h17 body f2)
        = Except.ok ({ tgaHeaderOfBytes (h17.map Fin.val) with flags := f2.val },
            rle, bpp, img0, s3') := by
  obtain ⟨h18, hhdr, hsh⟩ := tgaSetup_ok env _ hdr rle bpp img0 s3 hs
  rw [tgaHeaderAt_tgaStreamWithFlags pre h17 body f1 h17len] at hhdr
  refine ⟨hhdr, ?_⟩
  obtain ⟨_, _, _, _, _, _, _, _, f9⟩ := tgaSetupHdr_facts env hdr _ rle bpp img0 s3 hsh
  have hd : tgaStreamWithFlags pre h17 body f2
      = reData (pre ++ h17 ++ f2 :: body) (tgaStreamWithFlags pre h17 body f1) := rfl
  have hrest18 : streamRest (reData (pre ++ h17 ++ f2 :: body)
        { tgaStreamWithFlags pre h17 body f1 with
          pos := (tgaStreamWithFlags pre h17 body f1).pos + 18 })
      = streamRest { tgaStreamWithFlags pre h17 body f1 with
          pos := (tgaStreamWithFlags pre h17 body f1).pos + 18 } := by
    rw [streamRest_tgaStreamWithFlags_body pre h17 body f1 h17len]
    exact streamRest_tgaStreamWithFlags_body pre h17 body f2 h17len
  refine ⟨reData (pre ++ h17 ++ f2 :: body) s3, ?_, ?_⟩
  · rw [f9]
    exact streamRest_reData_advance _ _ _ hrest18
  · have hlen : 18 ≤ (streamRest (tgaStreamWithFlags pre h17 body f2)).length := by
      rw [streamRest_tgaStreamWithFlags]
      simp only [List.length_append, List.length_map, List.length_cons, h17len]
      omega
    have hh2 : tgaHeaderOfBytes ((streamRest (tgaStreamWithFlags pre h17 body f2)).take 18)
        = { tgaHeaderOfBytes (h17.map Fin.val) with flags := f2.val } :=
      tgaHeaderAt_tgaStreamWithFlags pre h17 body f2 h17len
    have hflags := tgaSetupHdr_flags env hdr
      (reData (pre ++ h17 ++ f2 :: body)
        { tgaStreamWithFlags pre h17 body f1 with
          pos := (tgaStreamWithFlags pre h17 body f1).pos + 18 }) f2.val
      (by rw [hhdr]; exact hm1) (by rw [hhdr]; exact hm2)
    have hh3 : ({ hdr with flags := f2.val } : TGAheader)
        = { tgaHeaderOfBytes (h17.map Fin.val) with flags := f2.val } := by
      rw [hhdr]
    rw [hh3, tgaSetupHdr_reData env hdr _ _ hrest18, hsh] at hflags
    unfold tgaSetup
    rw [readExact_eq, if_pos hlen]
    simp only [orFail, hh2]
    have hpos : ({ tgaStreamWithFlags pre h17 body f2 with
          pos := (tgaStreamWithFlags pre h17 body f2).pos + 18 } : SDL_IOStream)
        = reData (pre ++ h17 ++ f2 :: body)
            { tgaStreamWithFlags pre h17 body f1 with
              pos := (tgaStreamWithFlags pre h17 body f1).pos + 18 } := rfl
    rw [hpos, hflags]
    rfl

theorem memRead_add (buf : List Nat) (o a b : Nat) :
    memRead buf o (a + b) = memRead buf o a ++ memRead buf (o + a) b := by
  simp only [memRead, List.take_add, List.drop_drop]

theorem memRead_replicate_zero (N o n : Nat) (h : o + n ≤ N) :
    memRead (List.replicate N 0) o n = List.replicate n 0 := by
  simp only [memRead, List.drop_replicate, List.take_replicate]
  congr 1
  omega

/-- A whole row (the stride `pitch`) of the buffer the row loop leaves: the
row of the stream, then the padding the loop never writes. -/
theorem tga_writeRows_fullrow (hdr : TGAheader) (w h bpp pitch : Nat)
    (hpitch : w * bpp ≤ pitch) (rows : List (List Nat)) (hrl : rows.length = h)
    (hrw : ∀ r ∈ rows, r.length = w * bpp) (k : Nat) (hk : k < rows.length) :
    memRead (writeRows (tgaLstep hdr pitch) (List.replicate (pitch * h) 0)
        (tgaDst hdr h pitch) rows) (tgaRowIndex hdr h k * pitch) pitch
      = rows[k] ++ List.replicate (pitch - w * bpp) 0 := by
  have hstep : tgaLstep hdr pitch = pitch ∨ tgaLstep hdr pitch = -(pitch : Int) := by
    unfold tgaLstep; split
    · exact Or.inl rfl
    · exact Or.inr rfl
  have hkh : k < h := by rw [← hrl]; exact hk
  have hbound : ∀ j, j < h → tgaRowIndex hdr h j * pitch + pitch ≤ pitch * h := by
    intro j hj
    have h1 := tgaRowIndex_lt hdr h j hj
    have h2 : (tgaRowIndex hdr h j + 1) * pitch ≤ h * pitch := Nat.mul_le_mul_right _ h1
    rw [Nat.add_mul, Nat.one_mul] at h2
    rw [Nat.mul_comm pitch h]
    exact h2
  obtain ⟨_, i2, i3⟩ := writeRows_spec (tgaLstep hdr pitch) (w * bpp) pitch hpitch hstep rows
    (List.replicate (pitch * h) 0) (tgaDst hdr h pitch) hrw
    (by
      intro j hj
      rw [hrl] at hj
      rw [tga_row_offset' hdr h pitch j hj]
      refine ⟨Int.ofNat_nonneg _, ?_⟩
      rw [Int.toNat_ofNat, List.length_replicate]
      have := hbound j hj
      omega)
  have e : pitch = w * bpp + (pitch - w * bpp) := by omega
  conv_lhs => rw [e]
  rw [memRead_add]
  have p1 := i2 k hk
  rw [tga_row_offset' hdr h pitch k hkh, Int.toNat_ofNat] at p1
  rw [← e, p1]
  congr 1
  rw [i3 (tgaRowIndex hdr h k * pitch + w * bpp) (pitch - w * bpp)]
  · apply memRead_replicate_zero
    have := hbound k hkh
    omega
  · intro j hj
    rw [hrl] at hj
    rw [tga_row_offset' hdr h pitch j hj, Int.toNat_ofNat]
    rcases Nat.lt_or_ge (tgaRowIndex hdr h k) (tgaRowIndex hdr h j) with hlt | hge
    · left
      have h2 : (tgaRowIndex hdr h k + 1) * pitch ≤ tgaRowIndex hdr h j * pitch :=
        Nat.mul_le_mul_right _ hlt
      rw [Nat.add_mul, Nat.one_mul] at h2
      omega
    · right
      have h2 : tgaRowIndex hdr h j * pitch ≤ tgaRowIndex hdr h k * pitch :=
        Nat.mul_le_mul_right _ hge
      omega

set_option maxRecDepth 100000 in
theorem byte_or_0x20 : ∀ f : Fin 256,
    (f.val ||| TGA_ORIGIN_UPPER) &&& TGA_INTERLEAVE_MASK = f.val &&& TGA_INTERLEAVE_MASK ∧
    (f.val ||| TGA_ORIGIN_UPPER) &&& TGA_ORIGIN_RIGHT = f.val &&& TGA_ORIGIN_RIGHT ∧
    (f.val ||| TGA_ORIGIN_UPPER) &&& TGA_ORIGIN_UPPER ≠ 0 := by
  decide

/-- A successful decode carried over to the stream with another flags byte
that agrees on the interleave and right-origin bits: the same surface but for
the pixels, which are the same rows written in the direction of each header. -/
theorem tga_decode_flags (env : Env) (pre h17 body : List (Fin 256)) (f1 f2 : Fin 256)
    (h17len : h17.length = 17)
    (hm1 : f2.val &&& TGA_INTERLEAVE_MASK = f1.val &&& TGA_INTERLEAVE_MASK)
    (hm2 : f2.val &&& TGA_ORIGIN_RIGHT = f1.val &&& TGA_ORIGIN_RIGHT)
    (img1 : SDL_Surface) (s1' : SDL_IOStream)
    (hdec : IMG_LoadTGA_IO env (tgaStreamWithFlags pre h17 body f1) = (some img1, s1')) :
    ∃ (img2 : SDL_Surface) (s2' : SDL_IOStream) (rows : List (List Nat)),
      IMG_LoadTGA_IO env (tgaStreamWithFlags pre h17 body f2) = (some img2, s2') ∧
      img2.w = img1.w ∧ img2.h = img1.h ∧ img2.format = img1.format ∧
      img2.palette = img1.palette ∧ img2.pitch = img1.pitch ∧ img2.colorkey = img1.colorkey ∧
      img1.w * SDL_BYTESPERPIXEL img1.format ≤ img1.pitch ∧
      rows.length = img1.h ∧ (∀ r ∈ rows, r.length = img1.w * SDL_BYTESPERPIXEL img1.format) ∧
      img1.pixels = writeRows
        (tgaLstep { tgaHeaderOfBytes (h17.map Fin.val) with flags := f1.val } img1.pitch)
        (List.replicate (img1.pitch * img1.h) 0)
        (tgaDst { tgaHeaderOfBytes (h17.map Fin.val) with flags := f1.val } img1.h img1.pitch)
        rows ∧
      img2.pixels = writeRows
        (tgaLstep { tgaHeaderOfBytes (h17.map Fin.val) with flags := f2.val } img1.pitch)
        (List.replicate (img1.pitch * img1.h) 0)
        (tgaDst { tgaHeaderOfBytes (h17.map Fin.val) with flags := f2.val } img1.h img1.pitch)
        rows := by
  obtain ⟨hdr, rle, bpp, img0, s3, pixels, hs, hrows, himg⟩ :=
    IMG_LoadTGA_IO_ok env _ s1' img1 hdec
  obtain ⟨hhdr, s3', hrest, hs2⟩ :=
    tgaSetup_flags env pre h17 body f1 f2 h17len hm1 hm2 hdr rle bpp img0 s3 hs
  obtain ⟨_, _, hsh⟩ := tgaSetup_ok env _ hdr rle bpp img0 s3 hs
  obtain ⟨_, g2, _, g4, g5, g6, g7, g8, _⟩ := tgaSetupHdr_facts env hdr _ rle bpp img0 s3 hsh
  have hlift := tgaRows_lift hdr rle (LE16 hdr.width) (LE16 hdr.height) bpp img0.pitch g4
    img0.pixels s3 ⟨0, 0, (List.range 4).map fun j => env.uninit j % 256⟩ (by simp) (Or.inl rfl)
  have hrows' : tgaRows rle (LE16 hdr.width) bpp (tgaLstep hdr img0.pitch) (LE16 hdr.height)
      (tgaDst hdr (LE16 hdr.height) img0.pitch)
      ⟨0, 0, (List.range 4).map fun j => env.uninit j % 256⟩ img0.pixels s3
      = Except.ok (pixels, s1') := hrows
  rw [hlift] at hrows'
  obtain ⟨st', rows, ls', hr, hpix, _⟩ := liftRows_ok _ _ _ _ _ _ _ hrows'
  obtain ⟨r1, r2, _⟩ := tgaRowsL_facts rle (LE16 hdr.width) bpp g4 (LE16 hdr.height) _ _
    st' rows ls' hr (by simp) (Or.inl rfl) (streamRest_lt s3)
  have hw : (LE16 ({ tgaHeaderOfBytes (h17.map Fin.val) with flags := f2.val } : TGAheader).width)
      = LE16 hdr.width := by rw [hhdr]
  have hh : (LE16 ({ tgaHeaderOfBytes (h17.map Fin.val) with flags := f2.val } : TGAheader).height)
      = LE16 hdr.height := by rw [hhdr]
  have hdec2 := tga_decode_of_rows env (tgaStreamWithFlags pre h17 body f2)
    { tgaHeaderOfBytes (h17.map Fin.val) with flags := f2.val } rle bpp img0 s3' g4 st' rows ls'
    hs2 (by rw [hw, hh, hrest]; exact hr)
  rw [hh] at hdec2
  refine ⟨_, _, rows, hdec2, ?_, ?_, ?_, ?_, ?_, ?_, ?_, ?_, ?_, ?_, ?_⟩
  · rw [himg]
  · rw [himg]
  · rw [himg]
  · rw [himg]
  · rw [himg]
  · rw [himg]
  · rw [himg]
    show img0.w * SDL_BYTESPERPIXEL img0.format ≤ img0.pitch
    rw [← g2, g7]
    omega
  · rw [himg, r1]
    exact g6.symm
  · rw [himg]
    show ∀ r ∈ rows, r.length = img0.w * SDL_BYTESPERPIXEL img0.format
    rw [← g2, g5]
    exact r2
  · rw [himg]
    show pixels = _
    rw [hpix, ← hhdr]
    show _ = writeRows (tgaLstep hdr img0.pitch) (List.replicate (img0.pitch * img0.h) 0)
      (tgaDst hdr img0.h img0.pitch) rows
    rw [← g8, g6]
  · rw [himg]
    show writeRows _ img0.pixels _ rows = writeRows _ (List.replicate (img0.pitch * img0.h) 0)
      (tgaDst _ img0.h img0.pitch) rows
    rw [← g8, g6]

theorem IMG_LoadTGA_IO_some (env : Env) (src : SDL_IOStream)
    (h : ( IMG_LoadTGA_IO env src).1 ≠ none) :
    ∃ img s', IMG_LoadTGA_IO env src = (some img, s') := by
  rcases hr : IMG_LoadTGA_IO env src with ⟨_ | img, s'⟩
  · rw [hr] at h
    exact absurd rfl h
  · exact ⟨img, s', rfl⟩

/-- The same rows written by a header with the origin bit set and by one
with the bit clear: row `y` of the first buffer is row `h - 1 - y` of the
second. -/
theorem tga_writeRows_mirror (hup hlo : TGAheader) (w h bpp pitch : Nat)
    (hu : hup.flags &&& TGA_ORIGIN_UPPER ≠ 0) (hl : hlo.flags &&& TGA_ORIGIN_UPPER = 0)
    (hpitch : w * bpp ≤ pitch) (rows : List (List Nat)) (hrl : rows.length = h)
    (hrw : ∀ r ∈ rows, r.length = w * bpp) (y : Nat) (hy : y < h) :
    memRead (writeRows (tgaLstep hup pitch) (List.replicate (pitch * h) 0)
        (tgaDst hup h pitch) rows) (y * pitch) pitch
      = memRead (writeRows (tgaLstep hlo pitch) (List.replicate (pitch * h) 0)
        (tgaDst hlo h pitch) rows) ((h - 1 - y) * pitch) pitch := by
  have hyr : y < rows.length := by rw [hrl]; exact hy
  have e1 := tga_writeRows_fullrow hup w h bpp pitch hpitch rows hrl hrw y hyr
  have e2 := tga_writeRows_fullrow hlo w h bpp pitch hpitch rows hrl hrw y hyr
  have i1 : tgaRowIndex hup h y = y := by simp only [tgaRowIndex, if_pos hu]
  have i2 : tgaRowIndex hlo h y = h - 1 - y := by
    simp only [tgaRowIndex, hl, ne_eq, not_true_eq_false, if_false]
  rw [i1] at e1
  rw [i2] at e2
  rw [e1, e2]

/-! ## The ILBM chunk walk and palette -/

theorem readExact_data (src : SDL_IOStream) (n : Nat) : (readExact src n).2.data = src.data := by
  rw [readExact_eq]
  split <;> rfl

theorem readExact_ok_pos (src : SDL_IOStream) (n : Nat) (b : List Nat) (s : SDL_IOStream)
    (h : readExact src n = (some b, s)) :
    s.data = src.data ∧ s.pos = src.pos + n ∧ n ≤ src.data.length - src.pos ∧
      b = (streamRest src).take n ∧ (∀ x ∈ b, x < 256) := by
  obtain ⟨h1, h2, h3⟩ := readExact_ok src n b s h
  subst h3
  refine ⟨rfl, rfl, ?_, h2, ?_⟩
  · rw [streamRest_length] at h1
    omega
  · intro x hx
    rw [h2] at hx
    exact streamRest_lt src x (List.mem_of_mem_take hx)

theorem lbmChunkBMHD_ok (id : List Nat) (st st' : LBMChunks) (n n' : Nat)
    (src src' : SDL_IOStream)
    (h : lbmChunkBMHD id st n src = Except.ok (st', n', src')) :
    (memeq id "BMHD" 4 = false → st' = st ∧ n' = n ∧ src' = src) ∧
    (memeq id "BMHD" 4 = true →
      st' = { st with bmhd := bmhdOfBytes ((streamRest src).take 20) } ∧ n' = 20 ∧
      src'.data = src.data ∧ src'.pos = src.pos + 20) := by
  unfold lbmChunkBMHD at h
  cases hb : memeq id "BMHD" 4
  · simp only [hb, Bool.false_eq_true, if_false, Except.ok.injEq, Prod.mk.injEq] at h
    simp [h.1, h.2.1, h.2.2]
  · simp only [hb, if_true] at h
    rcases hr : readExact src 20 with ⟨_ | b, s⟩
    · rw [hr] at h; simp at h
    · rw [hr] at h
      simp only [Except.ok.injEq, Prod.mk.injEq] at h
      obtain ⟨r1, r2, r3, r4, _⟩ := readExact_ok_pos src 20 b s hr
      obtain ⟨e1, e2, e3⟩ := h
      subst e1 e2 e3 r4
      simp [r1, r2]

theorem lbmChunkCMAP_ok (id : List Nat) (size : Nat) (st st' : LBMChunks) (n n' : Nat)
    (src src' : SDL_IOStream)
    (h : lbmChunkCMAP id size st n src = Except.ok (st', n', src')) :
    (memeq id "CMAP" 4 = false → st' = st ∧ n' = n ∧ src' = src) ∧
    (memeq id "CMAP" 4 = true →
      size ≤ MAXCOLORS * 3 ∧
      st' = { st with colormap := memWrite st.colormap 0 ((streamRest src).take size),
                      nbcolors := size / 3 } ∧ n' = size ∧
      src'.data = src.data ∧ src'.pos = src.pos + size) := by
  unfold lbmChunkCMAP at h
  cases hb : memeq id "CMAP" 4
  · simp only [hb, Bool.false_eq_true, if_false, Except.ok.injEq, Prod.mk.injEq] at h
    simp [h.1, h.2.1, h.2.2]
  · simp only [hb, if_true] at h
    split at h
    · simp at h
    · rename_i hsz
      rcases hr : readExact src size with ⟨_ | b, s⟩
      · rw [hr] at h; simp at h
      · rw [hr] at h
        simp only [Except.ok.injEq, Prod.mk.injEq] at h
        obtain ⟨r1, r2, r3, r4, _⟩ := readExact_ok_pos src size b s hr
        obtain ⟨e1, e2, e3⟩ := h
        subst e1 e2 e3 r4
        simp only [r1, r2, and_self, and_true, true_implies, Bool.true_eq_false, false_implies,
          true_and]
        omega

theorem lbmChunkCAMG_ok (id : List Nat) (size : Nat) (st st' : LBMChunks) (n n' : Nat)
    (src src' : SDL_IOStream)
    (h : lbmChunkCAMG id size st n src = Except.ok (st', n', src')) :
    (memeq id "CAMG" 4 = false → st' = st ∧ n' = n ∧ src' = src) ∧
    (memeq id "CAMG" 4 = true →
      st'.id = st.id ∧ st'.bmhd = st.bmhd ∧ st'.colormap = st.colormap ∧
      st'.nbcolors = st.nbcolors ∧ n' = size ∧
      src'.data = src.data ∧ src'.pos = src.pos + 4) := by
  unfold lbmChunkCAMG at h
  cases hb : memeq id "CAMG" 4
  · simp only [hb, Bool.false_eq_true, if_false, Except.ok.injEq, Prod.mk.injEq] at h
    simp [h.1, h.2.1, h.2.2]
  · simp only [hb, if_true] at h
    rcases hr : readExact src 4 with ⟨_ | b, s⟩
    · rw [hr] at h; simp at h
    · rw [hr] at h
      simp only [Except.ok.injEq, Prod.mk.injEq] at h
      obtain ⟨r1, r2, r3, r4, _⟩ := readExact_ok_pos src 4 b s hr
      obtain ⟨e1, e2, e3⟩ := h
      subst e1 e2 e3
      simp only [Bool.true_eq_false, false_implies, true_implies, r1, r2, and_true, true_and]
      refine ⟨?_, ?_, ?_, ?_⟩ <;> (split <;> split <;> rfl)

theorem memeq_exclusive (id : List Nat) :
    (memeq id "BMHD" 4 = true → memeq id "CMAP" 4 = false ∧ memeq id "CAMG" 4 = false ∧
      memeq id "BODY" 4 = false) ∧
    (memeq id "CMAP" 4 = true → memeq id "CAMG" 4 = false ∧ memeq id "BODY" 4 = false) ∧
    (memeq id "CAMG" 4 = true → memeq id "BODY" 4 = false) := by
  simp only [memeq, decide_eq_true_eq, decide_eq_false_iff_not]
  refine ⟨?_, ?_, ?_⟩ <;> intro h <;> rw [h] <;> decide

theorem lbmChunkSkip_data (id : List Nat) (size bl : Nat) (s : SDL_IOStream) :
    (lbmChunkSkip id size bl s).data = s.data ∧
    (lbmChunkSkip id size bl s).pos = s.pos +
      (if memeq id "BODY" 4 then 0
       else ((if size &&& 1 ≠ 0 then (size + 1) % 4294967296 else size) + 4294967296 - bl)
          % 4294967296) := by
  unfold lbmChunkSkip
  cases hb : memeq id "BODY" 4
  · simp only [Bool.not_false, if_true, Bool.false_eq_true, if_false]
    generalize ((if size &&& 1 ≠ 0 then (size + 1) % 4294967296 else size) + 4294967296 - bl)
      % 4294967296 = k
    by_cases hk : k = 0
    · simp [hk]
    · simp only [ne_eq, hk, not_false_eq_true, if_true]
      rw [SDL_SeekIO_cur]
      exact ⟨rfl, rfl⟩
  · simp

/-- What a pass of the chunk walk that does not fail has done, by the kind of
the chunk: `s3` is the stream when the last block (the skip) is reached. -/
theorem lbmChunkStep_ok (st st' : LBMChunks) (src src' : SDL_IOStream)
    (h : lbmChunkStep st src = Except.ok (st', src')) :
    8 ≤ src.data.length - src.pos ∧ st'.id = (streamRest src).take 4 ∧
    ∃ s3 : SDL_IOStream, s3.data = src.data ∧
      ((memeq st'.id "BMHD" 4 = true ∧
          st' = { st with id := st'.id,
                          bmhd := bmhdOfBytes (((streamRest src).drop 8).take 20) } ∧
          s3.pos = src.pos + 28 ∧
          src' = lbmChunkSkip st'.id (BE32 (((streamRest src).drop 4).take 4)) 20 s3) ∨
       (memeq st'.id "BMHD" 4 = false ∧ memeq st'.id "CMAP" 4 = true ∧
          BE32 (((streamRest src).drop 4).take 4) ≤ MAXCOLORS * 3 ∧
          st' = { st with id := st'.id,
                          colormap := memWrite st.colormap 0
                            (((streamRest src).drop 8).take
                              (BE32 (((streamRest src).drop 4).take 4))),
                          nbcolors := BE32 (((streamRest src).drop 4).take 4) / 3 } ∧
          s3.pos = src.pos + 8 + BE32 (((streamRest src).drop 4).take 4) ∧
          src' = lbmChunkSkip st'.id (BE32 (((streamRest src).drop 4).take 4))
            (BE32 (((streamRest src).drop 4).take 4)) s3) ∨
       (memeq st'.id "BMHD" 4 = false ∧ memeq st'.id "CMAP" 4 = false ∧
          memeq st'.id "CAMG" 4 = true ∧
          st'.bmhd = st.bmhd ∧ st'.colormap = st.colormap ∧ st'.nbcolors = st.nbcolors ∧
          s3.pos = src.pos + 12 ∧
          src' = lbmChunkSkip st'.id (BE32 (((streamRest src).drop 4).take 4))
            (BE32 (((streamRest src).drop 4).take 4)) s3) ∨
       (memeq st'.id "BMHD" 4 = false ∧ memeq st'.id "CMAP" 4 = false ∧
          memeq st'.id "CAMG" 4 = false ∧
          st' = { st with id := st'.id } ∧ s3.pos = src.pos + 8 ∧
          src' = lbmChunkSkip st'.id (BE32 (((streamRest src).drop 4).take 4)) 0 s3)) := by
  unfold lbmChunkStep at h
  rcases h1 : readExact src 4 with ⟨_ | id, s1⟩
  · rw [h1] at h; simp at h
  rw [h1] at h
  dsimp only at h
  rcases h2 : readExact s1 4 with ⟨_ | sizeBytes, s2⟩
  · rw [h2] at h; simp at h
  rw [h2] at h
  dsimp only at h
  obtain ⟨a1, a2, a3, a4, _⟩ := readExact_ok_pos src 4 id s1 h1
  obtain ⟨b1, b2, b3, b4, _⟩ := readExact_ok_pos s1 4 sizeBytes s2 h2
  have hs1 : streamRest s1 = (streamRest src).drop 4 := by
    have := streamRest_advance src 4
    rw [← this]
    simp only [streamRest, a1, a2]
  have hs2 : streamRest s2 = (streamRest src).drop 8 := by
    have := streamRest_advance src 8
    rw [← this]
    simp only [streamRest, b1, b2, a1, a2]
  rw [hs1] at b4
  rcases hA : lbmChunkBMHD id { st with id := id } 0 s2 with d | ⟨stA, nA, sA⟩
  · rw [hA] at h; simp at h
  rw [hA] at h
  dsimp only at h
  rcases hB : lbmChunkCMAP id (BE32 sizeBytes) stA nA sA with d | ⟨stB, nB, sB⟩
  · rw [hB] at h; simp at h
  rw [hB] at h
  dsimp only at h
  rcases hC : lbmChunkCAMG id (BE32 sizeBytes) stB nB sB with d | ⟨stC, nC, sC⟩
  · rw [hC] at h; simp at h
  rw [hC] at h
  simp only [Except.ok.injEq, Prod.mk.injEq] at h
  obtain ⟨e1, e2⟩ := h
  subst e1
  obtain ⟨A0, A1⟩ := lbmChunkBMHD_ok _ _ _ _ _ _ _ hA
  obtain ⟨B0, B1⟩ := lbmChunkCMAP_ok _ _ _ _ _ _ _ _ hB
  obtain ⟨C0, C1⟩ := lbmChunkCAMG_ok _ _ _ _ _ _ _ _ hC
  obtain ⟨X1, X2, X3⟩ := memeq_exclusive id
  have hlen : 8 ≤ src.data.length - src.pos := by
    rw [a1, a2] at b3
    omega
  cases hb : memeq id "BMHD" 4
  · obtain ⟨eA1, eA2, eA3⟩ := A0 hb
    cases hc : memeq id "CMAP" 4
    · obtain ⟨eB1, eB2, eB3⟩ := B0 hc
      cases hg : memeq id "CAMG" 4
      · obtain ⟨eC1, eC2, eC3⟩ := C0 hg
        have hst : stC = { st with id := id } := by rw [eC1, eB1, eA1]
        have hs : sC = s2 := by rw [eC3, eB3, eA3]
        have hn : nC = 0 := by rw [eC2, eB2, eA2]
        have hid : stC.id = id := by rw [hst]
        refine ⟨hlen, by rw [hid]; exact a4, sC, by rw [hs, b1, a1], Or.inr (Or.inr (Or.inr ?_))⟩
        rw [hid]
        refine ⟨hb, hc, hg, hst, by rw [hs, b2, a2], ?_⟩
        rw [← e2, hn, b4]
      · obtain ⟨c1, c2, c3, c4, c5, c6, c7⟩ := C1 hg
        have hid : stC.id = id := by rw [c1, eB1, eA1]
        refine ⟨hlen, by rw [hid]; exact a4, sC, by rw [c6, eB3, eA3, b1, a1],
          Or.inr (Or.inr (Or.inl ?_))⟩
        rw [hid]
        refine ⟨hb, hc, hg, by rw [c2, eB1, eA1], by rw [c3, eB1, eA1], by rw [c4, eB1, eA1],
          by rw [c7, eB3, eA3, b2, a2], ?_⟩
        rw [← e2, c5, b4]
    · obtain ⟨c1, c2, c3, c4, c5⟩ := B1 hc
      obtain ⟨g1, _⟩ := X2 hc
      obtain ⟨eC1, eC2, eC3⟩ := C0 g1
      have hid : stC.id = id := by rw [eC1, c2, eA1]
      refine ⟨hlen, by rw [hid]; exact a4, sC, by rw [eC3, c4, eA3, b1, a1], Or.inr (Or.inl ?_)⟩
      rw [hid]
      rw [b4] at c1 c2 c3 c5 e2
      refine ⟨hb, hc, c1, ?_, by rw [eC3, c5, eA3, b2, a2], ?_⟩
      · rw [eC1, c2, eA1, eA3, hs2]
      · rw [← e2, eC2, c3]
  · obtain ⟨c1, c2, c3, c4⟩ := A1 hb
    obtain ⟨g1, g2, _⟩ := X1 hb
    obtain ⟨eB1, eB2, eB3⟩ := B0 g1
    obtain ⟨eC1, eC2, eC3⟩ := C0 g2
    have hid : stC.id = id := by rw [eC1, eB1, c1]
    refine ⟨hlen, by rw [hid]; exact a4, sC, by rw [eC3, eB3, c3, b1, a1], Or.inl ?_⟩
    rw [hid]
    refine ⟨hb, ?_, by rw [eC3, eB3, c4, b2, a2], ?_⟩
    · rw [eC1, eB1, c1, hs2]
    · rw [← e2, eC2, eB2, c2, b4]

theorem lbmChunkStep_advance (st st' : LBMChunks) (src src' : SDL_IOStream)
    (h : lbmChunkStep st src = Except.ok (st', src')) :
    8 ≤ src.data.length - src.pos ∧ src'.data = src.data ∧ src.pos + 8 ≤ src'.pos := by
  obtain ⟨h1, _, s3, h3, hc⟩ := lbmChunkStep_ok st st' src src' h
  refine ⟨h1, ?_, ?_⟩
  · rcases hc with ⟨_, _, _, e⟩ | ⟨_, _, _, _, _, e⟩ | ⟨_, _, _, _, _, _, _, e⟩ | ⟨_, _, _, _, _, e⟩ <;>
      rw [e, (lbmChunkSkip_data _ _ _ _).1, h3]
  · rcases hc with ⟨_, _, p, e⟩ | ⟨_, _, _, _, p, e⟩ | ⟨_, _, _, _, _, _, p, e⟩ | ⟨_, _, _, _, p, e⟩ <;>
      rw [e, (lbmChunkSkip_data _ _ _ _).2, p] <;> omega

/-- The fuel that `lbmWalk` gives the chunk walk is enough: with more fuel than
bytes left in the stream the walk ends, at a `BODY` chunk or in `goto done`. -/
theorem lbmChunkLoop_fuel : ∀ (fuel : Nat) (st : LBMChunks) (src : SDL_IOStream),
    src.data.length - src.pos < fuel → lbmChunkLoop fuel st src ≠ none := by
  intro fuel
  induction fuel with
  | zero => intro st src h; omega
  | succ fuel ih =>
    intro st src h
    unfold lbmChunkLoop
    split
    · simp
    · rcases hs : lbmChunkStep st src with d | ⟨st', src'⟩
      · simp
      · obtain ⟨h1, h2, h3⟩ := lbmChunkStep_advance st st' src src' hs
        exact ih st' src' (by rw [h2]; omega)

theorem getD_lt_of_forall (l : List Nat) (i : Nat) (h : ∀ x ∈ l, x < 256) : l.getD i 0 < 256 := by
  rw [List.getD_eq_getElem?_getD]
  rcases hi : l[i]? with _ | v
  · simp
  · simp only [Option.getD_some]
    exact h v (List.getElem?_mem hi)

theorem bmhdOfBytes_bounded (b : List Nat) (h : ∀ x ∈ b, x < 256) :
    (bmhdOfBytes b).w < 65536 ∧ (bmhdOfBytes b).h < 65536 ∧ (bmhdOfBytes b).planes < 256 ∧
      (bmhdOfBytes b).mask < 256 ∧ (bmhdOfBytes b).tcolor < 65536 := by
  have g := fun i => getD_lt_of_forall b i h
  simp only [bmhdOfBytes, BE16]
  have := g 0; have := g (0 + 1); have := g 2; have := g (2 + 1); have := g 8; have := g 9
  have := g 12; have := g (12 + 1)
  refine ⟨?_, ?_, ?_, ?_, ?_⟩ <;> omega

theorem lbmChunkStep_bounded (st st' : LBMChunks) (src src' : SDL_IOStream)
    (h : lbmChunkStep st src = Except.ok (st', src')) (hb : st.Bounded) : st'.Bounded := by
  obtain ⟨_, _, s3, _, hc⟩ := lbmChunkStep_ok st st' src src' h
  obtain ⟨b1, b2, b3, b4, b5, b6⟩ := hb
  rcases hc with ⟨_, e, _, _⟩ | ⟨_, _, hsz, e, _, _⟩ | ⟨_, _, _, e1, e2, e3, _, _⟩ | ⟨_, _, _, e, _, _⟩
  · obtain ⟨c1, c2, c3, c4, c5⟩ := bmhdOfBytes_bounded (((streamRest src).drop 8).take 20)
      (fun x hx => streamRest_lt src x (List.mem_of_mem_drop (List.mem_of_mem_take hx)))
    rw [e]
    exact ⟨c1, c2, c3, c4, c5, b6⟩
  · rw [e]
    refine ⟨b1, b2, b3, b4, b5, ?_⟩
    show _ / 3 ≤ MAXCOLORS
    simp only [MAXCOLORS] at hsz ⊢
    omega
  · unfold LBMChunks.Bounded
    rw [e1, e3]
    exact ⟨b1, b2, b3, b4, b5, b6⟩
  · rw [e]
    exact ⟨b1, b2, b3, b4, b5, b6⟩

theorem lbmChunkLoop_bounded : ∀ (fuel : Nat) (st st' : LBMChunks) (src src' : SDL_IOStream),
    lbmChunkLoop fuel st src = some (Except.ok (st', src')) → st.Bounded → st'.Bounded := by
  intro fuel
  induction fuel with
  | zero => intro st st' src src' h; simp [lbmChunkLoop] at h
  | succ fuel ih =>
    intro st st' src src' h hb
    unfold lbmChunkLoop at h
    split at h
    · simp only [Option.some.injEq, Except.ok.injEq, Prod.mk.injEq] at h
      rw [← h.1]
      exact hb
    · rcases hs : lbmChunkStep st src with d | ⟨st1, src1⟩
      · rw [hs] at h; simp at h
      · rw [hs] at h
        exact ih st1 st' src1 src' h (lbmChunkStep_bounded st st1 src src1 hs hb)

/-- A walk that meets no `BMHD` chunk leaves the bitmap header as it was. -/
theorem lbmChunkLoop_no_bmhd : ∀ (fuel : Nat) (st st' : LBMChunks) (src src' : SDL_IOStream),
    lbmChunkLoop fuel st src = some (Except.ok (st', src')) →
    (∀ id ∈ lbmChunkIds fuel st src, memeq id "BMHD" 4 = false) → st'.bmhd = st.bmhd := by
  intro fuel
  induction fuel with
  | zero => intro st st' src src' h; simp [lbmChunkLoop] at h
  | succ fuel ih =>
    intro st st' src src' h hno
    unfold lbmChunkLoop at h
    unfold lbmChunkIds at hno
    split at h
    · simp only [Option.some.injEq, Except.ok.injEq, Prod.mk.injEq] at h
      rw [← h.1]
    · rename_i hbody
      simp only [hbody, Bool.false_eq_true, if_false] at hno
      rcases hs : lbmChunkStep st src with d | ⟨st1, src1⟩
      · rw [hs] at h; simp at h
      · rw [hs] at h hno
        simp only [List.mem_cons, forall_eq_or_imp] at hno
        have e1 := ih st1 st' src1 src' h hno.2
        obtain ⟨_, _, s3, _, hc⟩ := lbmChunkStep_ok st st1 src src1 hs
        rw [e1]
        rcases hc with ⟨t, _⟩ | ⟨_, _, _, e, _, _⟩ | ⟨_, _, _, e, _⟩ | ⟨_, _, _, e, _, _⟩
        · rw [hno.1] at t; cases t
        · rw [e]
        · exact e
        · rw [e]

theorem lbmChunkStep_error (st : LBMChunks) (src : SDL_IOStream) (d : LBMDone)
    (h : lbmChunkStep st src = Except.error d) : d.error.isSome = true := by
  unfold lbmChunkStep at h
  rcases h1 : readExact src 4 with ⟨_ | id, s1⟩
  · rw [h1] at h
    simp only [Except.error.injEq] at h
    rw [← h]; rfl
  rw [h1] at h
  dsimp only at h
  rcases h2 : readExact s1 4 with ⟨_ | sizeBytes, s2⟩
  · rw [h2] at h
    simp only [Except.error.injEq] at h
    rw [← h]; rfl
  rw [h2] at h
  dsimp only at h
  rcases hA : lbmChunkBMHD id { st with id := id } 0 s2 with d1 | ⟨stA, nA, sA⟩
  · rw [hA] at h
    simp only [Except.error.injEq] at h
    subst h
    unfold lbmChunkBMHD at hA
    split at hA
    · split at hA
      · simp only [Except.error.injEq] at hA
        rw [← hA]; rfl
      · cases hA
    · cases hA
  rw [hA] at h
  dsimp only at h
  rcases hB : lbmChunkCMAP id (BE32 sizeBytes) stA nA sA with d1 | ⟨stB, nB, sB⟩
  · rw [hB] at h
    simp only [Except.error.injEq] at h
    subst h
    unfold lbmChunkCMAP at hB
    split at hB
    · split at hB
      · simp only [Except.error.injEq] at hB
        rw [← hB]; rfl
      · split at hB
        · simp only [Except.error.injEq] at hB
          rw [← hB]; rfl
        · cases hB
    · cases hB
  rw [hB] at h
  dsimp only at h
  rcases hC : lbmChunkCAMG id (BE32 sizeBytes) stB nB sB with d1 | ⟨stC, nC, sC⟩
  · rw [hC] at h
    simp only [Except.error.injEq] at h
    subst h
    unfold lbmChunkCAMG at hC
    split at hC
    · split at hC
      · simp only [Except.error.injEq] at hC
        rw [← hC]; rfl
      · cases hC
    · cases hC
  rw [hC] at h
  cases h

theorem lbmChunkLoop_error : ∀ (fuel : Nat) (st : LBMChunks) (src : SDL_IOStream) (d : LBMDone),
    lbmChunkLoop fuel st src = some (Except.error d) → d.error.isSome = true := by
  intro fuel
  induction fuel with
  | zero => intro st src d h; simp [lbmChunkLoop] at h
  | succ fuel ih =>
    intro st src d h
    unfold lbmChunkLoop at h
    split at h
    · simp at h
    · rcases hs : lbmChunkStep st src with d1 | ⟨st1, src1⟩
      · rw [hs] at h
        simp only [Option.some.injEq, Except.error.injEq] at h
        rw [← h]
        exact lbmChunkStep_error st src d1 hs
      · rw [hs] at h
        exact ih st1 src1 d h

theorem lbmWalk_cases (env : Env) (src : SDL_IOStream) :
    (∃ d, lbmWalk env src = Except.error d ∧ d.error.isSome = true) ∨
    (12 ≤ src.data.length - src.pos ∧
      memeq ((streamRest src).take 4) "FORM" 4 = true ∧
      (memeq (((streamRest src).drop 8).take 4) "PBM " 4 = true ∨
        memeq (((streamRest src).drop 8).take 4) "ILBM" 4 = true) ∧
      ∃ st s, lbmWalk env src
          = Except.ok (memeq (((streamRest src).drop 8).take 4) "PBM " 4, st, s) ∧
        lbmChunkLoop (src.data.length - (src.pos + 12) + 1) (lbmWalkStart env src).1
          (lbmWalkStart env src).2 = some (Except.ok (st, s))) := by
  unfold lbmWalk
  rcases h1 : readExact src 4 with ⟨_ | id, s1⟩
  · exact Or.inl ⟨_, rfl, rfl⟩
  dsimp only
  rcases h2 : readExact s1 4 with ⟨_ | sz, s2⟩
  · exact Or.inl ⟨_, rfl, rfl⟩
  dsimp only
  cases hF : memeq id "FORM" 4
  · exact Or.inl ⟨_, rfl, rfl⟩
  simp only [Bool.not_true, Bool.false_eq_true, if_false]
  rcases h3 : readExact s2 4 with ⟨_ | id2, s3⟩
  · exact Or.inl ⟨_, rfl, rfl⟩
  dsimp only
  obtain ⟨a1, a2, a3, a4, _⟩ := readExact_ok_pos src 4 id s1 h1
  obtain ⟨b1, b2, b3, b4, _⟩ := readExact_ok_pos s1 4 sz s2 h2
  obtain ⟨c1, c2, c3, c4, _⟩ := readExact_ok_pos s2 4 id2 s3 h3
  have hs3 : s3 = { src with pos := src.pos + 12 } := by
    cases s3
    simp only at c1 c2
    simp only [SDL_IOStream.mk.injEq]
    exact ⟨by rw [c1, b1, a1], by rw [c2, b2, a2]⟩
  have hid2 : id2 = ((streamRest src).drop 8).take 4 := by
    rw [c4]
    have := streamRest_advance src 8
    rw [← this]
    simp only [streamRest, b1, b2, a1, a2]
  by_cases hP : (!memeq id2 "PBM " 4 && !memeq id2 "ILBM" 4) = true
  · simp only [hP, if_true]
    exact Or.inl ⟨_, rfl, rfl⟩
  simp only [hP, Bool.false_eq_true, if_false]
  have hfuel : s3.data.length - s3.pos + 1 = src.data.length - (src.pos + 12) + 1 := by
    rw [hs3]
  rw [hfuel]
  rcases hl : lbmChunkLoop (src.data.length - (src.pos + 12) + 1)
      ⟨id2, ⟨0, 0, 0, 0, 0, 0, 0, 0, 0, 0, 0, 0, 0⟩,
        (List.range (MAXCOLORS * 3)).map fun i => env.uninit i % 256, 0, 0, 0⟩ s3
    with _ | (d | ⟨st, s⟩)
  · exact Or.inl ⟨_, rfl, rfl⟩
  · exact Or.inl ⟨_, rfl, lbmChunkLoop_error _ _ _ _ hl⟩
  · right
    refine ⟨?_, ?_, ?_, st, s, ?_, ?_⟩
    · rw [b1, b2, a1, a2] at c3
      omega
    · rw [← a4]; exact hF
    · rw [← hid2]
      simp only [Bool.and_eq_true, Bool.not_eq_true', not_and, Bool.not_eq_false] at hP
      cases hp : memeq id2 "PBM " 4
      · right; exact hP hp
      · left; rfl
    · rw [← hid2]
    · unfold lbmWalkStart
      rw [← hid2, ← hs3]
      exact hl

theorem IMG_LoadLBM_IO_some (env : Env) (src src' : SDL_IOStream) (img : SDL_Surface)
    (h : IMG_LoadLBM_IO env src = (some img, src')) :
    ∃ pbm st s, lbmWalk env src = Except.ok (pbm, st, s) ∧ lbmReturns env pbm st s img src' := by
  unfold IMG_LoadLBM_IO IMG_LoadLBM_IO_body at h
  rcases hw : lbmWalk env src with d | ⟨pbm, st, s⟩
  · rw [hw] at h
    rcases lbmWalk_cases env src with ⟨d1, e1, e2⟩ | ⟨_, _, _, st, s, e1, _⟩
    · rw [hw] at e1
      simp only [Except.error.injEq] at e1
      subst e1
      simp [e2] at h
    · rw [hw] at e1
      cases e1
  · rw [hw] at h
    refine ⟨pbm, st, s, rfl, ?_⟩
    dsimp only at h
    rcases hd : lbmDecode env pbm st s with d | ⟨img1, s1⟩
    · rw [hd] at h
      dsimp only at h
      split at h
      · simp at h
      · rename_i he
        simp only [Prod.mk.injEq] at h
        right
        rcases d with ⟨e, i, sd⟩
        simp only at h he
        cases e with
        | some _ => simp at he
        | none => rw [hd, h.1, h.2]
    · rw [hd] at h
      simp only [Option.isSome_none, Bool.false_eq_true, if_false, Prod.mk.injEq,
        Option.some.injEq] at h
      left
      rw [hd, h.1, h.2]

theorem SDL_CreateSurfacePalette_eq (env : Env) (img : SDL_Surface) :
    SDL_CreateSurfacePalette env img =
      if env.paletteOk = true ∧ img.format = SDL_PIXELFORMAT_INDEX8 then some palette256
      else none := by
  unfold SDL_CreateSurfacePalette palette256
  generalize ({ ncolors := 256, colors := List.replicate 256 ⟨255, 255, 255, 255⟩ } : SDL_Palette) = p
  cases env.paletteOk <;> cases img.format <;> rfl

theorem lbmCreateImage_some (env : Env) (pbm : Bool) (st : LBMChunks) (img : SDL_Surface)
    (h : lbmCreateImage env pbm st = some img) :
    env.surfaceOk = true ∧ img.w = lbmWidth st ∧ img.h = st.bmhd.h ∧
    img.format = lbmFormat pbm st ∧
    img.pitch = (lbmWidth st * SDL_BYTESPERPIXEL (lbmFormat pbm st) + 3) / 4 * 4 ∧
    img.pixels = List.replicate (img.pitch * img.h) 0 ∧
    img.colorkey = (if st.bmhd.mask &&& 2 ≠ 0 then some st.bmhd.tcolor else none) ∧
    img.palette = none ∧ img.hotspot = none := by
  unfold lbmCreateImage at h
  rcases hs : SDL_CreateSurface env (lbmWidth st) st.bmhd.h (lbmFormat pbm st) with _ | i0
  · rw [hs] at h; cases h
  · rw [hs] at h
    have e := SDL_CreateSurface_some env _ _ _ i0 hs
    have hok : env.surfaceOk = true := by
      unfold SDL_CreateSurface at hs
      cases hso : env.surfaceOk
      · rw [hso] at hs; simp at hs
      · rfl
    simp only [Option.some.injEq] at h
    subst e
    subst h
    refine ⟨hok, ?_, ?_, ?_, ?_, ?_, ?_, ?_, ?_⟩ <;> (split <;> rfl)

theorem lbmUpdatePalette_some (env : Env) (pbm : Bool) (st : LBMChunks) (img img' : SDL_Surface)
    (hf : img.format = lbmFormat pbm st) (hpal : img.palette = none)
    (h : lbmUpdatePalette env pbm st img = some img' ∨
      (lbmUpdatePalette env pbm st img = none ∧ img' = img)) :
    img' = { img with palette := lbmImagePalette env pbm st } := by
  unfold lbmUpdatePalette at h
  unfold lbmImagePalette
  rw [SDL_CreateSurfacePalette_eq, hf] at h
  by_cases hc : st.nbcolors > 0 ∧ st.flagHAM = 0
  · by_cases hp : env.paletteOk = true ∧ lbmFormat pbm st = SDL_PIXELFORMAT_INDEX8
    · have hall : st.nbcolors > 0 ∧ st.flagHAM = 0 ∧ env.paletteOk = true ∧
          lbmFormat pbm st = SDL_PIXELFORMAT_INDEX8 := ⟨hc.1, hc.2, hp.1, hp.2⟩
      simp only [hc, and_self, if_true, hp, Option.some.injEq, reduceCtorEq, false_and,
        or_false] at h
      simp only [hall, and_self, if_true]
      rw [← h, hf, hp.2]
    · have hall : ¬ (st.nbcolors > 0 ∧ st.flagHAM = 0 ∧ env.paletteOk = true ∧
          lbmFormat pbm st = SDL_PIXELFORMAT_INDEX8) := fun t => hp ⟨t.2.2.1, t.2.2.2⟩
      simp only [hc, and_self, if_true, hp, if_false, reduceCtorEq, true_and, false_or] at h
      simp only [hall, if_false]
      rw [h, ← hpal]
  · have hall : ¬ (st.nbcolors > 0 ∧ st.flagHAM = 0 ∧ env.paletteOk = true ∧
        lbmFormat pbm st = SDL_PIXELFORMAT_INDEX8) := fun t => hc ⟨t.1, t.2.1⟩
    simp only [hc, if_false, Option.some.injEq, reduceCtorEq, false_and, or_false] at h
    simp only [hall, if_false]
    rw [← h, ← hpal]

theorem lbmDecode_image (env : Env) (pbm : Bool) (st : LBMChunks) (s src' : SDL_IOStream)
    (img : SDL_Surface) (h : lbmReturns env pbm st s img src') :
    env.mallocOk = true ∧ env.surfaceOk = true ∧ img.w = lbmWidth st ∧ img.h = st.bmhd.h ∧
    img.format = lbmFormat pbm st ∧
    img.colorkey = (if st.bmhd.mask &&& 2 ≠ 0 then some st.bmhd.tcolor else none) ∧
    img.palette = lbmImagePalette env pbm st := by
  unfold lbmReturns lbmDecode at h
  cases hm : env.mallocOk
  · simp [hm, lbmFail] at h
  simp only [hm, Bool.not_true, Bool.false_eq_true, if_false] at h
  rcases hi : lbmCreateImage env pbm st with _ | i0
  · rw [hi] at h; simp at h
  rw [hi] at h
  dsimp only at h
  obtain ⟨c1, c2, c3, c4, c5, c6, c7, c8, c9⟩ := lbmCreateImage_some env pbm st i0 hi
  rcases hu : lbmUpdatePalette env pbm st i0 with _ | i1
  · rw [hu] at h
    simp only [reduceCtorEq, Except.error.injEq, LBMDone.mk.injEq, Option.some.injEq, true_and,
      false_or] at h
    have e := lbmUpdatePalette_some env pbm st i0 img c4 c8 (Or.inr ⟨hu, h.1.symm⟩)
    rw [e]
    exact ⟨rfl, c1, c2, c3, c4, c7, rfl⟩
  · rw [hu] at h
    dsimp only at h
    have e := lbmUpdatePalette_some env pbm st i0 i1 c4 c8 (Or.inl hu)
    rcases hr : lbmRows st.colormap pbm st.bmhd.tcomp (lbmWidth st) (lbmBytesPerLine pbm st)
      (lbmPlanes pbm st) (lbmStencil st) st.flagHAM st.bmhd.h 0
      ((List.range (lbmBytesPerLine pbm st * (lbmPlanes pbm st + lbmStencil st))).map
        fun i => env.uninit i % 256) i1.pixels s with e1 | ⟨mb, px, s1⟩
    · rw [hr] at h; simp at h
    · rw [hr] at h
      simp only [Except.ok.injEq, Prod.mk.injEq, reduceCtorEq, or_false] at h
      rw [← h.1, e]
      exact ⟨rfl, c1, c2, c3, c4, c7, rfl⟩

/-- With no rows to read (`bmhd.h = 0`) the second part of the body cannot
fail once the scratch buffer and the surface are allocated. -/
theorem lbmDecode_no_rows (env : Env) (pbm : Bool) (st : LBMChunks) (s : SDL_IOStream)
    (hm : env.mallocOk = true) (hs : env.surfaceOk = true) (hh : st.bmhd.h = 0) :
    ∃ img, lbmReturns env pbm st s img s := by
  unfold lbmReturns lbmDecode
  simp only [hm, Bool.not_true, Bool.false_eq_true, if_false]
  have hi : ∃ i0, lbmCreateImage env pbm st = some i0 := by
    unfold lbmCreateImage SDL_CreateSurface
    simp only [hs, if_true]
    exact ⟨_, rfl⟩
  obtain ⟨i0, hi⟩ := hi
  rw [hi]
  dsimp only
  rcases hu : lbmUpdatePalette env pbm st i0 with _ | i1
  · exact ⟨i0, Or.inr rfl⟩
  · dsimp only
    rw [hh]
    exact ⟨_, Or.inl rfl⟩

theorem IMG_LoadLBM_IO_of_returns (env : Env) (src s src' : SDL_IOStream) (pbm : Bool)
    (st : LBMChunks) (img : SDL_Surface)
    (hw : lbmWalk env src = Except.ok (pbm, st, s)) (hr : lbmReturns env pbm st s img src') :
    IMG_LoadLBM_IO env src = (some img, src') := by
  unfold IMG_LoadLBM_IO IMG_LoadLBM_IO_body
  rw [hw]
  dsimp only
  rcases hr with e | e <;> rw [e] <;> rfl

theorem colorsSet_length (colors : List SDL_Color) (i r g b : Nat) (h : i < colors.length) :
    (colorsSet colors i r g b).length = colors.length := by
  simp [colorsSet, h]

theorem getD_colorsSet (colors : List SDL_Color) (i r g b j : Nat) (d : SDL_Color)
    (h : i < colors.length) :
    (colorsSet colors i r g b).getD j d =
      if j = i then ⟨r, g, b, (colors.getD i ⟨0, 0, 0, 0⟩).a⟩ else colors.getD j d := by
  simp only [colorsSet, h, if_true, List.getD_eq_getElem?_getD, List.getElem?_set]
  by_cases hj : j = i
  · subst hj
    simp [h]
  · have : ¬ i = j := fun e => hj e.symm
    simp [hj, this]

/-- What the copy loop leaves: the entries outside `i .. i + n - 1` as they
were, entry `i + k` with the three bytes at `ptr + 3 * k` divided by `d`. -/
theorem lbmCopyColors_spec (colormap : List Nat) (d : Nat) (dflt : SDL_Color) :
    ∀ (n i ptr : Nat) (colors : List SDL_Color), i + n ≤ colors.length →
      (lbmCopyColors colormap d n i ptr colors).length = colors.length ∧
      (∀ j, (j < i ∨ i + n ≤ j) →
        (lbmCopyColors colormap d n i ptr colors).getD j dflt = colors.getD j dflt) ∧
      (∀ k, k < n →
        (lbmCopyColors colormap d n i ptr colors).getD (i + k) dflt
          = ⟨getByte colormap (ptr + 3 * k) / d, getByte colormap (ptr + 3 * k + 1) / d,
             getByte colormap (ptr + 3 * k + 2) / d, (colors.getD (i + k) ⟨0, 0, 0, 0⟩).a⟩) := by
  intro n
  induction n with
  | zero =>
    intro i ptr colors _
    exact ⟨rfl, fun _ _ => rfl, fun k hk => absurd hk (by omega)⟩
  | succ n ih =>
    intro i ptr colors hlen
    have hi : i < colors.length := by omega
    have hl := colorsSet_length colors i (getByte colormap ptr / d)
      (getByte colormap (ptr + 1) / d) (getByte colormap (ptr + 2) / d) hi
    obtain ⟨r1, r2, r3⟩ := ih (i + 1) (ptr + 3)
      (colorsSet colors i (getByte colormap ptr / d) (getByte colormap (ptr + 1) / d)
        (getByte colormap (ptr + 2) / d)) (by rw [hl]; omega)
    unfold lbmCopyColors
    refine ⟨by rw [r1, hl], ?_, ?_⟩
    · intro j hj
      rw [r2 j (by omega), getD_colorsSet _ _ _ _ _ _ _ hi]
      have : j ≠ i := by omega
      simp [this]
    · intro k hk
      rcases Nat.eq_zero_or_pos k with hk0 | hk0
      · subst hk0
        simp only [Nat.add_zero, Nat.mul_zero]
        rw [r2 i (by omega), getD_colorsSet _ _ _ _ _ _ _ hi]
        simp
      · obtain ⟨k', rfl⟩ : ∃ k', k = k' + 1 := ⟨k - 1, by omega⟩
        have e : i + (k' + 1) = i + 1 + k' := by omega
        rw [e, r3 k' (by omega), getD_colorsSet _ _ _ _ _ _ _ hi]
        have : i + 1 + k' ≠ i := by omega
        simp only [this, if_false]
        have e1 : ptr + 3 + 3 * k' = ptr + 3 * (k' + 1) := by omega
        rw [e1]

/-- What the repeat loop leaves: the entries outside `i .. i + n - 1` as they
were, entry `j` inside with the three channels of entry `j % nbcolors`. -/
theorem lbmRepeatColors_spec (nbcolors : Nat) (hnb : 0 < nbcolors) (dflt : SDL_Color) :
    ∀ (n i : Nat) (colors : List SDL_Color), nbcolors ≤ i → i + n ≤ colors.length →
      (lbmRepeatColors nbcolors n i colors).length = colors.length ∧
      (∀ j, (j < i ∨ i + n ≤ j) →
        (lbmRepeatColors nbcolors n i colors).getD j dflt = colors.getD j dflt) ∧
      (∀ j, i ≤ j → j < i + n →
        (lbmRepeatColors nbcolors n i colors).getD j dflt
          = ⟨(colors.getD (j % nbcolors) ⟨0, 0, 0, 0⟩).r,
             (colors.getD (j % nbcolors) ⟨0, 0, 0, 0⟩).g,
             (colors.getD (j % nbcolors) ⟨0, 0, 0, 0⟩).b,
             (colors.getD j ⟨0, 0, 0, 0⟩).a⟩) := by
  intro n
  induction n with
  | zero =>
    intro i colors _ _
    exact ⟨rfl, fun _ _ => rfl, fun j h1 h2 => absurd h2 (by omega)⟩
  | succ n ih =>
    intro i colors hi0 hlen
    have hi : i < colors.length := by omega
    have hl := colorsSet_length colors i (colors.getD (i % nbcolors) ⟨0, 0, 0, 0⟩).r
      (colors.getD (i % nbcolors) ⟨0, 0, 0, 0⟩).g (colors.getD (i % nbcolors) ⟨0, 0, 0, 0⟩).b hi
    obtain ⟨r1, r2, r3⟩ := ih (i + 1)
      (colorsSet colors i (colors.getD (i % nbcolors) ⟨0, 0, 0, 0⟩).r
        (colors.getD (i % nbcolors) ⟨0, 0, 0, 0⟩).g (colors.getD (i % nbcolors) ⟨0, 0, 0, 0⟩).b)
      (by omega) (by rw [hl]; omega)
    unfold lbmRepeatColors
    dsimp only
    refine ⟨by rw [r1, hl], ?_, ?_⟩
    · intro j hj
      rw [r2 j (by omega), getD_colorsSet _ _ _ _ _ _ _ hi]
      have : j ≠ i := by omega
      simp [this]
    · intro j hj1 hj2
      rcases Nat.eq_or_lt_of_le hj1 with hji | hji
      · subst hji
        rw [r2 i (by omega), getD_colorsSet _ _ _ _ _ _ _ hi]
        simp
      · rw [r3 j (by omega) (by omega)]
        have hm : j % nbcolors < i := lt_of_lt_of_le (Nat.mod_lt _ hnb) hi0
        have h1 : ∀ d', (colorsSet colors i (colors.getD (i % nbcolors) ⟨0, 0, 0, 0⟩).r
            (colors.getD (i % nbcolors) ⟨0, 0, 0, 0⟩).g
            (colors.getD (i % nbcolors) ⟨0, 0, 0, 0⟩).b).getD (j % nbcolors) d'
            = colors.getD (j % nbcolors) d' := by
          intro d'
          rw [getD_colorsSet _ _ _ _ _ _ _ hi]
          have : j % nbcolors ≠ i := by omega
          simp [this]
        have h2 : ∀ d', (colorsSet colors i (colors.getD (i % nbcolors) ⟨0, 0, 0, 0⟩).r
            (colors.getD (i % nbcolors) ⟨0, 0, 0, 0⟩).g
            (colors.getD (i % nbcolors) ⟨0, 0, 0, 0⟩).b).getD j d' = colors.getD j d' := by
          intro d'
          rw [getD_colorsSet _ _ _ _ _ _ _ hi]
          have : j ≠ i := by omega
          simp [this]
        rw [h1, h2]

theorem lbmImagePalette_some (env : Env) (pbm : Bool) (st : LBMChunks) (pal : SDL_Palette)
    (h : lbmImagePalette env pbm st = some pal) :
    st.nbcolors > 0 ∧ st.flagHAM = 0 ∧ env.paletteOk = true ∧
    lbmFormat pbm st = SDL_PIXELFORMAT_INDEX8 ∧
    pal = lbmPalette palette256 st.colormap pbm st.nbcolors (lbmPlanes pbm st) (lbmStencil st)
      st.flagEHB := by
  unfold lbmImagePalette at h
  split at h
  · rename_i hc
    simp only [Option.some.injEq] at h
    exact ⟨hc.1, hc.2.1, hc.2.2.1, hc.2.2.2, h.symm⟩
  · cases h

theorem lbm_nbrcolorsfinal (p s : Nat) :
    (if 1 <<< (p + s) > 1 <<< p then 1 <<< p else 1 <<< (p + s)) = 2 ^ p := by
  simp only [Nat.one_shiftLeft]
  split
  · rfl
  · rename_i h
    have : 2 ^ p ≤ 2 ^ (p + s) := Nat.pow_le_pow_right (by decide) (by omega)
    omega

theorem getD_replicate_lt {α : Type} (n j : Nat) (a d : α) (h : j < n) :
    (List.replicate n a).getD j d = a := by
  simp [List.getD_eq_getElem?_getD, List.getElem?_replicate, h]

/-- The colours after the copy of the colour map and the Extra-Half-Bright
block: 256 entries, all with alpha 255; entry `j` below the colour count holds
the bytes `3 j ..` of the colour map, and when the block ran entry `32 + k`
holds half the bytes `3 k ..`. -/
theorem lbm_colors_after_ehb (colormap : List Nat) (nbcolors nbplanes flagEHB : Nat)
    (hnb : nbcolors ≤ 256) (dflt : SDL_Color) :
    let c1 := lbmCopyColors colormap 1 nbcolors 0 0 palette256.colors
    let c2 := if (nbcolors = 32 ∨ flagEHB ≠ 0) ∧ 1 <<< nbplanes = 64
      then lbmCopyColors colormap 2 32 32 0 c1 else c1
    c2.length = 256 ∧ (∀ j, j < 256 → (c2.getD j dflt).a = 255) ∧
    (∀ j, j < nbcolors →
      (j < 32 ∨ ¬ ((nbcolors = 32 ∨ flagEHB ≠ 0) ∧ 1 <<< nbplanes = 64)) →
      c2.getD j dflt = ⟨getByte colormap (3 * j), getByte colormap (3 * j + 1),
        getByte colormap (3 * j + 2), 255⟩) ∧
    ((nbcolors = 32 ∨ flagEHB ≠ 0) ∧ 1 <<< nbplanes = 64 →
      ∀ k, k < 32 → c2.getD (32 + k) dflt = ⟨getByte colormap (3 * k) / 2,
        getByte colormap (3 * k + 1) / 2, getByte colormap (3 * k + 2) / 2, 255⟩) := by
  intro c1 c2
  have hp0 : palette256.colors = List.replicate 256 ⟨255, 255, 255, 255⟩ := rfl
  have hl0 : palette256.colors.length = 256 := by rw [hp0, List.length_replicate]
  have ha0 : ∀ j d', j < 256 → (palette256.colors.getD j d').a = 255 := by
    intro j d' hj
    rw [hp0, getD_replicate_lt _ _ _ _ hj]
  obtain ⟨a1, a2, a3⟩ := lbmCopyColors_spec colormap 1 dflt nbcolors 0 0 palette256.colors
    (by rw [hl0]; omega)
  have hc1a : ∀ j, j < 256 → (c1.getD j dflt).a = 255 := by
    intro j hj
    by_cases hjn : j < nbcolors
    · have := a3 j hjn
      rw [Nat.zero_add] at this
      show ((lbmCopyColors colormap 1 nbcolors 0 0 palette256.colors).getD j dflt).a = 255
      rw [this]
      exact ha0 j _ hj
    · show ((lbmCopyColors colormap 1 nbcolors 0 0 palette256.colors).getD j dflt).a = 255
      rw [a2 j (by omega)]
      exact ha0 j _ hj
  have hc1v : ∀ j, j < nbcolors → c1.getD j dflt = ⟨getByte colormap (3 * j),
      getByte colormap (3 * j + 1), getByte colormap (3 * j + 2), 255⟩ := by
    intro j hjn
    have := a3 j hjn
    rw [Nat.zero_add] at this
    show (lbmCopyColors colormap 1 nbcolors 0 0 palette256.colors).getD j dflt = _
    rw [this, ha0 j _ (by omega)]
    simp only [Nat.zero_add, Nat.div_one]
  by_cases hehb : (nbcolors = 32 ∨ flagEHB ≠ 0) ∧ 1 <<< nbplanes = 64
  · have hc2 : c2 = lbmCopyColors colormap 2 32 32 0 c1 := by
      show (if _ then _ else _) = _
      rw [if_pos hehb]
    have hc1d : ∀ j d', j < 256 → c1.getD j d' = c1.getD j dflt := by
      intro j d' hj
      have hjl : j < c1.length := by
        show j < (lbmCopyColors colormap 1 nbcolors 0 0 palette256.colors).length
        rw [a1, hl0]; exact hj
      simp [List.getD_eq_getElem?_getD, List.getElem?_eq_getElem hjl]
    obtain ⟨b1, b2, b3⟩ := lbmCopyColors_spec colormap 2 dflt 32 32 0 c1
      (by show 32 + 32 ≤ (lbmCopyColors colormap 1 nbcolors 0 0 palette256.colors).length
          rw [a1, hl0]; omega)
    rw [hc2]
    refine ⟨by rw [b1]; show (lbmCopyColors colormap 1 nbcolors 0 0 palette256.colors).length = 256
               rw [a1, hl0], ?_, ?_, ?_⟩
    · intro j hj
      by_cases hjr : 32 ≤ j ∧ j < 64
      · obtain ⟨k, rfl⟩ : ∃ k, j = 32 + k := ⟨j - 32, by omega⟩
        rw [b3 k (by omega)]
        show (c1.getD (32 + k) _).a = 255
        rw [hc1d _ _ hj]
        exact hc1a _ hj
      · rw [b2 j (by omega)]
        exact hc1a j hj
    · intro j hjn hj32
      have h32 : j < 32 := by
        rcases hj32 with h | h
        · exact h
        · exact absurd hehb h
      rw [b2 j (by omega)]
      exact hc1v j hjn
    · intro _ k hk
      rw [b3 k hk]
      simp only [Nat.zero_add]
      rw [hc1d _ _ (by omega), hc1a _ (by omega)]
  · have hc2 : c2 = c1 := by
      show (if _ then _ else _) = _
      rw [if_neg hehb]
    rw [hc2]
    refine ⟨by show (lbmCopyColors colormap 1 nbcolors 0 0 palette256.colors).length = 256
               rw [a1, hl0], hc1a, fun j hjn _ => hc1v j hjn, fun h => absurd h hehb⟩

theorem lbmPalette_eq (colormap : List Nat) (pbm : Bool) (nbcolors nbplanes stencil flagEHB : Nat) :
    lbmPalette palette256 colormap pbm nbcolors nbplanes stencil flagEHB
      = { ncolors := if !pbm then 2 ^ nbplanes else 256,
          colors := lbmRepeatColors (lbmFinalColors nbcolors nbplanes flagEHB)
            (2 ^ nbplanes - lbmFinalColors nbcolors nbplanes flagEHB)
            (lbmFinalColors nbcolors nbplanes flagEHB)
            (if (nbcolors = 32 ∨ flagEHB ≠ 0) ∧ 1 <<< nbplanes = 64
              then lbmCopyColors colormap 2 32 32 0
                (lbmCopyColors colormap 1 nbcolors 0 0 palette256.colors)
              else lbmCopyColors colormap 1 nbcolors 0 0 palette256.colors) } := by
  unfold lbmPalette lbmFinalColors
  simp only [lbm_nbrcolorsfinal]
  rfl

/-- The palette of `IMG_LoadLBM_IO` for a colour map of `nbcolors` entries,
`1 ≤ nbcolors ≤ 256`. -/
theorem lbmPalette_spec (colormap : List Nat) (pbm : Bool)
    (nbcolors nbplanes stencil flagEHB : Nat) (hnb1 : 0 < nbcolors) (hnb : nbcolors ≤ 256)
    (dflt : SDL_Color) :
    (lbmPalette palette256 colormap pbm nbcolors nbplanes stencil flagEHB).ncolors
      = (if pbm then 256 else 2 ^ nbplanes) ∧
    (2 ^ nbplanes ≤ 256 →
      (lbmPalette palette256 colormap pbm nbcolors nbplanes stencil flagEHB).colors.length = 256 ∧
      (∀ i, lbmFinalColors nbcolors nbplanes flagEHB ≤ i → i < 2 ^ nbplanes →
        (lbmPalette palette256 colormap pbm nbcolors nbplanes stencil flagEHB).colors.getD i dflt
          = (lbmPalette palette256 colormap pbm nbcolors nbplanes stencil flagEHB).colors.getD
              (i % lbmFinalColors nbcolors nbplanes flagEHB) dflt) ∧
      (∀ j, j < nbcolors →
        (j < 32 ∨ ¬ ((nbcolors = 32 ∨ flagEHB ≠ 0) ∧ 1 <<< nbplanes = 64)) →
        (lbmPalette palette256 colormap pbm nbcolors nbplanes stencil flagEHB).colors.getD j dflt
          = ⟨getByte colormap (3 * j), getByte colormap (3 * j + 1),
              getByte colormap (3 * j + 2), 255⟩) ∧
      ((nbcolors = 32 ∨ flagEHB ≠ 0) ∧ 1 <<< nbplanes = 64 →
        ∀ k, k < 32 →
          (lbmPalette palette256 colormap pbm nbcolors nbplanes stencil flagEHB).colors.getD
              (32 + k) dflt
            = ⟨getByte colormap (3 * k) / 2, getByte colormap (3 * k + 1) / 2,
                getByte colormap (3 * k + 2) / 2, 255⟩)) := by
  rw [lbmPalette_eq]
  refine ⟨by cases pbm <;> rfl, ?_⟩
  intro hN
  obtain ⟨e1, e2, e3, e4⟩ := lbm_colors_after_ehb colormap nbcolors nbplanes flagEHB hnb dflt
  obtain ⟨_, e2', _, _⟩ := lbm_colors_after_ehb colormap nbcolors nbplanes flagEHB hnb
    ⟨0, 0, 0, 0⟩
  generalize hc2 : (if (nbcolors = 32 ∨ flagEHB ≠ 0) ∧ 1 <<< nbplanes = 64
      then lbmCopyColors colormap 2 32 32 0
        (lbmCopyColors colormap 1 nbcolors 0 0 palette256.colors)
      else lbmCopyColors colormap 1 nbcolors 0 0 palette256.colors) = c2 at e1 e2 e3 e4 e2' ⊢
  have hn : 0 < lbmFinalColors nbcolors nbplanes flagEHB ∧
      lbmFinalColors nbcolors nbplanes flagEHB ≤ 256 ∧
      nbcolors ≤ lbmFinalColors nbcolors nbplanes flagEHB ∨
      ((nbcolors = 32 ∨ flagEHB ≠ 0) ∧ 1 <<< nbplanes = 64) := by
    unfold lbmFinalColors
    by_cases h : (nbcolors = 32 ∨ flagEHB ≠ 0) ∧ 1 <<< nbplanes = 64
    · exact Or.inr h
    · rw [if_neg h]
      exact Or.inl ⟨hnb1, hnb, Nat.le_refl _⟩
  have hn' : 0 < lbmFinalColors nbcolors nbplanes flagEHB ∧
      lbmFinalColors nbcolors nbplanes flagEHB ≤ 256 := by
    unfold lbmFinalColors
    split
    · exact ⟨by decide, by decide⟩
    · exact ⟨hnb1, hnb⟩
  generalize hnv : lbmFinalColors nbcolors nbplanes flagEHB = n at hn hn' ⊢
  obtain ⟨r1, r2, r3⟩ := lbmRepeatColors_spec n hn'.1 dflt (2 ^ nbplanes - n) n c2 (Nat.le_refl _)
    (by rw [e1]; omega)
  dsimp only
  refine ⟨by rw [r1, e1], ?_, ?_, ?_⟩
  · intro i hi1 hi2
    rw [r3 i hi1 (by omega), r2 (i % n) (Or.inl (Nat.mod_lt _ hn'.1))]
    have hm : i % n < 256 := lt_of_lt_of_le (Nat.mod_lt _ hn'.1) hn'.2
    have hd : ∀ j, j < 256 → c2.getD j ⟨0, 0, 0, 0⟩ = c2.getD j dflt := by
      intro j hj
      have hjl : j < c2.length := by rw [e1]; exact hj
      simp [List.getD_eq_getElem?_getD, List.getElem?_eq_getElem hjl]
    rw [hd _ hm, hd _ (by omega), e2 i (by omega)]
    have := e2 (i % n) hm
    rcases hx : c2.getD (i % n) dflt with ⟨r, g, b, a⟩
    rw [hx] at this
    simp only at this
    rw [this]
  · intro j hj hc
    have hjn : j < n := by
      rcases hn with ⟨_, _, h⟩ | h
      · omega
      · rcases hc with hc | hc
        · rw [← hnv]
          unfold lbmFinalColors
          rw [if_pos h]
          omega
        · exact absurd h hc
    rw [r2 j (Or.inl hjn)]
    exact e3 j hj hc
  · intro h k hk
    have hn64 : n = 64 := by
      rw [← hnv]
      unfold lbmFinalColors
      rw [if_pos h]
    rw [r2 (32 + k) (Or.inl (by omega))]
    exact e4 h k hk

theorem colorsSet_length_max (colors : List SDL_Color) (i r g b : Nat) :
    (colorsSet colors i r g b).length = max colors.length (i + 1) := by
  unfold colorsSet
  split
  · rw [List.length_set]; omega
  · simp only [List.length_append, List.length_replicate, List.length_cons, List.length_nil]
    omega

/-- The length of the colour array after the repeat loop: the loop stores up
to index `i + n - 1`, inside the array or not. -/
theorem lbmRepeatColors_length (nbcolors : Nat) :
    ∀ (n i : Nat) (colors : List SDL_Color),
      (lbmRepeatColors nbcolors n i colors).length
        = if n = 0 then colors.length else max colors.length (i + n) := by
  intro n
  induction n with
  | zero => intro i colors; rfl
  | succ n ih =>
    intro i colors
    unfold lbmRepeatColors
    dsimp only
    rw [ih, colorsSet_length_max]
    split <;> simp only [Nat.add_one_ne_zero, if_false] <;> omega

/-- The palette when the plane count asks for more colours than the colour
map has: the entry count is `2 ^ nbplanes` (not for PBM) and the colour array
reaches `2 ^ nbplanes` entries, also beyond the 256 that it has. -/
theorem lbmPalette_length (colormap : List Nat) (pbm : Bool)
    (nbcolors nbplanes stencil flagEHB : Nat) (hnb : nbcolors ≤ 256)
    (hN : lbmFinalColors nbcolors nbplanes flagEHB < 2 ^ nbplanes) :
    (lbmPalette palette256 colormap pbm nbcolors nbplanes stencil flagEHB).ncolors
      = (if pbm then 256 else 2 ^ nbplanes) ∧
    (lbmPalette palette256 colormap pbm nbcolors nbplanes stencil flagEHB).colors.length
      = max 256 (2 ^ nbplanes) := by
  rw [lbmPalette_eq]
  refine ⟨by cases pbm <;> rfl, ?_⟩
  obtain ⟨e1, _, _, _⟩ := lbm_colors_after_ehb colormap nbcolors nbplanes flagEHB hnb ⟨0, 0, 0, 0⟩
  dsimp only
  rw [lbmRepeatColors_length, e1]
  have : 2 ^ nbplanes - lbmFinalColors nbcolors nbplanes flagEHB ≠ 0 := by omega
  rw [if_neg this]
  congr 1
  omega

theorem lbmWalkStart_bounded (env : Env) (src : SDL_IOStream) :
    (lbmWalkStart env src).1.Bounded := by
  simp [lbmWalkStart, LBMChunks.Bounded, MAXCOLORS]

/-- What a decode by `IMG_LoadLBM_IO` that returns a surface consists of:
the chunk walk reached `BODY` with bounded locals, and the surface is the one
the second part of the body leaves. -/
theorem lbm_decode_facts (env : Env) (src src' s : SDL_IOStream) (pbm : Bool) (st : LBMChunks)
    (img : SDL_Surface)
    (hwalk : lbmWalk env src = Except.ok (pbm, st, s))
    (hdec : IMG_LoadLBM_IO env src = (some img, src')) :
    st.Bounded ∧
    lbmChunkLoop (src.data.length - (src.pos + 12) + 1) (lbmWalkStart env src).1
      (lbmWalkStart env src).2 = some (Except.ok (st, s)) ∧
    env.mallocOk = true ∧ env.surfaceOk = true ∧
    img.w = lbmWidth st ∧ img.h = st.bmhd.h ∧ img.format = lbmFormat pbm st ∧
    img.colorkey = (if st.bmhd.mask &&& 2 ≠ 0 then some st.bmhd.tcolor else none) ∧
    img.palette = lbmImagePalette env pbm st := by
  obtain ⟨pbm1, st1, s1, hw1, hret⟩ := IMG_LoadLBM_IO_some env src src' img hdec
  rw [hwalk] at hw1
  simp only [Except.ok.injEq, Prod.mk.injEq] at hw1
  obtain ⟨e1, e2, e3⟩ := hw1
  subst e1 e2 e3
  have hloop : lbmChunkLoop (src.data.length - (src.pos + 12) + 1) (lbmWalkStart env src).1
      (lbmWalkStart env src).2 = some (Except.ok (st, s)) := by
    rcases lbmWalk_cases env src with ⟨d, e, _⟩ | ⟨_, _, _, st2, s2, e, hl⟩
    · rw [hwalk] at e; cases e
    · rw [hwalk] at e
      simp only [Except.ok.injEq, Prod.mk.injEq] at e
      rw [e.2.1, e.2.2]
      exact hl
  have hb := lbmChunkLoop_bounded _ _ _ _ _ hloop (lbmWalkStart_bounded env src)
  obtain ⟨d1, d2, d3, d4, d5, d6, d7⟩ := lbmDecode_image env pbm st s src' img hret
  exact ⟨hb, hloop, d1, d2, d3, d4, d5, d6, d7⟩

theorem lbm_skip_amount (size bl : Nat) (hs : size < 4294967295) (hbl : bl ≤ size) :
    ((if size &&& 1 ≠ 0 then (size + 1) % 4294967296 else size) + 4294967296 - bl) % 4294967296
      = size + size % 2 - bl := by
  rw [Nat.and_one_is_mod]
  split <;> omega

theorem tgaClassify_indexed (hdr : TGAheader) (n : Nat) (rle indexed grey : Bool)
    (h : tgaClassify hdr n = some (rle, indexed, grey)) :
    (indexed = true → hdr.pixel_bits = 8 ∧ (grey = false → hdr.has_cmap ≠ 0)) ∧
    (grey = true → indexed = true) := by
  unfold tgaClassify at h
  split at h
  · dsimp only at h
    split at h
    · cases h
    · rename_i hc
      simp only [Option.some.injEq, Prod.mk.injEq] at h
      obtain ⟨_, h2, h3⟩ := h
      subst h2 h3
      simp only [not_or, Decidable.not_not] at hc
      exact ⟨fun _ => ⟨hc.2.1, fun _ => hc.1⟩, fun t => by cases t⟩
  · split at h
    · dsimp only at h
      simp only [Option.some.injEq, Prod.mk.injEq] at h
      obtain ⟨_, h2, h3⟩ := h
      subst h2 h3
      exact ⟨(fun t => by cases t), fun t => by cases t⟩
    · split at h
      · dsimp only at h
        split at h
        · cases h
        · rename_i hc
          simp only [Option.some.injEq, Prod.mk.injEq] at h
          obtain ⟨_, h2, h3⟩ := h
          subst h2 h3
          simp only [Decidable.not_not] at hc
          exact ⟨fun _ => ⟨hc, fun t => by cases t⟩, fun _ => rfl⟩
      · cases h

theorem tgaFormat_indexed (hdr : TGAheader) (indexed : Bool) (format : SDL_PixelFormat)
    (h : tgaFormat hdr indexed = some format) :
    (hdr.pixel_bits = 8 → indexed = true ∧ format = SDL_PIXELFORMAT_INDEX8) ∧
    (hdr.pixel_bits ≠ 8 → format ≠ SDL_PIXELFORMAT_INDEX8) := by
  unfold tgaFormat at h
  split at h
  · rename_i h8
    split at h
    · cases h
    · rename_i hi
      simp only [Option.some.injEq] at h
      simp only [Bool.not_eq_true', Bool.not_eq_false] at hi
      exact ⟨fun _ => ⟨hi, h.symm⟩, fun t => absurd h8 t⟩
  · rename_i h8
    refine ⟨fun t => absurd t h8, fun _ => ?_⟩
    split at h
    · simp only [Option.some.injEq] at h; rw [← h]; decide
    · split at h
      · simp only [Option.some.injEq] at h; rw [← h]; decide
      · split at h
        · simp only [Option.some.injEq] at h; rw [← h]; decide
        · cases h

theorem tgaColorMap_palette (env : Env) (hdr : TGAheader) (indexed grey : Bool) (ncols : Nat)
    (img img' : SDL_Surface) (src s' : SDL_IOStream)
    (h : tgaColorMap env hdr indexed grey ncols img src = Except.ok (img', s')) :
    (hdr.has_cmap ≠ 0 ∧ indexed = true ∧ grey = false → img'.palette.isSome = true) ∧
    (¬ (hdr.has_cmap ≠ 0 ∧ indexed = true ∧ grey = false) → img'.palette = img.palette) := by
  unfold tgaColorMap at h
  split at h
  · rename_i hc
    dsimp only at h
    split at h
    · rename_i hig
      simp only [Bool.and_eq_true, Bool.not_eq_true'] at hig
      split at h
      · cases h
      · rename_i palette hpal
        unfold orFail at h
        split at h
        · simp only [id, Except.ok.injEq, Prod.mk.injEq] at h
          obtain ⟨h1, _⟩ := h
          subst h1
          refine ⟨fun _ => ?_, fun t => absurd ⟨hc, hig.1, hig.2⟩ t⟩
          split <;> split <;> rfl
        · cases h
    · rename_i hig
      simp only [Except.ok.injEq, Prod.mk.injEq] at h
      obtain ⟨h1, _⟩ := h
      subst h1
      simp only [Bool.and_eq_true, Bool.not_eq_true'] at hig
      exact ⟨fun t => absurd ⟨t.2.1, t.2.2⟩ hig, fun _ => rfl⟩
  · rename_i hc
    simp only [Except.ok.injEq, Prod.mk.injEq] at h
    obtain ⟨h1, _⟩ := h
    subst h1
    exact ⟨fun t => absurd t.1 hc, fun _ => rfl⟩

theorem tgaGreyPalette_palette (env : Env) (grey : Bool) (img img' : SDL_Surface)
    (src : SDL_IOStream) (h : tgaGreyPalette env grey img src = Except.ok img') :
    (grey = true → img'.palette.isSome = true) ∧
    (grey = false → img'.palette = img.palette) := by
  unfold tgaGreyPalette at h
  split at h
  · rename_i hg
    split at h
    · cases h
    · simp only [Except.ok.injEq] at h
      subst h
      exact ⟨fun _ => rfl, fun t => by rw [hg] at t; cases t⟩
  · rename_i hg
    simp only [Except.ok.injEq] at h
    subst h
    simp only [Bool.not_eq_true] at hg
    exact ⟨(fun t => by rw [hg] at t; cases t), fun _ => rfl⟩

/-- The surface that the setup of a TGA decode leaves has a palette exactly
when its format is Indexed8. -/
theorem tgaSetupHdr_palette (env : Env) (hdr : TGAheader) (src : SDL_IOStream)
    (rle : Bool) (bpp : Nat) (img : SDL_Surface) (s3 : SDL_IOStream)
    (h : tgaSetupHdr env hdr src = Except.ok (rle, bpp, img, s3)) :
    (img.palette.isSome = true ↔ img.format = SDL_PIXELFORMAT_INDEX8) := by
  unfold tgaSetupHdr at h
  dsimp only at h
  split at h
  · cases h
  · rename_i rle0 indexed grey hcl
    split at h
    · cases h
    · rename_i format hfmt
      split at h
      · cases h
      · split at h
        · cases h
        · rename_i img0 hsurf
          have e0 := SDL_CreateSurface_some env _ _ _ img0 hsurf
          split at h
          · cases h
          · rename_i img1 s1 hcm
            split at h
            · cases h
            · rename_i img2 hgp
              simp only [Except.ok.injEq, Prod.mk.injEq] at h
              obtain ⟨_, _, h3, _⟩ := h
              subst h3
              obtain ⟨c1, c2⟩ := tgaClassify_indexed hdr _ _ _ _ hcl
              obtain ⟨f1, f2⟩ := tgaFormat_indexed hdr _ _ hfmt
              obtain ⟨g1, g2, g3, g4, g5⟩ := (tgaColorMap_facts env hdr _ _ _ _ _ _ _ hcm).1
              obtain ⟨k1, k2, k3, k4, k5⟩ := tgaGreyPalette_facts env _ _ _ _ hgp
              obtain ⟨m1, m2⟩ := tgaColorMap_palette env hdr _ _ _ _ _ _ _ hcm
              obtain ⟨n1, n2⟩ := tgaGreyPalette_palette env _ _ _ _ hgp
              have hf : img2.format = format := by rw [k3, g3, e0]
              have hp0 : img0.palette = none := by rw [e0]
              rw [hf]
              cases hi : indexed
              · have hg : grey = false := by
                  cases hgr : grey
                  · rfl
                  · rw [c2 hgr] at hi; cases hi
                have h8 : hdr.pixel_bits ≠ 8 := fun t => by
                  rw [(f1 t).1] at hi; cases hi
                have hp : img2.palette = none := by
                  rw [n2 hg, m2 (fun t => by rw [hi] at t; cases t.2.1), hp0]
                rw [hp]
                exact ⟨(fun t => by cases t), fun t => absurd t (f2 h8)⟩
              · have h8 := (c1 hi).1
                have hfm := (f1 h8).2
                refine ⟨fun _ => hfm, fun _ => ?_⟩
                cases hgr : grey
                · rw [n2 hgr]
                  exact m1 ⟨(c1 hi).2 hgr, hi, hgr⟩
                · exact n1 hgr

/-- A surface returned by `IMG_LoadTGA_IO` has a palette exactly when its
format is Indexed8. -/
theorem tga_palette_iff_indexed (env : Env) (src src' : SDL_IOStream) (img : SDL_Surface)
    (h : IMG_LoadTGA_IO env src = (some img, src')) :
    (img.palette.isSome = true ↔ img.format = SDL_PIXELFORMAT_INDEX8) := by
  obtain ⟨hdr, rle, bpp, img0, s3, pixels, hs, _, himg⟩ := IMG_LoadTGA_IO_ok env src src' img h
  obtain ⟨_, _, hsh⟩ := tgaSetup_ok env src hdr rle bpp img0 s3 hs
  have := tgaSetupHdr_palette env hdr _ rle bpp img0 s3 hsh
  rw [himg]
  exact this

theorem lbmChunkCAMG_flag (id : List Nat) (size : Nat) (st st' : LBMChunks) (n n' : Nat)
    (src src' : SDL_IOStream)
    (h : lbmChunkCAMG id size st n src = Except.ok (st', n', src')) :
    st'.flagHAM = st.flagHAM ∨ st'.flagHAM = 1 := by
  unfold lbmChunkCAMG at h
  split at h
  · rcases hr : readExact src 4 with ⟨_ | b, s⟩
    · rw [hr] at h; simp at h
    · rw [hr] at h
      simp only [Except.ok.injEq, Prod.mk.injEq] at h
      obtain ⟨e1, _, _⟩ := h
      subst e1
      split <;> split <;> first | exact Or.inr rfl | exact Or.inl rfl
  · simp only [Except.ok.injEq, Prod.mk.injEq] at h
    rw [← h.1]
    exact Or.inl rfl

theorem lbmChunkStep_flagHAM (st st' : LBMChunks) (src src' : SDL_IOStream)
    (h : lbmChunkStep st src = Except.ok (st', src')) :
    st'.flagHAM = st.flagHAM ∨ st'.flagHAM = 1 := by
  unfold lbmChunkStep at h
  rcases h1 : readExact src 4 with ⟨_ | id, s1⟩
  · rw [h1] at h; simp at h
  rw [h1] at h
  dsimp only at h
  rcases h2 : readExact s1 4 with ⟨_ | sizeBytes, s2⟩
  · rw [h2] at h; simp at h
  rw [h2] at h
  dsimp only at h
  rcases hA : lbmChunkBMHD id { st with id := id } 0 s2 with d | ⟨stA, nA, sA⟩
  · rw [hA] at h; simp at h
  rw [hA] at h
  dsimp only at h
  rcases hB : lbmChunkCMAP id (BE32 sizeBytes) stA nA sA with d | ⟨stB, nB, sB⟩
  · rw [hB] at h; simp at h
  rw [hB] at h
  dsimp only at h
  rcases hC : lbmChunkCAMG id (BE32 sizeBytes) stB nB sB with d | ⟨stC, nC, sC⟩
  · rw [hC] at h; simp at h
  rw [hC] at h
  simp only [Except.ok.injEq, Prod.mk.injEq] at h
  obtain ⟨e1, _⟩ := h
  subst e1
  obtain ⟨A0, A1⟩ := lbmChunkBMHD_ok _ _ _ _ _ _ _ hA
  obtain ⟨B0, B1⟩ := lbmChunkCMAP_ok _ _ _ _ _ _ _ _ hB
  have hAf : stA.flagHAM = st.flagHAM := by
    cases hb : memeq id "BMHD" 4
    · rw [(A0 hb).1]
    · rw [(A1 hb).1]
  have hBf : stB.flagHAM = stA.flagHAM := by
    cases hb : memeq id "CMAP" 4
    · rw [(B0 hb).1]
    · rw [(B1 hb).2.1]
  have := lbmChunkCAMG_flag _ _ _ _ _ _ _ _ hC
  rw [hBf, hAf] at this
  exact this

theorem lbmChunkLoop_flagHAM : ∀ (fuel : Nat) (st st' : LBMChunks) (src src' : SDL_IOStream),
    lbmChunkLoop fuel st src = some (Except.ok (st', src')) → st.flagHAM ≤ 1 →
    st'.flagHAM ≤ 1 := by
  intro fuel
  induction fuel with
  | zero => intro st st' src src' h; simp [lbmChunkLoop] at h
  | succ fuel ih =>
    intro st st' src src' h hb
    unfold lbmChunkLoop at h
    split at h
    · simp only [Option.some.injEq, Except.ok.injEq, Prod.mk.injEq] at h
      rw [← h.1]
      exact hb
    · rcases hs : lbmChunkStep st src with d | ⟨st1, src1⟩
      · rw [hs] at h; simp at h
      · rw [hs] at h
        refine ih st1 st' src1 src' h ?_
        rcases lbmChunkStep_flagHAM st st1 src src1 hs with e | e <;> omega

/-- An Indexed8 surface returned by `IMG_LoadLBM_IO` comes from a walk that
did not set the HAM flag. -/
theorem lbmFormat_index8 (pbm : Bool) (st : LBMChunks) (hf : st.flagHAM ≤ 1)
    (h : lbmFormat pbm st = SDL_PIXELFORMAT_INDEX8) : st.flagHAM = 0 := by
  unfold lbmFormat at h
  split at h
  · cases h
  · rename_i hc
    simp only [not_or] at hc
    omega

/-! ## The ICO / CUR rows -/

theorem u32Bytes_length (v : Nat) : (u32Bytes v).length = 4 := rfl

theorem u32Bytes_lt (v : Nat) : AllBytes (u32Bytes v) := by
  intro b hb
  simp only [u32Bytes, List.mem_cons, List.mem_singleton, List.not_mem_nil, or_false] at hb
  rcases hb with rfl | rfl | rfl | rfl <;> exact Nat.mod_lt _ (by decide)

theorem u32OfBytes_u32Bytes (v : Nat) : u32OfBytes (u32Bytes v) = v % 4294967296 := by
  simp only [u32OfBytes, u32Bytes, List.getD_cons_zero, List.getD_cons_succ]
  omega

theorem u32OfBytes_lt (bs : List Nat) (h : AllBytes bs) : u32OfBytes bs < 4294967296 := by
  have g := fun i => getD_lt_of_forall bs i h
  have := g 0; have := g 1; have := g 2; have := g 3
  simp only [u32OfBytes]
  omega

theorem allBytes_memWrite (buf : List Nat) (off : Nat) (a : List Nat)
    (hb : AllBytes buf) (ha : AllBytes a) : AllBytes (memWrite buf off a) := by
  intro b h
  simp only [memWrite, List.mem_append] at h
  rcases h with (h | h) | h
  · exact hb b (List.mem_of_mem_take h)
  · exact ha b h
  · exact hb b (List.mem_of_mem_drop h)

theorem allBytes_memRead (buf : List Nat) (off n : Nat) (hb : AllBytes buf) :
    AllBytes (memRead buf off n) := by
  intro b h
  exact hb b (List.mem_of_mem_drop (List.mem_of_mem_take h))

theorem allBytes_replicate_zero (n : Nat) : AllBytes (List.replicate n 0) := by
  intro b h
  rw [List.eq_of_mem_replicate h]
  decide

theorem readU32_lt (buf : List Nat) (off i : Nat) (hb : AllBytes buf) :
    readU32 buf off i < 4294967296 :=
  u32OfBytes_lt _ (allBytes_memRead buf _ 4 hb)

theorem writeU32_length (buf : List Nat) (off i v : Nat) (h : off + 4 * i + 4 ≤ buf.length) :
    (writeU32 buf off i v).length = buf.length :=
  memWrite_length buf _ _ (by rw [u32Bytes_length]; exact h)

theorem allBytes_writeU32 (buf : List Nat) (off i v : Nat) (hb : AllBytes buf) :
    AllBytes (writeU32 buf off i v) :=
  allBytes_memWrite buf _ _ hb (u32Bytes_lt v)

theorem readU32_writeU32_same (buf : List Nat) (off i v : Nat) (h : off + 4 * i + 4 ≤ buf.length) :
    readU32 (writeU32 buf off i v) off i = v % 4294967296 := by
  unfold readU32 writeU32
  have := memRead_memWrite_same buf (off + 4 * i) (u32Bytes v) (by omega)
  rw [u32Bytes_length] at this
  rw [this, u32OfBytes_u32Bytes]

theorem memRead_writeU32_disjoint (buf : List Nat) (off i v o n : Nat)
    (h : off + 4 * i + 4 ≤ buf.length) (hd : o + n ≤ off + 4 * i ∨ off + 4 * i + 4 ≤ o) :
    memRead (writeU32 buf off i v) o n = memRead buf o n :=
  memRead_memWrite_disjoint buf _ _ o n (by rw [u32Bytes_length]; exact h)
    (by rw [u32Bytes_length]; exact hd)

theorem readU32_writeU32_ne (buf : List Nat) (off i j v : Nat)
    (h : off + 4 * i + 4 ≤ buf.length) (hij : i ≠ j) :
    readU32 (writeU32 buf off i v) off j = readU32 buf off j := by
  unfold readU32
  rw [memRead_writeU32_disjoint buf off i v _ _ h (by omega)]

theorem streamRest_of_pos (s src : SDL_IOStream) (n : Nat) (hd : s.data = src.data)
    (hp : s.pos = src.pos + n) : streamRest s = (streamRest src).drop n := by
  have : s = { src with pos := src.pos + n } := by
    cases s; cases src; simp only [SDL_IOStream.mk.injEq] at *; exact ⟨hd, hp⟩
  rw [this, streamRest_advance]

theorem orFail_ok {α β ε : Type} (r : Option α × SDL_IOStream) (fail : SDL_IOStream → ε)
    (k : α → SDL_IOStream → Except ε β) (x : β) (h : orFail r fail k = Except.ok x) :
    ∃ a s, r = (some a, s) ∧ k a s = Except.ok x := by
  rcases r with ⟨_ | a, s⟩
  · simp [orFail] at h
  · exact ⟨a, s, rfl, h⟩

theorem icoSkipPad_ok : ∀ (n : Nat) (src s : SDL_IOStream), icoSkipPad n src = Except.ok s →
    s.data = src.data ∧ s.pos = src.pos + n := by
  intro n
  induction n with
  | zero =>
    intro src s h
    simp only [icoSkipPad, Except.ok.injEq] at h
    subst h
    exact ⟨rfl, rfl⟩
  | succ n ih =>
    intro src s h
    simp only [icoSkipPad] at h
    obtain ⟨b, s1, hr, h⟩ := orFail_ok _ _ _ _ h
    obtain ⟨hd, hp, _⟩ := readExact_ok_pos _ _ _ _ hr
    obtain ⟨h1, h2⟩ := ih s1 s h
    exact ⟨by rw [h1, hd], by rw [h2, hp]; omega⟩

theorem ico_count_read (E i : Nat) (hE : E = 1 ∨ E = 4 ∨ E = 8) (h : i % (8 / E) = 0) :
    (i + 8 / E - 1) / (8 / E) = i / (8 / E) ∧
      (i + 1 + 8 / E - 1) / (8 / E) = i / (8 / E) + 1 := by
  rcases hE with rfl | rfl | rfl <;> norm_num at h ⊢ <;> omega

theorem ico_count_keep (E i : Nat) (hE : E = 1 ∨ E = 4 ∨ E = 8) (h : i % (8 / E) ≠ 0) :
    (i + 1 + 8 / E - 1) / (8 / E) = (i + 8 / E - 1) / (8 / E) := by
  rcases hE with rfl | rfl | rfl <;> norm_num at h ⊢ <;> omega

theorem ico_index_next (E i : Nat) (hE : E = 1 ∨ E = 4 ∨ E = 8) (h : (i + 1) % (8 / E) ≠ 0) :
    (i + 1) / (8 / E) = i / (8 / E) ∧ (i + 1) % (8 / E) = i % (8 / E) + 1 := by
  rcases hE with rfl | rfl | rfl <;> norm_num at h ⊢ <;> omega

theorem ico_index_field (E i : Nat) (hE : E = 1 ∨ E = 4 ∨ E = 8) :
    i * E / 8 = i / (8 / E) ∧ i * E % 8 = E * (i % (8 / E)) ∧ i % (8 / E) < 8 / E := by
  rcases hE with rfl | rfl | rfl <;> norm_num <;> omega

set_option maxRecDepth 1000000 in
theorem ico_shift_field_fin : ∀ (B : Fin 256) (r : Fin 8),
    (((B.val <<< (1 * r.val)) % 256) >>> (8 - 1) = (B.val >>> (8 - 1 - 1 * r.val)) % 2 ^ 1) ∧
    (r.val < 2 → ((B.val <<< (4 * r.val)) % 256) >>> (8 - 4)
        = (B.val >>> (8 - 4 - 4 * r.val)) % 2 ^ 4) ∧
    (r.val < 1 → ((B.val <<< (8 * r.val)) % 256) >>> (8 - 8)
        = (B.val >>> (8 - 8 - 8 * r.val)) % 2 ^ 8) := by
  decide

theorem ico_shift_field (E B r : Nat) (hE : E = 1 ∨ E = 4 ∨ E = 8) (hB : B < 256)
    (hr : r < 8 / E) :
    ((B <<< (E * r)) % 256) >>> (8 - E) = (B >>> (8 - E - E * r)) % 2 ^ E := by
  rcases hE with rfl | rfl | rfl
  · exact (ico_shift_field_fin ⟨B, hB⟩ ⟨r, by omega⟩).1
  · exact (ico_shift_field_fin ⟨B, hB⟩ ⟨r, by omega⟩).2.1 (by simpa using hr)
  · exact (ico_shift_field_fin ⟨B, hB⟩ ⟨r, by omega⟩).2.2 (by simpa using hr)

theorem ico_shift_step (E B r : Nat) :
    (((B <<< (E * r)) % 256) <<< E) % 256 = (B <<< (E * (r + 1))) % 256 := by
  simp only [Nat.shiftLeft_eq]
  rw [Nat.mod_mul_mod, Nat.mul_assoc, ← Nat.pow_add, Nat.mul_add, Nat.mul_one]

theorem icoBitRow_spec (E : Nat) (hE : E = 1 ∨ E = 4 ∨ E = 8) (f : Nat → Nat → Nat)
    (bits : Nat) (src0 : SDL_IOStream) :
    ∀ (n i pv : Nat) (pixels : List Nat) (src : SDL_IOStream) (pixels' : List Nat)
      (src' : SDL_IOStream),
      icoBitRow E f bits n i pv pixels src = Except.ok (pixels', src') →
      src.data = src0.data → src.pos = src0.pos + (i + 8 / E - 1) / (8 / E) →
      (i % (8 / E) ≠ 0 →
        pv = ((streamRest src0).getD (i / (8 / E)) 0 <<< (E * (i % (8 / E)))) % 256) →
      bits + 4 * (i + n) ≤ pixels.length →
      src'.data = src0.data ∧ src'.pos = src0.pos + (i + n + 8 / E - 1) / (8 / E) ∧
      pixels'.length = pixels.length ∧
      (∀ j, i ≤ j → j < i + n → readU32 pixels' bits j =
        f (readU32 pixels bits j) (icoField E (streamRest src0) j) % 4294967296) ∧
      (∀ o len, o + len ≤ bits + 4 * i ∨ bits + 4 * (i + n) ≤ o →
        memRead pixels' o len = memRead pixels o len) ∧
      (AllBytes pixels → AllBytes pixels') := by
  intro n
  induction n with
  | zero =>
    intro i pv pixels src pixels' src' h hd hp _ _
    simp only [icoBitRow, Except.ok.injEq, Prod.mk.injEq] at h
    obtain ⟨rfl, rfl⟩ := h
    exact ⟨hd, hp, rfl, fun j h1 h2 => absurd h2 (by omega), fun _ _ _ => rfl, id⟩
  | succ n ih =>
    intro i pv pixels src pixels' src' h hd hp hpv hlen
    obtain ⟨hf1, hf2, hf3⟩ := ico_index_field E i hE
    -- the value of `pixelvalue` that the store uses, and the stream after the read
    have key : ∃ (B : Nat) (s1 : SDL_IOStream), B < 256 ∧
        B = (streamRest src0).getD (i / (8 / E)) 0 ∧ s1.data = src0.data ∧
        s1.pos = src0.pos + (i + 1 + 8 / E - 1) / (8 / E) ∧
        icoBitRow E f bits n (i + 1) ((((B <<< (E * (i % (8 / E)))) % 256) <<< E) % 256)
          (writeU32 pixels bits i (f (readU32 pixels bits i)
            (((B <<< (E * (i % (8 / E)))) % 256) >>> (8 - E)))) s1 = Except.ok (pixels', src') := by
      have hBlt : (streamRest src0).getD (i / (8 / E)) 0 < 256 :=
        getD_lt_of_forall _ _ (streamRest_lt src0)
      simp only [icoBitRow] at h
      by_cases hi : i % (8 / E) = 0
      · rw [if_pos hi] at h
        obtain ⟨b, s1, hr, h⟩ := orFail_ok _ _ _ _ h
        obtain ⟨hd1, hp1, _, hb, _⟩ := readExact_ok_pos _ _ _ _ hr
        obtain ⟨c1, c2⟩ := ico_count_read E i hE hi
        have hrest : streamRest src = (streamRest src0).drop (i / (8 / E)) :=
          streamRest_of_pos src src0 _ hd (by rw [hp, c1])
        have hB : b.getD 0 0 = (streamRest src0).getD (i / (8 / E)) 0 := by
          rw [hb, hrest]
          simp only [List.getD_eq_getElem?_getD, List.getElem?_take, List.getElem?_drop]
          simp
        refine ⟨_, s1, hBlt, rfl, by rw [hd1, hd], by rw [hp1, hp, c1, c2, Nat.add_assoc], ?_⟩
        rw [hi, Nat.mul_zero, Nat.shiftLeft_zero, Nat.mod_eq_of_lt hBlt, ← hB]
        exact h
      · rw [if_neg hi] at h
        refine ⟨_, src, hBlt, rfl, hd, by rw [hp, ico_count_keep E i hE hi], ?_⟩
        rw [← hpv hi]
        exact h
    obtain ⟨B, s1, hBlt, hB, hd1, hp1, h1⟩ := key
    have hin : bits + 4 * i + 4 ≤ pixels.length := by omega
    have hwl := writeU32_length pixels bits i (f (readU32 pixels bits i)
      (((B <<< (E * (i % (8 / E)))) % 256) >>> (8 - E))) hin
    obtain ⟨r1, r2, r3, r4, r5, r6⟩ := ih (i + 1) _ _ s1 pixels' src' h1 hd1 hp1
      (by
        intro hne
        obtain ⟨e1, e2⟩ := ico_index_next E i hE hne
        rw [e1, e2, ← hB, ico_shift_step])
      (by rw [hwl]; omega)
    refine ⟨r1, by rw [r2]; congr 2; omega, by rw [r3, hwl], ?_, ?_, ?_⟩
    · intro j hj1 hj2
      by_cases hji : j = i
      · subst hji
        have := r5 (bits + 4 * j) 4 (Or.inl (by omega))
        unfold readU32 at *
        rw [this]
        have hs := readU32_writeU32_same pixels bits j (f (u32OfBytes (memRead pixels (bits + 4 * j) 4))
          (((B <<< (E * (j % (8 / E)))) % 256) >>> (8 - E))) hin
        unfold readU32 at hs
        rw [hs, ico_shift_field E B _ hE hBlt hf3]
        unfold icoField
        rw [hf1, hf2, ← hB]
      · rw [r4 j (by omega) (by omega), readU32_writeU32_ne pixels bits i j _ hin (Ne.symm hji)]
    · intro o len ho
      rw [r5 o len (by omega), memRead_writeU32_disjoint pixels bits i _ o len hin (by omega)]
    · intro hb
      exact r6 (allBytes_writeU32 _ _ _ _ hb)

theorem icoIndexedRow_eq (E : Nat) (palette : List Nat) (bits : Nat) :
    ∀ (n i pv : Nat) (pixels : List Nat) (src : SDL_IOStream),
      icoIndexedRow E palette bits n i pv pixels src =
        icoBitRow E (fun _ k => palette.getD k 0) bits n i pv pixels src := by
  intro n
  induction n with
  | zero => intros; rfl
  | succ n ih =>
    intro i pv pixels src
    simp only [icoIndexedRow, icoBitRow, ih]

theorem icoMaskRow_eq (bits : Nat) :
    ∀ (n i pv : Nat) (pixels : List Nat) (src : SDL_IOStream),
      icoMaskRow bits n i pv pixels src =
        icoBitRow 1 (fun old k => old &&& (if k ≠ 0 then 0 else 0xFFFFFFFF)) bits n i pv
          pixels src := by
  intro n
  induction n with
  | zero => intros; rfl
  | succ n ih =>
    intro i pv pixels src
    simp only [icoMaskRow, icoBitRow, ih]

theorem icoColorRows_eq (E pad w pitch : Nat) (palette : List Nat) :
    ∀ (k : Nat) (pixels : List Nat) (src : SDL_IOStream),
      icoColorRows E pad w pitch palette k pixels src =
        icoRows (icoColorRow E w pitch palette) pad pitch k pixels src := by
  intro k
  induction k with
  | zero => intros; rfl
  | succ k ih =>
    intro pixels src
    simp only [icoColorRows, icoRows, icoColorRow, ih]

theorem icoMaskRows_eq (pad w pitch : Nat) :
    ∀ (k : Nat) (pixels : List Nat) (src : SDL_IOStream),
      icoMaskRows pad w pitch k pixels src =
        icoRows (fun bits pixels src => icoMaskRow bits w 0 0 pixels src) pad pitch k
          pixels src := by
  intro k
  induction k with
  | zero => intros; rfl
  | succ k ih =>
    intro pixels src
    simp only [icoMaskRows, icoRows, ih]

/-- A row of fields of `E` bits is a row in the sense of `IcoRowSpec`. -/
theorem icoBitRow_rowSpec (E : Nat) (hE : E = 1 ∨ E = 4 ∨ E = 8) (f : Nat → Nat → Nat) (w : Nat) :
    IcoRowSpec (fun bits pixels src => icoBitRow E f bits w 0 0 pixels src) w
      ((w + 8 / E - 1) / (8 / E))
      (fun rest x old => f old (icoField E rest x) % 4294967296) := by
  intro bits pixels src pixels' src' h hlen
  obtain ⟨r1, r2, r3, r4, r5, _⟩ := icoBitRow_spec E hE f bits src w 0 0 pixels src pixels' src' h
    rfl (by
      have : (0 + 8 / E - 1) / (8 / E) = 0 := by
        rcases hE with rfl | rfl | rfl <;> norm_num
      rw [this]; rfl)
    (by
      intro hne
      exact absurd (Nat.zero_mod _) hne)
    (by omega)
  refine ⟨r1, by rw [r2, Nat.zero_add], r3, ?_, ?_⟩
  · intro x hx
    exact r4 x (Nat.zero_le _) (by omega)
  · intro o len ho
    exact r5 o len (by omega)

theorem icoBitRow_keeps (E : Nat) (hE : E = 1 ∨ E = 4 ∨ E = 8) (f : Nat → Nat → Nat)
    (w pitch : Nat) (hp : 4 * w ≤ pitch) :
    IcoRowKeeps (fun bits pixels src => icoBitRow E f bits w 0 0 pixels src) pitch := by
  intro bits pixels src pixels' src' h hlen
  obtain ⟨_, _, r3, _, _, r6⟩ := icoBitRow_spec E hE f bits src w 0 0 pixels src pixels' src' h
    rfl (by
      have : (0 + 8 / E - 1) / (8 / E) = 0 := by
        rcases hE with rfl | rfl | rfl <;> norm_num
      rw [this]; rfl)
    (by
      intro hne
      exact absurd (Nat.zero_mod _) hne)
    (by omega)
  exact ⟨r3, r6⟩

theorem icoRGBRow_keeps (bits : Nat) :
    ∀ (n i : Nat) (pixels : List Nat) (src : SDL_IOStream) (pixels' : List Nat)
      (src' : SDL_IOStream),
      icoRGBRow bits n i pixels src = Except.ok (pixels', src') →
      bits + 4 * (i + n) ≤ pixels.length →
      pixels'.length = pixels.length ∧ (AllBytes pixels → AllBytes pixels') := by
  intro n
  induction n with
  | zero =>
    intro i pixels src pixels' src' h _
    simp only [icoRGBRow, Except.ok.injEq, Prod.mk.injEq] at h
    rw [← h.1]
    exact ⟨rfl, id⟩
  | succ n ih =>
    intro i pixels src pixels' src' h hlen
    simp only [icoRGBRow] at h
    split at h
    · cases h
    · rename_i pv s1 _
      have hwl := writeU32_length pixels bits i pv (by omega)
      obtain ⟨r1, r2⟩ := ih (i + 1) _ s1 pixels' src' h (by rw [hwl]; omega)
      exact ⟨by rw [r1, hwl], fun hb => r2 (allBytes_writeU32 _ _ _ _ hb)⟩

theorem icoColorRow_keeps (E w pitch : Nat) (palette : List Nat) (hp : 4 * w ≤ pitch) :
    IcoRowKeeps (icoColorRow E w pitch palette) pitch := by
  intro bits pixels src pixels' src' h hlen
  unfold icoColorRow at h
  split at h
  · rename_i hE
    rw [icoIndexedRow_eq] at h
    exact icoBitRow_keeps E hE _ w pitch hp bits pixels src pixels' src' h hlen
  · split at h
    · exact icoRGBRow_keeps bits w 0 pixels src pixels' src' h (by omega)
    · obtain ⟨b, s1, hr, h⟩ := orFail_ok _ _ _ _ h
      simp only [Except.ok.injEq, Prod.mk.injEq] at h
      obtain ⟨_, _, _, hb, hb2⟩ := readExact_ok_pos _ _ _ _ hr
      obtain ⟨hn, _, _⟩ := readExact_ok _ _ _ _ hr
      have hbl : b.length = pitch := by
        rw [hb, List.length_take]; omega
      rw [← h.1]
      exact ⟨memWrite_length _ _ _ (by rw [hbl]; exact hlen),
        fun hpx => allBytes_memWrite _ _ _ hpx hb2⟩

theorem icoRows_keeps
    (row : Nat → List Nat → SDL_IOStream → Except SDL_IOStream (List Nat × SDL_IOStream))
    (pad pitch : Nat) (hrow : IcoRowKeeps row pitch) :
    ∀ (k : Nat) (pixels : List Nat) (src : SDL_IOStream) (pixels' : List Nat)
      (src' : SDL_IOStream),
      icoRows row pad pitch k pixels src = Except.ok (pixels', src') →
      k * pitch ≤ pixels.length →
      pixels'.length = pixels.length ∧ (AllBytes pixels → AllBytes pixels') := by
  intro k
  induction k with
  | zero =>
    intro pixels src pixels' src' h _
    simp only [icoRows, Except.ok.injEq, Prod.mk.injEq] at h
    rw [← h.1]
    exact ⟨rfl, id⟩
  | succ k ih =>
    intro pixels src pixels' src' h hlen
    simp only [icoRows] at h
    split at h
    · split at h
      · cases h
      · rename_i px1 s1 hr
        split at h
        · cases h
        · rename_i s2 _
          have hb : (k + 1) * pitch - pitch = k * pitch := by
            rw [Nat.add_mul, Nat.one_mul, Nat.add_sub_cancel]
          rw [hb] at hr
          have hl : k * pitch + pitch ≤ pixels.length := by
            rw [Nat.add_mul, Nat.one_mul] at hlen; exact hlen
          obtain ⟨q1, q2⟩ := hrow _ _ _ _ _ hr hl
          obtain ⟨r1, r2⟩ := ih px1 s2 pixels' src' h (by rw [q1]; omega)
          exact ⟨by rw [r1, q1], fun hpx => r2 (q2 hpx)⟩
    · simp only [Except.ok.injEq, Prod.mk.injEq] at h
      rw [← h.1]
      exact ⟨rfl, id⟩

theorem icoRows_spec
    (row : Nat → List Nat → SDL_IOStream → Except SDL_IOStream (List Nat × SDL_IOStream))
    (w adv : Nat) (val : List Nat → Nat → Nat → Nat) (hrow : IcoRowSpec row w adv val)
    (pad pitch : Nat) (hp : 4 * w ≤ pitch) :
    ∀ (k : Nat) (pixels : List Nat) (src : SDL_IOStream) (pixels' : List Nat)
      (src' : SDL_IOStream),
      icoRows row pad pitch k pixels src = Except.ok (pixels', src') →
      k * pitch ≤ pixels.length →
      src'.data = src.data ∧ (0 < pitch → src'.pos = src.pos + k * (adv + pad)) ∧
      pixels'.length = pixels.length ∧
      (∀ y x, y < k → x < w → readU32 pixels' (y * pitch) x =
        val ((streamRest src).drop ((k - 1 - y) * (adv + pad))) x (readU32 pixels (y * pitch) x)) ∧
      (∀ o len, k * pitch ≤ o → memRead pixels' o len = memRead pixels o len) := by
  intro k
  induction k with
  | zero =>
    intro pixels src pixels' src' h _
    simp only [icoRows, Except.ok.injEq, Prod.mk.injEq] at h
    obtain ⟨rfl, rfl⟩ := h
    exact ⟨rfl, fun _ => by omega, rfl, fun y x hy => absurd hy (by omega), fun _ _ _ => rfl⟩
  | succ k ih =>
    intro pixels src pixels' src' h hlen
    simp only [icoRows] at h
    split at h
    · rename_i hpos
      split at h
      · cases h
      · rename_i px1 s1 hr
        split at h
        · cases h
        · rename_i s2 hs
          have hb : (k + 1) * pitch - pitch = k * pitch := by
            rw [Nat.add_mul, Nat.one_mul, Nat.add_sub_cancel]
          rw [hb] at hr
          have hl : k * pitch + pitch ≤ pixels.length := by
            rw [Nat.add_mul, Nat.one_mul] at hlen; exact hlen
          obtain ⟨q1, q2, q3, q4, q5⟩ := hrow _ _ _ _ _ hr (by omega)
          obtain ⟨p1, p2⟩ := icoSkipPad_ok _ _ _ hs
          obtain ⟨r1, r2, r3, r4, r5⟩ := ih px1 s2 pixels' src' h (by rw [q3]; omega)
          have hrest : streamRest s2 = (streamRest src).drop (adv + pad) :=
            streamRest_of_pos s2 src _ (by rw [p1, q1]) (by rw [p2, q2]; omega)
          have hpitch : 0 < pitch := by
            rcases Nat.eq_zero_or_pos pitch with h0 | h0
            · rw [h0, Nat.mul_zero] at hpos; exact absurd hpos (by omega)
            · exact h0
          refine ⟨by rw [r1, p1, q1], ?_, by rw [r3, q3], ?_, ?_⟩
          · intro _
            rw [r2 hpitch, p2, q2, Nat.add_mul, Nat.one_mul]
            omega
          · intro y x hy hx
            by_cases hyk : y = k
            · subst hyk
              have e := r5 (y * pitch + 4 * x) 4 (by omega)
              have : (y + 1 - 1 - y) * (adv + pad) = 0 := by
                rw [Nat.add_sub_cancel, Nat.sub_self, Nat.zero_mul]
              rw [this, List.drop_zero, ← q4 x hx]
              unfold readU32
              rw [e]
            · have hyk2 : y < k := by omega
              rw [r4 y x hyk2 hx, hrest, List.drop_drop]
              have e1 : adv + pad + (k - 1 - y) * (adv + pad) = (k + 1 - 1 - y) * (adv + pad) := by
                have : k + 1 - 1 - y = (k - 1 - y) + 1 := by omega
                rw [this, Nat.add_mul, Nat.one_mul, Nat.add_comm]
              have hyp : y * pitch + pitch ≤ k * pitch := by
                have := Nat.mul_le_mul_right pitch (show y + 1 ≤ k by omega)
                rw [Nat.add_mul, Nat.one_mul] at this
                exact this
              have e2 : readU32 px1 (y * pitch) x = readU32 pixels (y * pitch) x := by
                unfold readU32
                rw [q5 _ _ (Or.inl (by omega))]
              rw [e1, e2]
          · intro o len ho
            rw [Nat.add_mul, Nat.one_mul] at ho
            rw [r5 o len (by omega), q5 o len (Or.inr (by omega))]
    · rename_i hpos
      simp only [Except.ok.injEq, Prod.mk.injEq] at h
      obtain ⟨rfl, rfl⟩ := h
      have hp0 : pitch = 0 := by
        rcases Nat.eq_zero_or_pos pitch with h0 | h0
        · exact h0
        · exact absurd (Nat.mul_pos (Nat.succ_pos k) h0) hpos
      exact ⟨rfl, fun h0 => absurd h0 (by omega), rfl,
        fun y x _ hx => absurd hx (by omega), fun _ _ _ => rfl⟩

theorem icoPaletteLoop_lt : ∀ (n i : Nat) (palette : List Nat) (src : SDL_IOStream)
    (palette' : List Nat) (src' : SDL_IOStream),
    icoPaletteLoop n i palette src = Except.ok (palette', src') →
    (∀ v ∈ palette, v < 4294967296) → ∀ v ∈ palette', v < 4294967296 := by
  intro n
  induction n with
  | zero =>
    intro i palette src palette' src' h hp
    simp only [icoPaletteLoop, Except.ok.injEq, Prod.mk.injEq] at h
    rw [← h.1]; exact hp
  | succ n ih =>
    intro i palette src palette' src' h hp
    simp only [icoPaletteLoop] at h
    obtain ⟨b, s1, hr, h⟩ := orFail_ok _ _ _ _ h
    obtain ⟨_, _, _, _, hb⟩ := readExact_ok_pos _ _ _ _ hr
    refine ih _ _ _ _ _ h ?_
    intro v hv
    rcases List.mem_or_eq_of_mem_set hv with hv | hv
    · exact hp v hv
    · rw [hv]
      have hlt := u32OfBytes_lt b hb
      split
      · exact Nat.or_lt_two_pow (n := 32) hlt (by decide)
      · exact hlt

theorem icoInfoHeader_expand (src s : SDL_IOStream) (info : ICOInfo)
    (h : icoInfoHeader src = Except.ok (info, s)) :
    (∃ biCompression, icoExpandBMP biCompression info.biBitCount = some info.ExpandBMP) ∧
    0 ≤ info.biWidth ∧ info.biWidth ≤ 0xFFFFFF ∧ 0 ≤ info.biHeight ∧ info.biHeight ≤ 0xFFFFFF := by
  unfold icoInfoHeader at h
  obtain ⟨biSize, s1, _, h⟩ := orFail_ok _ _ _ _ h
  split at h
  · cases h
  obtain ⟨biWidth, s2, _, h⟩ := orFail_ok _ _ _ _ h
  obtain ⟨biHeight, s3, _, h⟩ := orFail_ok _ _ _ _ h
  obtain ⟨biPlanes, s4, _, h⟩ := orFail_ok _ _ _ _ h
  obtain ⟨biBitCount, s5, _, h⟩ := orFail_ok _ _ _ _ h
  obtain ⟨biCompression, s6, _, h⟩ := orFail_ok _ _ _ _ h
  obtain ⟨biSizeImage, s7, _, h⟩ := orFail_ok _ _ _ _ h
  obtain ⟨biX, s8, _, h⟩ := orFail_ok _ _ _ _ h
  obtain ⟨biY, s9, _, h⟩ := orFail_ok _ _ _ _ h
  obtain ⟨biClrUsed, s10, _, h⟩ := orFail_ok _ _ _ _ h
  obtain ⟨biClrImportant, s11, _, h⟩ := orFail_ok _ _ _ _ h
  split at h
  · cases h
  rename_i E hE
  split at h
  · cases h
  rename_i hdim
  simp only [Except.ok.injEq, Prod.mk.injEq] at h
  obtain ⟨rfl, rfl⟩ := h
  refine ⟨⟨biCompression, hE⟩, ?_⟩
  simp only
  omega

theorem icoPalette0_lt (env : Env) : ∀ v ∈ icoPalette0 env, v < 4294967296 := by
  intro v hv
  simp only [icoPalette0, List.mem_map] at hv
  obtain ⟨i, _, rfl⟩ := hv
  apply u32OfBytes_lt
  intro b hb
  simp only [List.mem_map] at hb
  obtain ⟨j, _, rfl⟩ := hb
  exact Nat.mod_lt _ (by decide)

theorem icoLoadPalette_lt (env : Env) (biBitCount biClrUsed : Nat) (src s : SDL_IOStream)
    (palette : List Nat)
    (h : icoLoadPalette env biBitCount biClrUsed src = Except.ok (palette, s)) :
    ∀ v ∈ palette, v < 4294967296 := by
  unfold icoLoadPalette at h
  split at h
  · generalize (if biClrUsed = 0 then 1 <<< biBitCount else biClrUsed) = n at h
    simp only [] at h
    split at h
    · cases h
    · exact icoPaletteLoop_lt _ _ _ _ _ _ h (icoPalette0_lt env)
  · simp only [Except.ok.injEq, Prod.mk.injEq] at h
    rw [← h.1]
    exact icoPalette0_lt env

/-- A successful `icoSetup` is a successful directory, bitmap header, surface
and palette. -/
theorem icoSetup_ok (env : Env) (src : SDL_IOStream) (type : Nat) (st : ICOSetup)
    (s0 : SDL_IOStream) (h : icoSetup env src type = Except.ok (st, s0)) :
    ∃ s1 info s2, icoDirectory src type = Except.ok (st.dir, s1) ∧
      icoInfoHeader s1 = Except.ok (info, s2) ∧
      SDL_CreateSurface env info.biWidth.toNat (info.biHeight.toNat >>> 1)
        SDL_PIXELFORMAT_ARGB8888 = some st.surface ∧
      icoLoadPalette env info.biBitCount info.biClrUsed s2 = Except.ok (st.palette, s0) ∧
      st.biBitCount = info.biBitCount ∧ st.ExpandBMP = info.ExpandBMP ∧
      st.biWidth = info.biWidth.toNat := by
  unfold icoSetup at h
  split at h
  · cases h
  rename_i dir s1 hdir
  split at h
  · cases h
  rename_i info s2 hinfo
  simp only [] at h
  split at h
  · cases h
  rename_i surface hsurf
  split at h
  · cases h
  rename_i palette s3 hpal
  simp only [Except.ok.injEq, Prod.mk.injEq] at h
  obtain ⟨rfl, rfl⟩ := h
  exact ⟨s1, info, s2, hdir, hinfo, hsurf, hpal, rfl, rfl, rfl⟩

theorem icoSetup_facts (env : Env) (src : SDL_IOStream) (type : Nat) (st : ICOSetup)
    (s0 : SDL_IOStream) (h : icoSetup env src type = Except.ok (st, s0)) :
    (∃ biCompression, icoExpandBMP biCompression st.biBitCount = some st.ExpandBMP) ∧
    st.surface.w = st.biWidth ∧ st.surface.pitch = 4 * st.biWidth ∧
    st.surface.pixels = List.replicate (st.surface.pitch * st.surface.h) 0 ∧
    (∀ v ∈ st.palette, v < 4294967296) := by
  obtain ⟨s1, info, s2, _, hinfo, hsurf, hpal, e1, e2, e3⟩ := icoSetup_ok env src type st s0 h
  have hs := SDL_CreateSurface_some _ _ _ _ _ hsurf
  have hbpp : SDL_BYTESPERPIXEL SDL_PixelFormat.SDL_PIXELFORMAT_ARGB8888 = 4 := rfl
  rw [hbpp] at hs
  have hpitch : (info.biWidth.toNat * 4 + 3) / 4 * 4 = 4 * info.biWidth.toNat := by omega
  rw [hpitch] at hs
  obtain ⟨hE, _⟩ := icoInfoHeader_expand s1 s2 info hinfo
  rw [e1, e2, e3]
  refine ⟨hE, ?_, ?_, ?_, icoLoadPalette_lt _ _ _ _ _ _ hpal⟩
  · rw [hs]
  · rw [hs]
  · rw [hs]

/-- A successful `LoadICOCUR_IO` is a successful setup, colour pass and mask
pass; the image is the surface of the setup with the pixels of the mask
pass. -/
theorem LoadICOCUR_IO_some (env : Env) (src : SDL_IOStream) (type : Nat) (closeio : Bool)
    (img : SDL_Surface) (src' : SDL_IOStream)
    (h : LoadICOCUR_IO env src type closeio = (some img, src')) :
    ∃ st s0 pixelsC sC sF, icoSetup env src type = Except.ok (st, s0) ∧
      icoColorPass st s0 = Except.ok (pixelsC, sC) ∧
      icoMaskPass st pixelsC sC = Except.ok (img.pixels, sF) ∧
      img.w = st.surface.w ∧ img.h = st.surface.h ∧ img.pitch = st.surface.pitch := by
  unfold LoadICOCUR_IO at h
  simp only [] at h
  split at h
  · rename_i surface s hbody
    simp only [Prod.mk.injEq, Option.some.injEq] at h
    obtain ⟨rfl, _⟩ := h
    unfold LoadICOCUR_IO_body at hbody
    split at hbody
    · cases hbody
    rename_i st s0 hsetup
    split at hbody
    · cases hbody
    rename_i pixelsC sC hcol
    split at hbody
    · cases hbody
    rename_i pixelsF sF hmask
    simp only [Except.ok.injEq, Prod.mk.injEq] at hbody
    obtain ⟨rfl, _⟩ := hbody
    refine ⟨st, s0, pixelsC, sC, sF, hsetup, hcol, ?_, ?_, ?_, ?_⟩
    · rw [hmask]
      split <;> rfl
    · split <;> rfl
    · split <;> rfl
    · split <;> rfl
  · simp only [Prod.mk.injEq] at h
    exact absurd h.1 (by simp)

theorem icoExpandBMP_indexed (c b E : Nat) (h : icoExpandBMP c b = some E)
    (hb : b = 1 ∨ b = 4 ∨ b = 8) : E = b := by
  unfold icoExpandBMP at h
  split at h
  · rcases hb with rfl | rfl | rfl <;> simp at h <;> exact h.symm
  · cases h

theorem ico_colour_stride (E w : Nat) (hE : E = 1 ∨ E = 4 ∨ E = 8) :
    (w + 8 / E - 1) / (8 / E) + icoColorPad E w = 4 * ((w * E + 31) / 32) := by
  rcases hE with rfl | rfl | rfl <;>
    simp only [icoColorPad, icoBmpPitch, icoPad, Nat.shiftRight_eq_div_pow] <;>
    norm_num <;> split <;> omega

theorem ico_mask_stride (w : Nat) :
    (w + 8 / 1 - 1) / (8 / 1) + icoPad ((w + 7) >>> 3) = ((w + 7) / 8 + 3) / 4 * 4 := by
  simp only [icoPad, Nat.shiftRight_eq_div_pow]
  norm_num
  split <;> omega

theorem icoColorRow_indexed (E w pitch : Nat) (palette : List Nat)
    (hE : E = 1 ∨ E = 4 ∨ E = 8) :
    icoColorRow E w pitch palette =
      fun bits pixels src => icoBitRow E (fun _ k => palette.getD k 0) bits w 0 0 pixels src := by
  funext bits pixels src
  unfold icoColorRow
  rw [if_pos hE, icoIndexedRow_eq]

theorem icoMaskRow_fun (w : Nat) :
    (fun bits pixels src => icoMaskRow bits w 0 0 pixels src) =
      fun bits pixels src =>
        icoBitRow 1 (fun old k => old &&& (if k ≠ 0 then 0 else 0xFFFFFFFF)) bits w 0 0
          pixels src := by
  funext bits pixels src
  rw [icoMaskRow_eq]

theorem getD_lt_of_all (l : List Nat) (i N : Nat) (hN : 0 < N) (h : ∀ v ∈ l, v < N) :
    l.getD i 0 < N := by
  rw [List.getD_eq_getElem?_getD]
  rcases hi : l[i]? with _ | v
  · simpa using hN
  · simp only [Option.getD_some]
    exact h v (List.getElem?_mem hi)

/-- The colour pass keeps the size of the pixels and leaves bytes in them. -/
theorem icoColorPass_keeps (env : Env) (src : SDL_IOStream) (type : Nat) (st : ICOSetup)
    (s0 : SDL_IOStream) (hsetup : icoSetup env src type = Except.ok (st, s0))
    (pixelsC : List Nat) (sC : SDL_IOStream)
    (hcol : icoColorPass st s0 = Except.ok (pixelsC, sC)) :
    pixelsC.length = st.surface.pitch * st.surface.h ∧ AllBytes pixelsC := by
  obtain ⟨_, f2, f3, f4, _⟩ := icoSetup_facts env src type st s0 hsetup
  unfold icoColorPass at hcol
  rw [icoColorRows_eq] at hcol
  have hlen : st.surface.pixels.length = st.surface.pitch * st.surface.h := by
    rw [f4, List.length_replicate]
  obtain ⟨k1, k2⟩ := icoRows_keeps _ _ _
    (icoColorRow_keeps st.ExpandBMP st.surface.w st.surface.pitch st.palette (by rw [f2, f3]))
    _ _ _ _ _ hcol (by rw [hlen, Nat.mul_comm])
  refine ⟨by rw [k1, hlen], k2 ?_⟩
  rw [f4]
  exact allBytes_replicate_zero _

/-! ## Detection, headers and palettes -/

theorem SDL_ReadIO_rest (s : SDL_IOStream) (n : Nat) :
    SDL_ReadIO s n = ((streamRest s).take n,
      { s with pos := s.pos + min n (streamRest s).length }) := by
  rw [SDL_ReadIO_eq, streamRest_length]
  simp [streamRest, List.map_take]

theorem SDL_ReadU16LE_eq (s : SDL_IOStream) :
    SDL_ReadU16LE s =
      if 2 ≤ (streamRest s).length then
        (some (le16At (streamRest s) 0), { s with pos := s.pos + 2 })
      else (none, { s with pos := s.pos + (streamRest s).length }) := by
  unfold SDL_ReadU16LE
  rw [SDL_ReadIO_rest]
  rcases streamRest s with _ | ⟨a, _ | ⟨b, rest⟩⟩
  · simp
  · simp
  · simp [le16At]
    omega

theorem SDL_ReadU32LE_eq (s : SDL_IOStream) :
    SDL_ReadU32LE s =
      if 4 ≤ (streamRest s).length then
        (some (le32At (streamRest s) 0), { s with pos := s.pos + 4 })
      else (none, { s with pos := s.pos + (streamRest s).length }) := by
  unfold SDL_ReadU32LE
  rw [SDL_ReadIO_rest]
  rcases streamRest s with _ | ⟨a, _ | ⟨b, _ | ⟨c, _ | ⟨d, rest⟩⟩⟩⟩
  · simp
  · simp
  · simp
  · simp
  · simp [le32At]
    omega

theorem SDL_ReadS32LE_eq (s : SDL_IOStream) :
    SDL_ReadS32LE s =
      if 4 ≤ (streamRest s).length then
        (some (sint32 (le32At (streamRest s) 0)), { s with pos := s.pos + 4 })
      else (none, { s with pos := s.pos + (streamRest s).length }) := by
  unfold SDL_ReadS32LE
  rw [SDL_ReadU32LE_eq]
  by_cases h : 4 ≤ (streamRest s).length
  · rw [if_pos h, if_pos h]
    rfl
  · rw [if_neg h, if_neg h]

theorem le16At_drop (row : List Nat) (n i : Nat) : le16At (row.drop n) i = le16At row (n + i) := by
  simp [le16At, List.getD_eq_getElem?_getD, List.getElem?_drop, Nat.add_assoc]

theorem le32At_drop (row : List Nat) (n i : Nat) : le32At (row.drop n) i = le32At row (n + i) := by
  simp [le32At, List.getD_eq_getElem?_getD, List.getElem?_drop, Nat.add_assoc]

/-- The header test of `IMG_isICOCUR` and `LoadICOCUR_IO` in terms of the
bytes at the stream position. -/
theorem readICOHeader_eq (src : SDL_IOStream) (type : Nat) :
    (readICOHeader src type).1 = true ↔
      6 ≤ (streamRest src).length ∧ le16At (streamRest src) 0 = 0 ∧
        le16At (streamRest src) 2 = type ∧ le16At (streamRest src) 4 ≠ 0 := by
  unfold readICOHeader
  rw [SDL_ReadU16LE_eq]
  by_cases h2 : 2 ≤ (streamRest src).length
  · rw [if_pos h2]
    simp only []
    rw [SDL_ReadU16LE_eq, streamRest_advance, List.length_drop]
    by_cases h4 : 2 ≤ (streamRest src).length - 2
    · rw [if_pos h4]
      simp only []
      rw [SDL_ReadU16LE_eq]
      simp only [Nat.add_assoc, Nat.reduceAdd]
      rw [streamRest_advance, List.length_drop]
      by_cases h6 : 2 ≤ (streamRest src).length - 4
      · rw [if_pos h6]
        simp only [le16At_drop, Nat.add_zero, Bool.and_eq_true, beq_iff_eq, bne_iff_ne, ne_eq]
        constructor
        · rintro ⟨⟨a, b⟩, c⟩
          exact ⟨by omega, a, b, c⟩
        · rintro ⟨_, a, b, c⟩
          exact ⟨⟨a, b⟩, c⟩
      · rw [if_neg h6]
        simp only [Bool.false_eq_true, false_iff, not_and]
        intro h; omega
    · rw [if_neg h4]
      simp only [Bool.false_eq_true, false_iff, not_and]
      intro h; omega
  · rw [if_neg h2]
    simp only [Bool.false_eq_true, false_iff, not_and]
    intro h; omega

theorem IMG_isICOCUR_eq (src : SDL_IOStream) (type : Nat) :
    (IMG_isICOCUR src type).1 = (readICOHeader src type).1 := by
  unfold IMG_isICOCUR
  rcases readICOHeader src type with ⟨ok, n, s⟩
  cases ok <;> rfl

theorem IMG_isBMP_eq (src : SDL_IOStream) :
    (IMG_isBMP src).1 = true ↔
      2 ≤ (streamRest src).length ∧ (streamRest src).take 2 = cstr "BM" := by
  unfold IMG_isBMP
  simp only []
  rw [SDL_ReadIO_rest]
  simp only [List.length_take, memeq, List.take_take, Nat.min_self]
  have hc : (cstr "BM").take 2 = cstr "BM" := rfl
  rw [hc]
  by_cases h2 : 2 ≤ (streamRest src).length
  · rw [if_pos (Nat.min_eq_left h2)]
    by_cases hm : List.take 2 (streamRest src) = cstr "BM"
    · simp [hm, h2]
    · simp [hm]
  · have : ¬ min 2 (streamRest src).length = 2 := by omega
    rw [if_neg this]
    simp [h2]

theorem IMG_isLBM_eq (src : SDL_IOStream) :
    (IMG_isLBM src).1 = true ↔
      12 ≤ (streamRest src).length ∧ (streamRest src).take 4 = cstr "FORM" ∧
        (((streamRest src).drop 8).take 4 = cstr "PBM " ∨
          ((streamRest src).drop 8).take 4 = cstr "ILBM") := by
  unfold IMG_isLBM
  simp only []
  rw [SDL_ReadIO_rest]
  simp only [List.length_take, memeq, List.take_take, Nat.reduceAdd]
  have h1 : (cstr "FORM").take 4 = cstr "FORM" := rfl
  have h2 : (cstr "PBM ").take 4 = cstr "PBM " := rfl
  have h3 : (cstr "ILBM").take 4 = cstr "ILBM" := rfl
  have h4 : ((streamRest src).take 12).drop 8 = ((streamRest src).drop 8).take 4 := by
    rw [List.drop_take]
  have h5 : min 4 12 = 4 := rfl
  rw [h1, h2, h3, h4, List.take_take, h5, Nat.min_self]
  by_cases h12 : 12 ≤ (streamRest src).length
  · rw [if_pos (Nat.min_eq_left h12)]
    by_cases hf : List.take 4 (streamRest src) = cstr "FORM"
    · by_cases hp : List.take 4 (List.drop 8 (streamRest src)) = cstr "PBM "
      · simp [hf, hp, h12]
      · by_cases hi : List.take 4 (List.drop 8 (streamRest src)) = cstr "ILBM"
        · simp [hf, hi, h12]
        · simp [hf, hp, hi]
    · simp [hf]
  · have : ¬ min 12 (streamRest src).length = 12 := by omega
    rw [if_neg this]
    simp [h12]

theorem icoDirectory_header (src : SDL_IOStream) (type : Nat) (dir : ICODir) (s : SDL_IOStream)
    (h : icoDirectory src type = Except.ok (dir, s)) : (readICOHeader src type).1 = true := by
  unfold icoDirectory at h
  split at h
  · cases h
  · rename_i heq
    rw [heq]

theorem LoadICOCUR_IO_header (env : Env) (src : SDL_IOStream) (type : Nat) (closeio : Bool)
    (h : (IMG_isICOCUR src type).1 = false) : ( LoadICOCUR_IO env src type closeio).1 = none := by
  rcases hr : LoadICOCUR_IO env src type closeio with ⟨_ | img, s'⟩
  · rfl
  · obtain ⟨st, s0, _, _, _, hs, _⟩ := LoadICOCUR_IO_some env src type closeio img s' hr
    obtain ⟨s1, _, _, hd, _⟩ := icoSetup_ok env src type st s0 hs
    have := icoDirectory_header src type _ _ hd
    rw [IMG_isICOCUR_eq, this] at h
    cases h

theorem IMG_LoadLBM_IO_header (env : Env) (src : SDL_IOStream)
    (h : (IMG_isLBM src).1 = false) : ( IMG_LoadLBM_IO env src).1 = none := by
  rcases hr : IMG_LoadLBM_IO env src with ⟨_ | img, s'⟩
  · rfl
  · obtain ⟨pbm, st, s, hw, _⟩ := IMG_LoadLBM_IO_some env src s' img hr
    rcases lbmWalk_cases env src with ⟨d, e1, _⟩ | ⟨h12, hf, hp, _⟩
    · rw [hw] at e1
      cases e1
    · have : (IMG_isLBM src).1 = true := by
        rw [IMG_isLBM_eq]
        simp only [memeq, decide_eq_true_eq, List.take_take, Nat.min_self] at hf hp
        rw [streamRest_length]
        exact ⟨h12, hf, hp⟩
      rw [this] at h
      cases h

theorem and_0xFFFFFFF0 (x : Nat) (hx : x < 4294967296) : x &&& 0xFFFFFFF0 = x / 16 * 16 := by
  have e1 : (0xFFFFFFF0 : Nat) = (2 ^ 28 - 1) <<< 4 := by decide
  have e2 : x / 16 * 16 = (x >>> 4) <<< 4 := by
    rw [Nat.shiftRight_eq_div_pow, Nat.shiftLeft_eq]
  rw [e1, e2]
  apply Nat.eq_of_testBit_eq
  intro i
  rw [Nat.testBit_and, Nat.testBit_shiftLeft, Nat.testBit_shiftLeft, Nat.testBit_shiftRight,
    Nat.testBit_two_pow_sub_one]
  by_cases h4 : 4 ≤ i
  · have e3 : 4 + (i - 4) = i := by omega
    rw [e3]
    by_cases h32 : i - 4 < 28
    · simp [h4, h32]
    · have hlt : x < 2 ^ i :=
        Nat.lt_of_lt_of_le hx (Nat.pow_le_pow_right (show 2 > 0 by decide) (show 32 ≤ i by omega))
      rw [Nat.testBit_lt_two_pow hlt]
      simp
  · simp [h4]

/-- `tgaSetupHdr` is the validation followed by the surface, the colour map and
the greyscale palette. -/
theorem tgaSetupHdr_eq (env : Env) (hdr : TGAheader) (src : SDL_IOStream) :
    tgaSetupHdr env hdr src =
      match tgaValidate hdr with
      | none => Except.error src
      | some (rle, indexed, grey, bpp, format) =>
        match SDL_CreateSurface env (LE16 hdr.width) (LE16 hdr.height) format with
        | none => Except.error ( SDL_SeekIO src hdr.infolen SDL_IO_SEEK_CUR).2
        | some img =>
        match tgaColorMap env hdr indexed grey (LE16 hdr.cmap_len) img
            ( SDL_SeekIO src hdr.infolen SDL_IO_SEEK_CUR).2 with
        | Except.error s => Except.error s
        | Except.ok (img, src) =>
        match tgaGreyPalette env grey img src with
        | Except.error s => Except.error s
        | Except.ok img => Except.ok (rle, bpp, img, src) := by
  unfold tgaSetupHdr tgaValidate
  dsimp only
  rcases tgaClassify hdr (LE16 hdr.cmap_len) with _ | ⟨rle, indexed, grey⟩
  · rfl
  · dsimp only
    rcases tgaFormat hdr indexed with _ | format
    · rfl
    · dsimp only
      split
      · rfl
      · rfl

theorem tgaClassify_none (hdr : TGAheader) (n : Nat) :
    tgaClassify hdr n = none ↔
      ¬ (hdr.type = 1 ∨ hdr.type = 2 ∨ hdr.type = 3 ∨ hdr.type = 9 ∨ hdr.type = 10 ∨
          hdr.type = 11) ∨
      ((hdr.type = 1 ∨ hdr.type = 9) ∧ (hdr.has_cmap = 0 ∨ hdr.pixel_bits ≠ 8 ∨ n > 256)) ∨
      ((hdr.type = 3 ∨ hdr.type = 11) ∧ hdr.pixel_bits ≠ 8) := by
  unfold tgaClassify
  simp only [TGA_TYPE_RLE_INDEXED, TGA_TYPE_INDEXED, TGA_TYPE_RLE_RGB, TGA_TYPE_RGB,
    TGA_TYPE_RLE_BW, TGA_TYPE_BW]
  split_ifs <;> simp <;> omega

theorem tgaClassify_some (hdr : TGAheader) (n : Nat) (rle indexed grey : Bool)
    (h : tgaClassify hdr n = some (rle, indexed, grey)) :
    (indexed = true ↔ hdr.type = 1 ∨ hdr.type = 9 ∨ hdr.type = 3 ∨ hdr.type = 11) ∧
    (grey = true ↔ hdr.type = 3 ∨ hdr.type = 11) ∧
    (hdr.type = 1 ∨ hdr.type = 2 ∨ hdr.type = 3 ∨ hdr.type = 9 ∨ hdr.type = 10 ∨
      hdr.type = 11) ∧
    (indexed = true → hdr.pixel_bits = 8) ∧
    (indexed = true → grey = false → hdr.has_cmap ≠ 0 ∧ n ≤ 256) := by
  unfold tgaClassify at h
  simp only [TGA_TYPE_RLE_INDEXED, TGA_TYPE_INDEXED, TGA_TYPE_RLE_RGB, TGA_TYPE_RGB,
    TGA_TYPE_RLE_BW, TGA_TYPE_BW] at h
  split_ifs at h <;> simp at h <;> obtain ⟨_, rfl, rfl⟩ := h <;> simp <;> omega

theorem tgaFormat_cases (hdr : TGAheader) (indexed : Bool) :
    (tgaFormat hdr indexed = none ↔
      (hdr.pixel_bits = 8 ∧ indexed = false) ∨
      ¬ (hdr.pixel_bits = 8 ∨ hdr.pixel_bits = 15 ∨ hdr.pixel_bits = 16 ∨ hdr.pixel_bits = 24 ∨
          hdr.pixel_bits = 32)) ∧
    (∀ format, tgaFormat hdr indexed = some format →
      (hdr.pixel_bits = 8 ∧ format = SDL_PIXELFORMAT_INDEX8) ∨
      ((hdr.pixel_bits = 15 ∨ hdr.pixel_bits = 16) ∧ format = SDL_PIXELFORMAT_XRGB1555) ∨
      (hdr.pixel_bits = 24 ∧ format = SDL_PIXELFORMAT_BGR24) ∨
      (hdr.pixel_bits = 32 ∧ format = SDL_PIXELFORMAT_BGRA32)) := by
  unfold tgaFormat
  constructor
  · split_ifs <;> simp_all
    omega
  · intro format
    split_ifs <;> simp_all

theorem tgaValidate_none (hdr : TGAheader) :
    tgaValidate hdr = none ↔ tgaListedUnsupported hdr := by
  unfold tgaValidate tgaListedUnsupported
  dsimp only
  rcases hc : tgaClassify hdr (LE16 hdr.cmap_len) with _ | ⟨rle, indexed, grey⟩
  · have := (tgaClassify_none hdr (LE16 hdr.cmap_len)).1 hc
    simp only [true_iff]
    rcases this with h | h | h
    · exact Or.inl h
    · exact Or.inr (Or.inl h)
    · exact Or.inr (Or.inr (Or.inl h))
  · obtain ⟨hi, hg, ht, h8, hcm⟩ := tgaClassify_some hdr _ rle indexed grey hc
    have hnc : ¬ (tgaClassify hdr (LE16 hdr.cmap_len) = none) := by rw [hc]; simp
    rw [tgaClassify_none] at hnc
    dsimp only
    rcases hf : tgaFormat hdr indexed with _ | format
    · simp only [true_iff]
      have := (tgaFormat_cases hdr indexed).1.1 hf
      rcases this with ⟨hp, hix⟩ | hp
      · have hni : ¬ (hdr.type = 1 ∨ hdr.type = 9 ∨ hdr.type = 3 ∨ hdr.type = 11) := by
          rw [← hi, hix]; simp
        refine Or.inr (Or.inr (Or.inr (Or.inl ⟨?_, ?_⟩)))
        · omega
        · omega
      · by_cases hix : indexed = true
        · exact absurd (h8 hix) (by omega)
        · have hni : ¬ (hdr.type = 1 ∨ hdr.type = 9 ∨ hdr.type = 3 ∨ hdr.type = 11) := by
            rw [← hi]; exact hix
          refine Or.inr (Or.inr (Or.inr (Or.inl ⟨?_, ?_⟩)))
          · omega
          · omega
    · have hnf : ¬ (tgaFormat hdr indexed = none) := by rw [hf]; simp
      rw [(tgaFormat_cases hdr indexed).1] at hnf
      dsimp only
      simp only [TGA_INTERLEAVE_MASK, TGA_INTERLEAVE_NONE, TGA_ORIGIN_RIGHT]
      constructor
      · intro h
        split at h
        · rename_i hfl
          exact Or.inr (Or.inr (Or.inr (Or.inr hfl)))
        · cases h
      · intro h
        rcases h with h | h | h | h | h
        · exact absurd h (fun hh => hnc (Or.inl hh))
        · exact absurd (Or.inr (Or.inl h)) hnc
        · exact absurd (Or.inr (Or.inr h)) hnc
        · exfalso
          have hni : ¬ indexed = true := by
            rw [hi]; omega
          simp only [Bool.not_eq_true] at hni
          apply hnf
          by_cases h8' : hdr.pixel_bits = 8
          · exact Or.inl ⟨h8', hni⟩
          · refine Or.inr ?_
            omega
        · rw [if_pos h]

/-- The header of a stream that `IMG_LoadTGA_IO` decodes passes the
validation, and the setup is run on it. -/
theorem IMG_LoadTGA_IO_validate (env : Env) (src src' : SDL_IOStream) (img : SDL_Surface)
    (h : IMG_LoadTGA_IO env src = (some img, src')) :
    ∃ rle indexed grey bpp format s3 img0,
      tgaValidate (tgaHeaderAt src) = some (rle, indexed, grey, bpp, format) ∧
      tgaSetupHdr env (tgaHeaderAt src) { src with pos := src.pos + 18 }
        = Except.ok (rle, bpp, img0, s3) ∧
      SameGeom img0 { img with pixels := img0.pixels } ∧ img.palette = img0.palette ∧
      img.colorkey = img0.colorkey := by
  obtain ⟨hdr, rle, bpp, img0, s3, pixels, hs, _, himg⟩ := IMG_LoadTGA_IO_ok env src src' img h
  obtain ⟨_, hh, hsh⟩ := tgaSetup_ok env src hdr rle bpp img0 s3 hs
  subst hh
  have hsh2 := hsh
  rw [tgaSetupHdr_eq] at hsh2
  rcases hv : tgaValidate (tgaHeaderAt src) with _ | ⟨rle1, indexed, grey, bpp1, format⟩
  · rw [hv] at hsh2
    cases hsh2
  · rw [hv] at hsh2
    dsimp only at hsh2
    split at hsh2
    · cases hsh2
    split at hsh2
    · cases hsh2
    split at hsh2
    · cases hsh2
    simp only [Except.ok.injEq, Prod.mk.injEq] at hsh2
    obtain ⟨rfl, rfl, _, _⟩ := hsh2
    refine ⟨rle1, indexed, grey, bpp1, format, s3, img0, rfl, hsh, ?_, ?_, ?_⟩
    · rw [himg]
      exact ⟨rfl, rfl, rfl, rfl, rfl⟩
    · rw [himg]
    · rw [himg]

/-- A successful `tgaSetupHdr` is a passed validation, a surface, the colour
map block and the greyscale block. -/
theorem tgaSetupHdr_ok (env : Env) (hdr : TGAheader) (src : SDL_IOStream) (rle : Bool)
    (bpp : Nat) (img : SDL_Surface) (s3 : SDL_IOStream)
    (h : tgaSetupHdr env hdr src = Except.ok (rle, bpp, img, s3)) :
    ∃ indexed grey format img0 img1,
      tgaValidate hdr = some (rle, indexed, grey, bpp, format) ∧
      SDL_CreateSurface env (LE16 hdr.width) (LE16 hdr.height) format = some img0 ∧
      tgaColorMap env hdr indexed grey (LE16 hdr.cmap_len) img0
        { src with pos := src.pos + hdr.infolen } = Except.ok (img1, s3) ∧
      tgaGreyPalette env grey img1 s3 = Except.ok img := by
  rw [tgaSetupHdr_eq] at h
  rcases hv : tgaValidate hdr with _ | ⟨rle1, indexed, grey, bpp1, format⟩
  · rw [hv] at h
    cases h
  · rw [hv] at h
    dsimp only at h
    rw [SDL_SeekIO_cur] at h
    split at h
    · cases h
    rename_i img0 hs
    split at h
    · cases h
    rename_i img1 s4 hcm
    split at h
    · cases h
    rename_i img2 hg
    simp only [Except.ok.injEq, Prod.mk.injEq] at h
    obtain ⟨rfl, rfl, rfl, rfl⟩ := h
    exact ⟨indexed, grey, format, img0, img1, rfl, hs, hcm, hg⟩

/-- A successful `IMG_LoadTGA_IO` in stages: the validation of the header at
the stream position, the surface, the colour map block on the stream behind
the info field, the greyscale block; the rows change the pixels only. -/
theorem IMG_LoadTGA_IO_stages (env : Env) (src src' : SDL_IOStream) (img : SDL_Surface)
    (h : IMG_LoadTGA_IO env src = (some img, src')) :
    ∃ rle indexed grey bpp format img0 img1 img2 s3,
      18 ≤ (streamRest src).length ∧
      tgaValidate (tgaHeaderAt src) = some (rle, indexed, grey, bpp, format) ∧
      SDL_CreateSurface env (LE16 (tgaHeaderAt src).width) (LE16 (tgaHeaderAt src).height) format
        = some img0 ∧
      tgaColorMap env (tgaHeaderAt src) indexed grey (LE16 (tgaHeaderAt src).cmap_len) img0
        { src with pos := src.pos + 18 + (tgaHeaderAt src).infolen } = Except.ok (img1, s3) ∧
      tgaGreyPalette env grey img1 s3 = Except.ok img2 ∧
      img.w = img2.w ∧ img.h = img2.h ∧ img.format = img2.format ∧ img.pitch = img2.pitch ∧
      img.palette = img2.palette ∧ img.colorkey = img2.colorkey := by
  obtain ⟨hdr, rle, bpp, img2, s3, pixels, hs, _, himg⟩ := IMG_LoadTGA_IO_ok env src src' img h
  obtain ⟨h18, hh, hsh⟩ := tgaSetup_ok env src hdr rle bpp img2 s3 hs
  subst hh
  obtain ⟨indexed, grey, format, img0, img1, hv, hc, hcm, hg⟩ := tgaSetupHdr_ok _ _ _ _ _ _ _ hsh
  refine ⟨rle, indexed, grey, bpp, format, img0, img1, img2, s3, h18, hv, hc, hcm, hg, ?_⟩
  rw [himg]
  exact ⟨rfl, rfl, rfl, rfl, rfl, rfl⟩

theorem tgaPaletteLoop_step (cb : Nat) (pal : List Nat) (n i p : Nat) (colors : List SDL_Color)
    (ckey : Int) :
    tgaPaletteLoop cb pal (n + 1) i p colors ckey =
      tgaPaletteLoop cb pal n (i + 1) (p + tgaEntrySize cb)
        (if cb = 15 ∨ cb = 16 ∨ cb = 24 ∨ cb = 32 then
          colors.set i (tgaMapEntry cb pal p (colors.getD i ⟨0, 0, 0, 0⟩)) else colors)
        (if cb = 32 ∧ pal.getD (p + 3) 0 < 128 then (i : Int) else ckey) := by
  unfold tgaMapEntry tgaEntrySize
  rw [tgaPaletteLoop]
  by_cases h1 : cb = 15 ∨ cb = 16
  · have h2 : cb = 15 ∨ cb = 16 ∨ cb = 24 ∨ cb = 32 := by omega
    have h3 : ¬ (cb = 32 ∧ pal.getD (p + 3) 0 < 128) := by omega
    simp only [h1, h2, h3, if_true, if_false]
  · by_cases h2 : cb = 24
    · subst h2
      simp
    · by_cases h3 : cb = 32
      · subst h3
        by_cases ha : pal.getD (p + 3) 0 < 128
        · simp [ha]
        · simp [ha]
      · have h4 : ¬ (cb = 24 ∨ cb = 32) := by omega
        have h5 : ¬ (cb = 15 ∨ cb = 16 ∨ cb = 24 ∨ cb = 32) := by omega
        have h6 : ¬ (cb = 32 ∧ pal.getD (p + 3) 0 < 128) := by omega
        simp [h1, h2, h3]

theorem tgaMapEntry_other (cb : Nat) (pal : List Nat) (q : Nat) (old : SDL_Color)
    (h : ¬ (cb = 15 ∨ cb = 16 ∨ cb = 24 ∨ cb = 32)) : tgaMapEntry cb pal q old = old := by
  unfold tgaMapEntry
  rw [if_neg (by omega), if_neg (by omega)]

theorem getD_set_color (l : List SDL_Color) (i j : Nat) (v d : SDL_Color) (hi : i < l.length) :
    (l.set i v).getD j d = if j = i then v else l.getD j d := by
  simp only [List.getD_eq_getElem?_getD, List.getElem?_set]
  by_cases h : i = j
  · subst h
    simp [hi]
  · have h' : ¬ j = i := fun e => h e.symm
    simp [h, h']

/-- The colours that the colour-map loop leaves. -/
theorem tgaPaletteLoop_colors (cb : Nat) (pal : List Nat) :
    ∀ (n i p : Nat) (colors : List SDL_Color) (ckey : Int), i + n ≤ colors.length →
      (tgaPaletteLoop cb pal n i p colors ckey).1.length = colors.length ∧
      ∀ j, (tgaPaletteLoop cb pal n i p colors ckey).1.getD j ⟨0, 0, 0, 0⟩ =
        if i ≤ j ∧ j < i + n then
          tgaMapEntry cb pal (p + tgaEntrySize cb * (j - i)) (colors.getD j ⟨0, 0, 0, 0⟩)
        else colors.getD j ⟨0, 0, 0, 0⟩ := by
  intro n
  induction n with
  | zero =>
    intro i p colors ckey _
    refine ⟨rfl, fun j => ?_⟩
    rw [if_neg (by omega)]
    rfl
  | succ n ih =>
    intro i p colors ckey hlen
    rw [tgaPaletteLoop_step]
    have hl : (if cb = 15 ∨ cb = 16 ∨ cb = 24 ∨ cb = 32 then
          colors.set i (tgaMapEntry cb pal p (colors.getD i ⟨0, 0, 0, 0⟩)) else colors).length
        = colors.length := by
      split <;> simp
    obtain ⟨r1, r2⟩ := ih (i + 1) (p + tgaEntrySize cb) _
      (if cb = 32 ∧ pal.getD (p + 3) 0 < 128 then (i : Int) else ckey) (by rw [hl]; omega)
    refine ⟨by rw [r1, hl], fun j => ?_⟩
    rw [r2 j]
    have hget : (if cb = 15 ∨ cb = 16 ∨ cb = 24 ∨ cb = 32 then
          colors.set i (tgaMapEntry cb pal p (colors.getD i ⟨0, 0, 0, 0⟩)) else colors).getD j
            ⟨0, 0, 0, 0⟩
        = if j = i then tgaMapEntry cb pal p (colors.getD i ⟨0, 0, 0, 0⟩)
          else colors.getD j ⟨0, 0, 0, 0⟩ := by
      by_cases hc : cb = 15 ∨ cb = 16 ∨ cb = 24 ∨ cb = 32
      · rw [if_pos hc, getD_set_color _ _ _ _ _ (by omega)]
      · rw [if_neg hc]
        by_cases hj : j = i
        · rw [if_pos hj, hj, tgaMapEntry_other _ _ _ _ hc]
        · rw [if_neg hj]
    rw [hget]
    by_cases hj : j = i
    · subst hj
      rw [if_neg (by omega), if_pos rfl, if_pos (by omega), Nat.sub_self, Nat.mul_zero,
        Nat.add_zero]
    · rw [if_neg hj]
      by_cases hin : i + 1 ≤ j ∧ j < i + 1 + n
      · rw [if_pos hin, if_pos (by omega)]
        have : p + tgaEntrySize cb + tgaEntrySize cb * (j - (i + 1))
            = p + tgaEntrySize cb * (j - i) := by
          have e : j - i = (j - (i + 1)) + 1 := by omega
          rw [e, Nat.mul_add, Nat.mul_one]
          omega
        rw [this]
      · rw [if_neg hin, if_neg (by omega)]

/-- The colour key that the colour-map loop leaves for a 32-bit map: the
greatest index whose alpha byte is below 128, or the old value when there is
none. -/
theorem tgaPaletteLoop_ckey32 (pal : List Nat) :
    ∀ (n i p : Nat) (colors : List SDL_Color) (ckey : Int),
      ((tgaPaletteLoop 32 pal n i p colors ckey).2 = ckey ∧
        ∀ j, i ≤ j → j < i + n → ¬ pal.getD (p + 4 * (j - i) + 3) 0 < 128) ∨
      (∃ j, i ≤ j ∧ j < i + n ∧ (tgaPaletteLoop 32 pal n i p colors ckey).2 = (j : Int) ∧
        pal.getD (p + 4 * (j - i) + 3) 0 < 128 ∧
        ∀ j', i ≤ j' → j' < i + n → pal.getD (p + 4 * (j' - i) + 3) 0 < 128 → j' ≤ j) := by
  intro n
  induction n with
  | zero =>
    intro i p colors ckey
    exact Or.inl ⟨rfl, fun j h1 h2 => absurd h2 (by omega)⟩
  | succ n ih =>
    intro i p colors ckey
    rw [tgaPaletteLoop_step]
    have hs : tgaEntrySize 32 = 4 := rfl
    rw [hs]
    have hoff : ∀ j, i + 1 ≤ j → p + 4 + 4 * (j - (i + 1)) + 3 = p + 4 * (j - i) + 3 := by
      intro j hj
      have e : j - i = (j - (i + 1)) + 1 := by omega
      rw [e]
      omega
    rcases ih (i + 1) (p + 4)
      (if (32 : Nat) = 15 ∨ (32 : Nat) = 16 ∨ (32 : Nat) = 24 ∨ (32 : Nat) = 32 then
          colors.set i (tgaMapEntry 32 pal p (colors.getD i ⟨0, 0, 0, 0⟩)) else colors)
      (if (32 : Nat) = 32 ∧ pal.getD (p + 3) 0 < 128 then (i : Int) else ckey)
      with ⟨e, hnone⟩ | ⟨j, hj1, hj2, e, ha, hmax⟩
    · by_cases ha : pal.getD (p + 3) 0 < 128
      · refine Or.inr ⟨i, Nat.le_refl _, by omega, ?_, ?_, ?_⟩
        · rw [e, if_pos ⟨rfl, ha⟩]
        · rw [Nat.sub_self, Nat.mul_zero, Nat.add_zero]
          exact ha
        · intro j' h1 h2 h3
          by_cases hji : j' = i
          · omega
          · have := hnone j' (by omega) (by omega)
            rw [hoff j' (by omega)] at this
            exact absurd h3 this
      · refine Or.inl ⟨?_, ?_⟩
        · rw [e, if_neg (fun h => ha h.2)]
        · intro j' h1 h2
          by_cases hji : j' = i
          · subst hji
            rw [Nat.sub_self, Nat.mul_zero, Nat.add_zero]
            exact ha
          · have := hnone j' (by omega) (by omega)
            rw [hoff j' (by omega)] at this
            exact this
    · refine Or.inr ⟨j, by omega, by omega, e, ?_, ?_⟩
      · rw [hoff j hj1] at ha
        exact ha
      · intro j' h1 h2 h3
        by_cases hji : j' = i
        · omega
        · apply hmax j' (by omega) (by omega)
          rw [hoff j' (by omega)]
          exact h3

theorem tgaPaletteLoop_ckey_other (cb : Nat) (hcb : cb ≠ 32) (pal : List Nat) :
    ∀ (n i p : Nat) (colors : List SDL_Color) (ckey : Int),
      (tgaPaletteLoop cb pal n i p colors ckey).2 = ckey := by
  intro n
  induction n with
  | zero => intros; rfl
  | succ n ih =>
    intro i p colors ckey
    rw [tgaPaletteLoop_step, ih, if_neg (fun h => hcb h.1)]

theorem getD_take_lt (l : List Nat) (m q : Nat) (h : q < m) : (l.take m).getD q 0 = l.getD q 0 := by
  simp only [List.getD_eq_getElem?_getD, List.getElem?_take, h, if_true]

/-- The colour-map block on an indexed image that is not greyscale: the bytes
of the map are read, and the palette and colour key are those of the loop run
on the 256 entries `SDL_CreateSurfacePalette` hands out. -/
theorem tgaColorMap_indexed (env : Env) (hdr : TGAheader) (ncols : Nat)
    (img img' : SDL_Surface) (src s' : SDL_IOStream)
    (h : tgaColorMap env hdr true false ncols img src = Except.ok (img', s'))
    (hc : hdr.has_cmap ≠ 0) (hn : ncols ≤ 256) :
    ∃ pal, pal = (streamRest src).take (ncols * ((hdr.cmap_bits + 7) >>> 3)) ∧
      img'.palette = some ⟨ncols,
        (tgaPaletteLoop hdr.cmap_bits pal ncols 0 0 palette256.colors (-1)).1⟩ ∧
      img'.colorkey =
        (if (tgaPaletteLoop hdr.cmap_bits pal ncols 0 0 palette256.colors (-1)).2 ≥ 0 then
          some (tgaPaletteLoop hdr.cmap_bits pal ncols 0 0 palette256.colors (-1)).2.toNat
        else img.colorkey) := by
  unfold tgaColorMap at h
  rw [if_pos hc] at h
  dsimp only at h
  rw [if_pos (by rfl), SDL_CreateSurfacePalette_eq] at h
  by_cases hpq : env.paletteOk = true ∧ img.format = SDL_PIXELFORMAT_INDEX8
  · rw [if_pos hpq] at h
    dsimp only at h
    obtain ⟨pal, s1, hr, h⟩ := orFail_ok _ _ _ _ h
    obtain ⟨_, hb, _⟩ := readExact_ok _ _ _ _ hr
    have hnc : palette256.ncolors = 256 := rfl
    have hif : (if ncols > 256 then 256 else ncols) = ncols := if_neg (by omega)
    simp only [hnc, hif, Except.ok.injEq, Prod.mk.injEq] at h
    obtain ⟨h1, _⟩ := h
    refine ⟨pal, hb, ?_, ?_⟩
    · rw [← h1]
      split <;> rfl
    · rw [← h1]
      split <;> rfl
  · rw [if_neg hpq] at h
    cases h

theorem tgaColorMap_colorkey (env : Env) (hdr : TGAheader) (indexed grey : Bool) (ncols : Nat)
    (img img' : SDL_Surface) (src s' : SDL_IOStream)
    (h : tgaColorMap env hdr indexed grey ncols img src = Except.ok (img', s'))
    (hig : ¬ (indexed = true ∧ grey = false)) : img'.colorkey = img.colorkey := by
  unfold tgaColorMap at h
  split at h
  · dsimp only at h
    split at h
    · rename_i hh
      simp only [Bool.and_eq_true, Bool.not_eq_true'] at hh
      exact absurd hh hig
    · simp only [Except.ok.injEq, Prod.mk.injEq] at h
      rw [← h.1]
  · simp only [Except.ok.injEq, Prod.mk.injEq] at h
    rw [← h.1]

theorem tgaGreyPalette_colorkey (env : Env) (grey : Bool) (img img' : SDL_Surface)
    (src : SDL_IOStream) (h : tgaGreyPalette env grey img src = Except.ok img') :
    img'.colorkey = img.colorkey ∧ (grey = false → img' = img) := by
  unfold tgaGreyPalette at h
  split at h
  · rename_i hg
    split at h
    · cases h
    · simp only [Except.ok.injEq] at h
      rw [← h]
      exact ⟨rfl, fun t => by rw [hg] at t; cases t⟩
  · simp only [Except.ok.injEq] at h
    rw [← h]
    exact ⟨rfl, fun _ => rfl⟩

/-- The palette and colour key of a decoded indexed TGA (type 1 or 9): those
of the colour-map loop run on the bytes behind the info field. -/
theorem tga_decode_indexed_palette (env : Env) (src src' : SDL_IOStream) (img : SDL_Surface)
    (hdec : IMG_LoadTGA_IO env src = (some img, src'))
    (ht : (tgaHeaderAt src).type = 1 ∨ (tgaHeaderAt src).type = 9) :
    ∃ pal, pal = (tgaColorMapBytes src).take
        (LE16 (tgaHeaderAt src).cmap_len * (((tgaHeaderAt src).cmap_bits + 7) >>> 3)) ∧
      LE16 (tgaHeaderAt src).cmap_len ≤ 256 ∧
      img.palette = some ⟨LE16 (tgaHeaderAt src).cmap_len,
        (tgaPaletteLoop (tgaHeaderAt src).cmap_bits pal
          (LE16 (tgaHeaderAt src).cmap_len) 0 0 palette256.colors (-1)).1⟩ ∧
      img.colorkey =
        (if (tgaPaletteLoop (tgaHeaderAt src).cmap_bits pal
            (LE16 (tgaHeaderAt src).cmap_len) 0 0 palette256.colors (-1)).2 ≥ 0 then
          some (tgaPaletteLoop (tgaHeaderAt src).cmap_bits pal
            (LE16 (tgaHeaderAt src).cmap_len) 0 0 palette256.colors (-1)).2.toNat
        else none) := by
  obtain ⟨rle, indexed, grey, bpp, format, img0, img1, img2, s3, _, hv, hc, hcm, hg, _, _, _, _,
    e5, e6⟩ := IMG_LoadTGA_IO_stages env src src' img hdec
  have hcl : tgaClassify (tgaHeaderAt src) (LE16 (tgaHeaderAt src).cmap_len)
      = some (rle, indexed, grey) := by
    unfold tgaValidate at hv
    dsimp only at hv
    split at hv
    · cases hv
    · rename_i rle0 indexed0 grey0 hcl
      split at hv
      · cases hv
      · split at hv
        · cases hv
        · simp only [Option.some.injEq, Prod.mk.injEq] at hv
          obtain ⟨rfl, rfl, rfl, _⟩ := hv
          exact hcl
  obtain ⟨hi, hgr, _, _, hcmap⟩ := tgaClassify_some _ _ _ _ _ hcl
  have hix : indexed = true := hi.2 (by omega)
  have hgf : grey = false := by
    cases grey
    · rfl
    · exact absurd (hgr.1 rfl) (by omega)
  subst hix hgf
  obtain ⟨hcm1, hn⟩ := hcmap rfl rfl
  obtain ⟨pal, hp, hpal, hkey⟩ := tgaColorMap_indexed env _ _ img0 img1 _ s3 hcm hcm1 hn
  have hrest : streamRest { src with pos := src.pos + 18 + (tgaHeaderAt src).infolen }
      = tgaColorMapBytes src := by
    unfold tgaColorMapBytes
    rw [Nat.add_assoc]
    exact streamRest_advance src _
  rw [hrest] at hp
  have h2 := (tgaGreyPalette_colorkey env false img1 img2 s3 hg).2 rfl
  have h0 := SDL_CreateSurface_some _ _ _ _ _ hc
  have hk0 : img0.colorkey = none := by rw [h0]
  refine ⟨pal, hp, hn, ?_, ?_⟩
  · rw [e5, h2, hpal]
  · rw [e6, h2, hkey, hk0]

set_option maxRecDepth 1000000 in
theorem byte_and_f8 : ∀ y : Fin 256, y.val &&& 0xf8 = y.val / 8 * 8 := by decide

theorem and_f8 (x : Nat) : x &&& 0xf8 = x % 256 / 8 * 8 := by
  have e : (0xf8 : Nat) = 255 &&& 0xf8 := by decide
  rw [e, ← Nat.and_assoc]
  have e2 : x &&& 255 = x % 256 := Nat.and_pow_two_sub_one_eq_mod x 8
  rw [e2]
  exact byte_and_f8 ⟨x % 256, Nat.mod_lt _ (by decide)⟩

theorem and_31 (x : Nat) : x &&& 31 = x % 32 := Nat.and_pow_two_sub_one_eq_mod x 5

/-- The three channels that the code unpacks from a 16-bit colour-map value,
as the 5-bit fields of the value; bit 15 does not enter. -/
theorem tga_555_channels (c : Nat) :
    (((c % 65536) >>> 7) &&& 0xf8) % 256 = ((c >>> 10) &&& 31) * 8 ∧
    (((c % 65536) >>> 2) &&& 0xf8) % 256 = ((c >>> 5) &&& 31) * 8 ∧
    ((c % 65536) <<< 3) % 256 = (c &&& 31) * 8 ∧
    ((c >>> 10) &&& 31) * 8 = (((c % 32768) >>> 10) &&& 31) * 8 ∧
    ((c >>> 5) &&& 31) * 8 = (((c % 32768) >>> 5) &&& 31) * 8 ∧
    (c &&& 31) * 8 = ((c % 32768) &&& 31) * 8 := by
  simp only [and_f8, and_31, Nat.shiftRight_eq_div_pow, Nat.shiftLeft_eq]
  norm_num
  omega

theorem read32_at (s : SDL_IOStream) (n : Nat) (h : n + 4 ≤ (streamRest s).length) :
    SDL_ReadU32LE { s with pos := s.pos + n } =
      (some (le32At (streamRest s) n), { s with pos := s.pos + (n + 4) }) := by
  rw [SDL_ReadU32LE_eq, streamRest_advance, List.length_drop, if_pos (by omega), le32At_drop,
    Nat.add_zero]
  simp only [Nat.add_assoc]

theorem readS32_at (s : SDL_IOStream) (n : Nat) (h : n + 4 ≤ (streamRest s).length) :
    SDL_ReadS32LE { s with pos := s.pos + n } =
      (some (sint32 (le32At (streamRest s) n)), { s with pos := s.pos + (n + 4) }) := by
  rw [SDL_ReadS32LE_eq, streamRest_advance, List.length_drop, if_pos (by omega), le32At_drop,
    Nat.add_zero]
  simp only [Nat.add_assoc]

theorem read16_at (s : SDL_IOStream) (n : Nat) (h : n + 2 ≤ (streamRest s).length) :
    SDL_ReadU16LE { s with pos := s.pos + n } =
      (some (le16At (streamRest s) n), { s with pos := s.pos + (n + 2) }) := by
  rw [SDL_ReadU16LE_eq, streamRest_advance, List.length_drop, if_pos (by omega), le16At_drop,
    Nat.add_zero]
  simp only [Nat.add_assoc]

/-- The bitmap header block on a stream that holds 40 bytes: the checks on
the fields at offsets 0 (size), 4 (width), 8 (height), 14 (bit count) and
16 (compression), and the 40 bytes consumed. -/
theorem icoInfoHeader_eq (s : SDL_IOStream) (h : 40 ≤ (streamRest s).length) :
    icoInfoHeader s =
      if le32At (streamRest s) 0 ≠ 40 then Except.error { s with pos := s.pos + 4 } else
      match icoExpandBMP (le32At (streamRest s) 16) (le16At (streamRest s) 14) with
      | none => Except.error { s with pos := s.pos + 40 }
      | some ExpandBMP =>
        if sint32 (le32At (streamRest s) 4) < 0 ∨ sint32 (le32At (streamRest s) 4) > 0xFFFFFF ∨
            sint32 (le32At (streamRest s) 8) < 0 ∨ sint32 (le32At (streamRest s) 8) > 0xFFFFFF then
          Except.error { s with pos := s.pos + 40 }
        else Except.ok (⟨sint32 (le32At (streamRest s) 4), sint32 (le32At (streamRest s) 8),
          le16At (streamRest s) 14, le32At (streamRest s) 32, ExpandBMP⟩,
          { s with pos := s.pos + 40 }) := by
  unfold icoInfoHeader
  rw [show SDL_ReadU32LE s = _ from read32_at s 0 (by omega)]
  simp only [orFail, Nat.zero_add]
  split
  · rfl
  · rw [readS32_at s 4 (by omega)]
    simp only [Nat.reduceAdd]
    rw [readS32_at s 8 (by omega)]
    simp only [Nat.reduceAdd]
    rw [read16_at s 12 (by omega)]
    simp only [Nat.reduceAdd]
    rw [read16_at s 14 (by omega)]
    simp only [Nat.reduceAdd]
    rw [read32_at s 16 (by omega)]
    simp only [Nat.reduceAdd]
    rw [read32_at s 20 (by omega)]
    simp only [Nat.reduceAdd]
    rw [read32_at s 24 (by omega)]
    simp only [Nat.reduceAdd]
    rw [read32_at s 28 (by omega)]
    simp only [Nat.reduceAdd]
    rw [read32_at s 32 (by omega)]
    simp only [Nat.reduceAdd]
    rw [read32_at s 36 (by omega)]

theorem SDL_ReadU32LE_ok (s s' : SDL_IOStream) (v : Nat) (h : SDL_ReadU32LE s = (some v, s')) :
    4 ≤ (streamRest s).length ∧ s'.data = s.data ∧ s'.pos = s.pos + 4 := by
  rw [SDL_ReadU32LE_eq] at h
  split at h
  · rename_i hl
    simp only [Prod.mk.injEq, Option.some.injEq] at h
    rw [← h.2]
    exact ⟨hl, rfl, rfl⟩
  · simp at h

theorem SDL_ReadS32LE_ok (s s' : SDL_IOStream) (v : Int) (h : SDL_ReadS32LE s = (some v, s')) :
    4 ≤ (streamRest s).length ∧ s'.data = s.data ∧ s'.pos = s.pos + 4 := by
  rw [SDL_ReadS32LE_eq] at h
  split at h
  · rename_i hl
    simp only [Prod.mk.injEq, Option.some.injEq] at h
    rw [← h.2]
    exact ⟨hl, rfl, rfl⟩
  · simp at h

theorem SDL_ReadU16LE_ok (s s' : SDL_IOStream) (v : Nat) (h : SDL_ReadU16LE s = (some v, s')) :
    2 ≤ (streamRest s).length ∧ s'.data = s.data ∧ s'.pos = s.pos + 2 := by
  rw [SDL_ReadU16LE_eq] at h
  split at h
  · rename_i hl
    simp only [Prod.mk.injEq, Option.some.injEq] at h
    rw [← h.2]
    exact ⟨hl, rfl, rfl⟩
  · simp at h

/-- The bitmap header block succeeds only on a stream that holds 40 bytes. -/
theorem icoInfoHeader_length (s s' : SDL_IOStream) (info : ICOInfo)
    (h : icoInfoHeader s = Except.ok (info, s')) : 40 ≤ (streamRest s).length := by
  unfold icoInfoHeader at h
  obtain ⟨_, s1, r1, h⟩ := orFail_ok _ _ _ _ h
  split at h
  · cases h
  obtain ⟨_, s2, r2, h⟩ := orFail_ok _ _ _ _ h
  obtain ⟨_, s3, r3, h⟩ := orFail_ok _ _ _ _ h
  obtain ⟨_, s4, r4, h⟩ := orFail_ok _ _ _ _ h
  obtain ⟨_, s5, r5, h⟩ := orFail_ok _ _ _ _ h
  obtain ⟨_, s6, r6, h⟩ := orFail_ok _ _ _ _ h
  obtain ⟨_, s7, r7, h⟩ := orFail_ok _ _ _ _ h
  obtain ⟨_, s8, r8, h⟩ := orFail_ok _ _ _ _ h
  obtain ⟨_, s9, r9, h⟩ := orFail_ok _ _ _ _ h
  obtain ⟨_, s10, r10, h⟩ := orFail_ok _ _ _ _ h
  obtain ⟨_, s11, r11, h⟩ := orFail_ok _ _ _ _ h
  obtain ⟨_, d1, p1⟩ := SDL_ReadU32LE_ok _ _ _ r1
  obtain ⟨_, d2, p2⟩ := SDL_ReadS32LE_ok _ _ _ r2
  obtain ⟨_, d3, p3⟩ := SDL_ReadS32LE_ok _ _ _ r3
  obtain ⟨_, d4, p4⟩ := SDL_ReadU16LE_ok _ _ _ r4
  obtain ⟨_, d5, p5⟩ := SDL_ReadU16LE_ok _ _ _ r5
  obtain ⟨_, d6, p6⟩ := SDL_ReadU32LE_ok _ _ _ r6
  obtain ⟨_, d7, p7⟩ := SDL_ReadU32LE_ok _ _ _ r7
  obtain ⟨_, d8, p8⟩ := SDL_ReadU32LE_ok _ _ _ r8
  obtain ⟨_, d9, p9⟩ := SDL_ReadU32LE_ok _ _ _ r9
  obtain ⟨_, d10, p10⟩ := SDL_ReadU32LE_ok _ _ _ r10
  obtain ⟨l11, _, _⟩ := SDL_ReadU32LE_ok _ _ _ r11
  rw [streamRest_length] at l11 ⊢
  rw [d10, d9, d8, d7, d6, d5, d4, d3, d2, d1] at l11
  omega

/-- A successful bitmap header block in terms of the 40 bytes at the stream
position. -/
theorem icoInfoHeader_ok (s s' : SDL_IOStream) (info : ICOInfo)
    (h : icoInfoHeader s = Except.ok (info, s')) :
    40 ≤ (streamRest s).length ∧ le32At (streamRest s) 0 = 40 ∧
    icoExpandBMP (le32At (streamRest s) 16) (le16At (streamRest s) 14) = some info.ExpandBMP ∧
    info.biWidth = sint32 (le32At (streamRest s) 4) ∧
    info.biHeight = sint32 (le32At (streamRest s) 8) ∧
    info.biBitCount = le16At (streamRest s) 14 ∧ info.biClrUsed = le32At (streamRest s) 32 ∧
    0 ≤ info.biWidth ∧ info.biWidth ≤ 0xFFFFFF ∧ 0 ≤ info.biHeight ∧ info.biHeight ≤ 0xFFFFFF ∧
    s' = { s with pos := s.pos + 40 } := by
  have hl := icoInfoHeader_length s s' info h
  rw [icoInfoHeader_eq s hl] at h
  split at h
  · cases h
  rename_i h40
  split at h
  · cases h
  rename_i E hE
  split at h
  · cases h
  rename_i hdim
  simp only [Except.ok.injEq, Prod.mk.injEq] at h
  obtain ⟨rfl, rfl⟩ := h
  refine ⟨hl, by omega, hE, rfl, rfl, rfl, rfl, ?_, ?_, ?_, ?_, rfl⟩ <;> simp only <;> omega

/-- A successful `LoadICOCUR_IO` in stages: directory, bitmap header, surface,
palette, colour pass, mask pass. -/
theorem LoadICOCUR_IO_stages (env : Env) (src : SDL_IOStream) (type : Nat) (closeio : Bool)
    (img : SDL_Surface) (src' : SDL_IOStream)
    (h : LoadICOCUR_IO env src type closeio = (some img, src')) :
    ∃ st s1 info s2 s0 pixelsC sC sF,
      icoDirectory src type = Except.ok (st.dir, s1) ∧
      icoInfoHeader s1 = Except.ok (info, s2) ∧
      SDL_CreateSurface env info.biWidth.toNat (info.biHeight.toNat >>> 1)
        SDL_PIXELFORMAT_ARGB8888 = some st.surface ∧
      icoLoadPalette env info.biBitCount info.biClrUsed s2 = Except.ok (st.palette, s0) ∧
      st.biBitCount = info.biBitCount ∧ st.ExpandBMP = info.ExpandBMP ∧
      st.biWidth = info.biWidth.toNat ∧
      icoSetup env src type = Except.ok (st, s0) ∧
      icoColorPass st s0 = Except.ok (pixelsC, sC) ∧
      icoMaskPass st pixelsC sC = Except.ok (img.pixels, sF) ∧
      img.w = st.surface.w ∧ img.h = st.surface.h ∧ img.pitch = st.surface.pitch := by
  obtain ⟨st, s0, pixelsC, sC, sF, hs, hc, hm, e1, e2, e3⟩ :=
    LoadICOCUR_IO_some env src type closeio img src' h
  obtain ⟨s1, info, s2, a1, a2, a3, a4, a5, a6, a7⟩ := icoSetup_ok env src type st s0 hs
  exact ⟨st, s1, info, s2, s0, pixelsC, sC, sF, a1, a2, a3, a4, a5, a6, a7, hs, hc, hm, e1, e2, e3⟩

theorem icoExpandBMP_isSome (c b : Nat) :
    (∃ E, icoExpandBMP c b = some E) ↔
      c = 0 ∧ (b = 1 ∨ b = 4 ∨ b = 8 ∨ b = 24 ∨ b = 32) := by
  unfold icoExpandBMP BI_RGB
  split_ifs <;> simp_all
  omega

theorem icoChannels_pos : ∀ (n j pv : Nat) (src : SDL_IOStream) (pv' : Nat) (src' : SDL_IOStream),
    icoChannels n j pv src = Except.ok (pv', src') →
    src'.data = src.data ∧ src'.pos = src.pos + n := by
  intro n
  induction n with
  | zero =>
    intro j pv src pv' src' h
    simp only [icoChannels, Except.ok.injEq, Prod.mk.injEq] at h
    rw [← h.2]
    exact ⟨rfl, rfl⟩
  | succ n ih =>
    intro j pv src pv' src' h
    simp only [icoChannels] at h
    obtain ⟨b, s1, hr, h⟩ := orFail_ok _ _ _ _ h
    obtain ⟨hd, hp, _⟩ := readExact_ok_pos _ _ _ _ hr
    obtain ⟨e1, e2⟩ := ih _ _ _ _ _ h
    exact ⟨by rw [e1, hd], by rw [e2, hp]; omega⟩

theorem icoRGBRow_pos (bits : Nat) :
    ∀ (n i : Nat) (pixels : List Nat) (src : SDL_IOStream) (pixels' : List Nat)
      (src' : SDL_IOStream),
      icoRGBRow bits n i pixels src = Except.ok (pixels', src') →
      src'.data = src.data ∧ src'.pos = src.pos + 3 * n := by
  intro n
  induction n with
  | zero =>
    intro i pixels src pixels' src' h
    simp only [icoRGBRow, Except.ok.injEq, Prod.mk.injEq] at h
    rw [← h.2]
    exact ⟨rfl, rfl⟩
  | succ n ih =>
    intro i pixels src pixels' src' h
    simp only [icoRGBRow] at h
    split at h
    · cases h
    · rename_i pv s1 hc
      obtain ⟨d1, p1⟩ := icoChannels_pos _ _ _ _ _ _ hc
      obtain ⟨e1, e2⟩ := ih _ _ _ _ _ h
      exact ⟨by rw [e1, d1], by rw [e2, p1]; omega⟩

theorem icoColorRow_adv (E w pitch : Nat) (palette : List Nat) (hp : pitch = 4 * w)
    (hE : E = 0 ∨ E = 1 ∨ E = 4 ∨ E = 8 ∨ E = 24) :
    IcoRowAdv (icoColorRow E w pitch palette) pitch (icoBmpPitch E w) := by
  intro bits pixels src pixels' src' h hlen
  unfold icoColorRow at h
  split at h
  · rename_i hb
    rw [icoIndexedRow_eq] at h
    obtain ⟨r1, r2, _⟩ := icoBitRow_rowSpec E hb _ w bits pixels src pixels' src' h (by omega)
    refine ⟨r1, ?_⟩
    rw [r2]
    congr 1
    rcases hb with rfl | rfl | rfl <;>
      simp only [icoBmpPitch, Nat.shiftRight_eq_div_pow] <;> norm_num
  · split at h
    · rename_i h24
      obtain ⟨r1, r2⟩ := icoRGBRow_pos bits w 0 pixels src pixels' src' h
      refine ⟨r1, ?_⟩
      rw [r2, h24]
      simp only [icoBmpPitch]
      norm_num
      omega
    · rename_i hn1 hn24
      obtain ⟨b, s1, hr, h⟩ := orFail_ok _ _ _ _ h
      obtain ⟨hd, hpp, _⟩ := readExact_ok_pos _ _ _ _ hr
      simp only [Except.ok.injEq, Prod.mk.injEq] at h
      rw [← h.2]
      refine ⟨hd, ?_⟩
      have h0 : E = 0 := by omega
      rw [hpp, h0, hp]
      simp only [icoBmpPitch]
      norm_num
      omega

theorem icoMaskRow_adv (w pitch : Nat) (hp : 4 * w ≤ pitch) :
    IcoRowAdv (fun bits pixels src => icoMaskRow bits w 0 0 pixels src) pitch ((w + 7) / 8) := by
  intro bits pixels src pixels' src' h hlen
  have h' : icoMaskRow bits w 0 0 pixels src = Except.ok (pixels', src') := h
  rw [icoMaskRow_eq] at h'
  obtain ⟨r1, r2, _⟩ := icoBitRow_rowSpec 1 (Or.inl rfl) _ w bits pixels src pixels' src' h'
    (by omega)
  refine ⟨r1, ?_⟩
  rw [r2]
  norm_num

theorem icoMaskRow_keeps (w pitch : Nat) (hp : 4 * w ≤ pitch) :
    IcoRowKeeps (fun bits pixels src => icoMaskRow bits w 0 0 pixels src) pitch := by
  rw [icoMaskRow_fun]
  exact icoBitRow_keeps 1 (Or.inl rfl) _ w pitch hp

theorem icoRows_pos
    (row : Nat → List Nat → SDL_IOStream → Except SDL_IOStream (List Nat × SDL_IOStream))
    (pad pitch adv : Nat) (hk : IcoRowKeeps row pitch) (ha : IcoRowAdv row pitch adv) :
    ∀ (k : Nat) (pixels : List Nat) (src : SDL_IOStream) (pixels' : List Nat)
      (src' : SDL_IOStream),
      icoRows row pad pitch k pixels src = Except.ok (pixels', src') →
      k * pitch ≤ pixels.length →
      src'.data = src.data ∧
        src'.pos = src.pos + (if 0 < pitch then k * (adv + pad) else 0) := by
  intro k
  induction k with
  | zero =>
    intro pixels src pixels' src' h _
    simp only [icoRows, Except.ok.injEq, Prod.mk.injEq] at h
    rw [← h.2]
    refine ⟨rfl, ?_⟩
    split <;> simp
  | succ k ih =>
    intro pixels src pixels' src' h hlen
    simp only [icoRows] at h
    split at h
    · rename_i hpos
      have hpitch : 0 < pitch := by
        rcases Nat.eq_zero_or_pos pitch with h0 | h0
        · rw [h0, Nat.mul_zero] at hpos; exact absurd hpos (by omega)
        · exact h0
      split at h
      · cases h
      · rename_i px1 s1 hr
        split at h
        · cases h
        · rename_i s2 hs
          have hb : (k + 1) * pitch - pitch = k * pitch := by
            rw [Nat.add_mul, Nat.one_mul, Nat.add_sub_cancel]
          rw [hb] at hr
          have hl : k * pitch + pitch ≤ pixels.length := by
            rw [Nat.add_mul, Nat.one_mul] at hlen; exact hlen
          obtain ⟨q1, _⟩ := hk _ _ _ _ _ hr hl
          obtain ⟨a1, a2⟩ := ha _ _ _ _ _ hr hl
          obtain ⟨p1, p2⟩ := icoSkipPad_ok _ _ _ hs
          obtain ⟨r1, r2⟩ := ih px1 s2 pixels' src' h (by rw [q1]; omega)
          rw [if_pos hpitch] at r2 ⊢
          refine ⟨by rw [r1, p1, a1], ?_⟩
          rw [r2, p2, a2, Nat.add_mul, Nat.one_mul]
          omega
    · rename_i hpos
      simp only [Except.ok.injEq, Prod.mk.injEq] at h
      rw [← h.2]
      have hp0 : ¬ 0 < pitch := by
        intro h0
        exact hpos (Nat.mul_pos (Nat.succ_pos k) h0)
      rw [if_neg hp0]
      exact ⟨rfl, rfl⟩

theorem icoExpandBMP_values (c b E : Nat) (h : icoExpandBMP c b = some E) :
    E = 0 ∨ E = 1 ∨ E = 4 ∨ E = 8 ∨ E = 24 := by
  unfold icoExpandBMP at h
  split_ifs at h <;> simp at h <;> omega

theorem ico_zero_width_stride (E : Nat) :
    icoBmpPitch E 0 + icoColorPad E 0 = 0 ∧ ((0 + 7) / 8 + 3) / 4 * 4 = 0 := by
  refine ⟨?_, by decide⟩
  unfold icoColorPad icoBmpPitch icoPad
  split_ifs <;> simp_all

/-- The bytes that the colour pass and the mask pass read: `h` rows each. -/
theorem ico_passes_pos (env : Env) (src : SDL_IOStream) (type : Nat) (st : ICOSetup)
    (s0 : SDL_IOStream) (hsetup : icoSetup env src type = Except.ok (st, s0))
    (pixelsC pixelsF : List Nat) (sC sF : SDL_IOStream)
    (hcol : icoColorPass st s0 = Except.ok (pixelsC, sC))
    (hmask : icoMaskPass st pixelsC sC = Except.ok (pixelsF, sF)) :
    sC.pos = s0.pos + st.surface.h *
      (icoBmpPitch st.ExpandBMP st.surface.w + icoColorPad st.ExpandBMP st.surface.w) ∧
    sF.pos = sC.pos + st.surface.h * (((st.surface.w + 7) / 8 + 3) / 4 * 4) := by
  obtain ⟨⟨c, f1⟩, f2, f3, f4, _⟩ := icoSetup_facts env src type st s0 hsetup
  obtain ⟨k1, _⟩ := icoColorPass_keeps env src type st s0 hsetup pixelsC sC hcol
  have hE := icoExpandBMP_values _ _ _ f1
  have hlen : st.surface.pixels.length = st.surface.pitch * st.surface.h := by
    rw [f4, List.length_replicate]
  unfold icoColorPass at hcol
  rw [icoColorRows_eq] at hcol
  obtain ⟨_, c2⟩ := icoRows_pos _ _ _ _
    (icoColorRow_keeps st.ExpandBMP st.surface.w st.surface.pitch st.palette (by rw [f2, f3]))
    (icoColorRow_adv st.ExpandBMP st.surface.w st.surface.pitch st.palette (by rw [f2, f3]) hE)
    _ _ _ _ _ hcol (by rw [hlen, Nat.mul_comm])
  unfold icoMaskPass at hmask
  simp only [] at hmask
  rw [icoMaskRows_eq] at hmask
  obtain ⟨_, m2⟩ := icoRows_pos _ _ _ _
    (icoMaskRow_keeps st.surface.w st.surface.pitch (by rw [f2, f3]))
    (icoMaskRow_adv st.surface.w st.surface.pitch (by rw [f2, f3]))
    _ _ _ _ _ hmask (by rw [k1, Nat.mul_comm])
  have hms : (st.biWidth + 7) / 8 + icoPad ((st.biWidth + 7) >>> 3)
      = ((st.biWidth + 7) / 8 + 3) / 4 * 4 := by
    simp only [icoPad, Nat.shiftRight_eq_div_pow]
    norm_num
    split <;> omega
  by_cases hp : 0 < st.surface.pitch
  · rw [if_pos hp] at c2 m2
    refine ⟨?_, ?_⟩
    · rw [c2, f2]
    · rw [m2, f2, hms]
  · rw [if_neg hp] at c2 m2
    have hw0 : st.surface.w = 0 := by omega
    obtain ⟨z1, z2⟩ := ico_zero_width_stride st.ExpandBMP
    refine ⟨?_, ?_⟩
    · rw [c2, hw0, z1, Nat.mul_zero]
    · rw [m2, hw0, z2, Nat.mul_zero]

theorem and_ff000000 (v : Nat) : v &&& 0xFF000000 = (v / 2 ^ 24 % 256) * 2 ^ 24 := by
  have e1 : (0xFF000000 : Nat) = (2 ^ 8 - 1) <<< 24 := by decide
  have e2 : (v / 2 ^ 24 % 256) * 2 ^ 24 = ((v >>> 24) % 2 ^ 8) <<< 24 := by
    rw [Nat.shiftRight_eq_div_pow, Nat.shiftLeft_eq]
    rfl
  rw [e1, e2]
  apply Nat.eq_of_testBit_eq
  intro i
  rw [Nat.testBit_and, Nat.testBit_shiftLeft, Nat.testBit_shiftLeft, Nat.testBit_mod_two_pow,
    Nat.testBit_shiftRight, Nat.testBit_two_pow_sub_one]
  by_cases h : 24 ≤ i
  · have e3 : 24 + (i - 24) = i := by omega
    rw [e3]
    by_cases h8 : i - 24 < 8
    · simp [h, h8]
    · simp [h, h8]
  · simp [h]

theorem or_ff000000 (v : Nat) (h : v < 2 ^ 24) : v ||| 0xFF000000 = 0xFF000000 + v := by
  have := Nat.mul_add_lt_is_or h 255
  rw [Nat.or_comm]
  exact this.symm

/-- The alpha fix of the palette loop on the four bytes of an entry. -/
theorem ico_alpha_fix (b0 b1 b2 b3 : Nat) (h0 : b0 < 256) (h1 : b1 < 256) (h2 : b2 < 256)
    (h3 : b3 < 256) :
    (if (b0 + b1 * 256 + b2 * 65536 + b3 * 16777216) &&& 0xFF000000 = 0 then
        (b0 + b1 * 256 + b2 * 65536 + b3 * 16777216) ||| 0xFF000000
      else b0 + b1 * 256 + b2 * 65536 + b3 * 16777216)
      = b0 + 256 * b1 + 65536 * b2 + 16777216 * (if b3 = 0 then 255 else b3) := by
  rw [and_ff000000]
  have hd : (b0 + b1 * 256 + b2 * 65536 + b3 * 16777216) / 2 ^ 24 % 256 = b3 := by omega
  rw [hd]
  by_cases hz : b3 = 0
  · subst hz
    rw [if_pos (by simp), if_pos rfl, or_ff000000 _ (by omega)]
    omega
  · rw [if_neg (by simp; omega), if_neg hz]
    omega

theorem getD_set_nat (l : List Nat) (i j v : Nat) (hi : i < l.length) :
    (l.set i v).getD j 0 = if j = i then v else l.getD j 0 := by
  simp only [List.getD_eq_getElem?_getD, List.getElem?_set]
  by_cases h : i = j
  · subst h
    simp [hi]
  · have h' : ¬ j = i := fun e => h e.symm
    simp [h, h']

theorem icoArgb_drop (row : List Nat) (m : Nat) :
    icoArgb (row.drop 4) m = icoArgb row (m + 1) := by
  unfold icoArgb
  simp only [List.getD_eq_getElem?_getD, List.getElem?_drop]
  have e0 : 4 + 4 * m = 4 * (m + 1) := by omega
  have e1 : 4 + (4 * m + 1) = 4 * (m + 1) + 1 := by omega
  have e2 : 4 + (4 * m + 2) = 4 * (m + 1) + 2 := by omega
  have e3 : 4 + (4 * m + 3) = 4 * (m + 1) + 3 := by omega
  rw [e0, e1, e2, e3]

/-- The palette loop: `n` entries of four bytes are read into the entries
from `i` on, each with the alpha fix; the other entries stay. -/
theorem icoPaletteLoop_spec : ∀ (n i : Nat) (palette : List Nat) (src : SDL_IOStream)
    (palette' : List Nat) (src' : SDL_IOStream),
    icoPaletteLoop n i palette src = Except.ok (palette', src') → i + n ≤ palette.length →
    src'.data = src.data ∧ src'.pos = src.pos + 4 * n ∧ palette'.length = palette.length ∧
    ∀ j, palette'.getD j 0 =
      if i ≤ j ∧ j < i + n then icoArgb (streamRest src) (j - i) else palette.getD j 0 := by
  intro n
  induction n with
  | zero =>
    intro i palette src palette' src' h _
    simp only [icoPaletteLoop, Except.ok.injEq, Prod.mk.injEq] at h
    obtain ⟨rfl, rfl⟩ := h
    refine ⟨rfl, rfl, rfl, fun j => ?_⟩
    rw [if_neg (by omega)]
  | succ n ih =>
    intro i palette src palette' src' h hlen
    simp only [icoPaletteLoop] at h
    obtain ⟨b, s1, hr, h⟩ := orFail_ok _ _ _ _ h
    obtain ⟨hd, hp, _, hb, _⟩ := readExact_ok_pos _ _ _ _ hr
    have hv : (if u32OfBytes b &&& 0xFF000000 = 0 then u32OfBytes b ||| 0xFF000000
        else u32OfBytes b) = icoArgb (streamRest src) 0 := by
      have g := fun k => getD_lt_of_forall (streamRest src) k (streamRest_lt src)
      have b0 : b.getD 0 0 = (streamRest src).getD 0 0 := by
        rw [hb]; exact getD_take_lt _ _ _ (by omega)
      have b1 : b.getD 1 0 = (streamRest src).getD 1 0 := by
        rw [hb]; exact getD_take_lt _ _ _ (by omega)
      have b2 : b.getD 2 0 = (streamRest src).getD 2 0 := by
        rw [hb]; exact getD_take_lt _ _ _ (by omega)
      have b3 : b.getD 3 0 = (streamRest src).getD 3 0 := by
        rw [hb]; exact getD_take_lt _ _ _ (by omega)
      unfold u32OfBytes icoArgb
      rw [b0, b1, b2, b3]
      exact ico_alpha_fix _ _ _ _ (g 0) (g 1) (g 2) (g 3)
    rw [hv] at h
    obtain ⟨r1, r2, r3, r4⟩ := ih (i + 1) _ s1 palette' src' h
      (by rw [List.length_set]; omega)
    have hrest : streamRest s1 = (streamRest src).drop 4 := streamRest_of_pos s1 src 4 hd hp
    refine ⟨by rw [r1, hd], by rw [r2, hp]; omega, by rw [r3, List.length_set], fun j => ?_⟩
    rw [r4 j, getD_set_nat _ _ _ _ (by omega)]
    by_cases hj : j = i
    · subst hj
      rw [if_neg (by omega), if_pos rfl, if_pos (by omega), Nat.sub_self]
    · rw [if_neg hj]
      by_cases hin : i + 1 ≤ j ∧ j < i + 1 + n
      · rw [if_pos hin, if_pos (by omega), hrest, icoArgb_drop]
        congr 1
        omega
      · rw [if_neg hin, if_neg (by omega)]

theorem icoPalette0_length (env : Env) : (icoPalette0 env).length = 256 := by
  simp [icoPalette0]

/-- "Load the palette, if any" at a bit count up to 8. -/
theorem icoLoadPalette_spec (env : Env) (biBitCount biClrUsed : Nat) (src s : SDL_IOStream)
    (palette : List Nat) (hb : biBitCount ≤ 8)
    (h : icoLoadPalette env biBitCount biClrUsed src = Except.ok (palette, s)) :
    icoPaletteCount biBitCount biClrUsed ≤ 256 ∧ s.data = src.data ∧
    s.pos = src.pos + 4 * icoPaletteCount biBitCount biClrUsed ∧
    ∀ i, i < icoPaletteCount biBitCount biClrUsed →
      palette.getD i 0 = icoArgb (streamRest src) i := by
  unfold icoLoadPalette at h
  rw [if_pos hb] at h
  have hn : (if biClrUsed = 0 then 1 <<< biBitCount else biClrUsed)
      = icoPaletteCount biBitCount biClrUsed := by
    unfold icoPaletteCount
    rw [Nat.shiftLeft_eq, Nat.one_mul]
  simp only [] at h
  rw [hn] at h
  split at h
  · cases h
  · rename_i hle
    obtain ⟨r1, r2, _, r4⟩ := icoPaletteLoop_spec _ _ _ _ _ _ h
      (by rw [icoPalette0_length]; omega)
    refine ⟨by omega, r1, r2, fun i hi => ?_⟩
    rw [r4 i, if_pos ⟨Nat.zero_le _, by omega⟩, Nat.sub_zero]

/-! ## Byte-run packets, the chunks met and the colour-map entries -/

theorem lbmRunStep_packet (st st' : LBMRun) (h : lbmRunStep st = Except.ok st') :
    ∃ c rest, streamRest st.src = c :: rest ∧ lbmPacketData c ≤ rest.length ∧
      1 ≤ lbmRequested c ∧ lbmRequested c ≤ st.remainingbytes ∧
      (lbmExpand (c, rest.take (lbmPacketData c))).length = lbmRequested c ∧
      st' = ⟨st.ptr + lbmRequested c, st.remainingbytes - lbmRequested c,
             memWrite st.MiniBuf st.ptr (lbmExpand (c, rest.take (lbmPacketData c))),
             { st.src with pos := st.src.pos + (1 + lbmPacketData c) }⟩ := by
  unfold lbmRunStep at h
  rw [SDL_ReadIO_rest] at h
  cases hr : streamRest st.src with
  | nil => rw [hr] at h; simp at h
  | cons c rest =>
    have hc : c < 256 := streamRest_lt st.src c (by rw [hr]; simp)
    have hrest : streamRest { st.src with pos := st.src.pos + 1 } = rest := by
      rw [streamRest_advance, hr]; rfl
    rw [hr] at h
    simp only [List.take_succ_cons, List.take_zero, List.length_cons] at h
    have hmin : min 1 (rest.length + 1) = 1 := by omega
    rw [hmin] at h
    refine ⟨c, rest, rfl, ?_⟩
    by_cases h128 : 128 ≤ c
    · have hbit := (byte_and_0x80 ⟨c, hc⟩).2 h128
      have hcnt := byte_xor_ff_add_two ⟨c, hc⟩ h128
      simp only at hbit hcnt
      have hreq : lbmRequested c = 257 - c := by simp [lbmRequested, h128]
      have hpd : lbmPacketData c = 1 := by simp [lbmPacketData]; omega
      rw [if_pos hbit, hcnt] at h
      by_cases hfit : 257 - c > st.remainingbytes
      · rw [if_pos hfit] at h; cases h
      · rw [if_neg hfit, SDL_ReadIO_rest, hrest] at h
        cases rest with
        | nil => simp at h
        | cons color rest2 =>
          simp only [List.take_succ_cons, List.take_zero] at h
          injection h with h
          subst h
          have hexp : lbmExpand (c, (color :: rest2).take (lbmPacketData c))
              = List.replicate (257 - c) color := by
            rw [hpd]
            simp [lbmExpand]
            omega
          refine ⟨by rw [hpd]; simp, by omega, by omega, by rw [hexp, hreq]; simp, ?_⟩
          rw [hexp, hreq, hpd]
          simp [Nat.add_assoc]
    · have hbit : ¬ (c &&& 0x80 ≠ 0) := fun hh => h128 ((byte_and_0x80 ⟨c, hc⟩).1 hh)
      have hcnt : (c + 1) % 256 = c + 1 := by omega
      have hreq : lbmRequested c = c + 1 := by simp [lbmRequested, h128]
      have hpd : lbmPacketData c = c + 1 := by simp [lbmPacketData]; omega
      rw [if_neg hbit, hcnt] at h
      by_cases hfit : c + 1 > st.remainingbytes
      · rw [if_pos hfit] at h; cases h
      · rw [if_neg hfit, SDL_ReadIO_rest, hrest] at h
        dsimp only at h
        by_cases hlen : (rest.take (c + 1)).length ≠ c + 1
        · rw [if_pos hlen] at h; cases h
        · rw [if_neg hlen] at h
          injection h with h
          subst h
          have hlen2 : (rest.take (c + 1)).length = c + 1 := by
            simpa using hlen
          have hle : c + 1 ≤ rest.length := by
            rw [List.length_take] at hlen2; omega
          have hexp : lbmExpand (c, rest.take (lbmPacketData c)) = rest.take (c + 1) := by
            rw [hpd]
            simp [lbmExpand]
            omega
          refine ⟨by rw [hpd]; exact hle, by omega, by omega, by rw [hexp, hreq, hlen2], ?_⟩
          rw [hexp, hreq, hpd, Nat.min_eq_left hle]
          simp [Nat.add_assoc, Nat.add_comm]
          omega

theorem lbmPackets_length_le : ∀ (n : Nat) (l : List Nat), (lbmPackets n l).length ≤ n := by
  intro n
  induction n with
  | zero => intro l; simp [lbmPackets]
  | succ n ih =>
    intro l
    cases l with
    | nil => simp [lbmPackets]
    | cons c rest => simp only [lbmPackets, List.length_cons]; exact Nat.succ_le_succ (ih _)

/-- What a byte-run loop that ends well has done: it consumed `n` whole
packets of the stream, at least one and at most as many as there were bytes to
fill, and stored their expansions one after the other from the write pointer
on, filling exactly the bytes that remained. -/
theorem lbmRunLoop_packets : ∀ (fuel : Nat) (st st' : LBMRun),
    lbmRunLoop fuel st = some (Except.ok st') → st.ptr ≤ st.MiniBuf.length →
    ∃ n, 1 ≤ n ∧ n ≤ st.remainingbytes ∧
      (lbmPackets n (streamRest st.src)).length = n ∧
      (∀ p ∈ lbmPackets n (streamRest st.src),
        p.2.length = lbmPacketData p.1 ∧ (lbmExpand p).length = lbmRequested p.1) ∧
      ((lbmPackets n (streamRest st.src)).map lbmExpand).flatten.length = st.remainingbytes ∧
      st' = ⟨st.ptr + st.remainingbytes, 0,
        memWrite st.MiniBuf st.ptr ((lbmPackets n (streamRest st.src)).map lbmExpand).flatten,
        { st.src with pos := st.src.pos + lbmPacketBytes (lbmPackets n (streamRest st.src)) }⟩ := by
  intro fuel
  induction fuel with
  | zero => intro st st' h; simp [lbmRunLoop] at h
  | succ k ih =>
    intro st st' h hb
    unfold lbmRunLoop at h
    split at h
    · cases h
    · rename_i st1 hs
      obtain ⟨c, rest, hr, hpd, h1, hfit, hexp, hst1⟩ := lbmRunStep_packet st st1 hs
      have hlen : (rest.take (lbmPacketData c)).length = lbmPacketData c := by
        rw [List.length_take]; omega
      by_cases hrem : st1.remainingbytes > 0
      · rw [if_pos hrem] at h
        have hb1 : st1.ptr ≤ st1.MiniBuf.length := by
          rw [hst1]
          have := memWrite_length_ge st.MiniBuf st.ptr
            (lbmExpand (c, rest.take (lbmPacketData c))) hb
          rw [hexp] at this
          exact this
        obtain ⟨n, hn1, hn2, hn3, hn4, hn5, hn6⟩ := ih st1 st' h hb1
        have hrest1 : streamRest st1.src = rest.drop (lbmPacketData c) := by
          rw [hst1]
          show streamRest { st.src with pos := st.src.pos + (1 + lbmPacketData c) } = _
          rw [streamRest_advance, hr, Nat.add_comm 1, List.drop_succ_cons]
        rw [hrest1] at hn3 hn4 hn5 hn6
        have hrem1 : st1.remainingbytes = st.remainingbytes - lbmRequested c := by rw [hst1]
        have hptr1 : st1.ptr = st.ptr + lbmRequested c := by rw [hst1]
        have hbuf1 : st1.MiniBuf = memWrite st.MiniBuf st.ptr
            (lbmExpand (c, rest.take (lbmPacketData c))) := by rw [hst1]
        have hsrc1 : st1.src = { st.src with pos := st.src.pos + (1 + lbmPacketData c) } := by
          rw [hst1]
        refine ⟨n + 1, by omega, by omega, ?_, ?_, ?_, ?_⟩
        · rw [hr]; simp only [lbmPackets, List.length_cons, hn3]
        · rw [hr]
          intro p hp
          simp only [lbmPackets, List.mem_cons] at hp
          rcases hp with hp | hp
          · subst hp; exact ⟨hlen, hexp⟩
          · exact hn4 p hp
        · rw [hr]
          simp only [lbmPackets, List.map_cons, List.flatten_cons, List.length_append, hexp, hn5]
          omega
        · rw [hn6, hr]
          simp only [lbmPackets, List.map_cons, List.flatten_cons, lbmPacketBytes, List.sum_cons,
            hlen]
          rw [hbuf1, hptr1, hrem1, hsrc1, ← hexp, memWrite_memWrite_append _ _ _ _ hb, hexp]
          simp only [lbmPacketBytes, LBMRun.mk.injEq, SDL_IOStream.mk.injEq, true_and, and_true]
          refine ⟨by omega, by omega⟩
      · rw [if_neg hrem] at h
        injection h with h
        injection h with h
        subst h
        have hz : st.remainingbytes = lbmRequested c := by
          have : st1.remainingbytes = st.remainingbytes - lbmRequested c := by rw [hst1]
          omega
        refine ⟨1, by omega, by omega, ?_, ?_, ?_, ?_⟩
        · rw [hr]; simp [lbmPackets]
        · rw [hr]
          intro p hp
          simp only [lbmPackets, List.mem_cons, List.mem_nil_iff, or_false] at hp
          subst hp; exact ⟨hlen, hexp⟩
        · rw [hr]; simp [lbmPackets, hexp, hz]
        · rw [hst1, hr]
          simp [lbmPackets, lbmPacketBytes, hlen, hz]

theorem lbmChunkCMAP_len (id : List Nat) (size : Nat) (st st' : LBMChunks) (n n' : Nat)
    (src src' : SDL_IOStream)
    (h : lbmChunkCMAP id size st n src = Except.ok (st', n', src'))
    (hb : memeq id "CMAP" 4 = true) : size ≤ (streamRest src).length := by
  unfold lbmChunkCMAP at h
  simp only [hb, if_true] at h
  split at h
  · simp at h
  · rcases hr : readExact src size with ⟨_ | b, s⟩
    · rw [hr] at h; simp at h
    · exact (readExact_ok src size b s hr).1

theorem lbmChunkCAMG_flags (id : List Nat) (size : Nat) (st st' : LBMChunks) (n n' : Nat)
    (src src' : SDL_IOStream)
    (h : lbmChunkCAMG id size st n src = Except.ok (st', n', src')) :
    (memeq id "CAMG" 4 = true →
      st'.flagHAM = (if BE32 ((streamRest src).take 4) &&& 0x0800 ≠ 0 then 1 else st.flagHAM) ∧
      st'.flagEHB = (if BE32 ((streamRest src).take 4) &&& 0x0080 ≠ 0 then 1 else st.flagEHB)) ∧
    (memeq id "CAMG" 4 = false → st' = st) := by
  unfold lbmChunkCAMG at h
  cases hb : memeq id "CAMG" 4
  · simp only [hb, Bool.false_eq_true, if_false, Except.ok.injEq, Prod.mk.injEq] at h
    simp [h.1]
  · simp only [hb, if_true] at h
    rcases hr : readExact src 4 with ⟨_ | b, s⟩
    · rw [hr] at h; simp at h
    · rw [hr] at h
      simp only [Except.ok.injEq, Prod.mk.injEq] at h
      obtain ⟨_, r2, _⟩ := readExact_ok src 4 b s hr
      obtain ⟨e1, _, _⟩ := h
      subst e1 r2
      simp only [Bool.true_eq_false, false_implies, true_implies, and_true]
      refine ⟨?_, ?_⟩ <;> (split <;> split <;> rfl)

/-- What a pass of the chunk walk that does not fail does to the colour map
and to the two flags, in terms of the bytes of the chunk it stands at. -/
theorem lbmChunkStep_trace (st st' : LBMChunks) (src src' : SDL_IOStream)
    (h : lbmChunkStep st src = Except.ok (st', src')) :
    (lbmIsCMAP src = true →
      lbmChunkSize src ≤ 768 ∧ lbmChunkSize src ≤ (lbmChunkData src).length ∧
      st'.nbcolors = lbmChunkSize src / 3 ∧
      st'.colormap = memWrite st.colormap 0 ((lbmChunkData src).take (lbmChunkSize src))) ∧
    (lbmIsCMAP src = false → st'.nbcolors = st.nbcolors ∧ st'.colormap = st.colormap) ∧
    (memeq (lbmChunkId src) "CAMG" 4 = true →
      st'.flagHAM = (if BE32 ((lbmChunkData src).take 4) &&& 0x0800 ≠ 0 then 1
        else st.flagHAM) ∧
      st'.flagEHB = (if BE32 ((lbmChunkData src).take 4) &&& 0x0080 ≠ 0 then 1
        else st.flagEHB)) ∧
    (memeq (lbmChunkId src) "CAMG" 4 = false →
      st'.flagHAM = st.flagHAM ∧ st'.flagEHB = st.flagEHB) := by
  unfold lbmChunkStep at h
  rcases h1 : readExact src 4 with ⟨_ | id, s1⟩
  · rw [h1] at h; simp at h
  rw [h1] at h
  dsimp only at h
  rcases h2 : readExact s1 4 with ⟨_ | sizeBytes, s2⟩
  · rw [h2] at h; simp at h
  rw [h2] at h
  dsimp only at h
  obtain ⟨_, a2, a3⟩ := readExact_ok src 4 id s1 h1
  obtain ⟨_, b2, b3⟩ := readExact_ok s1 4 sizeBytes s2 h2
  have hr1 : streamRest s1 = (streamRest src).drop 4 := by rw [a3, streamRest_advance]
  have hr2 : streamRest s2 = (streamRest src).drop 8 := by
    rw [b3, streamRest_advance, hr1, List.drop_drop]
  have hid : id = lbmChunkId src := a2
  have hsz : BE32 sizeBytes = lbmChunkSize src := by rw [b2, hr1]; rfl
  rw [hsz] at h
  rcases hA : lbmChunkBMHD id { st with id := id } 0 s2 with d | ⟨stA, nA, sA⟩
  · rw [hA] at h; simp at h
  rw [hA] at h
  dsimp only at h
  rcases hB : lbmChunkCMAP id (lbmChunkSize src) stA nA sA with d | ⟨stB, nB, sB⟩
  · rw [hB] at h; simp at h
  rw [hB] at h
  dsimp only at h
  rcases hC : lbmChunkCAMG id (lbmChunkSize src) stB nB sB with d | ⟨stC, nC, sC⟩
  · rw [hC] at h; simp at h
  rw [hC] at h
  simp only [Except.ok.injEq, Prod.mk.injEq] at h
  obtain ⟨e1, _⟩ := h
  subst e1
  obtain ⟨A0, A1⟩ := lbmChunkBMHD_ok _ _ _ _ _ _ _ hA
  obtain ⟨B0, B1⟩ := lbmChunkCMAP_ok _ _ _ _ _ _ _ _ hB
  obtain ⟨C0, C1⟩ := lbmChunkCAMG_ok _ _ _ _ _ _ _ _ hC
  obtain ⟨F1, F0⟩ := lbmChunkCAMG_flags _ _ _ _ _ _ _ _ hC
  obtain ⟨X1, X2, X3⟩ := memeq_exclusive id
  unfold lbmIsCMAP
  rw [← hid]
  refine ⟨?_, ?_, ?_, ?_⟩
  · intro hcm
    have hbm : memeq id "BMHD" 4 = false := by
      cases hb : memeq id "BMHD" 4
      · rfl
      · rw [(X1 hb).1] at hcm; cases hcm
    obtain ⟨eA, _, esA⟩ := A0 hbm
    obtain ⟨c1, c2, _, _, _⟩ := B1 hcm
    have hlen := lbmChunkCMAP_len _ _ _ _ _ _ _ _ hB hcm
    have hcg := (X2 hcm).1
    rw [C0 hcg |>.1, c2, esA, hr2, eA]
    rw [esA, hr2] at hlen
    exact ⟨c1, hlen, rfl, rfl⟩
  · intro hcm
    obtain ⟨eB, _, _⟩ := B0 hcm
    have hAc : stA.nbcolors = st.nbcolors ∧ stA.colormap = st.colormap := by
      cases hb : memeq id "BMHD" 4
      · rw [(A0 hb).1]; exact ⟨rfl, rfl⟩
      · rw [(A1 hb).1]; exact ⟨rfl, rfl⟩
    have hCc : stC.nbcolors = stB.nbcolors ∧ stC.colormap = stB.colormap := by
      cases hb : memeq id "CAMG" 4
      · rw [(C0 hb).1]; exact ⟨rfl, rfl⟩
      · obtain ⟨_, _, q1, q2, _⟩ := C1 hb
        exact ⟨q2, q1⟩
    rw [hCc.1, hCc.2, eB]
    exact hAc
  · intro hcg
    have hbm : memeq id "BMHD" 4 = false := by
      cases hb : memeq id "BMHD" 4
      · rfl
      · rw [(X1 hb).2.1] at hcg; cases hcg
    have hcm : memeq id "CMAP" 4 = false := by
      cases hb : memeq id "CMAP" 4
      · rfl
      · rw [(X2 hb).1] at hcg; cases hcg
    obtain ⟨eA, _, esA⟩ := A0 hbm
    obtain ⟨eB, _, esB⟩ := B0 hcm
    have := F1 hcg
    rw [esB, esA, hr2, eB, eA] at this
    exact this
  · intro hcg
    rw [F0 hcg]
    have hAf : stA.flagHAM = st.flagHAM ∧ stA.flagEHB = st.flagEHB := by
      cases hb : memeq id "BMHD" 4
      · rw [(A0 hb).1]; exact ⟨rfl, rfl⟩
      · rw [(A1 hb).1]; exact ⟨rfl, rfl⟩
    have hBf : stB.flagHAM = stA.flagHAM ∧ stB.flagEHB = stA.flagEHB := by
      cases hb : memeq id "CMAP" 4
      · rw [(B0 hb).1]; exact ⟨rfl, rfl⟩
      · rw [(B1 hb).2.1]; exact ⟨rfl, rfl⟩
    exact ⟨by rw [hBf.1, hAf.1], by rw [hBf.2, hAf.2]⟩

theorem lbmChunkVisits_succ (fuel : Nat) (st : LBMChunks) (src : SDL_IOStream)
    (hb : memeq st.id "BODY" 4 = false) (st1 : LBMChunks) (src1 : SDL_IOStream)
    (hs : lbmChunkStep st src = Except.ok (st1, src1)) :
    lbmChunkVisits (fuel + 1) st src = src :: lbmChunkVisits fuel st1 src1 := by
  simp only [lbmChunkVisits, hb, Bool.false_eq_true, if_false, hs]

/-- The flag a `CAMG` chunk sets is set at the end of the walk exactly when it
was set before or one of the chunks met is a `CAMG` chunk with the bit. -/
theorem lbmChunkLoop_flags : ∀ (fuel : Nat) (st st' : LBMChunks) (src src' : SDL_IOStream),
    lbmChunkLoop fuel st src = some (Except.ok (st', src')) →
    (st'.flagHAM = 1 ↔
      (st.flagHAM = 1 ∨ ∃ c ∈ lbmChunkVisits fuel st src, lbmIsCAMG 0x0800 c = true)) ∧
    (st'.flagEHB ≠ 0 ↔
      (st.flagEHB ≠ 0 ∨ ∃ c ∈ lbmChunkVisits fuel st src, lbmIsCAMG 0x0080 c = true)) := by
  intro fuel
  induction fuel with
  | zero => intro st st' src src' h; simp [lbmChunkLoop] at h
  | succ fuel ih =>
    intro st st' src src' h
    unfold lbmChunkLoop at h
    split at h
    · rename_i hb
      simp only [Option.some.injEq, Except.ok.injEq, Prod.mk.injEq] at h
      rw [← h.1]
      simp [lbmChunkVisits, hb]
    · rename_i hb
      rcases hs : lbmChunkStep st src with d | ⟨st1, src1⟩
      · rw [hs] at h; simp at h
      · rw [hs] at h
        have hb' : memeq st.id "BODY" 4 = false := by simpa using hb
        obtain ⟨i1, i2⟩ := ih st1 st' src1 src' h
        obtain ⟨_, _, t1, t0⟩ := lbmChunkStep_trace st st1 src src1 hs
        rw [lbmChunkVisits_succ fuel st src hb' st1 src1 hs, i1, i2]
        simp only [List.mem_cons, exists_eq_or_imp, lbmIsCAMG, Bool.and_eq_true,
          decide_eq_true_eq]
        cases hcg : memeq (lbmChunkId src) "CAMG" 4
        · obtain ⟨f1, f2⟩ := t0 hcg
          rw [f1, f2]
          simp
        · obtain ⟨f1, f2⟩ := t1 hcg
          rw [f1, f2]
          refine ⟨?_, ?_⟩
          · by_cases hbit : BE32 ((lbmChunkData src).take 4) &&& 0x0800 ≠ 0
            · simp [hbit]
            · simp [hbit]
          · by_cases hbit : BE32 ((lbmChunkData src).take 4) &&& 0x0080 ≠ 0
            · simp [hbit]
            · simp [hbit]

theorem lbmChunkStep_cmapInv (st st' : LBMChunks) (src src' : SDL_IOStream)
    (h : lbmChunkStep st src = Except.ok (st', src')) (pre : List SDL_IOStream)
    (hinv : LbmCmapInv (lbmLastCMAP pre) st) : LbmCmapInv (lbmLastCMAP (pre ++ [src])) st' := by
  obtain ⟨t1, t0, _, _⟩ := lbmChunkStep_trace st st' src src' h
  unfold lbmLastCMAP at hinv ⊢
  rw [List.filter_append]
  cases hcm : lbmIsCMAP src
  · have : List.filter lbmIsCMAP [src] = [] := by simp [hcm]
    rw [this, List.append_nil]
    obtain ⟨e1, e2⟩ := t0 hcm
    unfold LbmCmapInv at hinv ⊢
    rw [e1, e2]
    exact hinv
  · have : List.filter lbmIsCMAP [src] = [src] := by simp [hcm]
    rw [this, List.getLast?_append_cons]
    show LbmCmapInv (some src) st'
    obtain ⟨e1, e2, e3, e4⟩ := t1 hcm
    refine ⟨e1, e2, e3, ?_⟩
    intro j hj
    rw [e4, getByte_memWrite _ _ _ _ (Nat.zero_le _)]
    have hl : ((lbmChunkData src).take (lbmChunkSize src)).length = lbmChunkSize src := by
      rw [List.length_take]; omega
    rw [if_neg (by omega), hl, if_pos (by omega)]
    simp only [Nat.sub_zero, List.getD_eq_getElem?_getD, List.getElem?_take, hj, if_true]

theorem lbmChunkLoop_cmapInv : ∀ (fuel : Nat) (st st' : LBMChunks) (src src' : SDL_IOStream)
    (pre : List SDL_IOStream),
    lbmChunkLoop fuel st src = some (Except.ok (st', src')) →
    LbmCmapInv (lbmLastCMAP pre) st →
    LbmCmapInv (lbmLastCMAP (pre ++ lbmChunkVisits fuel st src)) st' := by
  intro fuel
  induction fuel with
  | zero => intro st st' src src' pre h; simp [lbmChunkLoop] at h
  | succ fuel ih =>
    intro st st' src src' pre h hinv
    unfold lbmChunkLoop at h
    split at h
    · rename_i hb
      simp only [Option.some.injEq, Except.ok.injEq, Prod.mk.injEq] at h
      rw [← h.1]
      simp only [lbmChunkVisits, hb, if_true, List.append_nil]
      exact hinv
    · rename_i hb
      rcases hs : lbmChunkStep st src with d | ⟨st1, src1⟩
      · rw [hs] at h; simp at h
      · rw [hs] at h
        have hb' : memeq st.id "BODY" 4 = false := by simpa using hb
        have := ih st1 st' src1 src' (pre ++ [src]) h (lbmChunkStep_cmapInv st st1 src src1 hs pre hinv)
        rw [lbmChunkVisits_succ fuel st src hb' st1 src1 hs]
        rw [List.append_assoc] at this
        exact this

/-- A `CMAP` chunk of more than 768 bytes among the chunks met ends the walk
in failure. -/
theorem lbmChunkLoop_oversize : ∀ (fuel : Nat) (st : LBMChunks) (src : SDL_IOStream),
    src.data.length - src.pos < fuel →
    ∀ c ∈ lbmChunkVisits fuel st src, lbmIsCMAP c = true → lbmChunkSize c > 768 →
    ∃ d, lbmChunkLoop fuel st src = some (Except.error d) := by
  intro fuel
  induction fuel with
  | zero => intro st src h; omega
  | succ fuel ih =>
    intro st src hf c hc hcm hsz
    cases hb : memeq st.id "BODY" 4
    · rcases hs : lbmChunkStep st src with d | ⟨st1, src1⟩
      · exact ⟨d, by simp only [lbmChunkLoop, hb, Bool.false_eq_true, if_false, hs]⟩
      · rw [lbmChunkVisits_succ fuel st src hb st1 src1 hs, List.mem_cons] at hc
        rcases hc with rfl | hc
        · have := ((lbmChunkStep_trace st st1 c src1 hs).1 hcm).1
          omega
        · obtain ⟨a1, a2, a3⟩ := lbmChunkStep_advance st st1 src src1 hs
          obtain ⟨d, hd⟩ := ih st1 src1 (by rw [a2]; omega) c hc hcm hsz
          exact ⟨d, by simp only [lbmChunkLoop, hb, Bool.false_eq_true, if_false, hs, hd]⟩
    · simp [lbmChunkVisits, hb] at hc

theorem colorsSet_getD_ne (colors : List SDL_Color) (i r g b j : Nat) (dflt : SDL_Color)
    (hne : j ≠ i) (hj : j < colors.length) :
    (colorsSet colors i r g b).getD j dflt = colors.getD j dflt ∧
    colors.length ≤ (colorsSet colors i r g b).length := by
  unfold colorsSet
  split
  · refine ⟨?_, by simp⟩
    simp only [List.getD_eq_getElem?_getD]
    rw [List.getElem?_set_ne (fun h => hne h.symm)]
  · refine ⟨?_, by simp⟩
    simp only [List.getD_eq_getElem?_getD]
    rw [List.append_assoc, List.getElem?_append_left hj]

theorem lbmRepeatColors_below (nbcolors : Nat) (dflt : SDL_Color) :
    ∀ (n i : Nat) (colors : List SDL_Color) (j : Nat), j < i → j < colors.length →
      (lbmRepeatColors nbcolors n i colors).getD j dflt = colors.getD j dflt := by
  intro n
  induction n with
  | zero => intro i colors j _ _; rfl
  | succ n ih =>
    intro i colors j hji hj
    simp only [lbmRepeatColors]
    obtain ⟨e1, e2⟩ := colorsSet_getD_ne colors i
      (colors.getD (i % nbcolors) ⟨0, 0, 0, 0⟩).r (colors.getD (i % nbcolors) ⟨0, 0, 0, 0⟩).g
      (colors.getD (i % nbcolors) ⟨0, 0, 0, 0⟩).b j dflt (by omega) hj
    rw [ih (i + 1) _ j (by omega) (by omega), e1]

/-- The entries of the palette of `IMG_LoadLBM_IO` below the colour count are
the triplets of the colour map, for every plane count, but for the entries
32..63 when the Extra-Half-Bright block runs. -/
theorem lbmPalette_cmap_entry (colormap : List Nat) (pbm : Bool)
    (nbcolors nbplanes stencil flagEHB : Nat) (hnb : nbcolors ≤ 256) (dflt : SDL_Color)
    (j : Nat) (hj : j < nbcolors)
    (hx : ¬ (32 ≤ j ∧ j < 64) ∨ ¬ ((nbcolors = 32 ∨ flagEHB ≠ 0) ∧ 1 <<< nbplanes = 64)) :
    (lbmPalette palette256 colormap pbm nbcolors nbplanes stencil flagEHB).colors.getD j dflt
      = ⟨getByte colormap (3 * j), getByte colormap (3 * j + 1),
          getByte colormap (3 * j + 2), 255⟩ := by
  have hl0 : palette256.colors.length = 256 := by
    show (List.replicate 256 _).length = 256
    rw [List.length_replicate]
  have hc1 : ∀ k, k < nbcolors →
      (lbmCopyColors colormap 1 nbcolors 0 0 palette256.colors).getD k dflt
        = ⟨getByte colormap (3 * k), getByte colormap (3 * k + 1),
            getByte colormap (3 * k + 2), 255⟩ := by
    intro k hk
    have := (lbm_colors_after_ehb colormap nbcolors 0 flagEHB hnb dflt).2.2.1 k hk
      (Or.inr (by simp))
    simpa using this
  have hl1 : (lbmCopyColors colormap 1 nbcolors 0 0 palette256.colors).length = 256 := by
    rw [(lbmCopyColors_spec colormap 1 dflt nbcolors 0 0 palette256.colors
      (by rw [hl0]; omega)).1, hl0]
  rw [lbmPalette_eq]
  simp only
  by_cases hehb : (nbcolors = 32 ∨ flagEHB ≠ 0) ∧ 1 <<< nbplanes = 64
  · have hfin : lbmFinalColors nbcolors nbplanes flagEHB = 64 := by
      unfold lbmFinalColors; rw [if_pos hehb]
    have hp : 2 ^ nbplanes = 64 := by rw [← Nat.one_shiftLeft]; exact hehb.2
    rw [hfin, hp, if_pos hehb]
    simp only [Nat.sub_self, lbmRepeatColors]
    obtain ⟨b1, b2, b3⟩ := lbmCopyColors_spec colormap 2 dflt 32 32 0
      (lbmCopyColors colormap 1 nbcolors 0 0 palette256.colors) (by rw [hl1]; decide)
    have hj' : j < 32 ∨ 32 + 32 ≤ j := by
      rcases hx with h | h
      · omega
      · exact absurd hehb h
    rw [b2 j hj', hc1 j hj]
  · have hfin : lbmFinalColors nbcolors nbplanes flagEHB = nbcolors := by
      unfold lbmFinalColors; rw [if_neg hehb]
    rw [hfin, if_neg hehb, lbmRepeatColors_below nbcolors dflt _ _ _ j hj (by rw [hl1]; omega),
      hc1 j hj]

/-! ## Stored rows, the error message, scratch rows and byte-run states -/

theorem tgaRowsL_raw (w bpp : Nat) :
    ∀ (n : Nat) (st : TGARle) (ls : ByteSrc) (st' : TGARle) (rows : List (List Nat))
      (ls' : ByteSrc),
    tgaRowsL false w bpp n st ls = Except.ok (st', rows, ls') →
    ls.rest = rows.flatten ++ ls'.rest := by
  intro n
  induction n with
  | zero =>
    intro st ls st' rows ls' h
    simp only [tgaRowsL, Except.ok.injEq, Prod.mk.injEq] at h
    obtain ⟨_, rfl, rfl⟩ := h
    simp
  | succ n ih =>
    intro st ls st' rows ls' h
    simp only [tgaRowsL, Bool.false_eq_true, if_false] at h
    by_cases hle : w * bpp ≤ ls.rest.length
    · simp only [ByteSrc.readExact, hle, if_true] at h
      rcases hr : tgaRowsL false w bpp n st ⟨ls.rest.drop (w * bpp), ls.used + w * bpp⟩
        with e | ⟨st1, rows1, ls1⟩
      · rw [hr] at h; simp [consRow] at h
      · rw [hr] at h
        simp only [consRow, Except.ok.injEq, Prod.mk.injEq] at h
        obtain ⟨_, rfl, rfl⟩ := h
        have : ls.rest.drop (w * bpp) = rows1.flatten ++ ls1.rest := ih _ _ _ _ _ hr
        rw [List.flatten_cons, List.append_assoc, ← this, List.take_append_drop]
    · simp [ByteSrc.readExact, hle] at h

theorem flatten_chunk (m : Nat) (t : List Nat) :
    ∀ (rows : List (List Nat)), (∀ r ∈ rows, r.length = m) →
    ∀ k, (hk : k < rows.length) → ((rows.flatten ++ t).drop (k * m)).take m = rows[k] := by
  intro rows
  induction rows with
  | nil => intro _ k hk; simp at hk
  | cons r rows ih =>
    intro hall k hk
    have hr : r.length = m := hall r (List.mem_cons_self _ _)
    cases k with
    | zero =>
      simp only [Nat.zero_mul, List.drop_zero, List.flatten_cons, List.append_assoc,
        List.getElem_cons_zero]
      rw [List.take_append_of_le_length (by omega), ← hr, List.take_length]
    | succ k =>
      have e : (k + 1) * m = r.length + k * m := by rw [hr]; ring
      simp only [List.flatten_cons, List.append_assoc, List.getElem_cons_succ]
      rw [e, ← List.drop_drop, List.drop_left]
      exact ih (fun x hx => hall x (List.mem_cons_of_mem _ hx)) k (by simpa using hk)

theorem tgaValidate_bpp (hdr : TGAheader) (rle indexed grey : Bool) (bpp : Nat)
    (format : SDL_PixelFormat)
    (hval : tgaValidate hdr = some (rle, indexed, grey, bpp, format)) :
    bpp = (hdr.pixel_bits + 7) / 8 := by
  unfold tgaValidate at hval
  dsimp only at hval
  split at hval
  · cases hval
  · split at hval
    · cases hval
    · split at hval
      · cases hval
      · simp only [Option.some.injEq, Prod.mk.injEq] at hval
        obtain ⟨_, _, _, rfl, _⟩ := hval
        rw [Nat.shiftRight_eq_div_pow]

/-- In a decode by `IMG_LoadTGA_IO` that returns a surface, stored row `i` of
the stream is found in the row `tgaRowIndex` of the pixels. -/
theorem tga_decode_stored_rows (env : Env) (src src' : SDL_IOStream) (img : SDL_Surface)
    (hdec : IMG_LoadTGA_IO env src = (some img, src')) :
    SDL_BYTESPERPIXEL img.format = ((tgaHeaderAt src).pixel_bits + 7) / 8 ∧
    img.w = LE16 (tgaHeaderAt src).width ∧
    ∀ i, i < img.h →
      memRead img.pixels (tgaRowIndex (tgaHeaderAt src) img.h i * img.pitch)
        (img.w * SDL_BYTESPERPIXEL img.format) = tgaStoredRow src i := by
  obtain ⟨rle, st', rows, ls', h1, h2, h3, h4, h5, h6, h7, h8⟩ :=
    tga_decode_rows env src src' img hdec
  obtain ⟨rle1, indexed1, grey1, bpp1, format1, img0, img1, img2, s3, _, hv, hc, hcm, hg, _, _,
    e3, _⟩ := IMG_LoadTGA_IO_stages env src src' img hdec
  have hb1 := tgaValidate_bpp _ _ _ _ _ _ hv
  have g0 := SDL_CreateSurface_some _ _ _ _ _ hc
  obtain ⟨_, _, a3, _⟩ := (tgaColorMap_facts _ _ _ _ _ _ _ _ _ hcm).1
  obtain ⟨_, _, b3, _⟩ := tgaGreyPalette_facts _ _ _ _ _ hg
  have hfmt : img.format = format1 := by rw [e3, b3, a3, g0]
  have hbpp : SDL_BYTESPERPIXEL img.format = ((tgaHeaderAt src).pixel_bits + 7) / 8 := by
    have hf : tgaFormat (tgaHeaderAt src) indexed1 = some format1 := by
      unfold tgaValidate at hv
      dsimp only at hv
      split at hv
      · cases hv
      · split at hv
        · cases hv
        · rename_i hf
          split at hv
          · cases hv
          · simp only [Option.some.injEq, Prod.mk.injEq] at hv
            obtain ⟨_, rfl, _, _, rfl⟩ := hv
            exact hf
    rw [hfmt, ← (tgaFormat_bpp _ _ _ hf).1, Nat.shiftRight_eq_div_pow]
  refine ⟨hbpp, h4, ?_⟩
  intro i hi
  obtain ⟨r1, r2, r3⟩ := tgaRowsL_facts rle img.w (SDL_BYTESPERPIXEL img.format) h3 img.h _ _
    st' rows ls' h7 (by simp) (Or.inl rfl)
    (fun b hb => streamRest_lt src b (List.mem_of_mem_drop hb))
  obtain ⟨_, rb⟩ := tga_writeRows_readback (tgaHeaderAt src) img.w img.h
    (SDL_BYTESPERPIXEL img.format) img.pitch (by rw [h6]; omega)
    (List.replicate (img.pitch * img.h) 0) (by simp) rows r1 r2
  have hik : i < rows.length := by rw [r1]; exact hi
  rw [h8, rb i hik]
  unfold tgaStoredRow tgaStoredPixels
  simp only
  rw [← hbpp, ← h4]
  cases rle with
  | true =>
    have ht : (tgaHeaderAt src).type = 9 ∨ (tgaHeaderAt src).type = 10 ∨
        (tgaHeaderAt src).type = 11 := of_decide_eq_true h1.symm
    rw [if_pos ht]
    have hpend := r3 rfl
    have hp0 : tgaPend (SDL_BYTESPERPIXEL img.format)
        ⟨0, 0, (List.range 4).map fun j => env.uninit j % 256⟩
        ((streamRest src).drop (tgaDataOffset (tgaHeaderAt src)))
        = tgaExpand (SDL_BYTESPERPIXEL img.format)
            ((streamRest src).drop (tgaDataOffset (tgaHeaderAt src))) := by
      simp [tgaPend]
    rw [hp0] at hpend
    rw [hpend]
    exact (flatten_chunk _ _ rows r2 i hik).symm
  | false =>
    have ht : ¬ ((tgaHeaderAt src).type = 9 ∨ (tgaHeaderAt src).type = 10 ∨
        (tgaHeaderAt src).type = 11) := of_decide_eq_false h1.symm
    rw [if_neg ht]
    have := tgaRowsL_raw _ _ _ _ _ _ _ _ h7
    simp only at this
    rw [this]
    exact (flatten_chunk _ _ rows r2 i hik).symm

theorem tgaStoredRow_flags (pre h17 body : List (Fin 256)) (f f' : Fin 256)
    (h17len : h17.length = 17) (i : Nat) :
    tgaStoredRow (tgaStreamWithFlags pre h17 body f') i
      = tgaStoredRow (tgaStreamWithFlags pre h17 body f) i := by
  have hd : ∀ g : Fin 256, ∀ k, 18 ≤ k →
      (streamRest (tgaStreamWithFlags pre h17 body g)).drop k = (body.map Fin.val).drop (k - 18) := by
    intro g k hk
    rw [streamRest_tgaStreamWithFlags]
    have e : h17.map Fin.val ++ g.val :: body.map Fin.val
        = (h17.map Fin.val ++ [g.val]) ++ body.map Fin.val := by simp
    have hl : (h17.map Fin.val ++ [g.val]).length = 18 := by simp [h17len]
    obtain ⟨j, rfl⟩ : ∃ j, k = 18 + j := ⟨k - 18, by omega⟩
    rw [e, ← List.drop_drop, ← hl, List.drop_left, hl]
    congr 1
    omega
  have ho : ∀ hdr : TGAheader, 18 ≤ tgaDataOffset hdr := by
    intro hdr; unfold tgaDataOffset; omega
  unfold tgaStoredRow tgaStoredPixels
  simp only [tgaHeaderAt_tgaStreamWithFlags _ _ _ _ h17len]
  rw [hd f' _ (ho _), hd f _ (ho _)]
  rfl

/-- `IMG_LoadTGA_IO` returns a surface exactly when no error message is set. -/
theorem IMG_LoadTGA_IO_error_none (env : Env) (src : SDL_IOStream) :
    IMG_LoadTGA_IO_error env src = none ↔ ( IMG_LoadTGA_IO env src).1 ≠ none := by
  unfold IMG_LoadTGA_IO IMG_LoadTGA_IO_body tgaSetup IMG_LoadTGA_IO_error orFail tgaSetupHdr
  rcases h1 : readExact src 18 with ⟨_ | hdrBytes, s1⟩
  · simp
  simp only
  rcases h2 : tgaClassify (tgaHeaderOfBytes hdrBytes) (LE16 (tgaHeaderOfBytes hdrBytes).cmap_len)
    with _ | ⟨rle, indexed, grey⟩
  · simp [h2]
  simp only [h2]
  rcases h3 : tgaFormat (tgaHeaderOfBytes hdrBytes) indexed with _ | format
  · simp [h3]
  simp only [h3]
  by_cases h4 : (tgaHeaderOfBytes hdrBytes).flags &&& TGA_INTERLEAVE_MASK ≠ TGA_INTERLEAVE_NONE ∨
      (tgaHeaderOfBytes hdrBytes).flags &&& TGA_ORIGIN_RIGHT ≠ 0
  · simp [h4]
  simp only [h4, if_false]
  rcases h5 : SDL_CreateSurface env (LE16 (tgaHeaderOfBytes hdrBytes).width)
    (LE16 (tgaHeaderOfBytes hdrBytes).height) format with _ | img
  · simp [h5]
  simp only [h5]
  rcases h6 : tgaColorMap env (tgaHeaderOfBytes hdrBytes) indexed grey
    (LE16 (tgaHeaderOfBytes hdrBytes).cmap_len) img
    ( SDL_SeekIO s1 (tgaHeaderOfBytes hdrBytes).infolen SDL_IOWhence.SDL_IO_SEEK_CUR).2
    with e | ⟨img1, s2⟩
  · simp [h6]
  simp only [h6]
  rcases h7 : tgaGreyPalette env grey img1 s2 with e | img2
  · simp [h7]
  simp only [h7]
  split <;> simp_all

/-- The message is "Unsupported TGA format" exactly when the 18 bytes of the
header could be read and the header is one of the listed kinds. -/
theorem IMG_LoadTGA_IO_error_unsupported (env : Env) (src : SDL_IOStream) :
    IMG_LoadTGA_IO_error env src = some "Unsupported TGA format" ↔
      18 ≤ (streamRest src).length ∧ tgaListedUnsupported (tgaHeaderAt src) := by
  rw [← tgaValidate_none]
  unfold IMG_LoadTGA_IO_error tgaValidate tgaHeaderAt
  rw [readExact_eq]
  by_cases hlen : 18 ≤ (streamRest src).length
  swap
  · simp [hlen]
  simp only [hlen, if_true, true_and]
  generalize tgaHeaderOfBytes ((streamRest src).take 18) = hdr
  rcases h2 : tgaClassify hdr (LE16 hdr.cmap_len) with _ | ⟨rle, indexed, grey⟩
  · simp
  simp only
  rcases h3 : tgaFormat hdr indexed with _ | format
  · simp
  simp only
  by_cases h4 : hdr.flags &&& TGA_INTERLEAVE_MASK ≠ TGA_INTERLEAVE_NONE ∨
      hdr.flags &&& TGA_ORIGIN_RIGHT ≠ 0
  · simp [h4]
  simp only [h4, if_false]
  rcases h5 : SDL_CreateSurface env (LE16 hdr.width) (LE16 hdr.height) format with _ | img
  · simp
  simp only
  rcases h6 : tgaColorMap env hdr indexed grey (LE16 hdr.cmap_len) img
    ( SDL_SeekIO { src with pos := src.pos + 18 } hdr.infolen SDL_IOWhence.SDL_IO_SEEK_CUR).2
    with e | ⟨img1, s2⟩
  · simp only [h6]
    split <;> simp
  simp only [h6]
  rcases h7 : tgaGreyPalette env grey img1 s2 with e | img2
  · simp
  simp only
  split <;> simp

theorem lbmStoreRow_ilbm (MiniBuf colormap pixels : List Nat)
    (q bytesperline nbplanes stencil h : Nat) (hpl : nbplanes ≠ 24)
    (hbuf : (h + 1) * (8 * q) ≤ pixels.length) :
    (lbmStoreRow MiniBuf colormap false (8 * q) bytesperline nbplanes stencil 0 h pixels).length
      = pixels.length ∧
    (∀ k, k < h * (8 * q) →
      getByte (lbmStoreRow MiniBuf colormap false (8 * q) bytesperline nbplanes stencil 0 h pixels) k
        = getByte pixels k) ∧
    (∀ x, x < 8 * q →
      getByte (lbmStoreRow MiniBuf colormap false (8 * q) bytesperline nbplanes stencil 0 h pixels)
          (h * (8 * q) + x)
        = planeSum MiniBuf bytesperline (nbplanes + stencil) x % 256) := by
  have hsize : (8 * q + 7) / 8 = q := by omega
  have hptr : ¬ (nbplanes = 24 ∨ (0 : Nat) = 1) := by omega
  simp only [lbmStoreRow, hptr, if_false, Bool.false_eq_true, hpl, ne_eq, not_false_eq_true,
    and_self, if_true, hsize]
  obtain ⟨h1, h2, h3⟩ := lbmDeinterleave_spec MiniBuf bytesperline (nbplanes + stencil) q 0
    (h * (8 * q)) pixels (by rw [Nat.add_mul] at hbuf; omega)
  refine ⟨h1, h2, ?_⟩
  intro x hx
  have := h3 (x / 8) (x % 8) (by omega) (Nat.mod_lt _ (by decide))
  have e1 : h * (8 * q) + 8 * (x / 8) + x % 8 = h * (8 * q) + x := by omega
  have e2 : 8 * (0 + x / 8) + x % 8 = x := by omega
  rw [e1, e2] at this
  exact this

/-- The row loop of a non-HAM interleaved decode with a plane count other
than 24: every row is read, and the bytes of row `h + j` of the pixels are the
plane sums of the scratch buffer of that row; rows stored later leave them as
they are. -/
theorem lbmRows_ilbm (colormap : List Nat) (tcomp q bytesperline nbplanes stencil : Nat)
    (hpl : nbplanes ≠ 24) :
    ∀ (n h : Nat) (MiniBuf pixels : List Nat) (src : SDL_IOStream) (mb' pixels' : List Nat)
      (src' : SDL_IOStream),
    lbmRows colormap false tcomp (8 * q) bytesperline nbplanes stencil 0 n h MiniBuf pixels src
      = Except.ok (mb', pixels', src') →
    (h + n) * (8 * q) ≤ pixels.length →
    (lbmRowBuffers tcomp bytesperline (nbplanes + stencil) n MiniBuf src).length = n ∧
    pixels'.length = pixels.length ∧
    (∀ k, k < h * (8 * q) → getByte pixels' k = getByte pixels k) ∧
    ∀ j x, j < n → x < 8 * q →
      getByte pixels' ((h + j) * (8 * q) + x)
        = planeSum ((lbmRowBuffers tcomp bytesperline (nbplanes + stencil) n MiniBuf src).getD j [])
            bytesperline (nbplanes + stencil) x % 256 := by
  intro n
  induction n with
  | zero =>
    intro h MiniBuf pixels src mb' pixels' src' hr _
    simp only [lbmRows, Except.ok.injEq, Prod.mk.injEq] at hr
    obtain ⟨_, rfl, _⟩ := hr
    refine ⟨rfl, rfl, fun _ _ => rfl, ?_⟩
    intro j x hj
    omega
  | succ n ih =>
    intro h MiniBuf pixels src mb' pixels' src' hr hbuf
    simp only [lbmRows] at hr
    rcases hp : lbmReadPlanes tcomp bytesperline (nbplanes + stencil) 0 MiniBuf src
      with e | ⟨mb1, s1⟩
    · rw [hp] at hr; cases hr
    rw [hp] at hr
    simp only at hr
    have hbuf1 : (h + 1) * (8 * q) ≤ pixels.length := by
      have : (h + 1) * (8 * q) ≤ (h + (n + 1)) * (8 * q) :=
        Nat.mul_le_mul_right _ (by omega)
      omega
    obtain ⟨a1, a2, a3⟩ := lbmStoreRow_ilbm mb1 colormap pixels q bytesperline nbplanes stencil h
      hpl hbuf1
    obtain ⟨i1, i2, i3, i4⟩ := ih (h + 1) mb1 _ s1 mb' pixels' src' hr
      (by rw [a1]; have e : h + 1 + n = h + (n + 1) := by omega
          rw [e]; exact hbuf)
    have hb : lbmRowBuffers tcomp bytesperline (nbplanes + stencil) (n + 1) MiniBuf src
        = mb1 :: lbmRowBuffers tcomp bytesperline (nbplanes + stencil) n mb1 s1 := by
      simp only [lbmRowBuffers, hp]
    rw [hb]
    refine ⟨by simp [i1], by rw [i2, a1], ?_, ?_⟩
    · intro k hk
      rw [i3 k (by rw [Nat.add_mul]; omega), a2 k hk]
    · intro j x hj hx
      cases j with
      | zero =>
        simp only [Nat.add_zero, List.getD_cons_zero]
        rw [i3 _ (by rw [Nat.add_mul]; omega), a3 x hx]
      | succ j =>
        simp only [List.getD_cons_succ]
        have e : h + (j + 1) = h + 1 + j := by omega
        rw [e]
        exact i4 j x (by omega) hx

theorem lbmDecode_ok (env : Env) (pbm : Bool) (st : LBMChunks) (s src' : SDL_IOStream)
    (img : SDL_Surface) (h : lbmDecode env pbm st s = Except.ok (img, src')) :
    ∃ (Image0 : SDL_Surface) (mb pixels : List Nat),
      lbmCreateImage env pbm st = some Image0 ∧
      lbmRows st.colormap pbm st.bmhd.tcomp (lbmWidth st) (lbmBytesPerLine pbm st)
        (lbmPlanes pbm st) (lbmStencil st) st.flagHAM st.bmhd.h 0
        ((List.range (lbmBytesPerLine pbm st * (lbmPlanes pbm st + lbmStencil st))).map
          fun i => env.uninit i % 256) Image0.pixels s = Except.ok (mb, pixels, src') ∧
      img.pixels = pixels ∧ img.w = Image0.w ∧ img.h = Image0.h ∧ img.pitch = Image0.pitch ∧
      img.format = Image0.format := by
  unfold lbmDecode at h
  split at h
  · cases h
  simp only at h
  rcases hc : lbmCreateImage env pbm st with _ | Image0
  · rw [hc] at h; cases h
  rw [hc] at h
  simp only at h
  obtain ⟨_, _, _, c4, _, _, _, c8, _⟩ := lbmCreateImage_some env pbm st Image0 hc
  rcases hu : lbmUpdatePalette env pbm st Image0 with _ | Image1
  · rw [hu] at h; cases h
  rw [hu] at h
  simp only at h
  have e1 := lbmUpdatePalette_some env pbm st Image0 Image1 c4 c8 (Or.inl hu)
  rw [e1] at h
  simp only at h
  split at h
  · cases h
  · rename_i mb pixels s2 hr
    simp only [Except.ok.injEq, Prod.mk.injEq] at h
    obtain ⟨rfl, rfl⟩ := h
    exact ⟨Image0, mb, pixels, rfl, hr, rfl, rfl, rfl, rfl, rfl⟩

/-- With the palette allocation succeeding, a surface that `IMG_LoadLBM_IO`
returns for a non-HAM picture with a plane count other than 24 is the one the
row loop has filled. -/
theorem lbmReturns_decoded (env : Env) (pbm : Bool) (st : LBMChunks) (s src' : SDL_IOStream)
    (img : SDL_Surface) (h : lbmReturns env pbm st s img src')
    (hpal : env.paletteOk = true) (hham : st.flagHAM = 0) (hpl : lbmPlanes pbm st ≠ 24) :
    lbmDecode env pbm st s = Except.ok (img, src') := by
  rcases h with h | h
  · exact h
  exfalso
  unfold lbmDecode at h
  split at h
  · simp [lbmFail] at h
  simp only at h
  rcases hc : lbmCreateImage env pbm st with _ | Image0
  · rw [hc] at h; simp at h
  rw [hc] at h
  simp only at h
  obtain ⟨_, _, _, c4, _, _, _, c8, _⟩ := lbmCreateImage_some env pbm st Image0 hc
  rcases hu : lbmUpdatePalette env pbm st Image0 with _ | Image1
  · unfold lbmUpdatePalette at hu
    split at hu
    · have hfmt : lbmFormat pbm st = SDL_PixelFormat.SDL_PIXELFORMAT_INDEX8 := by
        unfold lbmFormat
        rw [if_neg (by omega)]
      have : SDL_CreateSurfacePalette env Image0 ≠ none := by
        rw [SDL_CreateSurfacePalette_eq, if_pos ⟨hpal, by rw [c4, hfmt]⟩]
        exact fun hh => Option.noConfusion hh
      split at hu
      · rename_i hn
        exact this hn
      · cases hu
    · cases hu
  rw [hu] at h
  simp only at h
  split at h
  · simp at h
  · cases h

theorem lbmRunVisits_inv : ∀ (fuel : Nat) (st0 : LBMRun),
    st0.ptr + st0.remainingbytes ≤ st0.MiniBuf.length →
    ∀ st ∈ lbmRunVisits fuel st0,
      st.MiniBuf.length = st0.MiniBuf.length ∧ st0.ptr ≤ st.ptr ∧
      st.ptr + st.remainingbytes = st0.ptr + st0.remainingbytes := by
  intro fuel
  induction fuel with
  | zero => intro st0 _ st hst; simp [lbmRunVisits] at hst
  | succ fuel ih =>
    intro st0 hb st hst
    simp only [lbmRunVisits, List.mem_cons] at hst
    rcases hst with rfl | hst
    · exact ⟨rfl, Nat.le_refl _, rfl⟩
    · rcases hs : lbmRunStep st0 with e | st1
      · rw [hs] at hst; simp at hst
      · rw [hs] at hst
        simp only at hst
        obtain ⟨bytes, h1, h2, h3, h4, h5⟩ := lbmRunStep_ok st0 st1 hs
        have hlen : st1.MiniBuf.length = st0.MiniBuf.length := by
          rw [h5]; exact memWrite_length _ _ _ (by omega)
        split at hst
        · obtain ⟨i1, i2, i3⟩ := ih st1 (by rw [hlen, h3, h4]; omega) st hst
          exact ⟨by rw [i1, hlen], by omega, by rw [i3, h3, h4]; omega⟩
        · simp at hst

theorem lbmRunVisits_overflow : ∀ (fuel : Nat) (st0 : LBMRun),
    st0.remainingbytes < fuel →
    ∀ st ∈ lbmRunVisits fuel st0, ∀ (c : Fin 256) (rest : List (Fin 256)),
      st.src.data.drop st.src.pos = c :: rest → lbmRequested c.val > st.remainingbytes →
      ∃ e, lbmRunLoop fuel st0 = some (Except.error e) := by
  intro fuel
  induction fuel with
  | zero => intro st0 h; omega
  | succ fuel ih =>
    intro st0 hf st hst c rest hc hreq
    simp only [lbmRunVisits, List.mem_cons] at hst
    rcases hst with rfl | hst
    · exact ⟨{ st with src := { st.src with pos := st.src.pos + 1 } },
        by simp only [lbmRunLoop, lbmRunStep_overflow st c rest hc hreq]⟩
    · rcases hs : lbmRunStep st0 with e | st1
      · rw [hs] at hst; simp at hst
      · rw [hs] at hst
        simp only at hst
        obtain ⟨bytes, h1, h2, h3, h4, h5⟩ := lbmRunStep_ok st0 st1 hs
        by_cases hrem : st1.remainingbytes > 0
        · rw [if_pos hrem] at hst
          obtain ⟨e, he⟩ := ih st1 (by omega) st hst c rest hc hreq
          exact ⟨e, by simp only [lbmRunLoop, hs, hrem, if_true, he]⟩
        · rw [if_neg hrem] at hst
          simp at hst

theorem lbmReadPlanes_length (tcomp bpl : Nat) :
    ∀ (n plane : Nat) (MiniBuf : List Nat) (src : SDL_IOStream) (mb' : List Nat)
      (s' : SDL_IOStream),
    (plane + n) * bpl ≤ MiniBuf.length →
    lbmReadPlanes tcomp bpl n plane MiniBuf src = Except.ok (mb', s') →
    mb'.length = MiniBuf.length := by
  intro n
  induction n with
  | zero =>
    intro plane MiniBuf src mb' s' _ h
    simp only [lbmReadPlanes, Except.ok.injEq, Prod.mk.injEq] at h
    rw [← h.1]
  | succ n ih =>
    intro plane MiniBuf src mb' s' hb h
    have e1 : (plane + (n + 1)) * bpl = plane * bpl + bpl + n * bpl := by ring
    have e2 : (plane + 1 + n) * bpl = plane * bpl + bpl + n * bpl := by ring
    simp only [lbmReadPlanes] at h
    by_cases ht : tcomp = 1
    · rw [if_pos ht] at h
      rcases hl : lbmRunLoop (bpl + 1) ⟨plane * bpl, bpl, MiniBuf, src⟩ with _ | (e | st1)
      · rw [hl] at h; cases h
      · rw [hl] at h; cases h
      · rw [hl] at h
        simp only at h
        obtain ⟨f1, _⟩ := lbmRunLoop_frame _ _ _ hl (by show plane * bpl + bpl ≤ MiniBuf.length; omega) st1
          (Or.inl rfl)
        have f1' : st1.MiniBuf.length = MiniBuf.length := f1
        rw [ih (plane + 1) st1.MiniBuf st1.src mb' s' (by rw [f1', e2]; omega) h, f1']
    · rw [if_neg ht] at h
      unfold orFail at h
      rcases hr : readExact src bpl with ⟨_ | b, s1⟩
      · rw [hr] at h; cases h
      · rw [hr] at h
        simp only at h
        obtain ⟨r1, r2, _⟩ := readExact_ok src bpl b s1 hr
        have hbl : b.length = bpl := by rw [r2, List.length_take]; omega
        have hml : (memWrite MiniBuf (plane * bpl) b).length = MiniBuf.length :=
          memWrite_length _ _ _ (by rw [hbl]; omega)
        rw [ih (plane + 1) _ s1 mb' s' (by rw [hml, e2]; omega) h, hml]

theorem lbmPlaneVisits_inv (tcomp bpl : Nat) :
    ∀ (n plane : Nat) (MiniBuf : List Nat) (src : SDL_IOStream),
    (plane + n) * bpl ≤ MiniBuf.length →
    ∀ st ∈ lbmPlaneVisits tcomp bpl n plane MiniBuf src,
      st.MiniBuf.length = MiniBuf.length ∧
      ∃ p, plane ≤ p ∧ p < plane + n ∧ p * bpl ≤ st.ptr ∧
        st.ptr + st.remainingbytes = (p + 1) * bpl := by
  intro n
  induction n with
  | zero => intro plane MiniBuf src _ st hst; simp [lbmPlaneVisits] at hst
  | succ n ih =>
    intro plane MiniBuf src hb st hst
    have e1 : (plane + (n + 1)) * bpl = plane * bpl + bpl + n * bpl := by ring
    have e2 : (plane + 1 + n) * bpl = plane * bpl + bpl + n * bpl := by ring
    have e3 : (plane + 1) * bpl = plane * bpl + bpl := by ring
    simp only [lbmPlaneVisits] at hst
    by_cases ht : tcomp = 1
    · rw [if_pos ht, List.mem_append] at hst
      rcases hst with hst | hst
      · obtain ⟨i1, i2, i3⟩ := lbmRunVisits_inv _ ⟨plane * bpl, bpl, MiniBuf, src⟩
          (by show plane * bpl + bpl ≤ MiniBuf.length; omega) st hst
        exact ⟨i1, plane, Nat.le_refl _, by omega, i2, by rw [i3, e3]⟩
      · rcases hl : lbmRunLoop (bpl + 1) ⟨plane * bpl, bpl, MiniBuf, src⟩ with _ | (e | st1)
        · rw [hl] at hst; simp at hst
        · rw [hl] at hst; simp at hst
        · rw [hl] at hst
          simp only at hst
          obtain ⟨f1, _⟩ := lbmRunLoop_frame _ _ _ hl (by show plane * bpl + bpl ≤ MiniBuf.length; omega) st1
            (Or.inl rfl)
          have f1' : st1.MiniBuf.length = MiniBuf.length := f1
          obtain ⟨j1, p, j2, j3, j4, j5⟩ := ih (plane + 1) st1.MiniBuf st1.src
            (by rw [f1', e2]; omega) st hst
          exact ⟨by rw [j1, f1'], p, by omega, by omega, j4, j5⟩
    · rw [if_neg ht] at hst
      rcases hr : readExact src bpl with ⟨_ | b, s1⟩
      · rw [hr] at hst; simp at hst
      · rw [hr] at hst
        simp only at hst
        obtain ⟨r1, r2, _⟩ := readExact_ok src bpl b s1 hr
        have hbl : b.length = bpl := by rw [r2, List.length_take]; omega
        have hml : (memWrite MiniBuf (plane * bpl) b).length = MiniBuf.length :=
          memWrite_length _ _ _ (by rw [hbl]; omega)
        obtain ⟨j1, p, j2, j3, j4, j5⟩ := ih (plane + 1) _ s1 (by rw [hml, e2]; omega) st hst
        exact ⟨by rw [j1, hml], p, by omega, by omega, j4, j5⟩

theorem lbmPlaneVisits_overflow (tcomp bpl : Nat) :
    ∀ (n plane : Nat) (MiniBuf : List Nat) (src : SDL_IOStream),
    ∀ st ∈ lbmPlaneVisits tcomp bpl n plane MiniBuf src,
    ∀ (c : Fin 256) (rest : List (Fin 256)),
      st.src.data.drop st.src.pos = c :: rest → lbmRequested c.val > st.remainingbytes →
      ∃ e, lbmReadPlanes tcomp bpl n plane MiniBuf src = Except.error e := by
  intro n
  induction n with
  | zero => intro plane MiniBuf src st hst; simp [lbmPlaneVisits] at hst
  | succ n ih =>
    intro plane MiniBuf src st hst c rest hc hreq
    simp only [lbmPlaneVisits] at hst
    simp only [lbmReadPlanes]
    by_cases ht : tcomp = 1
    · rw [if_pos ht, List.mem_append] at hst
      rw [if_pos ht]
      rcases hst with hst | hst
      · obtain ⟨e, he⟩ := lbmRunVisits_overflow _ ⟨plane * bpl, bpl, MiniBuf, src⟩
          (Nat.lt_succ_self _) st hst c rest hc hreq
        rw [he]
        exact ⟨_, rfl⟩
      · rcases hl : lbmRunLoop (bpl + 1) ⟨plane * bpl, bpl, MiniBuf, src⟩ with _ | (e | st1)
        · rw [hl] at hst; simp at hst
        · rw [hl] at hst; simp at hst
        · rw [hl] at hst
          simp only at hst
          exact ih (plane + 1) st1.MiniBuf st1.src st hst c rest hc hreq
    · rw [if_neg ht] at hst
      rw [if_neg ht]
      unfold orFail
      rcases hr : readExact src bpl with ⟨_ | b, s1⟩
      · rw [hr] at hst; simp at hst
      · rw [hr] at hst
        simp only at hst
        exact ih (plane + 1) _ s1 st hst c rest hc hreq

theorem lbmRowVisits_inv (tcomp bpl nplanes : Nat) :
    ∀ (n : Nat) (MiniBuf : List Nat) (src : SDL_IOStream),
    nplanes * bpl ≤ MiniBuf.length →
    ∀ st ∈ lbmRowVisits tcomp bpl nplanes n MiniBuf src,
      st.MiniBuf.length = MiniBuf.length ∧
      ∃ p, p < nplanes ∧ p * bpl ≤ st.ptr ∧ st.ptr + st.remainingbytes = (p + 1) * bpl := by
  intro n
  induction n with
  | zero => intro MiniBuf src _ st hst; simp [lbmRowVisits] at hst
  | succ n ih =>
    intro MiniBuf src hb st hst
    simp only [lbmRowVisits, List.mem_append] at hst
    rcases hst with hst | hst
    · obtain ⟨i1, p, _, i3, i4, i5⟩ := lbmPlaneVisits_inv tcomp bpl nplanes 0 MiniBuf src
        (by rw [Nat.zero_add]; exact hb) st hst
      exact ⟨i1, p, by omega, i4, i5⟩
    · rcases hp : lbmReadPlanes tcomp bpl nplanes 0 MiniBuf src with e | ⟨mb1, s1⟩
      · rw [hp] at hst; simp at hst
      · rw [hp] at hst
        simp only at hst
        have hl := lbmReadPlanes_length tcomp bpl nplanes 0 MiniBuf src mb1 s1
          (by rw [Nat.zero_add]; exact hb) hp
        obtain ⟨j1, j2⟩ := ih mb1 s1 (by rw [hl]; exact hb) st hst
        exact ⟨by rw [j1, hl], j2⟩

theorem lbmRowVisits_overflow (colormap : List Nat) (pbm : Bool)
    (tcomp width bpl nbplanes stencil flagHAM : Nat) :
    ∀ (n h : Nat) (MiniBuf pixels : List Nat) (src : SDL_IOStream),
    ∀ st ∈ lbmRowVisits tcomp bpl (nbplanes + stencil) n MiniBuf src,
    ∀ (c : Fin 256) (rest : List (Fin 256)),
      st.src.data.drop st.src.pos = c :: rest → lbmRequested c.val > st.remainingbytes →
      ∃ e, lbmRows colormap pbm tcomp width bpl nbplanes stencil flagHAM n h MiniBuf pixels src
        = Except.error e := by
  intro n
  induction n with
  | zero => intro h MiniBuf pixels src st hst; simp [lbmRowVisits] at hst
  | succ n ih =>
    intro h MiniBuf pixels src st hst c rest hc hreq
    simp only [lbmRowVisits, List.mem_append] at hst
    simp only [lbmRows]
    rcases hst with hst | hst
    · obtain ⟨e, he⟩ := lbmPlaneVisits_overflow tcomp bpl (nbplanes + stencil) 0 MiniBuf src st hst
        c rest hc hreq
      rw [he]
      exact ⟨_, rfl⟩
    · rcases hp : lbmReadPlanes tcomp bpl (nbplanes + stencil) 0 MiniBuf src with e | ⟨mb1, s1⟩
      · rw [hp] at hst; simp at hst
      · rw [hp] at hst
        simp only at hst
        exact ih (h + 1) mb1 _ s1 st hst c rest hc hreq

/-- What it takes for the decode to reach the byte-run loop in the state
`st`: the chunk walk ended at `BODY`, the allocations succeeded, and `st` is
a state of the row loop. -/
theorem lbmByteRunStates_mem (env : Env) (src : SDL_IOStream) (st : LBMRun)
    (h : st ∈ lbmByteRunStates env src) :
    ∃ pbm ch s Image0 Image1, lbmWalk env src = Except.ok (pbm, ch, s) ∧
      env.mallocOk = true ∧ lbmCreateImage env pbm ch = some Image0 ∧
      lbmUpdatePalette env pbm ch Image0 = some Image1 ∧
      st ∈ lbmRowVisits ch.bmhd.tcomp (lbmBytesPerLine pbm ch)
        (lbmPlanes pbm ch + lbmStencil ch) ch.bmhd.h
        ((List.range (lbmBytesPerLine pbm ch * (lbmPlanes pbm ch + lbmStencil ch))).map
          fun i => env.uninit i % 256) s := by
  unfold lbmByteRunStates at h
  rcases hw : lbmWalk env src with d | ⟨pbm, ch, s⟩
  · rw [hw] at h; simp at h
  rw [hw] at h
  simp only at h
  cases hm : env.mallocOk
  · rw [hm] at h; simp at h
  rw [hm] at h
  simp only [Bool.not_true, Bool.false_eq_true, if_false] at h
  rcases hc : lbmCreateImage env pbm ch with _ | Image0
  · rw [hc] at h; simp at h
  rw [hc] at h
  simp only at h
  rcases hu : lbmUpdatePalette env pbm ch Image0 with _ | Image1
  · rw [hu] at h; simp at h
  rw [hu] at h
  exact ⟨pbm, ch, s, Image0, Image1, rfl, rfl, hc, hu, h⟩

theorem lbmByteRunStates_overflow (env : Env) (src : SDL_IOStream) (st : LBMRun)
    (h : st ∈ lbmByteRunStates env src) (c : Fin 256) (rest : List (Fin 256))
    (hc : st.src.data.drop st.src.pos = c :: rest)
    (hreq : lbmRequested c.val > st.remainingbytes) :
    ( IMG_LoadLBM_IO env src).1 = none := by
  obtain ⟨pbm, ch, s, Image0, Image1, hw, hm, hci, hu, hmem⟩ := lbmByteRunStates_mem env src st h
  obtain ⟨e, he⟩ := lbmRowVisits_overflow ch.colormap pbm ch.bmhd.tcomp (lbmWidth ch)
    (lbmBytesPerLine pbm ch) (lbmPlanes pbm ch) (lbmStencil ch) ch.flagHAM ch.bmhd.h 0 _
    Image1.pixels s st hmem c rest hc hreq
  have hd : lbmDecode env pbm ch s
      = Except.error ⟨some "error reading BODY chunk", some Image1, e⟩ := by
    unfold lbmDecode
    simp only [hm, Bool.not_true, Bool.false_eq_true, if_false, hci, hu, he]
  unfold IMG_LoadLBM_IO IMG_LoadLBM_IO_body
  simp only [hw, hd]
  rfl

/-! ## Failure of a decode -/

/-- C2. When a decode by `IMG_LoadICO_IO`, `IMG_LoadCUR_IO` or
`IMG_LoadTGA_IO` fails - the body leaves through `goto done` with `was_error`
set, respectively through `goto error` / `goto unsupported`, whatever the
reason - no buffer is returned and the stream position after the call is the
position at entry. -/
theorem decode_failure_restores_position (env : Env) (src : SDL_IOStream) :
    (∀ e, LoadICOCUR_IO_body env src ICON_TYPE_ICO = Except.error e →
      ( IMG_LoadICO_IO env src).1 = none ∧ ( IMG_LoadICO_IO env src).2.pos = src.pos) ∧
    (∀ e, LoadICOCUR_IO_body env src ICON_TYPE_CUR = Except.error e →
      ( IMG_LoadCUR_IO env src).1 = none ∧ ( IMG_LoadCUR_IO env src).2.pos = src.pos) ∧
    (∀ e, IMG_LoadTGA_IO_body env src = Except.error e →
      ( IMG_LoadTGA_IO env src).1 = none ∧ ( IMG_LoadTGA_IO env src).2.pos = src.pos) := by
  refine ⟨?_, ?_, ?_⟩
  · intro e h
    simp only [ IMG_LoadICO_IO, LoadICOCUR_IO, h, SDL_SeekIO_set_tell]
    simp
  · intro e h
    simp only [ IMG_LoadCUR_IO, LoadICOCUR_IO, h, SDL_SeekIO_set_tell]
    simp
  · intro e h
    simp only [ IMG_LoadTGA_IO, h, SDL_SeekIO_set_tell]
    simp

/-- C2, at concrete inputs: the five-byte stream `00 00 01 00 00` read from
position 1 fails as an icon, as a cursor and as a TGA file, and each decoder
returns no buffer and leaves the position at 1. -/
theorem decode_failure_restores_position_witness :
    (LoadICOCUR_IO_body envOk ⟨[0, 0, 0, 1, 0, 0], 1⟩ ICON_TYPE_ICO
        = Except.error ⟨[0, 0, 0, 1, 0, 0], 6⟩ ∧
      ( IMG_LoadICO_IO envOk ⟨[0, 0, 0, 1, 0, 0], 1⟩).1 = none ∧
      ( IMG_LoadICO_IO envOk ⟨[0, 0, 0, 1, 0, 0], 1⟩).2.pos = 1) ∧
    (LoadICOCUR_IO_body envOk ⟨[0, 0, 0, 1, 0, 0], 1⟩ ICON_TYPE_CUR
        = Except.error ⟨[0, 0, 0, 1, 0, 0], 6⟩ ∧
      ( IMG_LoadCUR_IO envOk ⟨[0, 0, 0, 1, 0, 0], 1⟩).1 = none ∧
      ( IMG_LoadCUR_IO envOk ⟨[0, 0, 0, 1, 0, 0], 1⟩).2.pos = 1) ∧
    (IMG_LoadTGA_IO_body envOk ⟨[0, 0, 0, 1, 0, 0], 1⟩
        = Except.error ⟨[0, 0, 0, 1, 0, 0], 6⟩ ∧
      ( IMG_LoadTGA_IO envOk ⟨[0, 0, 0, 1, 0, 0], 1⟩).1 = none ∧
      ( IMG_LoadTGA_IO envOk ⟨[0, 0, 0, 1, 0, 0], 1⟩).2.pos = 1) :=
  ⟨⟨rfl, (decode_failure_restores_position envOk ⟨[0, 0, 0, 1, 0, 0], 1⟩).1
      ⟨[0, 0, 0, 1, 0, 0], 6⟩ rfl⟩,
   ⟨rfl, (decode_failure_restores_position envOk ⟨[0, 0, 0, 1, 0, 0], 1⟩).2.1
      ⟨[0, 0, 0, 1, 0, 0], 6⟩ rfl⟩,
   ⟨rfl, (decode_failure_restores_position envOk ⟨[0, 0, 0, 1, 0, 0], 1⟩).2.2
      ⟨[0, 0, 0, 1, 0, 0], 6⟩ rfl⟩⟩

/-- C3, the code at its failing inputs. On the well-formed file `lbmSample`,
when `SDL_CreateSurface` fails `IMG_LoadLBM_IO` returns no buffer but leaves
the stream at offset 62, behind the BODY chunk header, not at the entry
position 0; when `SDL_CreateSurfacePalette` fails it returns the surface, all
pixels still zero and without a palette, again with the stream at offset 62.
(With both allocations working the same file decodes.) -/
theorem lbm_allocation_failure_not_restored :
    IMG_LoadLBM_IO envNoSurface ⟨lbmSample, 0⟩ = (none, ⟨lbmSample, 62⟩) ∧
    ( IMG_LoadLBM_IO envNoPalette ⟨lbmSample, 0⟩).2 = ⟨lbmSample, 62⟩ ∧
    ( IMG_LoadLBM_IO envNoPalette ⟨lbmSample, 0⟩).1.map (fun i => (i.pixels, i.palette))
      = some (List.replicate 16 0, none) ∧
    ( IMG_LoadLBM_IO envOk ⟨lbmSample, 0⟩).1.map (fun i => i.pixels)
      = some [1, 0, 1, 0, 0, 1, 0, 1, 0, 0, 0, 0, 0, 0, 0, 0] := by
  refine ⟨?_, ?_, ?_, ?_⟩ <;> decide

/-- C4, the code at its failing input. In the icon `icoTwo` the first
directory entry has the highest colour count (byte 0, that is 256) and the
second has 16. The directory loop ends with `maxCol = 16` and the offset 86 of
the second entry, and the decoded image is the second one (colour 0x222222),
not the first (colour 0x111111). -/
theorem ico_selects_entry_after_256_colours :
    (icoDirLoop 2 ICON_TYPE_ICO ⟨0, 0, 0, 0⟩ ⟨icoTwo, 6⟩).toOption.map (fun r => r.1)
      = some ⟨16, 86, 0, 0⟩ ∧
    ( IMG_LoadICO_IO envOk ⟨icoTwo, 0⟩).1.map (fun i => i.pixels)
      = some [0x22, 0x22, 0x22, 0xFF] := by
  refine ⟨?_, ?_⟩ <;> decide

/-! ## Byte-run decompression and row conversion (ILBM) -/

/-- C7, the claim at a concrete input. With three bytes still to fill, the
control byte 0xFF (signed value -1) followed by 0xAA writes two copies of
0xAA, not `2 - (-1) = 3`: one byte of the scratch row is left to fill. -/
theorem byte_run_ff_writes_two :
    lbmRunStep ⟨0, 3, [9, 9, 9], ⟨[0xFF, 0xAA], 0⟩⟩
      = Except.ok ⟨2, 1, [0xAA, 0xAA, 9], ⟨[0xFF, 0xAA], 2⟩⟩ ∧
    (2 - (-1 : Int)).toNat = 3 ∧
    [0xAA, 0xAA, 9] ≠ memWrite [9, 9, 9] 0 (List.replicate (2 - (-1 : Int)).toNat 0xAA) := by
  refine ⟨rfl, by decide, by decide⟩

/-- C7, as amended. In the byte-run decompression of a plane row, a control
byte `c` whose signed value `v = c - 256` lies in [-127, -1], followed by a
byte `color`, writes `color` exactly `1 - v` times (`257 - c`) at the write
pointer and advances it by as much, provided that many bytes remain to fill
(so 0xFF yields 2 copies). -/
theorem byte_run_repeat_count (st : LBMRun) (c color : Fin 256) (rest : List (Fin 256))
    (v : Int) (hs : st.src.data.drop st.src.pos = c :: color :: rest)
    (hv : v = (c.val : Int) - 256) (hlo : -127 ≤ v) (hhi : v ≤ -1)
    (hfit : (1 - v).toNat ≤ st.remainingbytes) :
    lbmRunStep st = Except.ok
      { ptr := st.ptr + (1 - v).toNat,
        remainingbytes := st.remainingbytes - (1 - v).toNat,
        MiniBuf := memWrite st.MiniBuf st.ptr (List.replicate (1 - v).toNat color.val),
        src := { st.src with pos := st.src.pos + 2 } } := by
  have hc : 128 ≤ c.val := by omega
  have hn : (1 - v).toNat = 257 - c.val := by
    have := hhi
    omega
  rw [hn] at hfit ⊢
  exact lbmRunStep_repeat st c color rest hs hc hfit

/-- C7 as amended, at a concrete input: 0xFF 0xAA fills a two-byte row. -/
theorem byte_run_repeat_count_witness :
    lbmRunStep ⟨0, 2, [9, 9], ⟨[0xFF, 0xAA], 0⟩⟩ = Except.ok
      { ptr := 0 + (1 - (-1 : Int)).toNat,
        remainingbytes := 2 - (1 - (-1 : Int)).toNat,
        MiniBuf := memWrite [9, 9] 0 (List.replicate (1 - (-1 : Int)).toNat 0xAA),
        src := { data := [0xFF, 0xAA], pos := 0 + 2 } } :=
  byte_run_repeat_count ⟨0, 2, [9, 9], ⟨[0xFF, 0xAA], 0⟩⟩ 0xFF 0xAA [] (-1) rfl (by decide)
    (by decide) (by decide) (by decide)

/-- C8. In the byte-run decompression of the plane rows of a decode by
`IMG_LoadLBM_IO` (`lbmByteRunStates`: the states in which the passes of the
byte-run loop start during the decode): (1) when the control byte at the
stream position of such a state asks for more bytes than remain to fill
(`c + 1` for `c < 128`, `257 - c` otherwise), the pass fails with the scratch
buffer exactly as it was, only the control byte consumed, and
`IMG_LoadLBM_IO` returns no surface; (2) in every such state the bytes still
to fill are the end of the row of one plane, inside the scratch buffer of
`bytesperline * (nbplanes + stencil)` bytes, and the pass, ending well or
not, stores only into these bytes. For any state `st` of the loop: (3) an
oversize packet stops the loop and the plane loop in failure with the buffer
as it was; (4) when the row lies inside the buffer the loop, ending well or
not, leaves the buffer at its length and every byte outside the
`remainingbytes` bytes at `ptr` as it was; (5) the loop ends within
`remainingbytes + 1` passes. -/
theorem byte_run_overflow_fails (env : Env) (src : SDL_IOStream) :
    (∀ st ∈ lbmByteRunStates env src, ∀ (c : Fin 256) (rest : List (Fin 256)),
      st.src.data.drop st.src.pos = c :: rest → lbmRequested c.val > st.remainingbytes →
      lbmRunStep st = Except.error { st with src := { st.src with pos := st.src.pos + 1 } } ∧
      ( IMG_LoadLBM_IO env src).1 = none) ∧
    (∀ st ∈ lbmByteRunStates env src,
      ∃ pbm ch s plane, lbmWalk env src = Except.ok (pbm, ch, s) ∧
        plane < lbmPlanes pbm ch + lbmStencil ch ∧
        st.MiniBuf.length = lbmBytesPerLine pbm ch * (lbmPlanes pbm ch + lbmStencil ch) ∧
        plane * lbmBytesPerLine pbm ch ≤ st.ptr ∧
        st.ptr + st.remainingbytes = (plane + 1) * lbmBytesPerLine pbm ch ∧
        ∀ st', (lbmRunStep st = Except.ok st' ∨ lbmRunStep st = Except.error st') →
          ∃ bytes : List Nat, bytes.length ≤ st.remainingbytes ∧
            st'.MiniBuf = memWrite st.MiniBuf st.ptr bytes) ∧
    (∀ st : LBMRun,
      (∀ (c : Fin 256) (rest : List (Fin 256)),
        st.src.data.drop st.src.pos = c :: rest → lbmRequested c.val > st.remainingbytes →
        (∀ fuel, lbmRunLoop (fuel + 1) st
          = some (Except.error { st with src := { st.src with pos := st.src.pos + 1 } })) ∧
        (∀ n plane, st.ptr = plane * st.remainingbytes →
          lbmReadPlanes 1 st.remainingbytes (n + 1) plane st.MiniBuf st.src
            = Except.error { st.src with pos := st.src.pos + 1 })) ∧
      (st.ptr + st.remainingbytes ≤ st.MiniBuf.length →
        ∀ fuel r st', lbmRunLoop fuel st = some r → (r = Except.ok st' ∨ r = Except.error st') →
          st'.MiniBuf.length = st.MiniBuf.length ∧
          ∀ k, (k < st.ptr ∨ st.ptr + st.remainingbytes ≤ k) →
            st'.MiniBuf[k]? = st.MiniBuf[k]?) ∧
      lbmRunLoop (st.remainingbytes + 1) st ≠ none) := by
  refine ⟨?_, ?_, ?_⟩
  · intro st hst c rest hc hreq
    exact ⟨lbmRunStep_overflow st c rest hc hreq,
      lbmByteRunStates_overflow env src st hst c rest hc hreq⟩
  · intro st hst
    obtain ⟨pbm, ch, s, Image0, Image1, hw, hm, hci, hu, hmem⟩ :=
      lbmByteRunStates_mem env src st hst
    obtain ⟨i1, p, i2, i3, i4⟩ := lbmRowVisits_inv _ _ _ _ _ _
      (by rw [List.length_map, List.length_range, Nat.mul_comm]) st hmem
    rw [List.length_map, List.length_range] at i1
    refine ⟨pbm, ch, s, p, hw, i2, i1, i3, i4, ?_⟩
    intro st' hs
    rcases hs with hs | hs
    · obtain ⟨bytes, _, b2, _, _, b5⟩ := lbmRunStep_ok st st' hs
      exact ⟨bytes, b2, b5⟩
    · obtain ⟨bytes, b1, _, _, b4⟩ := lbmRunStep_error st st' hs
      exact ⟨bytes, b1, b4⟩
  · intro st
    refine ⟨?_, ?_, lbmRunLoop_fuel _ st (by omega)⟩
    · intro c rest hs hreq
      have hstep := lbmRunStep_overflow st c rest hs hreq
      have hloop : ∀ fuel, lbmRunLoop (fuel + 1) st
          = some (Except.error { st with src := { st.src with pos := st.src.pos + 1 } }) := by
        intro fuel
        simp only [lbmRunLoop, hstep]
      refine ⟨hloop, ?_⟩
      intro n plane hptr
      have := hloop st.remainingbytes
      simp only [lbmReadPlanes, if_true, ← hptr]
      cases st
      simp_all
    · intro hb fuel r st' h hr
      exact lbmRunLoop_frame fuel st r h hb st' hr

set_option maxRecDepth 1000000 in
/-- C8, at a concrete input: in `lbmOverflowSample` the first control byte, 2,
asks for three literal bytes for a row of two; the byte-run loop is entered
once, with the scratch row `[0, 0]`, and the decode returns no surface. -/
theorem byte_run_overflow_fails_witness :
    lbmByteRunStates envOk ⟨lbmOverflowSample, 0⟩ = [⟨0, 2, [0, 0], ⟨lbmOverflowSample, 48⟩⟩] ∧
    lbmRequested (2 : Fin 256).val > 2 ∧
    lbmRunStep ⟨0, 2, [0, 0], ⟨lbmOverflowSample, 48⟩⟩
      = Except.error ⟨0, 2, [0, 0], ⟨lbmOverflowSample, 49⟩⟩ ∧
    ( IMG_LoadLBM_IO envOk ⟨lbmOverflowSample, 0⟩).1 = none :=
  ⟨by decide, by decide,
    (byte_run_overflow_fails envOk ⟨lbmOverflowSample, 0⟩).1
      ⟨0, 2, [0, 0], ⟨lbmOverflowSample, 48⟩⟩ (by decide) 2 [1, 2, 3] (by decide) (by decide)⟩

set_option maxRecDepth 1000000 in
/-- C9, the code at its failing input. With six planes and the running colour
red 10, green 20, blue 30 (0x1E140A), the pixel value 0x20 ("modify only red
component", data 0) gives 0x1E1600: red 0 but green 22, because the two
selector bits of the value are shifted into bits 8-9 with the data; likewise
0x30 ("modify only green", data 0) on colour 0 gives 0x030000, blue 3. In the
decode of `lbmHamSample` the first two pixels come out as blue, green, red =
30, 20, 10 and 30, 22, 0. -/
theorem ham_modify_touches_other_channel :
    lbmHAM [] 6 0x1E140A 0x20 = 0x1E1600 ∧
    lbmHAM [] 6 0 0x30 = 0x030000 ∧
    ( IMG_LoadLBM_IO envOk ⟨lbmHamSample, 0⟩).1.map (fun i => i.pixels.take 6)
      = some [30, 20, 10, 30, 22, 0] := by
  refine ⟨by decide, by decide, rfl⟩

set_option maxRecDepth 1000000 in
/-- C10, the claim at a concrete input. With eight colour planes and the
stencil plane, when only the stencil plane has the bit of pixel 0 set the
byte stored for pixel 0 is 0, while the sum of the claim is `2 ^ 8 = 256`. -/
theorem ilbm_stencil_bit_dropped :
    getByte (lbmStoreRow planesStencilOnly [] false 16 2 8 1 0 0 (List.replicate 16 0)) 0 = 0 ∧
    (∑ p ∈ Finset.range (8 + 1), planeBit planesStencilOnly 2 p 0 * 2 ^ p) = 256 := by
  refine ⟨rfl, rfl⟩

/-- C10, as amended. In a decode by `IMG_LoadLBM_IO` of an interleaved (ILBM)
picture that returns a surface, not HAM, with fewer than 24 planes and the
palette allocation succeeding: the surface is Indexed8 with the padded width
as its stride, every row has its scratch buffer (`lbmScratchRows`, the buffer
as the plane loop left it for that row), and for every row `h` and every
pixel `x` below the padded width the byte of the surface at `(x, h)` is the
sum over the planes `p < plane_count + stencil` of bit `7 - x mod 8` of byte
`x / 8` of the scratch row of plane `p` of row `h`, times `2 ^ p`, reduced
modulo 256: the output is one byte, so the planes from 8 upwards contribute
nothing. -/
theorem ilbm_deinterleave_mod_256 (env : Env) (src src' s : SDL_IOStream) (st : LBMChunks)
    (img : SDL_Surface)
    (hwalk : lbmWalk env src = Except.ok (false, st, s))
    (hdec : IMG_LoadLBM_IO env src = (some img, src'))
    (hpal : env.paletteOk = true) (hham : st.flagHAM = 0) (hpl : st.bmhd.planes < 24) :
    img.format = SDL_PixelFormat.SDL_PIXELFORMAT_INDEX8 ∧ img.w = lbmWidth st ∧
    img.h = st.bmhd.h ∧ img.pitch = img.w ∧ img.pixels.length = img.h * img.w ∧
    (lbmScratchRows env src).length = img.h ∧
    ∀ h x, h < img.h → x < img.w →
      getByte img.pixels (h * img.w + x)
        = (∑ p ∈ Finset.range (st.bmhd.planes + lbmStencil st),
            planeBit ((lbmScratchRows env src).getD h []) (lbmBytesPerLine false st) p x
              * 2 ^ p) % 256 := by
  obtain ⟨pbm1, st1, s1, hw1, hret⟩ := IMG_LoadLBM_IO_some env src src' img hdec
  rw [hwalk] at hw1
  simp only [Except.ok.injEq, Prod.mk.injEq] at hw1
  obtain ⟨e1, e2, e3⟩ := hw1
  subst e1 e2 e3
  obtain ⟨hb, _⟩ := lbm_decode_facts env src src' s false st img hwalk hdec
  have hplanes : lbmPlanes false st = st.bmhd.planes := by simp [lbmPlanes]
  have hok := lbmReturns_decoded env false st s src' img hret hpal hham
    (by rw [hplanes]; omega)
  obtain ⟨Image0, mb, pixels, hc, hr, p1, p2, p3, p4, p5⟩ := lbmDecode_ok env false st s src' img hok
  obtain ⟨_, c2, c3, c4, c5, c6, _⟩ := lbmCreateImage_some env false st Image0 hc
  have hfmt : lbmFormat false st = SDL_PixelFormat.SDL_PIXELFORMAT_INDEX8 := by
    unfold lbmFormat
    rw [if_neg (by rw [hplanes]; omega)]
  have hwid : lbmWidth st = 8 * ((st.bmhd.w + 15) / 16 * 2) := by
    unfold lbmWidth
    rw [and_0xFFFFFFF0 _ (by have := hb.1; omega)]
    omega
  have hpitch : Image0.pitch = lbmWidth st := by
    rw [c5, hfmt, hwid]
    simp only [SDL_BYTESPERPIXEL]
    omega
  have hlen : Image0.pixels.length = st.bmhd.h * lbmWidth st := by
    rw [c6, List.length_replicate, hpitch, c3, Nat.mul_comm]
  rw [hplanes, hham, hwid] at hr
  obtain ⟨r1, r2, _, r4⟩ := lbmRows_ilbm st.colormap st.bmhd.tcomp ((st.bmhd.w + 15) / 16 * 2)
    (lbmBytesPerLine false st) st.bmhd.planes (lbmStencil st) (by omega) st.bmhd.h 0 _ _ _ _ _ _ hr
    (by rw [hlen, hwid, Nat.zero_add])
  have hsc : lbmScratchRows env src
      = lbmRowBuffers st.bmhd.tcomp (lbmBytesPerLine false st)
          (st.bmhd.planes + lbmStencil st) st.bmhd.h
          ((List.range (lbmBytesPerLine false st * (st.bmhd.planes + lbmStencil st))).map
            fun i => env.uninit i % 256) s := by
    unfold lbmScratchRows
    rw [hwalk]
    simp only [hplanes]
  rw [p2, p3, p4, p5, p1, c2, c3, c4, hsc]
  refine ⟨hfmt, rfl, rfl, hpitch, by rw [r2, hlen], r1, ?_⟩
  intro h x hh hx
  have := r4 h x hh (by rw [← hwid]; exact hx)
  rw [Nat.zero_add, ← hwid] at this
  rw [this]
  rfl

set_option maxRecDepth 1000000 in
/-- C10 as amended, at a concrete input: `lbmStencilSample`, one plane and a
stencil plane, 8x1 pixels; the scratch buffer of its one row holds 0xA5 for
plane 0. -/
theorem ilbm_deinterleave_mod_256_witness :
    lbmWalk envOk ⟨lbmStencilSample, 0⟩
      = Except.ok (false, ⟨cstr "BODY", ⟨8, 1, 0, 0, 1, 1, 0, 0, 0, 1, 1, 8, 1⟩,
          memWrite (List.replicate 768 0) 0 [10, 20, 30], 1, 0, 0⟩, ⟨lbmStencilSample, 60⟩) ∧
    IMG_LoadLBM_IO envOk ⟨lbmStencilSample, 0⟩ = (some lbmStencilImage, ⟨lbmStencilSample, 64⟩) ∧
    lbmScratchRows envOk ⟨lbmStencilSample, 0⟩ = [[0xA5, 0, 0, 0]] ∧
    getByte lbmStencilImage.pixels (0 * lbmStencilImage.w + 2)
      = (∑ p ∈ Finset.range (1 + 1),
          planeBit ((lbmScratchRows envOk ⟨lbmStencilSample, 0⟩).getD 0 []) 2 p 2 * 2 ^ p) % 256 :=
  ⟨rfl, rfl, by decide,
    (ilbm_deinterleave_mod_256 envOk ⟨lbmStencilSample, 0⟩ ⟨lbmStencilSample, 64⟩
      ⟨lbmStencilSample, 60⟩
      ⟨cstr "BODY", ⟨8, 1, 0, 0, 1, 1, 0, 0, 0, 1, 1, 8, 1⟩,
        memWrite (List.replicate 768 0) 0 [10, 20, 30], 1, 0, 0⟩
      lbmStencilImage rfl rfl rfl rfl (by decide)).2.2.2.2.2.2 0 2 (by decide) (by decide)⟩

/-! ## Run-length decoding and row order (TGA) -/

/-- C5. In a successful decode by `IMG_LoadTGA_IO` of a stream whose header
type is run-length (9, 10 or 11), the pixel bytes of the surface taken in
stream-row order (`tgaStreamPixels`: `w * Bpp` bytes of each of the `h` rows,
row `i` of the stream being row `i` of the buffer for an upper origin and row
`h - 1 - i` otherwise) are the first `w * h` pixels of the flat expansion
`tgaExpand` of the packet bytes that follow the header, the info field and
the colour map: a control byte `c < 128` followed by `c + 1` literal pixels,
a control byte `c ≥ 128` followed by one pixel repeated `(c & 0x7f) + 1`
times. The expansion knows nothing of rows, so a packet that crosses a row
boundary continues in the next row with no pixel duplicated or dropped. -/
theorem tga_rle_pixels_are_expansion (env : Env) (src src' : SDL_IOStream) (img : SDL_Surface)
    (hdec : IMG_LoadTGA_IO env src = (some img, src'))
    (hrle : (tgaHeaderAt src).type = 9 ∨ (tgaHeaderAt src).type = 10 ∨
      (tgaHeaderAt src).type = 11) :
    tgaStreamPixels img (tgaHeaderAt src)
      = (tgaExpand (SDL_BYTESPERPIXEL img.format)
          ((streamRest src).drop (tgaDataOffset (tgaHeaderAt src)))).take
            (img.w * img.h * SDL_BYTESPERPIXEL img.format) := by
  obtain ⟨rle, st', rows, ls', h1, h2, h3, h4, h5, h6, h7, h8⟩ :=
    tga_decode_rows env src src' img hdec
  have hrt : rle = true := by rw [h1]; exact decide_eq_true hrle
  subst hrt
  obtain ⟨r1, r2, r3⟩ := tgaRowsL_facts true img.w (SDL_BYTESPERPIXEL img.format) h3 img.h _ _
    st' rows ls' h7 (by simp) (Or.inl rfl)
    (fun b hb => streamRest_lt src b (List.mem_of_mem_drop hb))
  have hpend := r3 rfl
  have hp0 : tgaPend (SDL_BYTESPERPIXEL img.format)
      ⟨0, 0, (List.range 4).map fun j => env.uninit j % 256⟩
      ((streamRest src).drop (tgaDataOffset (tgaHeaderAt src)))
      = tgaExpand (SDL_BYTESPERPIXEL img.format)
          ((streamRest src).drop (tgaDataOffset (tgaHeaderAt src))) := by
    simp [tgaPend]
  rw [hp0] at hpend
  obtain ⟨_, rb⟩ := tga_writeRows_readback (tgaHeaderAt src) img.w img.h
    (SDL_BYTESPERPIXEL img.format) img.pitch (by rw [h6]; omega)
    (List.replicate (img.pitch * img.h) 0) (by simp) rows r1 r2
  have hsp : tgaStreamPixels img (tgaHeaderAt src) = rows.flatten := by
    unfold tgaStreamPixels
    have e : List.range img.h = List.range rows.length := by rw [r1]
    rw [e]
    apply flatten_map_getElem
    intro k hk
    unfold tgaStreamRow
    rw [h8]
    exact rb k hk
  have hlen : rows.flatten.length = img.w * img.h * SDL_BYTESPERPIXEL img.format := by
    rw [length_flatten_of_forall rows _ r2, r1]
    ring
  rw [hsp, hpend, ← hlen, List.take_left]

/-- C5, at a concrete input: a 3 x 2 true-colour image, lower origin, whose
run packet of four pixels crosses the row boundary. -/
theorem tga_rle_pixels_are_expansion_witness :
    IMG_LoadTGA_IO envOk (tgaStreamWithFlags [] tgaRleHeader17 tgaRleBody 0)
        = (some tgaRleLowerImage, ⟨tgaRleHeader17 ++ 0 :: tgaRleBody, 29⟩) ∧
    ((tgaHeaderAt (tgaStreamWithFlags [] tgaRleHeader17 tgaRleBody 0)).type = 9 ∨
      (tgaHeaderAt (tgaStreamWithFlags [] tgaRleHeader17 tgaRleBody 0)).type = 10 ∨
      (tgaHeaderAt (tgaStreamWithFlags [] tgaRleHeader17 tgaRleBody 0)).type = 11) ∧
    tgaStreamPixels tgaRleLowerImage
        (tgaHeaderAt (tgaStreamWithFlags [] tgaRleHeader17 tgaRleBody 0))
      = [1, 2, 3, 4, 5, 6, 7, 8, 9, 7, 8, 9, 7, 8, 9, 7, 8, 9] :=
  ⟨rfl, by decide,
    (tga_rle_pixels_are_expansion envOk (tgaStreamWithFlags [] tgaRleHeader17 tgaRleBody 0)
      ⟨tgaRleHeader17 ++ 0 :: tgaRleBody, 29⟩ tgaRleLowerImage rfl (by decide)).trans rfl⟩

/-- C6. Two TGA streams that are byte-identical except for the origin bit
`0x20` of the header flags byte (`f` with the bit clear, `f' = f | 0x20`), of
which one decodes: both decodes by `IMG_LoadTGA_IO` succeed, with the same
width, height, pixel format, palette, stride and buffer length; for every
row `y < h` row `y` (the whole stride) of the buffer decoded with the bit set
equals row `h - 1 - y` of the buffer decoded with the bit clear; and stored
row `i` of the stream (`tgaStoredRow`: pixels `i * w` to `(i + 1) * w` of the
pixel data behind the header, the info field and the colour map, expanded
for a run-length type), which is the same for the two streams, is row `i` of
the buffer decoded with the bit set and row `h - 1 - i` of the buffer decoded
with the bit clear. -/
theorem tga_origin_bit_mirrors_rows (env : Env) (pre h17 body : List (Fin 256))
    (f f' : Fin 256) (h17len : h17.length = 17)
    (hf : f.val &&& TGA_ORIGIN_UPPER = 0) (hf' : f'.val = f.val ||| TGA_ORIGIN_UPPER)
    (hvalid : ( IMG_LoadTGA_IO env (tgaStreamWithFlags pre h17 body f)).1 ≠ none ∨
      ( IMG_LoadTGA_IO env (tgaStreamWithFlags pre h17 body f')).1 ≠ none) :
    ∃ imgLo imgUp : SDL_Surface,
      ( IMG_LoadTGA_IO env (tgaStreamWithFlags pre h17 body f)).1 = some imgLo ∧
      ( IMG_LoadTGA_IO env (tgaStreamWithFlags pre h17 body f')).1 = some imgUp ∧
      imgUp.w = imgLo.w ∧ imgUp.h = imgLo.h ∧ imgUp.format = imgLo.format ∧
      imgUp.palette = imgLo.palette ∧ imgUp.pitch = imgLo.pitch ∧
      imgUp.pixels.length = imgLo.pixels.length ∧
      (∀ y, y < imgUp.h →
        memRead imgUp.pixels (y * imgUp.pitch) imgUp.pitch
          = memRead imgLo.pixels ((imgLo.h - 1 - y) * imgLo.pitch) imgLo.pitch) ∧
      ∀ i, i < imgUp.h →
        tgaStoredRow (tgaStreamWithFlags pre h17 body f') i
          = tgaStoredRow (tgaStreamWithFlags pre h17 body f) i ∧
        memRead imgUp.pixels (i * imgUp.pitch) (imgUp.w * SDL_BYTESPERPIXEL imgUp.format)
          = tgaStoredRow (tgaStreamWithFlags pre h17 body f') i ∧
        memRead imgLo.pixels ((imgLo.h - 1 - i) * imgLo.pitch)
            (imgLo.w * SDL_BYTESPERPIXEL imgLo.format)
          = tgaStoredRow (tgaStreamWithFlags pre h17 body f) i := by
  obtain ⟨b1, b2, b3⟩ := byte_or_0x20 f
  rw [← hf'] at b1 b2 b3
  have hlen : ∀ (hdr : TGAheader) (w h bpp pitch : Nat) (rows : List (List Nat)),
      w * bpp ≤ pitch → rows.length = h → (∀ r ∈ rows, r.length = w * bpp) →
      (writeRows (tgaLstep hdr pitch) (List.replicate (pitch * h) 0)
        (tgaDst hdr h pitch) rows).length = pitch * h := by
    intro hdr w h bpp pitch rows h1 h2 h3
    have := (tga_writeRows_readback hdr w h bpp pitch h1 (List.replicate (pitch * h) 0)
      (by simp) rows h2 h3).1
    rw [this, List.length_replicate]
  have hstored : ∀ (imgLo imgUp : SDL_Surface) (sLo sUp : SDL_IOStream),
      IMG_LoadTGA_IO env (tgaStreamWithFlags pre h17 body f) = (some imgLo, sLo) →
      IMG_LoadTGA_IO env (tgaStreamWithFlags pre h17 body f') = (some imgUp, sUp) →
      imgUp.h = imgLo.h →
      ∀ i, i < imgUp.h →
        tgaStoredRow (tgaStreamWithFlags pre h17 body f') i
          = tgaStoredRow (tgaStreamWithFlags pre h17 body f) i ∧
        memRead imgUp.pixels (i * imgUp.pitch) (imgUp.w * SDL_BYTESPERPIXEL imgUp.format)
          = tgaStoredRow (tgaStreamWithFlags pre h17 body f') i ∧
        memRead imgLo.pixels ((imgLo.h - 1 - i) * imgLo.pitch)
            (imgLo.w * SDL_BYTESPERPIXEL imgLo.format)
          = tgaStoredRow (tgaStreamWithFlags pre h17 body f) i := by
    intro imgLo imgUp sLo sUp hLo hUp hh i hi
    have sUpRow := (tga_decode_stored_rows env _ sUp imgUp hUp).2.2 i hi
    have sLoRow := (tga_decode_stored_rows env _ sLo imgLo hLo).2.2 i (by rw [← hh]; exact hi)
    have iUp : tgaRowIndex (tgaHeaderAt (tgaStreamWithFlags pre h17 body f')) imgUp.h i = i := by
      unfold tgaRowIndex
      rw [tgaHeaderAt_tgaStreamWithFlags _ _ _ _ h17len, if_pos b3]
    have iLo : tgaRowIndex (tgaHeaderAt (tgaStreamWithFlags pre h17 body f)) imgLo.h i
        = imgLo.h - 1 - i := by
      unfold tgaRowIndex
      rw [tgaHeaderAt_tgaStreamWithFlags _ _ _ _ h17len, if_neg (by simpa using hf)]
    rw [iUp] at sUpRow
    rw [iLo] at sLoRow
    exact ⟨tgaStoredRow_flags pre h17 body f f' h17len i, sUpRow, sLoRow⟩
  rcases hvalid with hv | hv
  · obtain ⟨imgLo, sLo, hdec⟩ := IMG_LoadTGA_IO_some _ _ hv
    obtain ⟨imgUp, sUp, rows, hdec2, e1, e2, e3, e4, e5, _, hpitch, hrl, hrw, p1, p2⟩ :=
      tga_decode_flags env pre h17 body f f' h17len b1 b2 imgLo sLo hdec
    refine ⟨imgLo, imgUp, by rw [hdec], by rw [hdec2], e1, e2, e3, e4, e5, ?_, ?_,
      hstored imgLo imgUp sLo sUp hdec hdec2 e2⟩
    · rw [p1, p2, hlen _ _ _ _ _ _ hpitch hrl hrw, hlen _ _ _ _ _ _ hpitch hrl hrw]
    · intro y hy
      rw [e2] at hy
      rw [e5, p1, p2]
      exact tga_writeRows_mirror _ _ imgLo.w imgLo.h _ imgLo.pitch b3 hf hpitch rows hrl hrw y hy
  · obtain ⟨imgUp, sUp, hdec⟩ := IMG_LoadTGA_IO_some _ _ hv
    obtain ⟨imgLo, sLo, rows, hdec2, e1, e2, e3, e4, e5, _, hpitch, hrl, hrw, p1, p2⟩ :=
      tga_decode_flags env pre h17 body f' f h17len b1.symm b2.symm imgUp sUp hdec
    refine ⟨imgLo, imgUp, by rw [hdec2], by rw [hdec], e1.symm, e2.symm, e3.symm, e4.symm,
      e5.symm, ?_, ?_, hstored imgLo imgUp sLo sUp hdec2 hdec e2.symm⟩
    · rw [p1, p2, hlen _ _ _ _ _ _ hpitch hrl hrw, hlen _ _ _ _ _ _ hpitch hrl hrw]
    · intro y hy
      rw [e2, e5, p1, p2]
      exact tga_writeRows_mirror _ _ imgUp.w imgUp.h _ imgUp.pitch b3 hf hpitch rows hrl hrw y hy

set_option maxRecDepth 100000 in
/-- C6, at a concrete input: the 3 x 2 image of `tgaRleHeader17` with the
flags bytes 0 and 0x20; its stored rows are 1 .. 9 and three times 7, 8, 9. -/
theorem tga_origin_bit_mirrors_rows_witness :
    tgaRleHeader17.length = 17 ∧
    (0 : Fin 256).val &&& TGA_ORIGIN_UPPER = 0 ∧
    (0x20 : Fin 256).val = (0 : Fin 256).val ||| TGA_ORIGIN_UPPER ∧
    ( IMG_LoadTGA_IO envOk (tgaStreamWithFlags [] tgaRleHeader17 tgaRleBody 0)).1 ≠ none ∧
    tgaStoredRow (tgaStreamWithFlags [] tgaRleHeader17 tgaRleBody 0) 0
      = [1, 2, 3, 4, 5, 6, 7, 8, 9] ∧
    tgaStoredRow (tgaStreamWithFlags [] tgaRleHeader17 tgaRleBody 0) 1
      = [7, 8, 9, 7, 8, 9, 7, 8, 9] ∧
    ∃ imgLo imgUp : SDL_Surface,
      ( IMG_LoadTGA_IO envOk (tgaStreamWithFlags [] tgaRleHeader17 tgaRleBody 0)).1 = some imgLo ∧
      ( IMG_LoadTGA_IO envOk (tgaStreamWithFlags [] tgaRleHeader17 tgaRleBody 0x20)).1
        = some imgUp ∧
      imgUp.w = imgLo.w ∧ imgUp.h = imgLo.h ∧ imgUp.format = imgLo.format ∧
      imgUp.palette = imgLo.palette ∧ imgUp.pitch = imgLo.pitch ∧
      imgUp.pixels.length = imgLo.pixels.length ∧
      (∀ y, y < imgUp.h →
        memRead imgUp.pixels (y * imgUp.pitch) imgUp.pitch
          = memRead imgLo.pixels ((imgLo.h - 1 - y) * imgLo.pitch) imgLo.pitch) ∧
      ∀ i, i < imgUp.h →
        tgaStoredRow (tgaStreamWithFlags [] tgaRleHeader17 tgaRleBody 0x20) i
          = tgaStoredRow (tgaStreamWithFlags [] tgaRleHeader17 tgaRleBody 0) i ∧
        memRead imgUp.pixels (i * imgUp.pitch) (imgUp.w * SDL_BYTESPERPIXEL imgUp.format)
          = tgaStoredRow (tgaStreamWithFlags [] tgaRleHeader17 tgaRleBody 0x20) i ∧
        memRead imgLo.pixels ((imgLo.h - 1 - i) * imgLo.pitch)
            (imgLo.w * SDL_BYTESPERPIXEL imgLo.format)
          = tgaStoredRow (tgaStreamWithFlags [] tgaRleHeader17 tgaRleBody 0) i :=
  ⟨rfl, rfl, rfl, fun h => Option.noConfusion h, by decide, by decide,
    tga_origin_bit_mirrors_rows envOk [] tgaRleHeader17 tgaRleBody 0 0x20 rfl rfl rfl
      (Or.inl (fun h => Option.noConfusion h))⟩

/-! ## Chunk walk, palette and colour key (ILBM) -/

/-- C14, the claim at a concrete input. The stream `lbmNoHeader` has a valid
FORM/ILBM prologue and its chunk walk meets the `BODY` chunk and nothing
else; `IMG_LoadLBM_IO` does not fail on it but returns an empty Indexed8
surface. -/
theorem lbm_without_bmhd_decodes :
    lbmWalkIds envOk ⟨lbmNoHeader, 0⟩ = [cstr "BODY"] ∧
    IMG_LoadLBM_IO envOk ⟨lbmNoHeader, 0⟩
      = (some ⟨0, 0, SDL_PIXELFORMAT_INDEX8, 0, [], none, none, none⟩, ⟨lbmNoHeader, 20⟩) := by
  refine ⟨?_, ?_⟩ <;> decide

/-- C14, as amended. On a stream with a valid FORM/ILBM or FORM/PBM prologue
whose chunk walk reaches the `BODY` chunk (`lbmWalk` succeeds) without meeting
a `BMHD` chunk, `IMG_LoadLBM_IO` does not fail for the missing header: the
header is all zero and, when the scratch buffer and the surface can be
allocated, a surface of width 0 and height 0 is returned. -/
theorem lbm_without_bmhd_gives_empty (env : Env) (src s : SDL_IOStream) (pbm : Bool)
    (st : LBMChunks)
    (hwalk : lbmWalk env src = Except.ok (pbm, st, s))
    (hno : ∀ id ∈ lbmWalkIds env src, memeq id "BMHD" 4 = false)
    (hm : env.mallocOk = true) (hs : env.surfaceOk = true) :
    st.bmhd = bmhdZero ∧
    ∃ img, IMG_LoadLBM_IO env src = (some img, s) ∧ img.w = 0 ∧ img.h = 0 := by
  have hloop : lbmChunkLoop (src.data.length - (src.pos + 12) + 1) (lbmWalkStart env src).1
      (lbmWalkStart env src).2 = some (Except.ok (st, s)) := by
    rcases lbmWalk_cases env src with ⟨d, e, _⟩ | ⟨_, _, _, st2, s2, e, hl⟩
    · rw [hwalk] at e; cases e
    · rw [hwalk] at e
      simp only [Except.ok.injEq, Prod.mk.injEq] at e
      rw [e.2.1, e.2.2]
      exact hl
  have hz : st.bmhd = bmhdZero := lbmChunkLoop_no_bmhd _ _ _ _ _ hloop hno
  obtain ⟨img, hret⟩ := lbmDecode_no_rows env pbm st s hm hs (by rw [hz]; rfl)
  have hdec := IMG_LoadLBM_IO_of_returns env src s s pbm st img hwalk hret
  obtain ⟨_, _, d3, d4, _⟩ := lbmDecode_image env pbm st s s img hret
  refine ⟨hz, img, hdec, ?_, ?_⟩
  · rw [d3, lbmWidth, hz]; rfl
  · rw [d4, hz]; rfl

set_option maxRecDepth 1000000 in
/-- C14 as amended, at a concrete input: `lbmNoHeader`. -/
theorem lbm_without_bmhd_gives_empty_witness :
    lbmWalk envOk ⟨lbmNoHeader, 0⟩
      = Except.ok (false, ⟨cstr "BODY", bmhdZero, List.replicate 768 0, 0, 0, 0⟩,
          ⟨lbmNoHeader, 20⟩) ∧
    (∀ id ∈ lbmWalkIds envOk ⟨lbmNoHeader, 0⟩, memeq id "BMHD" 4 = false) ∧
    ((⟨cstr "BODY", bmhdZero, List.replicate 768 0, 0, 0, 0⟩ : LBMChunks).bmhd = bmhdZero ∧
      ∃ img, IMG_LoadLBM_IO envOk ⟨lbmNoHeader, 0⟩ = (some img, ⟨lbmNoHeader, 20⟩) ∧
        img.w = 0 ∧ img.h = 0) :=
  ⟨rfl, by decide,
    lbm_without_bmhd_gives_empty envOk ⟨lbmNoHeader, 0⟩ ⟨lbmNoHeader, 20⟩ false
      ⟨cstr "BODY", bmhdZero, List.replicate 768 0, 0, 0, 0⟩ rfl (by decide) rfl rfl⟩

set_option maxRecDepth 1000000 in
/-- C15, the code at its failing input. The file `lbmNinePlanes` (nine planes,
not HAM, a CMAP of one colour) decodes to an Indexed8 surface whose palette is
`lbmNinePlanesPalette`. The repeat loop runs up to `1 << 9 = 512`: the entry
count is set to 512 and the stores reach index 511, past the 256 entries that
`SDL_CreateSurfacePalette` gave (in the model the colour array has grown to
512 entries). -/
theorem lbm_nine_planes_palette_overflows :
    ( IMG_LoadLBM_IO envOk ⟨lbmNinePlanes, 0⟩).1.map (fun i => (i.format, i.palette))
      = some (SDL_PIXELFORMAT_INDEX8, some lbmNinePlanesPalette) ∧
    lbmNinePlanesPalette.ncolors = 512 ∧
    lbmNinePlanesPalette.colors.length = 512 ∧
    palette256.colors.length = 256 := by
  have h := lbmPalette_length (memWrite (List.replicate 768 0) 0 [10, 20, 30]) false 1 9 0 0
    (by decide) (by decide)
  refine ⟨rfl, h.1, h.2, ?_⟩
  show (List.replicate 256 (⟨255, 255, 255, 255⟩ : SDL_Color)).length = 256
  rw [List.length_replicate]

set_option maxRecDepth 1000000 in
/-- C16, the claim at a concrete input. `lbmStencilSample` has one plane, a
stencil plane and a CMAP of `n = 1` colour, so the claim pads up to index
`2 ^ (1 + 1) - 1 = 3`. In the palette of the decoded surface entry 1 repeats
entry 0, but entries 2 and 3 do not: they are as `SDL_CreateSurfacePalette`
made them, and the entry count is 2. -/
theorem lbm_stencil_palette_not_padded :
    ( lbmWalk envOk ⟨lbmStencilSample, 0⟩).toOption.map
        (fun r => (r.1, r.2.1.bmhd.planes, lbmStencil r.2.1, r.2.1.nbcolors, r.2.1.flagHAM))
      = some (false, 1, 1, 1, 0) ∧
    ( IMG_LoadLBM_IO envOk ⟨lbmStencilSample, 0⟩).1.map
        (fun i => i.palette.map fun p => (p.ncolors, p.colors.take 4))
      = some (some (2, [⟨10, 20, 30, 255⟩, ⟨10, 20, 30, 255⟩, ⟨255, 255, 255, 255⟩,
          ⟨255, 255, 255, 255⟩])) ∧
    1 ≤ 2 ∧ 2 < 2 ^ (1 + 1) ∧ 2 % 1 = 0 := by
  refine ⟨rfl, rfl, by decide, by decide, by decide⟩

/-- C16, as amended. In a decode by `IMG_LoadLBM_IO` that gives the surface a
palette (a CMAP of at least one colour, not HAM), with `n` the colour count
after the Extra-Half-Bright block (64 when it ran, else the count of the
CMAP) and a plane count `p` with `2 ^ p ≤ 256`: the palette is padded up to
`2 ^ p`, the stencil plane not counted. For every `i` with `n ≤ i < 2 ^ p`,
palette entry `i` equals palette entry `i mod n`. -/
theorem lbm_palette_repeats_colormap (env : Env) (src src' s : SDL_IOStream) (pbm : Bool)
    (st : LBMChunks) (img : SDL_Surface) (pal : SDL_Palette)
    (hwalk : lbmWalk env src = Except.ok (pbm, st, s))
    (hdec : IMG_LoadLBM_IO env src = (some img, src'))
    (hpal : img.palette = some pal)
    (hplanes : 2 ^ lbmPlanes pbm st ≤ 256) :
    1 ≤ lbmFinalColors st.nbcolors (lbmPlanes pbm st) st.flagEHB ∧
    pal.colors.length = 256 ∧
    ∀ (d : SDL_Color) (i : Nat),
      lbmFinalColors st.nbcolors (lbmPlanes pbm st) st.flagEHB ≤ i → i < 2 ^ lbmPlanes pbm st →
      pal.colors.getD i d
        = pal.colors.getD (i % lbmFinalColors st.nbcolors (lbmPlanes pbm st) st.flagEHB) d := by
  obtain ⟨hb, _, _, _, _, _, _, _, hp⟩ := lbm_decode_facts env src src' s pbm st img hwalk hdec
  rw [hpal] at hp
  obtain ⟨p1, p2, p3, p4, p5⟩ := lbmImagePalette_some env pbm st pal hp.symm
  have hnb : st.nbcolors ≤ 256 := hb.2.2.2.2.2
  have h1 : 1 ≤ lbmFinalColors st.nbcolors (lbmPlanes pbm st) st.flagEHB := by
    unfold lbmFinalColors
    split
    · decide
    · exact p1
  refine ⟨h1, ?_, ?_⟩
  · rw [p5]
    exact ((lbmPalette_spec st.colormap pbm st.nbcolors (lbmPlanes pbm st) (lbmStencil st)
      st.flagEHB p1 hnb ⟨0, 0, 0, 0⟩).2 hplanes).1
  · intro d i hi1 hi2
    rw [p5]
    exact ((lbmPalette_spec st.colormap pbm st.nbcolors (lbmPlanes pbm st) (lbmStencil st)
      st.flagEHB p1 hnb d).2 hplanes).2.1 i hi1 hi2

set_option maxRecDepth 1000000 in
/-- C16 as amended, at a concrete input: `lbmStencilSample`, where entry 1
repeats entry 0. -/
theorem lbm_palette_repeats_colormap_witness :
    lbmWalk envOk ⟨lbmStencilSample, 0⟩
      = Except.ok (false, ⟨cstr "BODY", ⟨8, 1, 0, 0, 1, 1, 0, 0, 0, 1, 1, 8, 1⟩,
          memWrite (List.replicate 768 0) 0 [10, 20, 30], 1, 0, 0⟩, ⟨lbmStencilSample, 60⟩) ∧
    IMG_LoadLBM_IO envOk ⟨lbmStencilSample, 0⟩ = (some lbmStencilImage, ⟨lbmStencilSample, 64⟩) ∧
    (lbmPalette palette256 (memWrite (List.replicate 768 0) 0 [10, 20, 30])
      false 1 1 1 0).colors.getD 1 ⟨0, 0, 0, 0⟩ = ⟨10, 20, 30, 255⟩ :=
  ⟨rfl, rfl,
    ((lbm_palette_repeats_colormap envOk ⟨lbmStencilSample, 0⟩ ⟨lbmStencilSample, 64⟩
      ⟨lbmStencilSample, 60⟩ false
      ⟨cstr "BODY", ⟨8, 1, 0, 0, 1, 1, 0, 0, 0, 1, 1, 8, 1⟩,
        memWrite (List.replicate 768 0) 0 [10, 20, 30], 1, 0, 0⟩
      lbmStencilImage _ rfl rfl rfl (by decide)).2.2 ⟨0, 0, 0, 0⟩ 1 (by decide)
      (by decide)).trans rfl⟩

set_option maxRecDepth 1000000 in
/-- C18, the claim at a concrete input. At a `CMAP` chunk of declared size
1000 the pass of the chunk walk ends in `goto done` with "colormap size is too
large", the stream standing behind the 8 bytes of the chunk header: no chunk
header is read at `0 + 8 + 1000`. -/
theorem lbm_oversize_cmap_stops_walk :
    lbmChunkStep ⟨cstr "BMHD", bmhdZero, [], 0, 0, 0⟩ ⟨lbmBigCmapChunk, 0⟩
      = Except.error (lbmFail "colormap size is too large" ⟨lbmBigCmapChunk, 8⟩) ∧
    lbmBigCmapChunk.length = 0 + 8 + 1000 + 8 := by
  refine ⟨rfl, by decide⟩

/-- C18, as amended. A pass of the chunk walk that takes in a chunk other
than `BODY` - a `BMHD` of declared size at least 20, a `CMAP` (its declared
size is then at most 768, a larger one ends the decode), a `CAMG` of declared
size 4, or any other chunk - of a declared size below `2 ^ 32 - 1`, leaves the
stream, where the next pass reads the next chunk header, at the start of the
chunk + 8 + the declared size rounded up to an even number. -/
theorem lbm_next_chunk_header (st st' : LBMChunks) (src src' : SDL_IOStream)
    (hstep : lbmChunkStep st src = Except.ok (st', src'))
    (hbody : memeq st'.id "BODY" 4 = false)
    (hbmhd : memeq st'.id "BMHD" 4 = true → 20 ≤ BE32 (((streamRest src).drop 4).take 4))
    (hcamg : memeq st'.id "CAMG" 4 = true → BE32 (((streamRest src).drop 4).take 4) = 4)
    (hsize : BE32 (((streamRest src).drop 4).take 4) < 4294967295) :
    st'.id = (streamRest src).take 4 ∧ src'.data = src.data ∧
    src'.pos = src.pos + 8 + (BE32 (((streamRest src).drop 4).take 4)
      + BE32 (((streamRest src).drop 4).take 4) % 2) := by
  obtain ⟨_, hid, s3, hd, hc⟩ := lbmChunkStep_ok st st' src src' hstep
  obtain ⟨a1, _⟩ := lbmChunkStep_advance st st' src src' hstep |>.2
  refine ⟨hid, a1, ?_⟩
  generalize BE32 (((streamRest src).drop 4).take 4) = size at hc hbmhd hcamg hsize ⊢
  rcases hc with ⟨t1, _, p, e⟩ | ⟨_, t2, hsz, _, p, e⟩ | ⟨_, _, t3, _, _, _, p, e⟩ | ⟨_, _, _, _, p, e⟩
  · have h20 := hbmhd t1
    rw [e, (lbmChunkSkip_data _ _ _ _).2, hbody, p]
    simp only [Bool.false_eq_true, if_false]
    rw [lbm_skip_amount size 20 hsize h20]
    omega
  · rw [e, (lbmChunkSkip_data _ _ _ _).2, hbody, p]
    simp only [Bool.false_eq_true, if_false]
    rw [lbm_skip_amount size size hsize (Nat.le_refl _)]
    omega
  · have h4 := hcamg t3
    subst h4
    rw [e, (lbmChunkSkip_data _ _ _ _).2, hbody, p]
    rfl
  · rw [e, (lbmChunkSkip_data _ _ _ _).2, hbody, p]
    simp only [Bool.false_eq_true, if_false]
    rw [lbm_skip_amount size 0 hsize (Nat.zero_le _)]
    omega

set_option maxRecDepth 1000000 in
/-- C18 as amended, at a concrete input: behind the `ANNO` chunk of declared
size 3 at offset 0 the stream stands at `0 + 8 + 4`. -/
theorem lbm_next_chunk_header_witness :
    lbmChunkStep ⟨cstr "BMHD", bmhdZero, [], 0, 0, 0⟩ ⟨lbmAnnoChunk, 0⟩
      = Except.ok (⟨cstr "ANNO", bmhdZero, [], 0, 0, 0⟩, ⟨lbmAnnoChunk, 12⟩) ∧
    (12 : Nat) = 0 + 8 + (BE32 (((streamRest ⟨lbmAnnoChunk, 0⟩).drop 4).take 4)
      + BE32 (((streamRest ⟨lbmAnnoChunk, 0⟩).drop 4).take 4) % 2) :=
  ⟨rfl, (lbm_next_chunk_header ⟨cstr "BMHD", bmhdZero, [], 0, 0, 0⟩
      ⟨cstr "ANNO", bmhdZero, [], 0, 0, 0⟩ ⟨lbmAnnoChunk, 0⟩ ⟨lbmAnnoChunk, 12⟩ rfl
      (by decide) (by decide) (by decide) (by decide)).2.2⟩

set_option maxRecDepth 1000000 in
/-- C20, the claim at a concrete input. `lbmKeySample` has mask type 2 and
the transparent colour 300; it decodes to an Indexed8 surface with a palette
of 2 entries and the colour key 300, which is neither below 256 nor below the
number of palette entries. -/
theorem lbm_colour_key_out_of_range :
    ( IMG_LoadLBM_IO envOk ⟨lbmKeySample, 0⟩).1.map
        (fun i => (i.format, i.colorkey, i.palette.map fun p => p.ncolors))
      = some (SDL_PIXELFORMAT_INDEX8, some 300, some 2) ∧
    ¬ (300 < 256) := by
  refine ⟨rfl, by decide⟩

/-- C20, as amended. In a decode by `IMG_LoadLBM_IO` that returns a surface,
when the mask type of the BMHD has bit 1 set the colour key of the surface is
the transparent-colour field of the BMHD as the file stores it, a 16-bit value
(below 65536); it is not compared with 256 or with the number of palette
entries. -/
theorem lbm_colour_key_is_tcolor (env : Env) (src src' s : SDL_IOStream) (pbm : Bool)
    (st : LBMChunks) (img : SDL_Surface)
    (hwalk : lbmWalk env src = Except.ok (pbm, st, s))
    (hdec : IMG_LoadLBM_IO env src = (some img, src'))
    (hmask : st.bmhd.mask &&& 2 ≠ 0) :
    img.colorkey = some st.bmhd.tcolor ∧ st.bmhd.tcolor < 65536 := by
  obtain ⟨hb, _, _, _, _, _, _, hk, _⟩ := lbm_decode_facts env src src' s pbm st img hwalk hdec
  rw [if_pos hmask] at hk
  exact ⟨hk, hb.2.2.2.2.1⟩

set_option maxRecDepth 1000000 in
/-- C20 as amended, at a concrete input: `lbmKeySample`. -/
theorem lbm_colour_key_is_tcolor_witness :
    lbmWalk envOk ⟨lbmKeySample, 0⟩
      = Except.ok (false, ⟨cstr "BODY", ⟨8, 1, 0, 0, 1, 2, 0, 0, 300, 1, 1, 8, 1⟩,
          memWrite (List.replicate 768 0) 0 [0, 0, 0, 255, 255, 255], 2, 0, 0⟩,
          ⟨lbmKeySample, 62⟩) ∧
    IMG_LoadLBM_IO envOk ⟨lbmKeySample, 0⟩ = (some lbmKeyImage, ⟨lbmKeySample, 64⟩) ∧
    (2 : Nat) &&& 2 ≠ 0 ∧
    (lbmKeyImage.colorkey = some 300 ∧ 300 < 65536) :=
  ⟨rfl, rfl, by decide,
    lbm_colour_key_is_tcolor envOk ⟨lbmKeySample, 0⟩ ⟨lbmKeySample, 64⟩ ⟨lbmKeySample, 62⟩ false
      ⟨cstr "BODY", ⟨8, 1, 0, 0, 1, 2, 0, 0, 300, 1, 1, 8, 1⟩,
        memWrite (List.replicate 768 0) 0 [0, 0, 0, 255, 255, 255], 2, 0, 0⟩
      lbmKeyImage rfl rfl (by decide)⟩

set_option maxRecDepth 1000000 in
/-- C19, the claim at a concrete input. The ILBM file `lbmNoCmap` has no CMAP
chunk; it decodes to a surface of format Indexed8 that has no palette. -/
theorem lbm_indexed_without_palette :
    ( IMG_LoadLBM_IO envOk ⟨lbmNoCmap, 0⟩).1.map (fun i => (i.format, i.palette))
      = some (SDL_PIXELFORMAT_INDEX8, none) := by
  rfl

/-- C19, as amended. A surface returned by `IMG_LoadTGA_IO` has a palette if
and only if its format is Indexed8. A surface returned by `IMG_LoadLBM_IO`
that has a palette has the format Indexed8; and, when the palette can be
allocated, an Indexed8 surface has a palette exactly when a CMAP chunk gave at
least one colour (`nbcolors > 0`). -/
theorem palette_present_iff_indexed (env : Env) (src src' : SDL_IOStream) (img : SDL_Surface) :
    ( IMG_LoadTGA_IO env src = (some img, src') →
      (img.palette.isSome = true ↔ img.format = SDL_PIXELFORMAT_INDEX8)) ∧
    (∀ (pbm : Bool) (st : LBMChunks) (s : SDL_IOStream),
      lbmWalk env src = Except.ok (pbm, st, s) → IMG_LoadLBM_IO env src = (some img, src') →
      (img.palette.isSome = true → img.format = SDL_PIXELFORMAT_INDEX8) ∧
      (env.paletteOk = true →
        (img.palette.isSome = true ↔ img.format = SDL_PIXELFORMAT_INDEX8 ∧ 0 < st.nbcolors))) := by
  refine ⟨tga_palette_iff_indexed env src src' img, ?_⟩
  intro pbm st s hwalk hdec
  obtain ⟨_, hloop, _, _, _, _, hfmt, _, hp⟩ := lbm_decode_facts env src src' s pbm st img hwalk hdec
  have hham : st.flagHAM ≤ 1 :=
    lbmChunkLoop_flagHAM _ _ _ _ _ hloop (by simp [lbmWalkStart])
  rw [hp, hfmt]
  unfold lbmImagePalette
  refine ⟨?_, ?_⟩
  · intro h
    split at h
    · rename_i hc; exact hc.2.2.2
    · cases h
  · intro hpo
    constructor
    · intro h
      split at h
      · rename_i hc; exact ⟨hc.2.2.2, hc.1⟩
      · cases h
    · intro ⟨h1, h2⟩
      have h0 := lbmFormat_index8 pbm st hham h1
      rw [if_pos ⟨h2, h0, hpo, h1⟩]
      rfl

set_option maxRecDepth 1000000 in
/-- C19 as amended, at concrete inputs: the true-colour TGA image of
`tgaRleHeader17` (no palette, format BGR24) and the ILBM file `lbmKeySample`
(a CMAP of two colours, format Indexed8, a palette). -/
theorem palette_present_iff_indexed_witness :
    ( IMG_LoadTGA_IO envOk (tgaStreamWithFlags [] tgaRleHeader17 tgaRleBody 0)
        = (some tgaRleLowerImage, ⟨tgaRleHeader17 ++ 0 :: tgaRleBody, 29⟩) ∧
      (tgaRleLowerImage.palette.isSome = true ↔
        tgaRleLowerImage.format = SDL_PIXELFORMAT_INDEX8)) ∧
    (lbmWalk envOk ⟨lbmKeySample, 0⟩
        = Except.ok (false, ⟨cstr "BODY", ⟨8, 1, 0, 0, 1, 2, 0, 0, 300, 1, 1, 8, 1⟩,
            memWrite (List.replicate 768 0) 0 [0, 0, 0, 255, 255, 255], 2, 0, 0⟩,
            ⟨lbmKeySample, 62⟩) ∧
      IMG_LoadLBM_IO envOk ⟨lbmKeySample, 0⟩ = (some lbmKeyImage, ⟨lbmKeySample, 64⟩) ∧
      envOk.paletteOk = true ∧
      (lbmKeyImage.palette.isSome = true ↔
        lbmKeyImage.format = SDL_PIXELFORMAT_INDEX8 ∧ 0 < 2)) :=
  ⟨⟨rfl, (palette_present_iff_indexed envOk (tgaStreamWithFlags [] tgaRleHeader17 tgaRleBody 0)
      ⟨tgaRleHeader17 ++ 0 :: tgaRleBody, 29⟩ tgaRleLowerImage).1 rfl⟩,
   ⟨rfl, rfl, rfl,
    ((palette_present_iff_indexed envOk ⟨lbmKeySample, 0⟩ ⟨lbmKeySample, 64⟩ lbmKeyImage).2 false
      ⟨cstr "BODY", ⟨8, 1, 0, 0, 1, 2, 0, 0, 300, 1, 1, 8, 1⟩,
        memWrite (List.replicate 768 0) 0 [0, 0, 0, 255, 255, 255], 2, 0, 0⟩
      ⟨lbmKeySample, 62⟩ rfl rfl).2 rfl⟩⟩

/-! ## Colour rows, mask and hotspot (ICO / CUR) -/

/-- C11. In a successful ICO/CUR decode the mask pass starts where the colour
pass leaves the stream (`sC`), and the final pixel (x, y) is 0 when bit x
(most significant bit first) of mask row h-1-y is 1 and the pixel of the
colour pass when that bit is 0; mask row r starts r * stride bytes behind
`sC`, the stride being ceil(w / 8) rounded up to a multiple of 4. -/
theorem ico_and_mask_applied (env : Env) (src : SDL_IOStream) (type : Nat)
    (closeio : Bool) (img : SDL_Surface) (src' : SDL_IOStream) (st : ICOSetup)
    (s0 : SDL_IOStream)
    (hdec : LoadICOCUR_IO env src type closeio = (some img, src'))
    (hsetup : icoSetup env src type = Except.ok (st, s0)) :
    ∃ pixelsC sC sF, icoColorPass st s0 = Except.ok (pixelsC, sC) ∧
      icoMaskPass st pixelsC sC = Except.ok (img.pixels, sF) ∧
      ∀ x y, x < img.w → y < img.h →
        readU32 img.pixels (y * img.pitch) x =
          if icoField 1 ((streamRest sC).drop
              ((img.h - 1 - y) * (((img.w + 7) / 8 + 3) / 4 * 4))) x = 1
          then 0 else readU32 pixelsC (y * img.pitch) x := by
  obtain ⟨st1, s1, pixelsC, sC, sF, hs1, hcol, hmask, hw, hh, hpitch⟩ :=
    LoadICOCUR_IO_some env src type closeio img src' hdec
  rw [hsetup] at hs1
  simp only [Except.ok.injEq, Prod.mk.injEq] at hs1
  obtain ⟨e1, e2⟩ := hs1
  rw [← e1, ← e2] at hcol
  rw [← e1] at hw hh hpitch hmask
  obtain ⟨_, f2, f3, f4, _⟩ := icoSetup_facts env src type st s0 hsetup
  obtain ⟨k1, k2⟩ := icoColorPass_keeps env src type st s0 hsetup pixelsC sC hcol
  refine ⟨pixelsC, sC, sF, hcol, hmask, ?_⟩
  unfold icoMaskPass at hmask
  simp only [] at hmask
  rw [icoMaskRows_eq, icoMaskRow_fun] at hmask
  obtain ⟨_, _, _, r4, _⟩ := icoRows_spec _ _ _ _
    (icoBitRow_rowSpec 1 (Or.inl rfl)
      (fun old k => old &&& (if k ≠ 0 then 0 else 0xFFFFFFFF)) st.surface.w)
    (icoPad ((st.biWidth + 7) >>> 3)) st.surface.pitch (by rw [f2, f3])
    _ _ _ _ _ hmask (by rw [k1, Nat.mul_comm])
  intro x y hx hy
  rw [hw] at hx
  rw [hh] at hy
  have := r4 y x hy hx
  rw [f2, ico_mask_stride] at this
  rw [hpitch, hh, hw, f2, this]
  have hold := readU32_lt pixelsC (y * st.surface.pitch) x k2
  generalize readU32 pixelsC (y * st.surface.pitch) x = old at hold ⊢
  have hfield : ∀ R : List Nat, icoField 1 R x < 2 := fun R => Nat.mod_lt _ (by decide)
  have hf := hfield (List.drop ((st.surface.h - 1 - y) * (((st.biWidth + 7) / 8 + 3) / 4 * 4))
    (streamRest sC))
  generalize icoField 1 (List.drop ((st.surface.h - 1 - y) * (((st.biWidth + 7) / 8 + 3) / 4 * 4))
    (streamRest sC)) x = fld at hf ⊢
  have hfl : fld = 0 ∨ fld = 1 := by omega
  rcases hfl with rfl | rfl
  · simp only [ne_eq, not_true_eq_false, if_false]
    have : old &&& 4294967295 = old % 2 ^ 32 := Nat.and_pow_two_sub_one_eq_mod old 32
    rw [this]
    norm_num
    omega
  · simp

set_option maxRecDepth 1000000 in
theorem ico_and_mask_applied_witness :
    LoadICOCUR_IO envOk ⟨icoMono, 0⟩ ICON_TYPE_ICO false = (some icoMonoImage, ⟨icoMono, 86⟩) ∧
    icoSetup envOk ⟨icoMono, 0⟩ ICON_TYPE_ICO = Except.ok (icoMonoSetup, ⟨icoMono, 70⟩) ∧
    ∃ pixelsC sC sF, icoColorPass icoMonoSetup ⟨icoMono, 70⟩ = Except.ok (pixelsC, sC) ∧
      icoMaskPass icoMonoSetup pixelsC sC = Except.ok (icoMonoImage.pixels, sF) ∧
      ∀ x y, x < icoMonoImage.w → y < icoMonoImage.h →
        readU32 icoMonoImage.pixels (y * icoMonoImage.pitch) x =
          if icoField 1 ((streamRest sC).drop
              ((icoMonoImage.h - 1 - y) * (((icoMonoImage.w + 7) / 8 + 3) / 4 * 4))) x = 1
          then 0 else readU32 pixelsC (y * icoMonoImage.pitch) x :=
  ⟨rfl, rfl,
    ico_and_mask_applied envOk ⟨icoMono, 0⟩ ICON_TYPE_ICO false icoMonoImage
      ⟨icoMono, 86⟩ icoMonoSetup ⟨icoMono, 70⟩ rfl rfl⟩

/-- C12. In a successful ICO/CUR decode at bit depth 1, 4 or 8, the colour
pass succeeds and leaves at every pixel (x, y) the entry of the array
`palette` whose index is the x-th field of `biBitCount` bits (most significant
bits first) of source row h-1-y, where source row r starts
r * 4 * ceil(w * biBitCount / 32) bytes behind the palette (the position `s0`
at which the setup leaves the stream). -/
theorem ico_indexed_rows_through_palette (env : Env) (src : SDL_IOStream) (type : Nat)
    (closeio : Bool) (img : SDL_Surface) (src' : SDL_IOStream) (st : ICOSetup)
    (s0 : SDL_IOStream)
    (hdec : LoadICOCUR_IO env src type closeio = (some img, src'))
    (hsetup : icoSetup env src type = Except.ok (st, s0))
    (hb : st.biBitCount = 1 ∨ st.biBitCount = 4 ∨ st.biBitCount = 8) :
    ∃ pixelsC sC, icoColorPass st s0 = Except.ok (pixelsC, sC) ∧
      ∀ x y, x < img.w → y < img.h →
        readU32 pixelsC (y * img.pitch) x =
          st.palette.getD (icoField st.biBitCount
            ((streamRest s0).drop
              ((img.h - 1 - y) * (4 * ((img.w * st.biBitCount + 31) / 32)))) x) 0 := by
  obtain ⟨st1, s1, pixelsC, sC, sF, hs1, hcol, _, hw, hh, hpitch⟩ :=
    LoadICOCUR_IO_some env src type closeio img src' hdec
  rw [hsetup] at hs1
  simp only [Except.ok.injEq, Prod.mk.injEq] at hs1
  obtain ⟨e1, e2⟩ := hs1
  rw [← e1, ← e2] at hcol
  rw [← e1] at hw hh hpitch
  obtain ⟨⟨c, f1⟩, f2, f3, f4, f5⟩ := icoSetup_facts env src type st s0 hsetup
  have hE : st.ExpandBMP = st.biBitCount := icoExpandBMP_indexed _ _ _ f1 hb
  refine ⟨pixelsC, sC, hcol, ?_⟩
  unfold icoColorPass at hcol
  rw [icoColorRows_eq, hE, icoColorRow_indexed _ _ _ _ hb] at hcol
  have hlen : st.surface.pixels.length = st.surface.pitch * st.surface.h := by
    rw [f4, List.length_replicate]
  obtain ⟨_, _, _, r4, _⟩ := icoRows_spec _ _ _ _
    (icoBitRow_rowSpec st.biBitCount hb (fun _ k => st.palette.getD k 0) st.surface.w)
    (icoColorPad st.biBitCount st.biWidth) st.surface.pitch (by rw [f2, f3])
    _ _ _ _ _ hcol (by rw [hlen, Nat.mul_comm])
  intro x y hx hy
  rw [hw] at hx
  rw [hh] at hy
  have := r4 y x hy hx
  rw [f2, ico_colour_stride _ _ hb] at this
  rw [hpitch, hh, hw, f2, this]
  exact Nat.mod_eq_of_lt (getD_lt_of_all _ _ _ (by decide) f5)

set_option maxRecDepth 1000000 in
theorem ico_indexed_rows_through_palette_witness :
    LoadICOCUR_IO envOk ⟨icoMono, 0⟩ ICON_TYPE_ICO false = (some icoMonoImage, ⟨icoMono, 86⟩) ∧
    icoSetup envOk ⟨icoMono, 0⟩ ICON_TYPE_ICO = Except.ok (icoMonoSetup, ⟨icoMono, 70⟩) ∧
    icoMonoSetup.biBitCount = 1 ∧
    ∃ pixelsC sC, icoColorPass icoMonoSetup ⟨icoMono, 70⟩ = Except.ok (pixelsC, sC) ∧
      ∀ x y, x < icoMonoImage.w → y < icoMonoImage.h →
        readU32 pixelsC (y * icoMonoImage.pitch) x =
          icoMonoSetup.palette.getD (icoField icoMonoSetup.biBitCount
            ((streamRest ⟨icoMono, 70⟩).drop
              ((icoMonoImage.h - 1 - y) *
                (4 * ((icoMonoImage.w * icoMonoSetup.biBitCount + 31) / 32)))) x) 0 :=
  ⟨rfl, rfl, rfl,
    ico_indexed_rows_through_palette envOk ⟨icoMono, 0⟩ ICON_TYPE_ICO false icoMonoImage
      ⟨icoMono, 86⟩ icoMonoSetup ⟨icoMono, 70⟩ rfl rfl (Or.inl rfl)⟩

set_option maxRecDepth 100000 in
/-- C13, the code at its failing input. In the cursor `curTwo` the first
directory entry has the higher colour count (16) and the hotspot fields
(1, 2); the second has colour count 2 and the hotspot fields (3, 4). The
directory loop ends with the offset 38 of the first entry and the hotspot of
the second, and the decoded image is the first one (colour 0x222222) with the
hotspot (3, 4) attached. -/
theorem cur_hotspot_is_last_entry :
    (icoDirLoop 2 ICON_TYPE_CUR ⟨0, 0, 0, 0⟩ ⟨curTwo, 6⟩).toOption.map (fun r => r.1)
      = some ⟨16, 38, 3, 4⟩ ∧
    ( IMG_LoadCUR_IO envOk ⟨curTwo, 0⟩).1.map (fun i => (i.pixels, i.hotspot))
      = some ([0x22, 0x22, 0x22, 0xFF], some (3, 4)) := by
  refine ⟨?_, ?_⟩ <;> decide

/-! ## Detection, header validation, layout and palettes -/

/-- C21. When `IMG_isICO` (`IMG_isCUR`, `IMG_isLBM`) returns false on a
stream, `IMG_LoadICO_IO` (`IMG_LoadCUR_IO`, `IMG_LoadLBM_IO`) on the same
stream at the same position returns no surface. -/
theorem load_fails_where_detection_fails (env : Env) (src : SDL_IOStream) :
    ((IMG_isICO src).1 = false → ( IMG_LoadICO_IO env src).1 = none) ∧
    ((IMG_isCUR src).1 = false → ( IMG_LoadCUR_IO env src).1 = none) ∧
    ((IMG_isLBM src).1 = false → ( IMG_LoadLBM_IO env src).1 = none) :=
  ⟨LoadICOCUR_IO_header env src ICON_TYPE_ICO false,
    LoadICOCUR_IO_header env src ICON_TYPE_CUR false,
    IMG_LoadLBM_IO_header env src⟩

theorem load_fails_where_detection_fails_witness :
    (IMG_isICO ⟨tag "FORM", 0⟩).1 = false ∧ ( IMG_LoadICO_IO envOk ⟨tag "FORM", 0⟩).1 = none ∧
    (IMG_isCUR ⟨tag "FORM", 0⟩).1 = false ∧ ( IMG_LoadCUR_IO envOk ⟨tag "FORM", 0⟩).1 = none ∧
    (IMG_isLBM ⟨tag "FORM", 0⟩).1 = false ∧ ( IMG_LoadLBM_IO envOk ⟨tag "FORM", 0⟩).1 = none :=
  ⟨by decide, (load_fails_where_detection_fails envOk ⟨tag "FORM", 0⟩).1 (by decide),
    by decide, (load_fails_where_detection_fails envOk ⟨tag "FORM", 0⟩).2.1 (by decide),
    by decide, (load_fails_where_detection_fails envOk ⟨tag "FORM", 0⟩).2.2 (by decide)⟩

/-- C22. The detection functions in terms of the bytes at the stream
position: `IMG_isBMP` is true iff two bytes can be read and they are "BM";
`IMG_isICO` and `IMG_isCUR` are true iff six bytes (three little-endian 16-bit
words) can be read, the first word is 0, the second is the type tag (1 for
ICO, 2 for CUR) and the third is not 0; `IMG_isLBM` is true iff twelve bytes
can be read, bytes 0..3 are "FORM" and bytes 8..11 are "PBM " or "ILBM"
(bytes 4..7 are not looked at). -/
theorem detection_by_leading_bytes (src : SDL_IOStream) :
    ((IMG_isBMP src).1 = true ↔
      2 ≤ (streamRest src).length ∧ (streamRest src).take 2 = cstr "BM") ∧
    ((IMG_isICO src).1 = true ↔
      6 ≤ (streamRest src).length ∧ le16At (streamRest src) 0 = 0 ∧
        le16At (streamRest src) 2 = 1 ∧ le16At (streamRest src) 4 ≠ 0) ∧
    ((IMG_isCUR src).1 = true ↔
      6 ≤ (streamRest src).length ∧ le16At (streamRest src) 0 = 0 ∧
        le16At (streamRest src) 2 = 2 ∧ le16At (streamRest src) 4 ≠ 0) ∧
    ((IMG_isLBM src).1 = true ↔
      12 ≤ (streamRest src).length ∧ (streamRest src).take 4 = cstr "FORM" ∧
        (((streamRest src).drop 8).take 4 = cstr "PBM " ∨
          ((streamRest src).drop 8).take 4 = cstr "ILBM")) := by
  refine ⟨IMG_isBMP_eq src, ?_, ?_, IMG_isLBM_eq src⟩
  · unfold IMG_isICO
    rw [IMG_isICOCUR_eq]
    exact readICOHeader_eq src ICON_TYPE_ICO
  · unfold IMG_isCUR
    rw [IMG_isICOCUR_eq]
    exact readICOHeader_eq src ICON_TYPE_CUR

/-- C23. `IMG_LoadTGA_IO` rejects a stream as an unsupported format (it
arrives at `SDL_SetError` with the message "Unsupported TGA format" and
returns no surface) if and only if the 18 bytes of the header are there and
the header is one the list names: a type other than 1, 2, 3, 9, 10, 11; an
indexed type with colour-map flag 0, a pixel depth other than 8 or more than
256 map entries; a greyscale type with a pixel depth other than 8; a
true-colour type with a pixel depth other than 15, 16, 24, 32; interleave bits
0xC0 set; the right-origin bit 0x10 set. A message is set exactly when no
surface is returned; the listed headers are those for which the validation
of the setup (`tgaValidate`) has no result, and for these the setup fails with
the stream where the header ends. -/
theorem tga_unsupported_iff_listed (env : Env) (src : SDL_IOStream) :
    (IMG_LoadTGA_IO_error env src = some "Unsupported TGA format" ↔
      18 ≤ (streamRest src).length ∧ tgaListedUnsupported (tgaHeaderAt src)) ∧
    (IMG_LoadTGA_IO_error env src ≠ none ↔ ( IMG_LoadTGA_IO env src).1 = none) ∧
    (tgaListedUnsupported (tgaHeaderAt src) → ( IMG_LoadTGA_IO env src).1 = none) ∧
    (∀ hdr : TGAheader, (tgaValidate hdr = none ↔ tgaListedUnsupported hdr) ∧
      (tgaValidate hdr = none → ∀ env src, tgaSetupHdr env hdr src = Except.error src)) := by
  refine ⟨IMG_LoadTGA_IO_error_unsupported env src, ?_, ?_, ?_⟩
  · rw [ne_eq, IMG_LoadTGA_IO_error_none, not_not]
  · intro h
    rcases hr : IMG_LoadTGA_IO env src with ⟨_ | img, s'⟩
    · rfl
    · obtain ⟨_, _, _, _, _, _, _, hv, _⟩ := IMG_LoadTGA_IO_validate env src s' img hr
      rw [(tgaValidate_none _).2 h] at hv
      cases hv
  · intro hdr
    refine ⟨tgaValidate_none hdr, ?_⟩
    intro h env src
    rw [tgaSetupHdr_eq, h]

set_option maxRecDepth 100000 in
/-- C23, at concrete inputs: a true-colour header with the pixel depth 8 is
rejected as unsupported; the header of `tgaMap32Sample` is not listed and the
stream decodes. -/
theorem tga_unsupported_iff_listed_witness :
    tgaListedUnsupported (tgaHeaderAt ⟨tgaRgbDepth8Sample, 0⟩) ∧
    IMG_LoadTGA_IO_error envOk ⟨tgaRgbDepth8Sample, 0⟩ = some "Unsupported TGA format" ∧
    ( IMG_LoadTGA_IO envOk ⟨tgaRgbDepth8Sample, 0⟩).1 = none ∧
    ¬ tgaListedUnsupported (tgaHeaderAt ⟨tgaMap32Sample, 0⟩) ∧
    IMG_LoadTGA_IO_error envOk ⟨tgaMap32Sample, 0⟩ = none :=
  ⟨((tga_unsupported_iff_listed envOk ⟨tgaRgbDepth8Sample, 0⟩).1.1 rfl).2, rfl,
    (tga_unsupported_iff_listed envOk ⟨tgaRgbDepth8Sample, 0⟩).2.2.1
      (((tga_unsupported_iff_listed envOk ⟨tgaRgbDepth8Sample, 0⟩).1.1 rfl).2),
    fun h => absurd
      ((tga_unsupported_iff_listed envOk ⟨tgaMap32Sample, 0⟩).1.2 ⟨by decide, h⟩)
      (by decide),
    rfl⟩

/-- C24. In a successful decode of an indexed TGA (type 1 or 9) with a 24- or
32-bit colour map, the palette has the entry count n of the header and entry
i has blue, green, red equal to the first, second and third byte of map entry
i; the surface has a colour key iff the map is 32-bit and some entry below n
has a fourth byte below 128, and the key is then the greatest such index. A
decoded TGA of another type (true-colour, greyscale) has no colour key. -/
theorem tga_map_24_32_palette_and_key (env : Env) (src src' : SDL_IOStream) (img : SDL_Surface)
    (hdec : IMG_LoadTGA_IO env src = (some img, src')) :
    (((tgaHeaderAt src).type = 1 ∨ (tgaHeaderAt src).type = 9) →
      ((tgaHeaderAt src).cmap_bits = 24 ∨ (tgaHeaderAt src).cmap_bits = 32) →
      ∃ pal, img.palette = some pal ∧ pal.ncolors = LE16 (tgaHeaderAt src).cmap_len ∧
        (∀ i, i < LE16 (tgaHeaderAt src).cmap_len →
          (pal.colors.getD i ⟨0, 0, 0, 0⟩).b
            = (tgaColorMapBytes src).getD ((tgaHeaderAt src).cmap_bits / 8 * i) 0 ∧
          (pal.colors.getD i ⟨0, 0, 0, 0⟩).g
            = (tgaColorMapBytes src).getD ((tgaHeaderAt src).cmap_bits / 8 * i + 1) 0 ∧
          (pal.colors.getD i ⟨0, 0, 0, 0⟩).r
            = (tgaColorMapBytes src).getD ((tgaHeaderAt src).cmap_bits / 8 * i + 2) 0) ∧
        (img.colorkey ≠ none ↔ (tgaHeaderAt src).cmap_bits = 32 ∧
          ∃ i, i < LE16 (tgaHeaderAt src).cmap_len ∧
            (tgaColorMapBytes src).getD (4 * i + 3) 0 < 128) ∧
        (∀ key, img.colorkey = some key →
          key < LE16 (tgaHeaderAt src).cmap_len ∧
          (tgaColorMapBytes src).getD (4 * key + 3) 0 < 128 ∧
          ∀ i, i < LE16 (tgaHeaderAt src).cmap_len →
            (tgaColorMapBytes src).getD (4 * i + 3) 0 < 128 → i ≤ key)) ∧
    (¬ ((tgaHeaderAt src).type = 1 ∨ (tgaHeaderAt src).type = 9) → img.colorkey = none) := by
  constructor
  · intro ht hb
    obtain ⟨pal, hp, hn, hpal, hkey⟩ := tga_decode_indexed_palette env src src' img hdec ht
    have hsz : ((tgaHeaderAt src).cmap_bits + 7) >>> 3 = (tgaHeaderAt src).cmap_bits / 8 := by
      rcases hb with h | h <;> rw [h] <;> rfl
    have hes : tgaEntrySize (tgaHeaderAt src).cmap_bits = (tgaHeaderAt src).cmap_bits / 8 := by
      rcases hb with h | h <;> rw [h] <;> rfl
    have hk3 : 3 ≤ (tgaHeaderAt src).cmap_bits / 8 := by omega
    rw [hsz] at hp
    have hlen : palette256.colors.length = 256 := List.length_replicate _ _
    obtain ⟨_, hget⟩ := tgaPaletteLoop_colors (tgaHeaderAt src).cmap_bits pal
      (LE16 (tgaHeaderAt src).cmap_len) 0 0 palette256.colors (-1) (by rw [hlen]; omega)
    have hbyte : ∀ i q, i < LE16 (tgaHeaderAt src).cmap_len → q < (tgaHeaderAt src).cmap_bits / 8 →
        pal.getD ((tgaHeaderAt src).cmap_bits / 8 * i + q) 0
          = (tgaColorMapBytes src).getD ((tgaHeaderAt src).cmap_bits / 8 * i + q) 0 := by
      intro i q hi hq
      rw [hp]
      apply getD_take_lt
      have : (tgaHeaderAt src).cmap_bits / 8 * (i + 1)
          ≤ (tgaHeaderAt src).cmap_bits / 8 * LE16 (tgaHeaderAt src).cmap_len :=
        Nat.mul_le_mul_left _ (by omega)
      rw [Nat.mul_add, Nat.mul_one] at this
      rw [Nat.mul_comm (LE16 _)]
      omega
    refine ⟨_, hpal, rfl, ?_, ?_, ?_⟩
    · intro i hi
      simp only []
      rw [hget i, if_pos ⟨Nat.zero_le _, by omega⟩, hes, Nat.zero_add, Nat.sub_zero]
      unfold tgaMapEntry
      rw [if_neg (by omega), if_pos hb]
      simp only []
      exact ⟨hbyte i 0 hi (by omega), hbyte i 1 hi (by omega), hbyte i 2 hi (by omega)⟩
    · rw [hkey]
      by_cases h32 : (tgaHeaderAt src).cmap_bits = 32
      · have hk4 : (tgaHeaderAt src).cmap_bits / 8 = 4 := by rw [h32]
        rw [hk4] at hbyte
        rw [h32]
        rcases tgaPaletteLoop_ckey32 pal (LE16 (tgaHeaderAt src).cmap_len) 0 0 palette256.colors
          (-1) with ⟨e, hnone⟩ | ⟨j, _, hj2, e, ha, _⟩
        · rw [e]
          simp only [ge_iff_le, Int.reduceNeg, Left.nonneg_neg_iff, Int.reduceLE, if_false, ne_eq,
            not_true_eq_false, true_and, false_iff, not_exists, not_and]
          intro i hi
          have := hnone i (Nat.zero_le _) (by omega)
          rw [Nat.zero_add, Nat.sub_zero, hbyte i 3 hi (by omega)] at this
          exact this
        · rw [e, if_pos (by omega)]
          simp only [ne_eq, reduceCtorEq, not_false_eq_true, true_and, true_iff]
          refine ⟨j, by omega, ?_⟩
          rw [Nat.zero_add, Nat.sub_zero, hbyte j 3 (by omega) (by omega)] at ha
          exact ha
      · rw [tgaPaletteLoop_ckey_other _ h32]
        simp [h32]
    · intro key hk
      rw [hkey] at hk
      split at hk
      · rename_i hge
        simp only [Option.some.injEq] at hk
        by_cases h32 : (tgaHeaderAt src).cmap_bits = 32
        · have hk4 : (tgaHeaderAt src).cmap_bits / 8 = 4 := by rw [h32]
          rw [hk4] at hbyte
          rw [h32] at hk hge
          rcases tgaPaletteLoop_ckey32 pal (LE16 (tgaHeaderAt src).cmap_len) 0 0
            palette256.colors (-1) with ⟨e, _⟩ | ⟨j, _, hj2, e, ha, hmax⟩
          · rw [e] at hge
            exact absurd hge (by decide)
          · rw [e] at hk
            have hkj : key = j := by omega
            subst hkj
            rw [Nat.zero_add, Nat.sub_zero, hbyte key 3 (by omega) (by omega)] at ha
            refine ⟨by omega, ha, ?_⟩
            intro i hi hai
            apply hmax i (Nat.zero_le _) (by omega)
            rw [Nat.zero_add, Nat.sub_zero, hbyte i 3 hi (by omega)]
            exact hai
        · rw [tgaPaletteLoop_ckey_other _ h32] at hge
          exact absurd hge (by decide)
      · cases hk
  · intro ht
    obtain ⟨rle, indexed, grey, bpp, format, img0, img1, img2, s3, _, hv, hc, hcm, hg, _, _, _, _,
      _, e6⟩ := IMG_LoadTGA_IO_stages env src src' img hdec
    have hcl : tgaClassify (tgaHeaderAt src) (LE16 (tgaHeaderAt src).cmap_len)
        = some (rle, indexed, grey) := by
      unfold tgaValidate at hv
      dsimp only at hv
      split at hv
      · cases hv
      · rename_i rle0 indexed0 grey0 hcl
        split at hv
        · cases hv
        · split at hv
          · cases hv
          · simp only [Option.some.injEq, Prod.mk.injEq] at hv
            obtain ⟨rfl, rfl, rfl, _⟩ := hv
            exact hcl
    obtain ⟨hi, hgr, _, _, _⟩ := tgaClassify_some _ _ _ _ _ hcl
    have hig : ¬ (indexed = true ∧ grey = false) := by
      rintro ⟨h1, h2⟩
      have h3 := hi.1 h1
      have h4 : ¬ grey = true := by rw [h2]; simp
      rw [hgr] at h4
      omega
    have h0 := SDL_CreateSurface_some _ _ _ _ _ hc
    have hk0 : img0.colorkey = none := by rw [h0]
    rw [e6, (tgaGreyPalette_colorkey env grey img1 img2 s3 hg).1,
      tgaColorMap_colorkey _ _ _ _ _ _ _ _ _ hcm hig, hk0]

set_option maxRecDepth 1000000 in
theorem tga_map_24_32_palette_and_key_witness :
    IMG_LoadTGA_IO envOk ⟨tgaMap32Sample, 0⟩ = (some tgaMap32Image, ⟨tgaMap32Sample, 28⟩) ∧
    (tgaHeaderAt ⟨tgaMap32Sample, 0⟩).type = 1 ∧
    (tgaHeaderAt ⟨tgaMap32Sample, 0⟩).cmap_bits = 32 ∧
    tgaMap32Image.colorkey = some 1 ∧
    ∃ pal, tgaMap32Image.palette = some pal ∧
      pal.ncolors = LE16 (tgaHeaderAt ⟨tgaMap32Sample, 0⟩).cmap_len ∧
      (∀ i, i < LE16 (tgaHeaderAt ⟨tgaMap32Sample, 0⟩).cmap_len →
        (pal.colors.getD i ⟨0, 0, 0, 0⟩).b
          = (tgaColorMapBytes ⟨tgaMap32Sample, 0⟩).getD
              ((tgaHeaderAt ⟨tgaMap32Sample, 0⟩).cmap_bits / 8 * i) 0 ∧
        (pal.colors.getD i ⟨0, 0, 0, 0⟩).g
          = (tgaColorMapBytes ⟨tgaMap32Sample, 0⟩).getD
              ((tgaHeaderAt ⟨tgaMap32Sample, 0⟩).cmap_bits / 8 * i + 1) 0 ∧
        (pal.colors.getD i ⟨0, 0, 0, 0⟩).r
          = (tgaColorMapBytes ⟨tgaMap32Sample, 0⟩).getD
              ((tgaHeaderAt ⟨tgaMap32Sample, 0⟩).cmap_bits / 8 * i + 2) 0) ∧
      (tgaMap32Image.colorkey ≠ none ↔ (tgaHeaderAt ⟨tgaMap32Sample, 0⟩).cmap_bits = 32 ∧
        ∃ i, i < LE16 (tgaHeaderAt ⟨tgaMap32Sample, 0⟩).cmap_len ∧
          (tgaColorMapBytes ⟨tgaMap32Sample, 0⟩).getD (4 * i + 3) 0 < 128) ∧
      (∀ key, tgaMap32Image.colorkey = some key →
        key < LE16 (tgaHeaderAt ⟨tgaMap32Sample, 0⟩).cmap_len ∧
        (tgaColorMapBytes ⟨tgaMap32Sample, 0⟩).getD (4 * key + 3) 0 < 128 ∧
        ∀ i, i < LE16 (tgaHeaderAt ⟨tgaMap32Sample, 0⟩).cmap_len →
          (tgaColorMapBytes ⟨tgaMap32Sample, 0⟩).getD (4 * i + 3) 0 < 128 → i ≤ key) :=
  ⟨rfl, rfl, rfl, rfl,
    (tga_map_24_32_palette_and_key envOk ⟨tgaMap32Sample, 0⟩ ⟨tgaMap32Sample, 28⟩ tgaMap32Image
      rfl).1 (Or.inl rfl) (Or.inr rfl)⟩

/-- C25. In a successful decode of an indexed TGA (type 1 or 9) with a 15- or
16-bit colour map, the palette has the entry count of the header, and entry i
has red = ((c >> 10) & 31) * 8, green = ((c >> 5) & 31) * 8 and
blue = (c & 31) * 8 for the little-endian 16-bit value c at offset 2 * i of
the map; the same holds with bit 15 of c cleared. -/
theorem tga_map_16_unpacks_5_bit_fields (env : Env) (src src' : SDL_IOStream)
    (img : SDL_Surface)
    (hdec : IMG_LoadTGA_IO env src = (some img, src'))
    (ht : (tgaHeaderAt src).type = 1 ∨ (tgaHeaderAt src).type = 9)
    (hb : (tgaHeaderAt src).cmap_bits = 15 ∨ (tgaHeaderAt src).cmap_bits = 16) :
    ∃ pal, img.palette = some pal ∧ pal.ncolors = LE16 (tgaHeaderAt src).cmap_len ∧
      ∀ i, i < LE16 (tgaHeaderAt src).cmap_len →
        (pal.colors.getD i ⟨0, 0, 0, 0⟩).r
          = ((le16At (tgaColorMapBytes src) (2 * i) >>> 10) &&& 31) * 8 ∧
        (pal.colors.getD i ⟨0, 0, 0, 0⟩).g
          = ((le16At (tgaColorMapBytes src) (2 * i) >>> 5) &&& 31) * 8 ∧
        (pal.colors.getD i ⟨0, 0, 0, 0⟩).b
          = (le16At (tgaColorMapBytes src) (2 * i) &&& 31) * 8 ∧
        (pal.colors.getD i ⟨0, 0, 0, 0⟩).r
          = (((le16At (tgaColorMapBytes src) (2 * i) % 32768) >>> 10) &&& 31) * 8 ∧
        (pal.colors.getD i ⟨0, 0, 0, 0⟩).g
          = (((le16At (tgaColorMapBytes src) (2 * i) % 32768) >>> 5) &&& 31) * 8 ∧
        (pal.colors.getD i ⟨0, 0, 0, 0⟩).b
          = ((le16At (tgaColorMapBytes src) (2 * i) % 32768) &&& 31) * 8 := by
  obtain ⟨pal, hp, hn, hpal, _⟩ := tga_decode_indexed_palette env src src' img hdec ht
  refine ⟨_, hpal, rfl, ?_⟩
  intro i hi
  have hsz : ((tgaHeaderAt src).cmap_bits + 7) >>> 3 = 2 := by
    rcases hb with h | h <;> rw [h] <;> rfl
  have hes : tgaEntrySize (tgaHeaderAt src).cmap_bits = 2 := by
    unfold tgaEntrySize
    rw [if_pos hb]
  rw [hsz] at hp
  have hlen : palette256.colors.length = 256 := List.length_replicate _ _
  obtain ⟨_, hget⟩ := tgaPaletteLoop_colors (tgaHeaderAt src).cmap_bits pal
    (LE16 (tgaHeaderAt src).cmap_len) 0 0 palette256.colors (-1) (by rw [hlen]; omega)
  simp only []
  rw [hget i, if_pos ⟨Nat.zero_le _, by omega⟩, hes, Nat.zero_add, Nat.sub_zero]
  unfold tgaMapEntry
  rw [if_pos hb]
  simp only []
  have g0 : pal.getD (2 * i) 0 = (tgaColorMapBytes src).getD (2 * i) 0 := by
    rw [hp]; exact getD_take_lt _ _ _ (by omega)
  have g1 : pal.getD (2 * i + 1) 0 = (tgaColorMapBytes src).getD (2 * i + 1) 0 := by
    rw [hp]; exact getD_take_lt _ _ _ (by omega)
  have hc : pal.getD (2 * i) 0 + pal.getD (2 * i + 1) 0 <<< 8
      = le16At (tgaColorMapBytes src) (2 * i) := by
    rw [g0, g1, le16At, Nat.shiftLeft_eq]
    omega
  rw [hc]
  obtain ⟨c1, c2, c3, c4, c5, c6⟩ := tga_555_channels (le16At (tgaColorMapBytes src) (2 * i))
  exact ⟨c1, c2, c3, c1.trans c4, c2.trans c5, c3.trans c6⟩

set_option maxRecDepth 1000000 in
theorem tga_map_16_unpacks_5_bit_fields_witness :
    IMG_LoadTGA_IO envOk ⟨tgaMap16Sample, 0⟩ = (some tgaMap16Image, ⟨tgaMap16Sample, 21⟩) ∧
    (tgaHeaderAt ⟨tgaMap16Sample, 0⟩).type = 1 ∧
    (tgaHeaderAt ⟨tgaMap16Sample, 0⟩).cmap_bits = 16 ∧
    le16At (tgaColorMapBytes ⟨tgaMap16Sample, 0⟩) (2 * 0) = 0x8443 ∧
    ∃ pal, tgaMap16Image.palette = some pal ∧
      pal.ncolors = LE16 (tgaHeaderAt ⟨tgaMap16Sample, 0⟩).cmap_len ∧
      ∀ i, i < LE16 (tgaHeaderAt ⟨tgaMap16Sample, 0⟩).cmap_len →
        (pal.colors.getD i ⟨0, 0, 0, 0⟩).r
          = ((le16At (tgaColorMapBytes ⟨tgaMap16Sample, 0⟩) (2 * i) >>> 10) &&& 31) * 8 ∧
        (pal.colors.getD i ⟨0, 0, 0, 0⟩).g
          = ((le16At (tgaColorMapBytes ⟨tgaMap16Sample, 0⟩) (2 * i) >>> 5) &&& 31) * 8 ∧
        (pal.colors.getD i ⟨0, 0, 0, 0⟩).b
          = (le16At (tgaColorMapBytes ⟨tgaMap16Sample, 0⟩) (2 * i) &&& 31) * 8 ∧
        (pal.colors.getD i ⟨0, 0, 0, 0⟩).r
          = (((le16At (tgaColorMapBytes ⟨tgaMap16Sample, 0⟩) (2 * i) % 32768) >>> 10) &&& 31) * 8 ∧
        (pal.colors.getD i ⟨0, 0, 0, 0⟩).g
          = (((le16At (tgaColorMapBytes ⟨tgaMap16Sample, 0⟩) (2 * i) % 32768) >>> 5) &&& 31) * 8 ∧
        (pal.colors.getD i ⟨0, 0, 0, 0⟩).b
          = ((le16At (tgaColorMapBytes ⟨tgaMap16Sample, 0⟩) (2 * i) % 32768) &&& 31) * 8 :=
  ⟨rfl, rfl, rfl, rfl,
    tga_map_16_unpacks_5_bit_fields envOk ⟨tgaMap16Sample, 0⟩ ⟨tgaMap16Sample, 21⟩ tgaMap16Image
      rfl (Or.inl rfl) (Or.inr rfl)⟩

/-- C26. For a header that passes the validation the pixel format follows
from the pixel depth alone (8: Indexed8, 15 and 16: XRGB1555, 24: BGR24,
32: BGRA32), `bpp` is ceil(depth / 8) and is the pixel size of that format,
and the surface of a successful decode of a stream with this header has this
format and the little-endian 16-bit width and height of the header. -/
theorem tga_format_by_depth (hdr : TGAheader) (rle indexed grey : Bool) (bpp : Nat)
    (format : SDL_PixelFormat)
    (hval : tgaValidate hdr = some (rle, indexed, grey, bpp, format)) :
    ((hdr.pixel_bits = 8 ∧ format = SDL_PIXELFORMAT_INDEX8) ∨
      ((hdr.pixel_bits = 15 ∨ hdr.pixel_bits = 16) ∧ format = SDL_PIXELFORMAT_XRGB1555) ∨
      (hdr.pixel_bits = 24 ∧ format = SDL_PIXELFORMAT_BGR24) ∨
      (hdr.pixel_bits = 32 ∧ format = SDL_PIXELFORMAT_BGRA32)) ∧
    bpp = (hdr.pixel_bits + 7) / 8 ∧ SDL_BYTESPERPIXEL format = bpp ∧
    (∀ env src src' img, tgaHeaderAt src = hdr → IMG_LoadTGA_IO env src = (some img, src') →
      img.format = format ∧ img.w = hdr.width.1 + 256 * hdr.width.2 ∧
        img.h = hdr.height.1 + 256 * hdr.height.2) := by
  have hfmt : tgaFormat hdr indexed = some format ∧ bpp = (hdr.pixel_bits + 7) >>> 3 := by
    unfold tgaValidate at hval
    dsimp only at hval
    split at hval
    · cases hval
    · rename_i rle0 indexed0 grey0 _
      split at hval
      · cases hval
      · rename_i format0 hf
        split at hval
        · cases hval
        · simp only [Option.some.injEq, Prod.mk.injEq] at hval
          obtain ⟨_, rfl, _, rfl, rfl⟩ := hval
          exact ⟨hf, rfl⟩
  obtain ⟨hf, hb⟩ := hfmt
  have hcases := (tgaFormat_cases hdr indexed).2 format hf
  rw [Nat.shiftRight_eq_div_pow] at hb
  refine ⟨hcases, hb, ?_, ?_⟩
  · rcases hcases with ⟨h, rfl⟩ | ⟨h, rfl⟩ | ⟨h, rfl⟩ | ⟨h, rfl⟩ <;>
      simp only [SDL_BYTESPERPIXEL] <;> omega
  · intro env src src' img hh hdec
    obtain ⟨rle1, indexed1, grey1, bpp1, format1, img0, img1, img2, s3, _, hv, hc, hcm, hg, e1, e2,
      e3, _⟩ := IMG_LoadTGA_IO_stages env src src' img hdec
    rw [hh, hval] at hv
    simp only [Option.some.injEq, Prod.mk.injEq] at hv
    obtain ⟨_, _, _, _, rfl⟩ := hv
    have g0 := SDL_CreateSurface_some _ _ _ _ _ hc
    obtain ⟨a1, a2, a3, _⟩ := (tgaColorMap_facts _ _ _ _ _ _ _ _ _ hcm).1
    obtain ⟨b1, b2, b3, _⟩ := tgaGreyPalette_facts _ _ _ _ _ hg
    rw [hh] at g0
    have hw : LE16 hdr.width = hdr.width.1 + 256 * hdr.width.2 := by
      simp only [LE16, Nat.shiftLeft_eq]; omega
    have hht : LE16 hdr.height = hdr.height.1 + 256 * hdr.height.2 := by
      simp only [LE16, Nat.shiftLeft_eq]; omega
    refine ⟨by rw [e3, b3, a3, g0], by rw [e1, b1, a1, g0, hw], by rw [e2, b2, a2, g0, hht]⟩

set_option maxRecDepth 1000000 in
theorem tga_format_by_depth_witness :
    tgaValidate (tgaHeaderAt ⟨tgaMap32Sample, 0⟩)
      = some (false, true, false, 1, SDL_PIXELFORMAT_INDEX8) ∧
    IMG_LoadTGA_IO envOk ⟨tgaMap32Sample, 0⟩ = (some tgaMap32Image, ⟨tgaMap32Sample, 28⟩) ∧
    (1 = ((tgaHeaderAt ⟨tgaMap32Sample, 0⟩).pixel_bits + 7) / 8 ∧
      SDL_BYTESPERPIXEL SDL_PIXELFORMAT_INDEX8 = 1) ∧
    (tgaMap32Image.format = SDL_PIXELFORMAT_INDEX8 ∧
      tgaMap32Image.w = (tgaHeaderAt ⟨tgaMap32Sample, 0⟩).width.1 +
        256 * (tgaHeaderAt ⟨tgaMap32Sample, 0⟩).width.2 ∧
      tgaMap32Image.h = (tgaHeaderAt ⟨tgaMap32Sample, 0⟩).height.1 +
        256 * (tgaHeaderAt ⟨tgaMap32Sample, 0⟩).height.2) :=
  ⟨rfl, rfl,
    ⟨(tga_format_by_depth (tgaHeaderAt ⟨tgaMap32Sample, 0⟩) false true false 1
        SDL_PIXELFORMAT_INDEX8 rfl).2.1,
      (tga_format_by_depth (tgaHeaderAt ⟨tgaMap32Sample, 0⟩) false true false 1
        SDL_PIXELFORMAT_INDEX8 rfl).2.2.1⟩,
    (tga_format_by_depth (tgaHeaderAt ⟨tgaMap32Sample, 0⟩) false true false 1
      SDL_PIXELFORMAT_INDEX8 rfl).2.2.2 envOk ⟨tgaMap32Sample, 0⟩ ⟨tgaMap32Sample, 28⟩
      tgaMap32Image rfl rfl⟩

/-- C27. On the stream `s1` that the icon directory leaves at the selected
image, `LoadICOCUR_IO` fails when the size field (offset 0) is not 40, the
compression field (offset 16) is not 0, the bit count (offset 14) is not one
of 1, 4, 8, 24, 32, or the width (offset 4) or height (offset 8), read as
signed 32-bit values, is negative or greater than 0xFFFFFF; a stream of 40
bytes whose fields pass all of these is not rejected: the bitmap header block
succeeds and leaves the stream behind the 40 bytes. -/
theorem ico_bitmap_header_checks (src : SDL_IOStream) (type : Nat) (dir : ICODir)
    (s1 : SDL_IOStream) (hdir : icoDirectory src type = Except.ok (dir, s1)) :
    ((le32At (streamRest s1) 0 ≠ 40 ∨ le32At (streamRest s1) 16 ≠ 0 ∨
        ¬ (le16At (streamRest s1) 14 = 1 ∨ le16At (streamRest s1) 14 = 4 ∨
            le16At (streamRest s1) 14 = 8 ∨ le16At (streamRest s1) 14 = 24 ∨
            le16At (streamRest s1) 14 = 32) ∨
        sint32 (le32At (streamRest s1) 4) < 0 ∨ sint32 (le32At (streamRest s1) 4) > 0xFFFFFF ∨
        sint32 (le32At (streamRest s1) 8) < 0 ∨ sint32 (le32At (streamRest s1) 8) > 0xFFFFFF) →
      ∀ env closeio, ( LoadICOCUR_IO env src type closeio).1 = none) ∧
    (40 ≤ (streamRest s1).length → le32At (streamRest s1) 0 = 40 →
      le32At (streamRest s1) 16 = 0 →
      (le16At (streamRest s1) 14 = 1 ∨ le16At (streamRest s1) 14 = 4 ∨
        le16At (streamRest s1) 14 = 8 ∨ le16At (streamRest s1) 14 = 24 ∨
        le16At (streamRest s1) 14 = 32) →
      0 ≤ sint32 (le32At (streamRest s1) 4) → sint32 (le32At (streamRest s1) 4) < 2 ^ 24 →
      0 ≤ sint32 (le32At (streamRest s1) 8) → sint32 (le32At (streamRest s1) 8) < 2 ^ 24 →
      ∃ info, icoInfoHeader s1 = Except.ok (info, { s1 with pos := s1.pos + 40 })) := by
  constructor
  · intro hbad env closeio
    rcases hr : LoadICOCUR_IO env src type closeio with ⟨_ | img, s'⟩
    · rfl
    · exfalso
      obtain ⟨st, s1', info, s2, s0, _, _, _, a1, a2, _⟩ :=
        LoadICOCUR_IO_stages env src type closeio img s' hr
      rw [hdir] at a1
      simp only [Except.ok.injEq, Prod.mk.injEq] at a1
      rw [← a1.2] at a2
      obtain ⟨_, h40, hE, hw, hh, _, _, w0, w1, h0, h1, _⟩ := icoInfoHeader_ok s1 s2 info a2
      have hc := (icoExpandBMP_isSome _ _).1 ⟨_, hE⟩
      rw [hw] at w0 w1
      rw [hh] at h0 h1
      rcases hbad with h | h | h | h | h | h | h
      · exact h h40
      · exact h hc.1
      · exact h hc.2
      · omega
      · omega
      · omega
      · omega
  · intro hl h40 hc hb w0 w1 h0 h1
    obtain ⟨E, hE⟩ := (icoExpandBMP_isSome _ _).2 ⟨hc, hb⟩
    refine ⟨⟨sint32 (le32At (streamRest s1) 4), sint32 (le32At (streamRest s1) 8),
      le16At (streamRest s1) 14, le32At (streamRest s1) 32, E⟩, ?_⟩
    rw [icoInfoHeader_eq s1 hl, if_neg (by omega), hE]
    simp only []
    rw [if_neg (by omega)]

set_option maxRecDepth 1000000 in
theorem ico_bitmap_header_checks_witness :
    icoDirectory ⟨icoMono, 0⟩ ICON_TYPE_ICO = Except.ok (⟨2, 22, 0, 0⟩, ⟨icoMono, 22⟩) ∧
    ∃ info, icoInfoHeader ⟨icoMono, 22⟩
      = Except.ok (info, { (⟨icoMono, 22⟩ : SDL_IOStream) with pos := (⟨icoMono, 22⟩ : SDL_IOStream).pos + 40 }) :=
  ⟨rfl, (ico_bitmap_header_checks ⟨icoMono, 0⟩ ICON_TYPE_ICO ⟨2, 22, 0, 0⟩ ⟨icoMono, 22⟩ rfl).2
    (by decide) (by decide) (by decide) (by decide) (by decide) (by decide) (by decide)
    (by decide)⟩

/-- C28. In a successful ICO/CUR decode the surface has the width stored in
the bitmap header and half the stored height (rounded down); the colour pass
reads that many rows (of `bmpPitch + pad` bytes each) and the mask pass reads
that many rows (of ceil(w / 8) bytes rounded up to a multiple of 4). -/
theorem ico_size_and_row_count (env : Env) (src : SDL_IOStream) (type : Nat) (closeio : Bool)
    (img : SDL_Surface) (src' : SDL_IOStream)
    (hdec : LoadICOCUR_IO env src type closeio = (some img, src')) :
    ∃ st s1 info s2 s0 pixelsC sC sF,
      icoDirectory src type = Except.ok (st.dir, s1) ∧
      icoInfoHeader s1 = Except.ok (info, s2) ∧
      info.biWidth = sint32 (le32At (streamRest s1) 4) ∧
      info.biHeight = sint32 (le32At (streamRest s1) 8) ∧
      (img.w : Int) = info.biWidth ∧ (img.h : Int) = info.biHeight / 2 ∧
      icoSetup env src type = Except.ok (st, s0) ∧
      icoColorPass st s0 = Except.ok (pixelsC, sC) ∧
      icoMaskPass st pixelsC sC = Except.ok (img.pixels, sF) ∧
      sC.pos = s0.pos + img.h *
        (icoBmpPitch st.ExpandBMP img.w + icoColorPad st.ExpandBMP img.w) ∧
      sF.pos = sC.pos + img.h * (((img.w + 7) / 8 + 3) / 4 * 4) := by
  obtain ⟨st, s1, info, s2, s0, pixelsC, sC, sF, a1, a2, a3, _, _, _, _, hs, hc, hm, e1, e2, _⟩ :=
    LoadICOCUR_IO_stages env src type closeio img src' hdec
  obtain ⟨_, _, _, hw, hh, _, _, w0, _, h0, _, _⟩ := icoInfoHeader_ok s1 s2 info a2
  obtain ⟨p1, p2⟩ := ico_passes_pos env src type st s0 hs pixelsC img.pixels sC sF hc hm
  have g := SDL_CreateSurface_some _ _ _ _ _ a3
  have gw : st.surface.w = info.biWidth.toNat := by rw [g]
  have gh : st.surface.h = info.biHeight.toNat >>> 1 := by rw [g]
  refine ⟨st, s1, info, s2, s0, pixelsC, sC, sF, a1, a2, hw, hh, ?_, ?_, hs, hc, hm, ?_, ?_⟩
  · rw [e1, gw]
    omega
  · rw [e2, gh, Nat.shiftRight_eq_div_pow]
    omega
  · rw [e1, e2]
    exact p1
  · rw [e1, e2]
    exact p2

set_option maxRecDepth 1000000 in
theorem ico_size_and_row_count_witness :
    LoadICOCUR_IO envOk ⟨icoMono, 0⟩ ICON_TYPE_ICO false = (some icoMonoImage, ⟨icoMono, 86⟩) ∧
    ∃ st s1 info s2 s0 pixelsC sC sF,
      icoDirectory ⟨icoMono, 0⟩ ICON_TYPE_ICO = Except.ok (st.dir, s1) ∧
      icoInfoHeader s1 = Except.ok (info, s2) ∧
      info.biWidth = sint32 (le32At (streamRest s1) 4) ∧
      info.biHeight = sint32 (le32At (streamRest s1) 8) ∧
      (icoMonoImage.w : Int) = info.biWidth ∧ (icoMonoImage.h : Int) = info.biHeight / 2 ∧
      icoSetup envOk ⟨icoMono, 0⟩ ICON_TYPE_ICO = Except.ok (st, s0) ∧
      icoColorPass st s0 = Except.ok (pixelsC, sC) ∧
      icoMaskPass st pixelsC sC = Except.ok (icoMonoImage.pixels, sF) ∧
      sC.pos = s0.pos + icoMonoImage.h *
        (icoBmpPitch st.ExpandBMP icoMonoImage.w + icoColorPad st.ExpandBMP icoMonoImage.w) ∧
      sF.pos = sC.pos + icoMonoImage.h * (((icoMonoImage.w + 7) / 8 + 3) / 4 * 4) :=
  ⟨rfl, ico_size_and_row_count envOk ⟨icoMono, 0⟩ ICON_TYPE_ICO false icoMonoImage
    ⟨icoMono, 86⟩ rfl⟩

/-- C29. At a bit count up to 8 the palette loop reads `biClrUsed` entries of
four bytes, or `2 ^ biBitCount` when `biClrUsed` is 0; a `biClrUsed` above 256
makes `LoadICOCUR_IO` fail; entry i of the array `palette` is the value with
the stored blue, green, red bytes in bits 0..7, 8..15, 16..23 and in bits
24..31 the stored alpha byte, or 0xFF when that byte is 0. -/
theorem ico_palette_entries (src : SDL_IOStream) (type : Nat) (dir : ICODir)
    (s1 s2 : SDL_IOStream) (info : ICOInfo)
    (hdir : icoDirectory src type = Except.ok (dir, s1))
    (hinfo : icoInfoHeader s1 = Except.ok (info, s2))
    (hb : info.biBitCount ≤ 8) :
    info.biClrUsed = le32At (streamRest s1) 32 ∧
    (info.biClrUsed > 256 → ∀ env closeio, ( LoadICOCUR_IO env src type closeio).1 = none) ∧
    (∀ env st s0, icoSetup env src type = Except.ok (st, s0) →
      s0.data = s2.data ∧
      s0.pos = s2.pos + 4 * icoPaletteCount info.biBitCount info.biClrUsed ∧
      ∀ i, i < icoPaletteCount info.biBitCount info.biClrUsed →
        st.palette.getD i 0 = icoArgb (streamRest s2) i) := by
  have key : ∀ env st s0, icoSetup env src type = Except.ok (st, s0) →
      icoPaletteCount info.biBitCount info.biClrUsed ≤ 256 ∧ s0.data = s2.data ∧
      s0.pos = s2.pos + 4 * icoPaletteCount info.biBitCount info.biClrUsed ∧
      ∀ i, i < icoPaletteCount info.biBitCount info.biClrUsed →
        st.palette.getD i 0 = icoArgb (streamRest s2) i := by
    intro env st s0 hs
    obtain ⟨s1', info', s2', a1, a2, _, a4, _⟩ := icoSetup_ok env src type st s0 hs
    rw [hdir] at a1
    simp only [Except.ok.injEq, Prod.mk.injEq] at a1
    rw [← a1.2, hinfo] at a2
    simp only [Except.ok.injEq, Prod.mk.injEq] at a2
    rw [← a2.1, ← a2.2] at a4
    exact icoLoadPalette_spec env _ _ _ _ _ hb a4
  refine ⟨(icoInfoHeader_ok s1 s2 info hinfo).2.2.2.2.2.2.1, ?_, ?_⟩
  · intro hc env closeio
    rcases hr : LoadICOCUR_IO env src type closeio with ⟨_ | img, s'⟩
    · rfl
    · exfalso
      obtain ⟨st, s0, _, _, _, hs, _⟩ := LoadICOCUR_IO_some env src type closeio img s' hr
      have := (key env st s0 hs).1
      unfold icoPaletteCount at this
      rw [if_neg (by omega)] at this
      omega
  · intro env st s0 hs
    exact (key env st s0 hs).2

set_option maxRecDepth 1000000 in
theorem ico_palette_entries_witness :
    icoDirectory ⟨icoMono, 0⟩ ICON_TYPE_ICO = Except.ok (⟨2, 22, 0, 0⟩, ⟨icoMono, 22⟩) ∧
    icoInfoHeader ⟨icoMono, 22⟩ = Except.ok (⟨2, 4, 1, 0, 1⟩, ⟨icoMono, 62⟩) ∧
    icoSetup envOk ⟨icoMono, 0⟩ ICON_TYPE_ICO = Except.ok (icoMonoSetup, ⟨icoMono, 70⟩) ∧
    icoPaletteCount 1 0 = 2 ∧
    (⟨icoMono, 70⟩ : SDL_IOStream).pos
      = (⟨icoMono, 62⟩ : SDL_IOStream).pos +
        4 * icoPaletteCount (⟨2, 4, 1, 0, 1⟩ : ICOInfo).biBitCount (⟨2, 4, 1, 0, 1⟩ : ICOInfo).biClrUsed ∧
    ∀ i, i < icoPaletteCount (⟨2, 4, 1, 0, 1⟩ : ICOInfo).biBitCount (⟨2, 4, 1, 0, 1⟩ : ICOInfo).biClrUsed →
      icoMonoSetup.palette.getD i 0 = icoArgb (streamRest ⟨icoMono, 62⟩) i :=
  ⟨rfl, rfl, rfl, rfl,
    ((ico_palette_entries ⟨icoMono, 0⟩ ICON_TYPE_ICO ⟨2, 22, 0, 0⟩ ⟨icoMono, 22⟩ ⟨icoMono, 62⟩
      ⟨2, 4, 1, 0, 1⟩ rfl rfl (by decide)).2.2 envOk icoMonoSetup ⟨icoMono, 70⟩ rfl).2⟩

/-- C30. For every header width `w` up to 65535 the layout that
`IMG_LoadLBM_IO` derives is: `width` is the least multiple of 16 that is at
least `w`; `bytesperline` is `2 * ceil(w / 16)` for ILBM and
`16 * ceil(w / 16)` for PBM, so that `bytesperline * 8 = width` for ILBM and
`bytesperline = width` for PBM; `nbplanes` is 1 for PBM and the header's plane
count for ILBM; `stencil` is bit 0 of the mask type. The surface of a
successful decode has the width `width`. -/
theorem lbm_layout_from_header (pbm : Bool) (st : LBMChunks) (hw : st.bmhd.w ≤ 65535) :
    (16 ∣ lbmWidth st ∧ st.bmhd.w ≤ lbmWidth st ∧
      ∀ m, 16 ∣ m → st.bmhd.w ≤ m → lbmWidth st ≤ m) ∧
    lbmBytesPerLine pbm st = (if pbm then 16 else 2) * ((st.bmhd.w + 15) / 16) ∧
    (pbm = false → lbmBytesPerLine pbm st * 8 = lbmWidth st) ∧
    (pbm = true → lbmBytesPerLine pbm st = lbmWidth st) ∧
    lbmPlanes pbm st = (if pbm then 1 else st.bmhd.planes) ∧
    lbmStencil st = st.bmhd.mask % 2 ∧
    (∀ env src src' s img, lbmWalk env src = Except.ok (pbm, st, s) →
      IMG_LoadLBM_IO env src = (some img, src') → img.w = lbmWidth st) := by
  have hwid : lbmWidth st = (st.bmhd.w + 15) / 16 * 16 := by
    unfold lbmWidth
    exact and_0xFFFFFFF0 _ (by omega)
  refine ⟨⟨?_, ?_, ?_⟩, ?_, ?_, ?_, ?_, ?_, ?_⟩
  · rw [hwid]; exact Dvd.intro_left _ rfl
  · rw [hwid]; omega
  · intro m hm hle
    rw [hwid]
    obtain ⟨k, rfl⟩ := hm
    omega
  · unfold lbmBytesPerLine
    cases pbm <;> simp <;> omega
  · intro hp
    subst hp
    rw [hwid]
    simp [lbmBytesPerLine]
    omega
  · intro hp
    subst hp
    rw [hwid]
    simp [lbmBytesPerLine]
    omega
  · rfl
  · unfold lbmStencil
    exact Nat.and_one_is_mod _
  · intro env src src' s img hwalk hdec
    exact (lbm_decode_facts env src src' s pbm st img hwalk hdec).2.2.2.2.1

theorem lbm_layout_from_header_witness :
    (⟨[], { bmhdZero with w := 17, planes := 3, mask := 1 }, [], 0, 0, 0⟩ : LBMChunks).bmhd.w ≤ 65535 ∧
    lbmWidth ⟨[], { bmhdZero with w := 17, planes := 3, mask := 1 }, [], 0, 0, 0⟩ = 32 ∧
    lbmBytesPerLine false ⟨[], { bmhdZero with w := 17, planes := 3, mask := 1 }, [], 0, 0, 0⟩
      = (if false then 16 else 2) *
        (((⟨[], { bmhdZero with w := 17, planes := 3, mask := 1 }, [], 0, 0, 0⟩ :
          LBMChunks).bmhd.w + 15) / 16) :=
  ⟨by decide, by decide,
    (lbm_layout_from_header false
      ⟨[], { bmhdZero with w := 17, planes := 3, mask := 1 }, [], 0, 0, 0⟩ (by decide)).2.1⟩

/-! ## Pixel format, colour map, palette lookups, packets and data offset -/

/-- C31. For every decode by `IMG_LoadLBM_IO` that returns a surface, the
pixel format is BGR24 (the direct 24-bit format) if and only if the plane
count in use (1 for PBM, the plane count of the header otherwise) is 24 or one
of the chunks that the walk met up to `BODY` is a `CAMG` chunk whose
big-endian 32-bit view-mode word has bit 0x0800 set; otherwise it is
Indexed8. -/
theorem lbm_format_by_planes_and_camg (env : Env) (src src' : SDL_IOStream)
    (img : SDL_Surface) (hdec : IMG_LoadLBM_IO env src = (some img, src')) :
    ∃ pbm st s, lbmWalk env src = Except.ok (pbm, st, s) ∧
      pbm = memeq (((streamRest src).drop 8).take 4) "PBM " 4 ∧
      (img.format = SDL_PixelFormat.SDL_PIXELFORMAT_BGR24 ↔
        ((if pbm then 1 else st.bmhd.planes) = 24 ∨
          ∃ c ∈ lbmWalkVisits env src,
            memeq (lbmChunkId c) "CAMG" 4 = true ∧
            BE32 ((lbmChunkData c).take 4) &&& 0x0800 ≠ 0)) ∧
      (img.format ≠ SDL_PixelFormat.SDL_PIXELFORMAT_BGR24 → img.format = SDL_PixelFormat.SDL_PIXELFORMAT_INDEX8) := by
  obtain ⟨pbm, st, s, hw, _⟩ := IMG_LoadLBM_IO_some env src src' img hdec
  obtain ⟨_, hloop, _, _, _, _, hf, _, _⟩ := lbm_decode_facts env src src' s pbm st img hw hdec
  have hpbm : pbm = memeq (((streamRest src).drop 8).take 4) "PBM " 4 := by
    rcases lbmWalk_cases env src with ⟨d, e, _⟩ | ⟨_, _, _, st2, s2, e, _⟩
    · rw [hw] at e; cases e
    · rw [hw] at e
      simp only [Except.ok.injEq, Prod.mk.injEq] at e
      exact e.1
  have hham := (lbmChunkLoop_flags _ _ _ _ _ hloop).1
  have h0 : (lbmWalkStart env src).1.flagHAM = 0 := rfl
  rw [h0] at hham
  have hv : (∃ c ∈ lbmWalkVisits env src,
      memeq (lbmChunkId c) "CAMG" 4 = true ∧ BE32 ((lbmChunkData c).take 4) &&& 0x0800 ≠ 0)
      ↔ st.flagHAM = 1 := by
    rw [hham]
    unfold lbmWalkVisits
    simp [lbmIsCAMG]
  refine ⟨pbm, st, s, hw, hpbm, ?_, ?_⟩
  · rw [hv, hf]
    unfold lbmFormat lbmPlanes
    by_cases hc : (if pbm = true then 1 else st.bmhd.planes) = 24 ∨ st.flagHAM = 1
    · rw [if_pos hc]
      exact ⟨fun _ => hc, fun _ => rfl⟩
    · rw [if_neg hc]
      exact ⟨fun h => (by cases h), fun h => absurd h hc⟩
  · rw [hf]
    unfold lbmFormat
    split <;> simp

set_option maxRecDepth 1000000 in
/-- C31 at a concrete input: `lbmHamSample` has six planes and a `CAMG` chunk
with the view-mode word 0x0800 at offset 40; the surface is BGR24. -/
theorem lbm_format_by_planes_and_camg_witness :
    IMG_LoadLBM_IO envOk ⟨lbmHamSample, 0⟩ = (some lbmHamImage, ⟨lbmHamSample, 86⟩) ∧
    (lbmWalkVisits envOk ⟨lbmHamSample, 0⟩).map (fun c => c.pos) = [12, 40, 52, 66] ∧
    lbmHamImage.format = SDL_PixelFormat.SDL_PIXELFORMAT_BGR24 ∧
    ∃ pbm st s, lbmWalk envOk ⟨lbmHamSample, 0⟩ = Except.ok (pbm, st, s) ∧
      pbm = memeq (((streamRest ⟨lbmHamSample, 0⟩).drop 8).take 4) "PBM " 4 ∧
      (lbmHamImage.format = SDL_PixelFormat.SDL_PIXELFORMAT_BGR24 ↔
        ((if pbm then 1 else st.bmhd.planes) = 24 ∨
          ∃ c ∈ lbmWalkVisits envOk ⟨lbmHamSample, 0⟩,
            memeq (lbmChunkId c) "CAMG" 4 = true ∧
            BE32 ((lbmChunkData c).take 4) &&& 0x0800 ≠ 0)) ∧
      (lbmHamImage.format ≠ SDL_PixelFormat.SDL_PIXELFORMAT_BGR24 →
        lbmHamImage.format = SDL_PixelFormat.SDL_PIXELFORMAT_INDEX8) :=
  ⟨rfl, by decide, rfl,
    lbm_format_by_planes_and_camg envOk ⟨lbmHamSample, 0⟩ ⟨lbmHamSample, 86⟩ lbmHamImage rfl⟩

set_option maxRecDepth 1000000 in
/-- C32, at two concrete inputs. (1) `lbmEhb64Sample`, not HAM, has one CMAP
chunk of declared size 192 (64 entries) whose bytes 96..98, entry 32, are
7, 8, 9; the Extra-Half-Bright block runs and palette entry 32 of the decoded
surface is (100, 50, 25), half of entry 0. (2) `lbmTwoCmapSample`, not HAM,
has two CMAP chunks of declared size 6; the first holds 1, 2, 3 for entry 0,
and palette entry 0 of the decoded surface is (7, 8, 9), from the second. -/
theorem lbm_cmap_entries_replaced :
    ((lbmWalkVisits envOk ⟨lbmEhb64Sample, 0⟩).map
        fun c => (c.pos, lbmIsCMAP c, lbmChunkSize c))
      = [(12, false, 20), (40, false, 4), (52, true, 192), (252, false, 12)] ∧
    ((lbmChunkData ⟨lbmEhb64Sample, 52⟩).drop (3 * 32)).take 3 = [7, 8, 9] ∧
    ( IMG_LoadLBM_IO envOk ⟨lbmEhb64Sample, 0⟩).1.map
        (fun i => (i.format, i.palette.map fun p => p.colors.getD 32 ⟨0, 0, 0, 0⟩))
      = some (SDL_PixelFormat.SDL_PIXELFORMAT_INDEX8, some ⟨100, 50, 25, 255⟩) ∧
    ((lbmWalkVisits envOk ⟨lbmTwoCmapSample, 0⟩).map
        fun c => (c.pos, lbmIsCMAP c, lbmChunkSize c))
      = [(12, false, 20), (40, true, 6), (54, true, 6), (68, false, 2)] ∧
    (lbmChunkData ⟨lbmTwoCmapSample, 40⟩).take 3 = [1, 2, 3] ∧
    ( IMG_LoadLBM_IO envOk ⟨lbmTwoCmapSample, 0⟩).1.map
        (fun i => (i.format, i.palette.map fun p => p.colors.getD 0 ⟨0, 0, 0, 0⟩))
      = some (SDL_PixelFormat.SDL_PIXELFORMAT_INDEX8, some ⟨7, 8, 9, 255⟩) := by
  refine ⟨?_, ?_, ?_, ?_, ?_, ?_⟩ <;> decide

/-- C32, as amended. (1) A `CMAP` chunk of declared size above 768 among the
chunks that the walk of `IMG_LoadLBM_IO` meets makes the decode fail. (2) A
pass of the walk over a `CMAP` chunk of declared size `s ≤ 768` sets the
colour count to `s / 3`, so 256 for `s = 768`. (3) In a decode that returns a
surface with a palette (so not HAM), with `c` the last `CMAP` chunk that the
walk met up to `BODY` and `s` its declared size: the colour count is `s / 3`,
and palette entry `i < s / 3` has red, green, blue equal to the bytes `3 i`,
`3 i + 1`, `3 i + 2` of that chunk, unless `32 ≤ i < 64` and the
Extra-Half-Bright block runs (32 colours or the flag of `CAMG` bit 0x0080,
and `1 << nbplanes == 64`). -/
theorem lbm_cmap_chunk_to_palette (env : Env) (src : SDL_IOStream) :
    (∀ c ∈ lbmWalkVisits env src, lbmIsCMAP c = true → lbmChunkSize c > 768 →
      ( IMG_LoadLBM_IO env src).1 = none) ∧
    (∀ (st st' : LBMChunks) (c c' : SDL_IOStream),
      lbmChunkStep st c = Except.ok (st', c') → lbmIsCMAP c = true →
      lbmChunkSize c ≤ 768 ∧ st'.nbcolors = lbmChunkSize c / 3 ∧
      (lbmChunkSize c = 768 → st'.nbcolors = 256)) ∧
    (∀ (src' : SDL_IOStream) (img : SDL_Surface) (pal : SDL_Palette),
      IMG_LoadLBM_IO env src = (some img, src') → img.palette = some pal →
      ∃ pbm st s c, lbmWalk env src = Except.ok (pbm, st, s) ∧ st.flagHAM = 0 ∧
        (st.flagEHB ≠ 0 ↔ ∃ g ∈ lbmWalkVisits env src, lbmIsCAMG 0x0080 g = true) ∧
        lbmLastCMAP (lbmWalkVisits env src) = some c ∧ lbmChunkSize c ≤ 768 ∧
        st.nbcolors = lbmChunkSize c / 3 ∧
        ∀ i, i < lbmChunkSize c / 3 →
          (¬ (32 ≤ i ∧ i < 64) ∨
            ¬ ((st.nbcolors = 32 ∨ st.flagEHB ≠ 0) ∧ 1 <<< lbmPlanes pbm st = 64)) →
          ∀ d : SDL_Color,
            (pal.colors.getD i d).r = (lbmChunkData c).getD (3 * i) 0 ∧
            (pal.colors.getD i d).g = (lbmChunkData c).getD (3 * i + 1) 0 ∧
            (pal.colors.getD i d).b = (lbmChunkData c).getD (3 * i + 2) 0) := by
  refine ⟨?_, ?_, ?_⟩
  · intro c hc hcm hsz
    obtain ⟨d, hd⟩ := lbmChunkLoop_oversize _ (lbmWalkStart env src).1 (lbmWalkStart env src).2
      (by show src.data.length - (src.pos + 12) < _; omega) c hc hcm hsz
    rcases hr : IMG_LoadLBM_IO env src with ⟨_ | img, s'⟩
    · rfl
    · obtain ⟨pbm, st, s, hw, _⟩ := IMG_LoadLBM_IO_some env src s' img hr
      rcases lbmWalk_cases env src with ⟨d1, e1, _⟩ | ⟨_, _, _, st2, s2, _, hl⟩
      · rw [hw] at e1; cases e1
      · rw [hd] at hl; cases hl
  · intro st st' c c' hs hcm
    obtain ⟨e1, _, e3, _⟩ := (lbmChunkStep_trace st st' c c' hs).1 hcm
    refine ⟨e1, e3, ?_⟩
    intro h768
    rw [e3, h768]
  · intro src' img pal hdec hpal
    obtain ⟨pbm, st, s, hw, _⟩ := IMG_LoadLBM_IO_some env src src' img hdec
    obtain ⟨hb, hloop, _, _, _, _, _, _, hp⟩ :=
      lbm_decode_facts env src src' s pbm st img hw hdec
    rw [hpal] at hp
    obtain ⟨p1, p2, _, _, p5⟩ := lbmImagePalette_some env pbm st pal hp.symm
    have hnb : st.nbcolors ≤ 256 := hb.2.2.2.2.2
    have hehb := (lbmChunkLoop_flags _ _ _ _ _ hloop).2
    have hinv := lbmChunkLoop_cmapInv _ _ _ _ _ [] hloop (show (lbmWalkStart env src).1.nbcolors = 0 from rfl)
    rw [List.nil_append] at hinv
    have hvis : lbmChunkVisits (src.data.length - (src.pos + 12) + 1) (lbmWalkStart env src).1
        (lbmWalkStart env src).2 = lbmWalkVisits env src := rfl
    rw [hvis] at hinv hehb
    rcases hlast : lbmLastCMAP (lbmWalkVisits env src) with _ | c
    · rw [hlast] at hinv
      have h0 : st.nbcolors = 0 := hinv
      omega
    · rw [hlast] at hinv
      obtain ⟨i1, i2, i3, i4⟩ := hinv
      refine ⟨pbm, st, s, c, hw, p2, ?_, rfl, i1, i3, ?_⟩
      · rw [hehb]
        have h0 : (lbmWalkStart env src).1.flagEHB = 0 := rfl
        rw [h0]
        simp
      · intro i hi hx d
        have := lbmPalette_cmap_entry st.colormap pbm st.nbcolors (lbmPlanes pbm st)
          (lbmStencil st) st.flagEHB hnb d i (by rw [i3]; exact hi) hx
        rw [p5, this]
        exact ⟨i4 _ (by omega), i4 _ (by omega), i4 _ (by omega)⟩

set_option maxRecDepth 1000000 in
/-- C32 as amended, at a concrete input: `lbmEhb64Sample`, whose `CMAP` chunk
of 192 bytes stands at offset 52. -/
theorem lbm_cmap_chunk_to_palette_witness :
    IMG_LoadLBM_IO envOk ⟨lbmEhb64Sample, 0⟩ = (some lbmEhb64Image, ⟨lbmEhb64Sample, 272⟩) ∧
    (lbmLastCMAP (lbmWalkVisits envOk ⟨lbmEhb64Sample, 0⟩)).map (fun c => c.pos) = some 52 ∧
    ∃ pbm st s c, lbmWalk envOk ⟨lbmEhb64Sample, 0⟩ = Except.ok (pbm, st, s) ∧ st.flagHAM = 0 ∧
      (st.flagEHB ≠ 0 ↔
        ∃ g ∈ lbmWalkVisits envOk ⟨lbmEhb64Sample, 0⟩, lbmIsCAMG 0x0080 g = true) ∧
      lbmLastCMAP (lbmWalkVisits envOk ⟨lbmEhb64Sample, 0⟩) = some c ∧ lbmChunkSize c ≤ 768 ∧
      st.nbcolors = lbmChunkSize c / 3 ∧
      ∀ i, i < lbmChunkSize c / 3 →
        (¬ (32 ≤ i ∧ i < 64) ∨
          ¬ ((st.nbcolors = 32 ∨ st.flagEHB ≠ 0) ∧ 1 <<< lbmPlanes pbm st = 64)) →
        ∀ d : SDL_Color,
          ((lbmPalette palette256 lbmEhb64Colormap false 64 6 0 1).colors.getD i d).r
            = (lbmChunkData c).getD (3 * i) 0 ∧
          ((lbmPalette palette256 lbmEhb64Colormap false 64 6 0 1).colors.getD i d).g
            = (lbmChunkData c).getD (3 * i + 1) 0 ∧
          ((lbmPalette palette256 lbmEhb64Colormap false 64 6 0 1).colors.getD i d).b
            = (lbmChunkData c).getD (3 * i + 2) 0 :=
  ⟨rfl, by decide,
    (lbm_cmap_chunk_to_palette envOk ⟨lbmEhb64Sample, 0⟩).2.2 ⟨lbmEhb64Sample, 272⟩
      lbmEhb64Image (lbmPalette palette256 lbmEhb64Colormap false 64 6 0 1) rfl rfl⟩

set_option maxRecDepth 1000000 in
/-- C33, the code at its failing input. The icon `icoOneColour` declares one
colour at one bit per pixel, so the palette loop stores entry 0 only, and its
colour byte 0x80 looks up entry 1 of `Uint32 palette[256]`, which was never
stored to. The decode succeeds and the pixel is whatever the array held: 0
where the stack was zero, 0xABABABAB where it held 0xAB bytes. Two decodes of
the same stream give different buffers. -/
theorem ico_lookup_beyond_entries_read :
    (icoInfoHeader ⟨icoOneColour, 22⟩).toOption.map (fun r => (r.1.biBitCount, r.1.biClrUsed))
      = some (1, 1) ∧
    ((streamRest ⟨icoOneColour, 66⟩).getD 0 0) >>> 7 = 1 ∧
    (icoSetup envOk ⟨icoOneColour, 0⟩ ICON_TYPE_ICO).toOption.map
        (fun r => (r.1.palette.take 2, r.2.pos)) = some ([0xFF000000, 0], 66) ∧
    (icoSetup envStale ⟨icoOneColour, 0⟩ ICON_TYPE_ICO).toOption.map
        (fun r => (r.1.palette.take 2, r.2.pos)) = some ([0xFF000000, 0xABABABAB], 66) ∧
    ( IMG_LoadICO_IO envOk ⟨icoOneColour, 0⟩).1.map (fun i => i.pixels) = some [0, 0, 0, 0] ∧
    ( IMG_LoadICO_IO envStale ⟨icoOneColour, 0⟩).1.map (fun i => i.pixels)
      = some [0xAB, 0xAB, 0xAB, 0xAB] := by
  refine ⟨?_, ?_, ?_, ?_, ?_, ?_⟩ <;> decide

/-- C34. In the byte-run decompression of one plane row that lies inside the
scratch buffer, the loop ends within `remainingbytes + 1` passes, and when it
ends well it has consumed `n` whole packets of the stream, `1 ≤ n ≤
bytesperline`: the scratch row is the concatenation of their expansions in
stream order (a control byte `c < 128` with the next `c + 1` stream bytes
contributes those bytes, a control byte `c ≥ 128` with the next stream byte
contributes `257 - c` copies of it), the lengths of the expansions sum to
exactly the row size, and the stream has advanced by the bytes of those
packets. -/
theorem byte_run_row_is_packet_expansions (ptr bytesperline : Nat) (MiniBuf : List Nat)
    (src : SDL_IOStream) (hbuf : ptr + bytesperline ≤ MiniBuf.length) :
    lbmRunLoop (bytesperline + 1) ⟨ptr, bytesperline, MiniBuf, src⟩ ≠ none ∧
    ∀ fuel st', lbmRunLoop fuel ⟨ptr, bytesperline, MiniBuf, src⟩ = some (Except.ok st') →
      ∃ n, 1 ≤ n ∧ n ≤ bytesperline ∧
        (lbmPackets n (streamRest src)).length = n ∧
        (∀ p ∈ lbmPackets n (streamRest src),
          p.2.length = (if p.1 < 128 then p.1 + 1 else 1) ∧
          (lbmExpand p).length = (if p.1 < 128 then p.1 + 1 else 257 - p.1)) ∧
        memRead st'.MiniBuf ptr bytesperline
          = ((lbmPackets n (streamRest src)).map lbmExpand).flatten ∧
        ((lbmPackets n (streamRest src)).map fun p => (lbmExpand p).length).sum = bytesperline ∧
        st'.remainingbytes = 0 ∧ st'.src.data = src.data ∧
        st'.src.pos = src.pos + lbmPacketBytes (lbmPackets n (streamRest src)) := by
  refine ⟨lbmRunLoop_fuel _ _ (Nat.lt_succ_self _), ?_⟩
  intro fuel st' h
  obtain ⟨n, h1, h2, h3, h4, h5, h6⟩ :=
    lbmRunLoop_packets fuel ⟨ptr, bytesperline, MiniBuf, src⟩ st' h (by show ptr ≤ MiniBuf.length; omega)
  simp only at h2 h3 h4 h5 h6
  refine ⟨n, h1, h2, h3, ?_, ?_, ?_, by rw [h6], by rw [h6], by rw [h6]⟩
  · intro p hp
    obtain ⟨a, b⟩ := h4 p hp
    refine ⟨by rw [a]; rfl, ?_⟩
    rw [b]
    unfold lbmRequested
    by_cases hc : p.1 < 128
    · rw [if_neg (by omega), if_pos hc]
    · rw [if_pos (by omega), if_neg hc]
  · rw [h6]
    show memRead (memWrite MiniBuf ptr _) ptr bytesperline = _
    rw [← h5]
    exact memRead_memWrite_same _ _ _ (by omega)
  · rw [← h5, List.length_flatten, List.map_map]
    rfl

/-- C34 at a concrete input: a row of five bytes from the packets 0xFE 0xAA
(three copies of 0xAA) and 0x01 1 2 (the two bytes 1, 2). -/
theorem byte_run_row_is_packet_expansions_witness :
    lbmRunLoop 6 ⟨0, 5, [9, 9, 9, 9, 9], ⟨[0xFE, 0xAA, 1, 1, 2, 7], 0⟩⟩
      = some (Except.ok ⟨5, 0, [0xAA, 0xAA, 0xAA, 1, 2], ⟨[0xFE, 0xAA, 1, 1, 2, 7], 5⟩⟩) ∧
    lbmPackets 2 [0xFE, 0xAA, 1, 1, 2, 7] = [(0xFE, [0xAA]), (1, [1, 2])] ∧
    ∃ n, 1 ≤ n ∧ n ≤ 5 ∧
      (lbmPackets n (streamRest ⟨[0xFE, 0xAA, 1, 1, 2, 7], 0⟩)).length = n ∧
      (∀ p ∈ lbmPackets n (streamRest ⟨[0xFE, 0xAA, 1, 1, 2, 7], 0⟩),
        p.2.length = (if p.1 < 128 then p.1 + 1 else 1) ∧
        (lbmExpand p).length = (if p.1 < 128 then p.1 + 1 else 257 - p.1)) ∧
      memRead [0xAA, 0xAA, 0xAA, 1, 2] 0 5
        = ((lbmPackets n (streamRest ⟨[0xFE, 0xAA, 1, 1, 2, 7], 0⟩)).map lbmExpand).flatten ∧
      ((lbmPackets n (streamRest ⟨[0xFE, 0xAA, 1, 1, 2, 7], 0⟩)).map
        fun p => (lbmExpand p).length).sum = 5 ∧
      (0 : Nat) = 0 ∧ ([0xFE, 0xAA, 1, 1, 2, 7] : List (Fin 256)) = [0xFE, 0xAA, 1, 1, 2, 7] ∧
      5 = 0 + lbmPacketBytes (lbmPackets n (streamRest ⟨[0xFE, 0xAA, 1, 1, 2, 7], 0⟩)) :=
  ⟨rfl, rfl,
    (byte_run_row_is_packet_expansions 0 5 [9, 9, 9, 9, 9] ⟨[0xFE, 0xAA, 1, 1, 2, 7], 0⟩
      (by decide)).2 6 ⟨5, 0, [0xAA, 0xAA, 0xAA, 1, 2], ⟨[0xFE, 0xAA, 1, 1, 2, 7], 5⟩⟩ rfl⟩

/-- C35. When the setup of `IMG_LoadTGA_IO` succeeds (the header passes the
validation, the surface and the palette are made, the colour map is read or
skipped), the row loop starts reading - the first pixel byte, or the first
control byte of a run-length file - at offset 18 + infolen + m from the entry
position, with m = 0 for colour-map flag 0 and
m = cmap_len * ceil(cmap_bits / 8) otherwise, for every image type. -/
theorem tga_pixel_data_offset (env : Env) (src : SDL_IOStream) (hdr : TGAheader) (rle : Bool)
    (bpp : Nat) (img : SDL_Surface) (s3 : SDL_IOStream)
    (hs : tgaSetup env src = Except.ok (hdr, rle, bpp, img, s3)) :
    hdr = tgaHeaderAt src ∧ tgaValidate hdr ≠ none ∧ s3.data = src.data ∧
    s3.pos = src.pos + 18 + hdr.infolen +
      (if hdr.has_cmap = 0 then 0 else LE16 hdr.cmap_len * ((hdr.cmap_bits + 7) / 8)) ∧
    IMG_LoadTGA_IO_body env src =
      match tgaRows rle (LE16 hdr.width) bpp
          (if hdr.flags &&& TGA_ORIGIN_UPPER ≠ 0 then (img.pitch : Int) else -(img.pitch : Int))
          (LE16 hdr.height)
          (if hdr.flags &&& TGA_ORIGIN_UPPER ≠ 0 then 0
            else ((LE16 hdr.height : Int) - 1) * img.pitch)
          ⟨0, 0, (List.range 4).map fun j => env.uninit j % 256⟩ img.pixels s3 with
      | Except.error s => Except.error s
      | Except.ok (pixels, src) => Except.ok ({ img with pixels := pixels }, src) := by
  obtain ⟨_, hh, hsh⟩ := tgaSetup_ok env src hdr rle bpp img s3 hs
  obtain ⟨_, _, _, _, _, _, _, _, hpos⟩ := tgaSetupHdr_facts env hdr _ rle bpp img s3 hsh
  obtain ⟨_, _, _, _, _, hv, _⟩ := tgaSetupHdr_ok env hdr _ rle bpp img s3 hsh
  refine ⟨hh, by rw [hv]; simp, by rw [hpos], ?_, ?_⟩
  · rw [hpos]
    simp only [tgaDataOffset, Nat.shiftRight_eq_div_pow]
    have e8 : (2 : Nat) ^ 3 = 8 := rfl
    rw [e8]
    generalize LE16 hdr.cmap_len * ((hdr.cmap_bits + 7) / 8) = m
    by_cases hc : hdr.has_cmap = 0
    · rw [if_neg (by simp [hc]), if_pos hc]
      omega
    · rw [if_pos hc, if_neg hc]
      omega
  · unfold IMG_LoadTGA_IO_body
    rw [hs]

set_option maxRecDepth 1000000 in
theorem tga_pixel_data_offset_witness :
    tgaSetup envOk ⟨tgaMap32Sample, 0⟩ =
      Except.ok (tgaHeaderAt ⟨tgaMap32Sample, 0⟩, false, 1,
        { tgaMap32Image with pixels := [0, 0, 0, 0] }, ⟨tgaMap32Sample, 26⟩) ∧
    (⟨tgaMap32Sample, 26⟩ : SDL_IOStream).pos
      = (⟨tgaMap32Sample, 0⟩ : SDL_IOStream).pos + 18 + (tgaHeaderAt ⟨tgaMap32Sample, 0⟩).infolen +
        (if (tgaHeaderAt ⟨tgaMap32Sample, 0⟩).has_cmap = 0 then 0
          else LE16 (tgaHeaderAt ⟨tgaMap32Sample, 0⟩).cmap_len *
            (((tgaHeaderAt ⟨tgaMap32Sample, 0⟩).cmap_bits + 7) / 8)) :=
  ⟨rfl, (tga_pixel_data_offset envOk ⟨tgaMap32Sample, 0⟩ (tgaHeaderAt ⟨tgaMap32Sample, 0⟩) false
    1 { tgaMap32Image with pixels := [0, 0, 0, 0] } ⟨tgaMap32Sample, 26⟩ rfl).2.2.2.1⟩

end SDLImage
